import Mathlib

/-!
libjxl decoder driver (`lib/jxl/decode.cc`): a shallow embedding

Conventions of the embedding.

* `size_t` values are natural numbers; where the C++ arithmetic can wrap, the
  definition reduces modulo `2 ^ 64` explicitly (`SIZE_MOD`).
* An `int` that the code only uses as a bit-field (`events_wanted`, the
  `saved_as` / `references` masks) is represented by its bit pattern, a natural
  number; `a & b` is `a &&& b` and a C truth test is a comparison with `0`.
* A `std::vector` is a `List`; `push_back` appends at the end.
* A function that can hit a failed `JXL_ASSERT`, or read outside a vector,
  returns `Option`, with `none` for that outcome.
* A C++ `while` loop is a function with a fuel argument that returns `none` when
  the fuel runs out before the loop ends.
-/

set_option autoImplicit false

namespace Jxl

/-! ## Frame dependency tracker -/

/-- Number of storage slots, `kNumStorage` in `GetFrameDependencies`. -/
def kNumStorage : Nat := 8

/-- The C test `value & mask` with `mask = 1 << s`. -/
def maskBit (value s : Nat) : Bool := value &&& (1 <<< s) != 0

/-- The inner loop filling `storage[s]`: walking `saved_as` from frame `i` on,
with `id` the last frame seen so far that was saved to slot `s`. -/
def fillStorage (s : Nat) : List Nat → Nat → Nat → List Nat
  | [], _, _ => []
  | v :: rest, i, id =>
    let id1 := if maskBit v s then i else id
    id1 :: fillStorage s rest (i + 1) id1

/-- The array `storage`: for each of the 8 slots, for each frame index, the
last frame stored in the slot at or before that index, or `invalid`. -/
def buildStorage (saved_as : List Nat) (invalid : Nat) : List (List Nat) :=
  (List.range kNumStorage).map fun s => fillStorage s saved_as 0 invalid

/-- The read `storage[s][i]`; `none` when out of range. -/
def storageAt (storage : List (List Nat)) (s i : Nat) : Option Nat :=
  (storage[s]?).bind fun row => row[i]?

/-- Local variables of `GetFrameDependencies` that its loops update. The head
of `stack` is `stack.back()`. -/
structure DepState where
  seen : List Bool
  stack : List Nat
  result : List Nat
deriving DecidableEq, Repr

/-- The common tail of both slot loops: skip `invalid` and frames already
seen, otherwise push the frame on the stack and the result. -/
def visitRef (invalid frame_ref : Nat) (st : DepState) : Option DepState :=
  if frame_ref = invalid then some st
  else
    match st.seen[frame_ref]? with
    | none => none
    | some true => some st
    | some false =>
      some { seen := st.seen.set frame_ref true
             stack := frame_ref :: st.stack
             result := st.result ++ [frame_ref] }

/-- A `for (s = ...)` loop over the given slots with the given body. -/
def forSlots (body : Nat → DepState → Option DepState) :
    List Nat → DepState → Option DepState
  | [], st => some st
  | s :: rest, st => (body s st).bind (forSlots body rest)

/-- Body of the first slot loop (frames after `index` may use any slot). -/
def initBody (storage : List (List Nat)) (invalid index : Nat) (s : Nat)
    (st : DepState) : Option DepState :=
  (storageAt storage s index).bind fun frame_ref => visitRef invalid frame_ref st

/-- Body of the slot loop inside the `while`, for the popped `frame_index`. -/
def stepBody (references : List Nat) (storage : List (List Nat))
    (invalid frame_index : Nat) (s : Nat) (st : DepState) : Option DepState :=
  (references[frame_index]?).bind fun r =>
    if !maskBit r s then some st
    else (storageAt storage s (frame_index - 1)).bind fun frame_ref =>
      visitRef invalid frame_ref st

/-- The loop `while (!stack.empty())`. -/
def whileStack (references : List Nat) (storage : List (List Nat)) (invalid : Nat) :
    Nat → DepState → Option DepState
  | 0, _ => none
  | fuel + 1, st =>
    match st.stack with
    | [] => some st
    | frame_index :: rest =>
      let st1 := { st with stack := rest }
      if frame_index = 0 then whileStack references storage invalid fuel st1
      else
        (forSlots (stepBody references storage invalid frame_index)
          (List.range kNumStorage) st1).bind
          (whileStack references storage invalid fuel)

/-- `GetFrameDependencies(index, saved_as, references)`. The two leading
`JXL_ASSERT`s give `none` when they fail. The `while` loop pops one frame per
round and every frame is pushed at most once, so `index + 2` rounds of fuel
are enough (proved below). -/
def GetFrameDependencies (index : Nat) (saved_as references : List Nat) :
    Option (List Nat) :=
  if references.length ≠ saved_as.length then none
  else if ¬ index < references.length then none
  else
    let invalid := references.length
    let storage := buildStorage saved_as invalid
    let seen := (List.replicate (index + 1) false).set index true
    let st0 : DepState := { seen := seen, stack := [index], result := [] }
    ((forSlots (initBody storage invalid index) (List.range kNumStorage) st0).bind
      (whileStack references storage invalid (index + 2))).map DepState.result

/-! ### Specification side: last writers and the required set -/

/-- `W(s, i) = j`: frame `j` is the largest index `≤ i` whose `saved_as` has
bit `s` set. -/
def IsLastWriter (saved_as : List Nat) (s i j : Nat) : Prop :=
  j ≤ i ∧ (∃ v, saved_as[j]? = some v ∧ maskBit v s = true) ∧
    ∀ k, j < k → k ≤ i → ∀ v, saved_as[k]? = some v → maskBit v s = false

/-- Frame `f` reads frame `j`: `f > 0` and `j` is the last writer before `f`
(that is `W(s, f - 1)`) of a slot `s` whose bit is set in `references[f]`. -/
def Reads (saved_as references : List Nat) (f j : Nat) : Prop :=
  0 < f ∧ ∃ s r, s < kNumStorage ∧ references[f]? = some r ∧ maskBit r s = true ∧
    IsLastWriter saved_as s (f - 1) j

/-- The set `R` of required frames: the least set that holds the last writer
at `index` of every slot (when it is not `index` itself) and, for every `f`
that is `index` or in the set, every frame that `f` reads. -/
inductive Required (saved_as references : List Nat) (index : Nat) : Nat → Prop
  | base (s j : Nat) (hs : s < kNumStorage) (hw : IsLastWriter saved_as s index j)
      (hne : j ≠ index) : Required saved_as references index j
  | target (j : Nat) (hr : Reads saved_as references index j) :
      Required saved_as references index j
  | step (f j : Nat) (hf : Required saved_as references index f)
      (hr : Reads saved_as references f j) : Required saved_as references index j

/-- Frame `f` depends on frame `j` transitively through slot reads: a chain
`f` reads `f1` reads ... reads `j` of at least one step. -/
def DependsOn (saved_as references : List Nat) (f j : Nat) : Prop :=
  Relation.TransGen (Reads saved_as references) f j

/-- Work left for the `while` loop: frames on the stack plus frames not yet
seen. Each round of the loop lowers it by one. -/
def pending (st : DepState) : Nat := st.stack.length + st.seen.count false

/-- Invariant of the two loops of `GetFrameDependencies`. `cur` is the frame
whose slots are being walked, if any: its reads need not be in the result yet. -/
structure DepInv (saved_as references : List Nat) (index : Nat) (cur : Option Nat)
    (st : DepState) : Prop where
  len : st.seen.length = index + 1
  seen_iff : ∀ j, st.seen[j]? = some true ↔ (j = index ∨ j ∈ st.result)
  sound : ∀ j ∈ st.result, Required saved_as references index j
  stack_sub : ∀ j ∈ st.stack, j = index ∨ j ∈ st.result
  nodup : st.result.Nodup
  closed : ∀ f, (f = index ∨ f ∈ st.result) → f ∉ st.stack → cur ≠ some f →
    ∀ j, Reads saved_as references f j → j ∈ st.result

/-! ## Decoder state -/

/-- Modelled from the spec: `JxlDecoderStatus` of the public header
`jxl/decode.h`, which is not among the sources; one constructor per return
code the driver uses (§6 of the specification lists them by name). -/
inductive JxlDecoderStatus
  | JXL_DEC_SUCCESS
  | JXL_DEC_ERROR
  | JXL_DEC_NEED_MORE_INPUT
  | JXL_DEC_NEED_PREVIEW_OUT_BUFFER
  | JXL_DEC_NEED_DC_OUT_BUFFER
  | JXL_DEC_NEED_IMAGE_OUT_BUFFER
  | JXL_DEC_JPEG_NEED_MORE_OUTPUT
  | JXL_DEC_BOX_NEED_MORE_OUTPUT
  | JXL_DEC_BASIC_INFO
  | JXL_DEC_EXTENSIONS
  | JXL_DEC_COLOR_ENCODING
  | JXL_DEC_PREVIEW_IMAGE
  | JXL_DEC_FRAME
  | JXL_DEC_DC_IMAGE
  | JXL_DEC_FULL_IMAGE
  | JXL_DEC_JPEG_RECONSTRUCTION
  | JXL_DEC_BOX
  | JXL_DEC_FRAME_PROGRESSION
deriving DecidableEq, Repr

open JxlDecoderStatus

/-- Modelled from the spec: the integer value of each status in `jxl/decode.h`
(not among the sources). The informative events are single bits from `0x40`
up, which is what `events_wanted & 63` in `JxlDecoderSubscribeEvents` relies on. -/
def JxlDecoderStatus.code : JxlDecoderStatus → Nat
  | JXL_DEC_SUCCESS => 0
  | JXL_DEC_ERROR => 1
  | JXL_DEC_NEED_MORE_INPUT => 2
  | JXL_DEC_NEED_PREVIEW_OUT_BUFFER => 3
  | JXL_DEC_NEED_DC_OUT_BUFFER => 4
  | JXL_DEC_NEED_IMAGE_OUT_BUFFER => 5
  | JXL_DEC_JPEG_NEED_MORE_OUTPUT => 6
  | JXL_DEC_BOX_NEED_MORE_OUTPUT => 7
  | JXL_DEC_BASIC_INFO => 0x40
  | JXL_DEC_EXTENSIONS => 0x80
  | JXL_DEC_COLOR_ENCODING => 0x100
  | JXL_DEC_PREVIEW_IMAGE => 0x200
  | JXL_DEC_FRAME => 0x400
  | JXL_DEC_DC_IMAGE => 0x800
  | JXL_DEC_FULL_IMAGE => 0x1000
  | JXL_DEC_JPEG_RECONSTRUCTION => 0x2000
  | JXL_DEC_BOX => 0x4000
  | JXL_DEC_FRAME_PROGRESSION => 0x8000

/-- The C test `events & event` on an `int` bit-field. -/
def wants (events : Nat) (event : JxlDecoderStatus) : Bool :=
  events &&& event.code != 0

/-- The C update `events &= ~event` on a 32-bit `int` bit-field. -/
def clearEvent (events : Nat) (event : JxlDecoderStatus) : Nat :=
  events &&& (0xFFFFFFFF ^^^ event.code)

/-- `enum class DecoderStage`. -/
inductive DecoderStage
  | kInited
  | kStarted
  | kCodestreamFinished
  | kError
deriving DecidableEq, Repr

/-- `enum class FrameStage`. -/
inductive FrameStage
  | kHeader
  | kTOC
  | kFull
  | kFullOutput
deriving DecidableEq, Repr

/-- `enum class BoxStage`. -/
inductive BoxStage
  | kHeader
  | kFtyp
  | kSkip
  | kCodestream
  | kPartialCodestream
  | kJpegRecon
deriving DecidableEq, Repr

/-- `enum class JpegReconStage`. -/
inductive JpegReconStage
  | kNone
  | kSettingMetadata
  | kOutputting
  | kFinished
deriving DecidableEq, Repr

/-- Modelled from the spec: `JxlProgressiveDetail` of `jxl/decode.h` (not among
the sources), in the order of its values (§4.4: DC-only, last-pass-only,
every-pass). -/
inductive JxlProgressiveDetail
  | kFrames
  | kDC
  | kLastPasses
  | kPasses
  | kDCProgressive
  | kDCGroups
  | kGroups
deriving DecidableEq, Repr

/-- Modelled from the spec: `JxlDataType` of `jxl/types.h` (not among the
sources): the four types that `BitsPerChannel` handles, and one constructor for
every other value. -/
inductive JxlDataType
  | JXL_TYPE_FLOAT
  | JXL_TYPE_UINT8
  | JXL_TYPE_UINT16
  | JXL_TYPE_FLOAT16
  | other
deriving DecidableEq, Repr

/-- Modelled from the spec: `JxlEndianness` of `jxl/types.h` (not among the
sources). -/
inductive JxlEndianness
  | JXL_NATIVE_ENDIAN
  | JXL_LITTLE_ENDIAN
  | JXL_BIG_ENDIAN
deriving DecidableEq, Repr

/-- Modelled from the spec: `JxlPixelFormat` of `jxl/types.h` (not among the
sources), with the four members that `decode.cc` reads. -/
structure JxlPixelFormat where
  num_channels : Nat
  data_type : JxlDataType
  endianness : JxlEndianness
  align : Nat
deriving DecidableEq, Repr

/-- A zero-initialised `JxlPixelFormat` (the first enumerators have value 0). -/
def JxlPixelFormat.zero : JxlPixelFormat :=
  ⟨0, JxlDataType.JXL_TYPE_FLOAT, JxlEndianness.JXL_NATIVE_ENDIAN, 0⟩

/-- The fields of `struct JxlDecoderStruct` that the driver itself reads and
writes. The objects it owns through pointers and the parsed metadata
(`metadata`, `icc_reader`, `frame_dec`, `frame_header`, `ib`, `passes_state`,
`jpeg_decoder`, the box content decoders, the thread pool, the memory of the
output buffers) are code outside `decode.cc`; their joint state is the field
`ext` of an arbitrary type `E`. `next_in` is `none` for a null pointer and
otherwise the bytes readable from the pointer on; `frame_dec` and
`frame_header` record whether the pointer is set; `extra_channel_output`
records, for each requested extra channel, whether its buffer pointer is set.
The other pointers (output buffers, callbacks, opaque values) are addresses,
`0` for `nullptr`. `desired_intensity_target` is the bit pattern of the
`float`, `0` for `0.0f`. -/
structure JxlDecoder (E : Type) where
  stage : DecoderStage
  got_signature : Bool
  last_codestream_seen : Bool
  got_codestream_signature : Bool
  got_basic_info : Bool
  got_transform_data : Bool
  got_all_headers : Bool
  post_headers : Bool
  got_preview_image : Bool
  preview_frame : Bool
  file_pos : Nat
  box_contents_begin : Nat
  box_contents_end : Nat
  box_contents_size : Nat
  box_size : Nat
  header_size : Nat
  box_contents_unbounded : Bool
  box_type : List Nat
  box_decoded_type : List Nat
  box_event : Bool
  decompress_boxes : Bool
  box_out_buffer_set : Bool
  box_out_buffer_set_current_box : Bool
  box_out_buffer : Nat
  box_out_buffer_size : Nat
  box_out_buffer_begin : Nat
  box_out_buffer_pos : Nat
  keep_orientation : Bool
  render_spotcolors : Bool
  coalescing : Bool
  desired_intensity_target : Nat
  events_wanted : Nat
  orig_events_wanted : Nat
  basic_info_size_hint : Nat
  have_container : Bool
  box_count : Nat
  prog_detail : JxlProgressiveDetail
  frame_prog_detail : JxlProgressiveDetail
  downsampling_target : Nat
  preview_out_buffer_set : Bool
  image_out_buffer_set : Bool
  preview_out_buffer : Nat
  image_out_buffer : Nat
  image_out_init_callback : Nat
  image_out_run_callback : Nat
  image_out_destroy_callback : Nat
  image_out_init_opaque : Nat
  preview_out_size : Nat
  image_out_size : Nat
  preview_out_format : JxlPixelFormat
  image_out_format : JxlPixelFormat
  extra_channel_output : List Bool
  frame_dec : Bool
  next_section : Nat
  section_processed : List Bool
  frame_dec_in_progress : Bool
  frame_header : Bool
  remaining_frame_size : Nat
  frame_stage : FrameStage
  dc_frame_progression_done : Bool
  is_last_of_still : Bool
  is_last_total : Bool
  skip_frames : Nat
  skipping_frame : Bool
  internal_frames : Nat
  external_frames : Nat
  frame_references : List Nat
  frame_saved_as : List Nat
  frame_external_to_internal : List Nat
  frame_required : List Bool
  codestream_copy : List Nat
  codestream_unconsumed : Nat
  codestream_pos : Nat
  codestream_bits_ahead : Nat
  box_stage : BoxStage
  exif_metadata : List Nat
  xmp_metadata : List Nat
  store_exif : Nat
  store_xmp : Nat
  recon_out_buffer_pos : Nat
  recon_exif_size : Nat
  recon_xmp_size : Nat
  recon_output_jpeg : JpegReconStage
  next_in : Option (List Nat)
  avail_in : Nat
  input_closed : Bool
  memory_limit_base : Nat
  cpu_limit_base : Nat
  used_cpu_base : Nat
  ext : E

/-! ## `size_t` arithmetic -/

/-- Number of values of a `size_t`. -/
def SIZE_MOD : Nat := 2 ^ 64

/-- `a + b` on `size_t`. -/
def sizeAdd (a b : Nat) : Nat := (a + b) % SIZE_MOD

/-- `a - b` on `size_t`. -/
def sizeSub (a b : Nat) : Nat := (a % SIZE_MOD + SIZE_MOD - b % SIZE_MOD) % SIZE_MOD

/-- `a * b` on `size_t`. -/
def sizeMul (a b : Nat) : Nat := (a * b) % SIZE_MOD

/-- `OutOfBounds(a, b, size)`: whether `a + b > size`, wrap-around included. -/
def OutOfBounds (a b size : Nat) : Bool :=
  let pos := sizeAdd a b
  if pos > size then true
  else if pos < a then true
  else false

/-- `InitialBasicInfoSizeHint()`. -/
def InitialBasicInfoSizeHint : Nat := 48 + 50

/-! ## Byte cursor -/

section Cursor
variable {E : Type}

/-- The bytes readable at `next_in` (none at a null pointer). -/
def JxlDecoder.inputBytes (dec : JxlDecoder E) : List Nat := dec.next_in.getD []

/-- `JxlDecoderStruct::AdvanceInput(size)`. -/
def JxlDecoder.AdvanceInput (dec : JxlDecoder E) (size : Nat) : JxlDecoder E :=
  { dec with
    next_in := dec.next_in.map (List.drop size)
    avail_in := sizeSub dec.avail_in size
    file_pos := sizeAdd dec.file_pos size }

/-- `JxlDecoderStruct::AvailableCodestream()`. -/
def JxlDecoder.AvailableCodestream (dec : JxlDecoder E) : Nat :=
  if !dec.box_contents_unbounded then
    min dec.avail_in (sizeSub dec.box_contents_end dec.file_pos)
  else dec.avail_in

/-- `JxlDecoderStruct::AdvanceCodestream(size)`. -/
def JxlDecoder.AdvanceCodestream (dec : JxlDecoder E) (size : Nat) : JxlDecoder E :=
  let avail_codestream := dec.AvailableCodestream
  if dec.codestream_copy.isEmpty then
    if size ≤ avail_codestream then dec.AdvanceInput size
    else
      { dec with codestream_pos := sizeSub size avail_codestream }.AdvanceInput
        avail_codestream
  else
    let dec1 := { dec with codestream_pos := sizeAdd dec.codestream_pos size }
    if sizeAdd dec1.codestream_pos dec1.codestream_unconsumed ≥ dec1.codestream_copy.length
    then
      let advance := min dec1.codestream_unconsumed
        (sizeSub (sizeAdd dec1.codestream_unconsumed dec1.codestream_pos)
          dec1.codestream_copy.length)
      let dec2 := dec1.AdvanceInput advance
      { dec2 with
        codestream_pos :=
          dec2.codestream_pos - min dec2.codestream_pos dec2.codestream_copy.length
        codestream_unconsumed := 0
        codestream_copy := [] }
    else dec1

/-- `JxlDecoderStruct::RequestMoreInput()`: the returned status and the state. -/
def JxlDecoder.RequestMoreInput (dec : JxlDecoder E) : JxlDecoderStatus × JxlDecoder E :=
  if dec.codestream_copy.isEmpty then
    let avail_codestream := dec.AvailableCodestream
    let dec1 := { dec with
      codestream_copy := dec.codestream_copy ++ dec.inputBytes.take avail_codestream }
    (JXL_DEC_NEED_MORE_INPUT, dec1.AdvanceInput avail_codestream)
  else
    let dec1 := dec.AdvanceInput dec.codestream_unconsumed
    (JXL_DEC_NEED_MORE_INPUT, { dec1 with codestream_unconsumed := 0 })

/-- The part of `GetCodestreamInput` after its leading skip block: the two
`JXL_ASSERT`s (`none` when one fails), then either the caller's window or the
copy buffer, extended with the new bytes of the window. -/
def JxlDecoder.getSpan (dec : JxlDecoder E) :
    Option (JxlDecoderStatus × List Nat × JxlDecoder E) :=
  if ¬ dec.codestream_pos ≤ dec.codestream_copy.length then none
  else if ¬ dec.codestream_unconsumed ≤ dec.codestream_copy.length then none
  else
    let avail_codestream := dec.AvailableCodestream
    if dec.codestream_copy.isEmpty then
      if avail_codestream = 0 then
        let r := dec.RequestMoreInput
        some (r.1, [], r.2)
      else some (JXL_DEC_SUCCESS, dec.inputBytes.take avail_codestream, dec)
    else
      let dec1 := { dec with
        codestream_copy := dec.codestream_copy ++
          (dec.inputBytes.take avail_codestream).drop dec.codestream_unconsumed
        codestream_unconsumed := avail_codestream }
      some (JXL_DEC_SUCCESS, dec1.codestream_copy.drop dec1.codestream_pos, dec1)

/-- `JxlDecoderStruct::GetCodestreamInput(&span)`: the status, the span (empty
when none is returned) and the state; `none` when a `JXL_ASSERT` fails. -/
def JxlDecoder.GetCodestreamInput (dec : JxlDecoder E) :
    Option (JxlDecoderStatus × List Nat × JxlDecoder E) :=
  if dec.codestream_copy.isEmpty && decide (dec.codestream_pos > 0) then
    let skip := min dec.codestream_pos dec.AvailableCodestream
    let dec1 := dec.AdvanceInput skip
    let dec2 := { dec1 with codestream_pos := dec1.codestream_pos - skip }
    if dec2.codestream_pos > 0 then
      let r := dec2.RequestMoreInput
      some (r.1, [], r.2)
    else dec2.getSpan
  else dec.getSpan

/-- `JxlDecoderSetInput(dec, data, size)`; `data` is `none` for a null pointer. -/
def JxlDecoderSetInput (dec : JxlDecoder E) (data : Option (List Nat)) (size : Nat) :
    JxlDecoderStatus × JxlDecoder E :=
  if dec.next_in.isSome then (JXL_DEC_ERROR, dec)
  else if dec.input_closed then (JXL_DEC_ERROR, dec)
  else (JXL_DEC_SUCCESS, { dec with next_in := data, avail_in := size })

/-- `JxlDecoderReleaseInput(dec)`: the number of unconsumed bytes and the state. -/
def JxlDecoderReleaseInput (dec : JxlDecoder E) : Nat × JxlDecoder E :=
  (dec.avail_in, { dec with next_in := none, avail_in := 0 })

/-- `JxlDecoderCloseInput(dec)`. -/
def JxlDecoderCloseInput (dec : JxlDecoder E) : JxlDecoder E :=
  { dec with input_closed := true }

end Cursor

/-! ## Size limit, skipping, subscription -/

section Api
variable {E : Type}

/-- Modelled from the spec: `jxl::DivCeil(a, b)` of `lib/jxl/base/common.h`,
which is not among the sources: the division rounding up, `(a + b - 1) / b` on
`size_t` (`CheckSizeLimit` uses it as "rough estimate of real row length", rows
padded to a multiple of 32). -/
def DivCeil (a b : Nat) : Nat := sizeSub (sizeAdd a b) 1 / b

/-- `CheckSizeLimit(dec, xsize, ysize)`, as a function of `memory_limit_base`. -/
def CheckSizeLimit (memory_limit_base xsize ysize : Nat) : Bool :=
  if memory_limit_base = 0 then true
  else if xsize = 0 ∨ ysize = 0 then true
  else if xsize ≥ memory_limit_base ∨ ysize ≥ memory_limit_base then false
  else
    let xsize1 := sizeMul (DivCeil xsize 32) 32
    let num_pixels := sizeMul xsize1 ysize
    if num_pixels / xsize1 ≠ ysize then false
    else if num_pixels > memory_limit_base then false
    else true

/-- The loop of `JxlDecoderSkipFrames` over `deps`: each `deps[i]` is asserted
to lie inside `frame_required` (`none` when not) and is marked there. -/
def markRequired : List Nat → List Bool → Option (List Bool)
  | [], required => some required
  | d :: deps, required =>
    if d < required.length then markRequired deps (required.set d true) else none

/-- The part of `JxlDecoderSkipFrames` after `skip_frames` has been raised and
`frame_required` cleared: when the frame to skip to was seen before a rewind,
mark the frames it depends on. `none` when a `JXL_ASSERT` fails. -/
def recomputeFrameRequired (dec : JxlDecoder E) : Option (JxlDecoder E) :=
  let next_frame := sizeAdd dec.external_frames dec.skip_frames
  match dec.frame_external_to_internal[next_frame]? with
  | none => some dec
  | some internal_index =>
    if internal_index < dec.frame_saved_as.length then
      (GetFrameDependencies internal_index dec.frame_saved_as dec.frame_references).bind
        fun deps =>
          (markRequired deps (List.replicate (internal_index + 1) false)).map
            fun required => { dec with frame_required := required }
    else some dec

/-- `JxlDecoderSkipFrames(dec, amount)`; `none` when a `JXL_ASSERT` fails. -/
def JxlDecoderSkipFrames (dec : JxlDecoder E) (amount : Nat) : Option (JxlDecoder E) :=
  recomputeFrameRequired
    { dec with
      skip_frames := sizeAdd dec.skip_frames amount
      frame_required := [] }

/-- `JxlDecoderSubscribeEvents(dec, events_wanted)`. -/
def JxlDecoderSubscribeEvents (dec : JxlDecoder E) (events_wanted : Nat) :
    JxlDecoderStatus × JxlDecoder E :=
  if dec.stage ≠ DecoderStage.kInited then (JXL_DEC_ERROR, dec)
  else if events_wanted &&& 63 ≠ 0 then (JXL_DEC_ERROR, dec)
  else (JXL_DEC_SUCCESS,
    { dec with events_wanted := events_wanted, orig_events_wanted := events_wanted })

end Api

/-! ## Creation, rewind, reset -/

section Lifecycle
variable {E : Type}

/-- `JxlDecoderRewindDecodingState(dec)`. `rewindExt` is what the function does
to the objects outside the driver (`icc_reader.Reset()`, the `reset` of
`passes_state`, `frame_dec` and `ib`, a fresh `metadata` and `frame_header`). -/
def JxlDecoderRewindDecodingState (rewindExt : E → E) (dec : JxlDecoder E) :
    JxlDecoder E :=
  { dec with
    stage := DecoderStage.kInited
    got_signature := false
    last_codestream_seen := false
    got_codestream_signature := false
    got_basic_info := false
    got_transform_data := false
    got_all_headers := false
    post_headers := false
    got_preview_image := false
    preview_frame := false
    file_pos := 0
    box_contents_begin := 0
    box_contents_end := 0
    box_contents_size := 0
    box_size := 0
    header_size := 0
    box_contents_unbounded := false
    box_type := [0, 0, 0, 0]
    box_decoded_type := [0, 0, 0, 0]
    box_event := false
    box_stage := BoxStage.kHeader
    box_out_buffer_set := false
    box_out_buffer_set_current_box := false
    box_out_buffer := 0
    box_out_buffer_size := 0
    box_out_buffer_begin := 0
    box_out_buffer_pos := 0
    exif_metadata := []
    xmp_metadata := []
    store_exif := 0
    store_xmp := 0
    recon_out_buffer_pos := 0
    recon_exif_size := 0
    recon_xmp_size := 0
    recon_output_jpeg := JpegReconStage.kNone
    events_wanted := 0
    basic_info_size_hint := InitialBasicInfoSizeHint
    have_container := false
    box_count := 0
    downsampling_target := 8
    preview_out_buffer_set := false
    image_out_buffer_set := false
    preview_out_buffer := 0
    image_out_buffer := 0
    image_out_init_callback := 0
    image_out_run_callback := 0
    image_out_destroy_callback := 0
    image_out_init_opaque := 0
    preview_out_size := 0
    image_out_size := 0
    extra_channel_output := []
    next_in := none
    avail_in := 0
    input_closed := false
    frame_dec := false
    next_section := 0
    section_processed := []
    frame_dec_in_progress := false
    frame_header := true
    codestream_copy := []
    codestream_unconsumed := 0
    codestream_pos := 0
    codestream_bits_ahead := 0
    frame_stage := FrameStage.kHeader
    remaining_frame_size := 0
    is_last_of_still := false
    is_last_total := false
    skip_frames := 0
    skipping_frame := false
    internal_frames := 0
    external_frames := 0
    ext := rewindExt dec.ext }

/-- `JxlDecoderReset(dec)`; here `rewindExt` also stands for
`thread_pool.reset()`. -/
def JxlDecoderReset (rewindExt : E → E) (dec : JxlDecoder E) : JxlDecoder E :=
  { JxlDecoderRewindDecodingState rewindExt dec with
    keep_orientation := false
    render_spotcolors := true
    coalescing := true
    desired_intensity_target := 0
    orig_events_wanted := 0
    frame_references := []
    frame_saved_as := []
    frame_external_to_internal := []
    frame_required := []
    decompress_boxes := false }

/-- `JxlDecoderRewind(dec)`. -/
def JxlDecoderRewind (rewindExt : E → E) (dec : JxlDecoder E) : JxlDecoder E :=
  JxlDecoderRewindDecodingState rewindExt dec

/-- The value-initialised `JxlDecoder()` that `JxlDecoderCreate` constructs
before it calls `JxlDecoderReset`: zero everywhere, except for the default
member initialiser `prog_detail = kDC`. -/
def JxlDecoder.zero (ext : E) : JxlDecoder E where
  stage := DecoderStage.kInited
  got_signature := false
  last_codestream_seen := false
  got_codestream_signature := false
  got_basic_info := false
  got_transform_data := false
  got_all_headers := false
  post_headers := false
  got_preview_image := false
  preview_frame := false
  file_pos := 0
  box_contents_begin := 0
  box_contents_end := 0
  box_contents_size := 0
  box_size := 0
  header_size := 0
  box_contents_unbounded := false
  box_type := [0, 0, 0, 0]
  box_decoded_type := [0, 0, 0, 0]
  box_event := false
  decompress_boxes := false
  box_out_buffer_set := false
  box_out_buffer_set_current_box := false
  box_out_buffer := 0
  box_out_buffer_size := 0
  box_out_buffer_begin := 0
  box_out_buffer_pos := 0
  keep_orientation := false
  render_spotcolors := false
  coalescing := false
  desired_intensity_target := 0
  events_wanted := 0
  orig_events_wanted := 0
  basic_info_size_hint := 0
  have_container := false
  box_count := 0
  prog_detail := JxlProgressiveDetail.kDC
  frame_prog_detail := JxlProgressiveDetail.kFrames
  downsampling_target := 0
  preview_out_buffer_set := false
  image_out_buffer_set := false
  preview_out_buffer := 0
  image_out_buffer := 0
  image_out_init_callback := 0
  image_out_run_callback := 0
  image_out_destroy_callback := 0
  image_out_init_opaque := 0
  preview_out_size := 0
  image_out_size := 0
  preview_out_format := JxlPixelFormat.zero
  image_out_format := JxlPixelFormat.zero
  extra_channel_output := []
  frame_dec := false
  next_section := 0
  section_processed := []
  frame_dec_in_progress := false
  frame_header := false
  remaining_frame_size := 0
  frame_stage := FrameStage.kHeader
  dc_frame_progression_done := false
  is_last_of_still := false
  is_last_total := false
  skip_frames := 0
  skipping_frame := false
  internal_frames := 0
  external_frames := 0
  frame_references := []
  frame_saved_as := []
  frame_external_to_internal := []
  frame_required := []
  codestream_copy := []
  codestream_unconsumed := 0
  codestream_pos := 0
  codestream_bits_ahead := 0
  box_stage := BoxStage.kHeader
  exif_metadata := []
  xmp_metadata := []
  store_exif := 0
  store_xmp := 0
  recon_out_buffer_pos := 0
  recon_exif_size := 0
  recon_xmp_size := 0
  recon_output_jpeg := JpegReconStage.kNone
  next_in := none
  avail_in := 0
  input_closed := false
  memory_limit_base := 0
  cpu_limit_base := 0
  used_cpu_base := 0
  ext := ext

/-- `JxlDecoderCreate` (a successful allocation, not a fuzzing build): the
value-initialised struct, reset. -/
def JxlDecoderCreate (rewindExt : E → E) (ext : E) : JxlDecoder E :=
  JxlDecoderReset rewindExt (JxlDecoder.zero ext)

/-- `JxlDecoderCreate(nullptr)` in a build with
`FUZZING_BUILD_MODE_UNSAFE_FOR_PRODUCTION` (a successful allocation): the
value-initialised struct with `memory_limit_base = 53 << 16` and
`cpu_limit_base = 5 * memory_limit_base`, reset. -/
def JxlDecoderCreateFuzzing (rewindExt : E → E) (ext : E) : JxlDecoder E :=
  JxlDecoderReset rewindExt
    { JxlDecoder.zero ext with
      memory_limit_base := 53 <<< 16
      cpu_limit_base := 5 * (53 <<< 16) }

end Lifecycle

/-! ## Codestream header parser -/

section Headers
variable {E : Type}

/-- The code outside `decode.cc` that `JxlDecoderReadBasicInfo` calls, as
functions of the state `E` of the external objects, the span handed to the bit
reader and the number of bits the reader has consumed.

* `canReadSize`, `canReadMeta`: `CanRead` on `metadata.size` and `metadata.m`,
  that is `Bundle::CanRead` on a copy of the reader; `none` when the
  `JXL_ASSERT(reader2.Close())` after it fails.
* `readSize`, `readMeta`: `Bundle::Read`; whether it succeeded, and
  `TotalBitsConsumed()` of the reader afterwards.
* `xsize`, `ysize`: `metadata.size.xsize()` and `metadata.size.ysize()`. -/
structure HeaderEnv (E : Type) where
  canReadSize : E → List Nat → Nat → Option (Bool × E)
  readSize : E → List Nat → Nat → Bool × Nat × E
  canReadMeta : E → List Nat → Nat → Option (Bool × E)
  readMeta : E → List Nat → Nat → Bool × Nat × E
  xsize : E → Nat
  ysize : E → Nat

/-- `ReadBundle(dec, data, reader, t)` for the bundle with the given `CanRead`
and `Read`: the status, the bits consumed by `reader` afterwards, the state. -/
def ReadBundle (canRead : E → List Nat → Nat → Option (Bool × E))
    (read : E → List Nat → Nat → Bool × Nat × E)
    (dec : JxlDecoder E) (data : List Nat) (bits : Nat) :
    Option (JxlDecoderStatus × Nat × JxlDecoder E) :=
  match canRead dec.ext data bits with
  | none => none
  | some (false, e) =>
    let r := ({ dec with ext := e }).RequestMoreInput
    some (r.1, bits, r.2)
  | some (true, e) =>
    let r := read e data bits
    if !r.1 then some (JXL_DEC_ERROR, r.2.1, { dec with ext := r.2.2 })
    else some (JXL_DEC_SUCCESS, r.2.1, { dec with ext := r.2.2 })

/-- First block of `JxlDecoderReadBasicInfo`: check and skip the codestream
signature `0xff 0x0a` when not done yet. `JXL_DEC_SUCCESS` means that the
function goes on. -/
def readCodestreamSignature (dec : JxlDecoder E) :
    Option (JxlDecoderStatus × JxlDecoder E) :=
  if !dec.got_codestream_signature then
    match dec.GetCodestreamInput with
    | none => none
    | some (st, span, dec1) =>
      if st ≠ JXL_DEC_SUCCESS then some (st, dec1)
      else if span.length < 2 then some dec1.RequestMoreInput
      else if span[0]? ≠ some 0xff ∨ span[1]? ≠ some 0x0a then some (JXL_DEC_ERROR, dec1)
      else
        some (JXL_DEC_SUCCESS,
          ({ dec1 with got_codestream_signature := true }).AdvanceCodestream 2)
  else some (JXL_DEC_SUCCESS, dec)

/-- What `JxlDecoderReadBasicInfo` does once both bundles have been read with
`total_bits` consumed: advance, store the bits ahead, set `got_basic_info`, and
check the size limit. -/
def commitBasicInfo (env : HeaderEnv E) (dec : JxlDecoder E) (total_bits : Nat) :
    JxlDecoderStatus × JxlDecoder E :=
  let dec1 := dec.AdvanceCodestream (total_bits / 8)
  let dec2 := { dec1 with
    codestream_bits_ahead := total_bits % 8
    got_basic_info := true
    basic_info_size_hint := 0 }
  if !CheckSizeLimit dec2.memory_limit_base (env.xsize dec2.ext) (env.ysize dec2.ext) then
    (JXL_DEC_ERROR, dec2)
  else (JXL_DEC_SUCCESS, dec2)

/-- Second block of `JxlDecoderReadBasicInfo`: read the size bundle and the
image metadata bundle from one span, then commit. -/
def readBasicInfoBundles (env : HeaderEnv E) (dec : JxlDecoder E) :
    Option (JxlDecoderStatus × JxlDecoder E) :=
  match dec.GetCodestreamInput with
  | none => none
  | some (st, span, dec1) =>
    if st ≠ JXL_DEC_SUCCESS then some (st, dec1)
    else
      match ReadBundle env.canReadSize env.readSize dec1 span 0 with
      | none => none
      | some (st1, bits1, dec2) =>
        if st1 ≠ JXL_DEC_SUCCESS then some (st1, dec2)
        else
          match ReadBundle env.canReadMeta env.readMeta dec2 span bits1 with
          | none => none
          | some (st2, bits2, dec3) =>
            if st2 ≠ JXL_DEC_SUCCESS then some (st2, dec3)
            else some (commitBasicInfo env dec3 bits2)

/-- Both bundles of the basic info can be and are read from `span`, starting
with the external state `ext` and a fresh bit reader: the reader has then
consumed `bits` bits and the external state is `ext1`. -/
def BothBundlesRead (env : HeaderEnv E) (ext : E) (span : List Nat) (bits : Nat)
    (ext1 : E) : Prop :=
  ∃ e1 bits1 e2 e3, env.canReadSize ext span 0 = some (true, e1) ∧
    env.readSize e1 span 0 = (true, bits1, e2) ∧
    env.canReadMeta e2 span bits1 = some (true, e3) ∧
    env.readMeta e3 span bits1 = (true, bits, ext1)

/-- `JxlDecoderReadBasicInfo(dec)`; `none` when a `JXL_ASSERT` fails. -/
def JxlDecoderReadBasicInfo (env : HeaderEnv E) (dec : JxlDecoder E) :
    Option (JxlDecoderStatus × JxlDecoder E) :=
  match readCodestreamSignature dec with
  | none => none
  | some (st, dec1) =>
    if st ≠ JXL_DEC_SUCCESS then some (st, dec1)
    else readBasicInfoBundles env dec1

end Headers

/-! ## Frame pipeline -/

/-- The three outcomes of a `jxl::Status` that the driver tells apart: success,
`StatusCode::kNotEnoughBytes`, and any other failure. -/
inductive StatusKind
  | ok
  | notEnoughBytes
  | error
deriving DecidableEq, Repr

/-- `FrameDecoder::SectionStatus`, as far as the driver tells values apart:
done, skipped, anything else. -/
inductive SectionStatus
  | kDone
  | kSkipped
  | kOther
deriving DecidableEq, Repr

/-- The value of a `JxlProgressiveDetail`, for the comparisons `>=`. -/
def JxlProgressiveDetail.toNat : JxlProgressiveDetail → Nat
  | kFrames => 0
  | kDC => 1
  | kLastPasses => 2
  | kPasses => 3
  | kDCProgressive => 4
  | kDCGroups => 5
  | kGroups => 6

/-- The code outside `decode.cc` that `JxlDecoderReadAllHeaders` and the frame
loop of `JxlDecoderProcessCodestream` call, as functions of the state `E` of the
external objects. Bit readers are a span and a number of consumed bits.

Headers: `canReadTransform`/`readTransform` are `CanRead`/`Bundle::Read` on
`metadata.transform_data`; `setXybEncoded` copies `xyb_encoded`; `wantICC` is
`metadata.m.color_encoding.WantICC()`; `iccInit` is `icc_reader.Init` (status,
`AllReadsWithinBounds()`, bits consumed); `iccProcess` is `icc_reader.Process`;
`setICCRaw` is `SetICCRaw`; `jumpToByteBoundary` is
`reader->JumpToByteBoundary()`; `setFromMetadata` creates `passes_state` if
needed, calls `SetFromMetadata` and applies the given
`desired_intensity_target` when it is positive;
`have_preview` is `metadata.m.have_preview`.

Frame header stage: `ensureThreadPool` creates the default thread pool when
none is set; `setImageBundleJpegData` creates `ib` if needed and calls
`jpeg_decoder.SetImageBundleJpegData`; `newFrameDecoder` resets `frame_dec` and
`frame_header` to new objects; `initFrame` is `InitFrame` on a reader of the
span, with `preview_frame` and `output_needed` (status,
`AllReadsWithinBounds()`, bits consumed); `storeFrameHeader` is
`*frame_header = frame_dec->GetFrameHeader()`. The accessors read that frame
header: padded upsampled dimensions, dimensions, `SumSectionSizes()`,
`SavedAs`, `is_last`, `animation_frame.duration`, whether the type is
`kRegularFrame` or `kDCFrame`, `CanBeReferenced()`, and the table of contents
as (id, size) pairs.

Decoding: `setupToc` is `SetRenderSpotcolors` and `SetCoalescing`;
`setPauseAtProgressive` is `SetPauseAtProgressive`; `jpegOutput` is
`jpeg_decoder.IsOutputSet() && ib->jpeg_data != nullptr`; `isLittleEndian` is
`IsLittleEndian()` of the platform; `maybeSetRGB8` and `maybeSetFloatCallback`
are the calls `MaybeSetRGB8OutputBuffer` and `MaybeSetFloatCallback`, whose
arguments are read from the decoder state given; `processSections` is
`FrameDecoder::ProcessSections` on the given (id, bytes) readers: its status,
one `SectionStatus` per reader, whether every reader stayed within bounds, and
whether every `Close()` holds; `finalizeFrame` is `FinalizeFrame()`;
`convertPreview`, `convertImage`, `convertExtraChannel` are the calls of
`ConvertImageInternal` with the buffers, sizes, formats and callbacks of the
decoder state given, true for `JXL_DEC_SUCCESS`, and for an extra channel
`none` when its `JXL_ASSERT` on the index fails;
`hasExtraChannels` is `!ib->extra_channels().empty()`; `resetImage` is
`ib.reset()`. -/
structure FrameEnv (E : Type) extends HeaderEnv E where
  canReadTransform : E → List Nat → Nat → Option (Bool × E)
  readTransform : E → List Nat → Nat → Bool × Nat × E
  setXybEncoded : E → E
  wantICC : E → Bool
  iccInit : E → List Nat → Nat → Nat → StatusKind × Bool × Nat × E
  iccProcess : E → List Nat → Nat → StatusKind × Nat × E
  setICCRaw : E → Bool × E
  jumpToByteBoundary : List Nat → Nat → Bool × Nat
  setFromMetadata : E → Nat → Bool × E
  have_preview : E → Bool
  ensureThreadPool : E → E
  setImageBundleJpegData : E → Bool × E
  newFrameDecoder : E → E
  initFrame : E → List Nat → Bool → Bool → StatusKind × Bool × Nat × E
  storeFrameHeader : E → E
  xsize_upsampled_padded : E → Nat
  ysize_upsampled_padded : E → Nat
  frame_xsize : E → Nat
  frame_ysize : E → Nat
  sumSectionSizes : E → Nat
  savedAs : E → Nat
  is_last : E → Bool
  duration : E → Nat
  isRegularFrame : E → Bool
  isDCFrame : E → Bool
  canBeReferenced : E → Bool
  toc : E → List (Nat × Nat)
  setupToc : E → Bool → Bool → E
  setPauseAtProgressive : E → JxlProgressiveDetail → JxlProgressiveDetail × E
  jpegOutput : E → Bool
  isLittleEndian : Bool
  maybeSetRGB8 : JxlDecoder E → E
  maybeSetFloatCallback : JxlDecoder E → E
  nextNumPassesToPause : E → Nat
  processSections : E → List (Nat × List Nat) → Bool × List SectionStatus × Bool × Bool × E
  hasDecodedAll : E → Bool
  hasDecodedDC : E → Bool
  numCompletePasses : E → Nat
  downsamplingTarget : E → Nat → Nat
  references : E → Nat
  finalizeFrame : E → Bool × E
  hasRGBBuffer : E → Bool
  convertPreview : JxlDecoder E → Bool × E
  convertImage : JxlDecoder E → Bool × E
  convertExtraChannel : JxlDecoder E → Nat → Option (Bool × E)
  hasExtraChannels : E → Bool
  resetImage : E → E

section Frames
variable {E : Type}

/-- First block of `JxlDecoderReadAllHeaders`: the transform data bundle, when
not read yet. `JXL_DEC_SUCCESS` means that the function goes on. -/
def readTransformData (env : FrameEnv E) (dec : JxlDecoder E) :
    Option (JxlDecoderStatus × JxlDecoder E) :=
  if !dec.got_transform_data then
    match dec.GetCodestreamInput with
    | none => none
    | some (st, span, dec1) =>
      if st ≠ JXL_DEC_SUCCESS then some (st, dec1)
      else
        let dec2 := { dec1 with ext := env.setXybEncoded dec1.ext }
        match ReadBundle env.canReadTransform env.readTransform dec2 span
            dec2.codestream_bits_ahead with
        | none => none
        | some (st1, total_bits, dec3) =>
          if st1 ≠ JXL_DEC_SUCCESS then some (st1, dec3)
          else
            let dec4 := dec3.AdvanceCodestream (total_bits / 8)
            some (JXL_DEC_SUCCESS,
              { dec4 with codestream_bits_ahead := total_bits % 8
                          got_transform_data := true })
  else some (JXL_DEC_SUCCESS, dec)

/-- The ICC block of `JxlDecoderReadAllHeaders`, on the span and from the bit
position given: the status (`JXL_DEC_SUCCESS` to go on), the bits consumed by
the reader, the state. -/
def readICC (env : FrameEnv E) (dec : JxlDecoder E) (span : List Nat) (bits : Nat) :
    JxlDecoderStatus × Nat × JxlDecoder E :=
  if env.wantICC dec.ext then
    let r := env.iccInit dec.ext span bits dec.memory_limit_base
    let dec1 := { dec with ext := r.2.2.2 }
    if !r.2.1 || r.1 = StatusKind.notEnoughBytes then
      (dec1.RequestMoreInput.1, r.2.2.1, dec1.RequestMoreInput.2)
    else if r.1 ≠ StatusKind.ok then (JXL_DEC_ERROR, r.2.2.1, dec1)
    else
      let p := env.iccProcess dec1.ext span r.2.2.1
      let dec2 := { dec1 with ext := p.2.2 }
      if p.1 = StatusKind.notEnoughBytes then
        (dec2.RequestMoreInput.1, p.2.1, dec2.RequestMoreInput.2)
      else if p.1 ≠ StatusKind.ok then (JXL_DEC_ERROR, p.2.1, dec2)
      else
        let s := env.setICCRaw dec2.ext
        if !s.1 then (JXL_DEC_ERROR, p.2.1, { dec2 with ext := s.2 })
        else (JXL_DEC_SUCCESS, p.2.1, { dec2 with ext := s.2 })
  else (JXL_DEC_SUCCESS, bits, dec)

/-- `JxlDecoderReadAllHeaders(dec)`; `none` when a `JXL_ASSERT` fails. -/
def JxlDecoderReadAllHeaders (env : FrameEnv E) (dec : JxlDecoder E) :
    Option (JxlDecoderStatus × JxlDecoder E) :=
  match readTransformData env dec with
  | none => none
  | some (st, dec1) =>
    if st ≠ JXL_DEC_SUCCESS then some (st, dec1)
    else
      match dec1.GetCodestreamInput with
      | none => none
      | some (st1, span, dec2) =>
        if st1 ≠ JXL_DEC_SUCCESS then some (st1, dec2)
        else
          let icc := readICC env dec2 span dec2.codestream_bits_ahead
          if icc.1 ≠ JXL_DEC_SUCCESS then some (icc.1, icc.2.2)
          else
            let dec3 := { icc.2.2 with got_all_headers := true }
            let j := env.jumpToByteBoundary span icc.2.1
            if !j.1 then some (JXL_DEC_ERROR, dec3)
            else
              let dec4 := dec3.AdvanceCodestream (j.2 / 8)
              let dec5 := { dec4 with codestream_bits_ahead := 0 }
              let m := env.setFromMetadata dec5.ext dec5.desired_intensity_target
              if !m.1 then some (JXL_DEC_ERROR, { dec5 with ext := m.2 })
              else some (JXL_DEC_SUCCESS, { dec5 with ext := m.2 })

/-- The first loop of `JxlDecoderProcessSections`, over the table of contents
from `next_section` on and the `section_processed` flags from there on: one
bit reader (id, bytes) for each section that is not yet processed and lies
entirely in the span, up to the first section that does not. `none` for a
read outside `section_processed`. -/
def collectSections (span : List Nat) :
    List (Nat × Nat) → List Bool → Nat → Option (List (Nat × List Nat))
  | [], _, _ => some []
  | _ :: _, [], _ => none
  | (id, size) :: toc, processed :: flags, pos =>
    if processed then collectSections span toc flags pos
    else if OutOfBounds pos size span.length then some []
    else
      (collectSections span toc flags (sizeAdd pos size)).map
        fun rest => (id, (span.drop pos).take size) :: rest

/-- Progress of the last loop of `JxlDecoderProcessSections`. -/
structure SectionProgress where
  found_skipped_section : Bool
  num_done : Nat
  processed_bytes : Nat
  section_processed : List Bool

/-- The last loop of `JxlDecoderProcessSections`, from index `i` of
`section_status` on: `some (Except.error p)` for "unexpected section status",
`none` for an access outside `toc` or `section_processed`. -/
def applySectionStatus (toc : List (Nat × Nat)) (next_section : Nat) :
    List SectionStatus → Nat → SectionProgress → Option (Except SectionProgress SectionProgress)
  | [], _, p => some (Except.ok p)
  | SectionStatus.kDone :: rest, i, p =>
    let counted : Option SectionProgress :=
      if !p.found_skipped_section then
        (toc[sizeAdd next_section i]?).map fun entry =>
          { p with processed_bytes := sizeAdd p.processed_bytes entry.2
                   num_done := sizeAdd p.num_done 1 }
      else some p
    match counted with
    | none => none
    | some p1 =>
      if sizeAdd next_section i < p1.section_processed.length then
        applySectionStatus toc next_section rest (i + 1)
          { p1 with
            section_processed := p1.section_processed.set (sizeAdd next_section i) true }
      else none
  | SectionStatus.kSkipped :: rest, i, p =>
    applySectionStatus toc next_section rest (i + 1) { p with found_skipped_section := true }
  | SectionStatus.kOther :: _, _, p => some (Except.error p)

/-- `JxlDecoderProcessSections(dec)`; `none` when a `JXL_ASSERT` fails or a
vector is accessed out of range. -/
def JxlDecoderProcessSections (env : FrameEnv E) (dec : JxlDecoder E) :
    Option (JxlDecoderStatus × JxlDecoder E) :=
  match dec.GetCodestreamInput with
  | none => none
  | some (st, span, dec1) =>
    if st ≠ JXL_DEC_SUCCESS then some (st, dec1)
    else
      let toc := env.toc dec1.ext
      match collectSections span (toc.drop dec1.next_section)
          (dec1.section_processed.drop dec1.next_section) 0 with
      | none => none
      | some section_info =>
        let r := env.processSections dec1.ext section_info
        let dec2 := { dec1 with ext := r.2.2.2.2 }
        if !r.2.2.2.1 then none
        else if !r.2.2.1 then some (JXL_DEC_ERROR, dec2)
        else if !r.1 then some (JXL_DEC_ERROR, dec2)
        else
          match applySectionStatus toc dec2.next_section r.2.1 0
              { found_skipped_section := false, num_done := 0, processed_bytes := 0,
                section_processed := dec2.section_processed } with
          | none => none
          | some (Except.error p) =>
            some (JXL_DEC_ERROR, { dec2 with section_processed := p.section_processed })
          | some (Except.ok p) =>
            let dec3 := { dec2 with
              section_processed := p.section_processed
              next_section := sizeAdd dec2.next_section p.num_done
              remaining_frame_size := sizeSub dec2.remaining_frame_size p.processed_bytes }
            some (JXL_DEC_SUCCESS, dec3.AdvanceCodestream p.processed_bytes)

/-- How a block of the body of the frame loop `for (;;)` ends: with a `return`,
by falling through to the next block, with `continue`, with `break`, or in a
failed `JXL_ASSERT`. -/
inductive Ctl (E : Type)
  | ret (status : JxlDecoderStatus) (dec : JxlDecoder E)
  | next (dec : JxlDecoder E)
  | again (dec : JxlDecoder E)
  | stop (dec : JxlDecoder E)
  | abort

/-- Sequencing of blocks: the second block runs when the first falls through. -/
def Ctl.andThen (c : Ctl E) (f : JxlDecoder E → Ctl E) : Ctl E :=
  match c with
  | Ctl.next dec => f dec
  | other => other

/-- The CPU accounting of the frame header stage (`cpu_limit_base != 0`):
false for "used too much CPU". -/
def chargeCpu (env : FrameEnv E) (dec : JxlDecoder E) : Bool × JxlDecoder E :=
  if dec.cpu_limit_base ≠ 0 then
    let num_pixels := sizeMul (env.frame_xsize dec.ext) (env.frame_ysize dec.ext)
    if sizeAdd dec.used_cpu_base num_pixels < dec.used_cpu_base then (false, dec)
    else
      let dec1 := { dec with used_cpu_base := sizeAdd dec.used_cpu_base num_pixels }
      if dec1.used_cpu_base > dec1.cpu_limit_base then (false, dec1) else (true, dec1)
  else (true, dec)

/-- The frame counters and the dependency ledger update of the frame header
stage, from `int saved_as = ...` up to the last `JXL_ASSERT` of the ledger;
`none` when a `JXL_ASSERT` fails. The result also carries
`internal_frame_index`. -/
def registerFrame (env : FrameEnv E) (dec : JxlDecoder E) : Option (Nat × JxlDecoder E) :=
  let saved_as := env.savedAs dec.ext
  let is_last_total := env.is_last dec.ext
  let is_last_of_still :=
    (is_last_total || decide (env.duration dec.ext > 0)) ||
      (!dec.coalescing && env.isRegularFrame dec.ext)
  let internal_frame_index := dec.internal_frames
  let external_frame_index := dec.external_frames
  let dec1 := { dec with
    is_last_total := is_last_total
    is_last_of_still := is_last_of_still
    external_frames :=
      if is_last_of_still then sizeAdd dec.external_frames 1 else dec.external_frames
    internal_frames := sizeAdd dec.internal_frames 1
    skipping_frame := decide (dec.skip_frames > 0)
    skip_frames :=
      if dec.skip_frames > 0 ∧ is_last_of_still = true then sizeSub dec.skip_frames 1
      else dec.skip_frames }
  let ext_ok : Option (JxlDecoder E) :=
    if external_frame_index ≥ dec1.frame_external_to_internal.length then
      if dec1.frame_external_to_internal.length + 1 = sizeAdd external_frame_index 1 then
        some { dec1 with
          frame_external_to_internal :=
            dec1.frame_external_to_internal ++ [internal_frame_index] }
      else none
    else some dec1
  match ext_ok with
  | none => none
  | some dec2 =>
    if internal_frame_index ≥ dec2.frame_saved_as.length then
      if dec2.frame_saved_as.length + 1 = sizeAdd internal_frame_index 1 ∧
          dec2.frame_references.length + 1 = sizeAdd internal_frame_index 1 then
        some (internal_frame_index, { dec2 with
          frame_saved_as := dec2.frame_saved_as ++ [saved_as]
          frame_references := dec2.frame_references ++ [0xff] })
      else none
    else some (internal_frame_index, dec2)

/-- The end of the frame header stage, after the ledger update: skip a frame
that is being skipped and cannot be referenced, or surface `JXL_DEC_FRAME`. -/
def announceFrame (env : FrameEnv E) (internal_frame_index : Nat) (dec : JxlDecoder E) :
    Ctl E :=
  let referenceable :=
    (env.canBeReferenced dec.ext || env.isDCFrame dec.ext) &&
      !(decide (internal_frame_index < dec.frame_required.length) &&
        !(dec.frame_required.getD internal_frame_index false))
  if dec.skipping_frame ∧ referenceable = false then
    Ctl.again
      (({ dec with frame_stage := FrameStage.kHeader }).AdvanceCodestream
        dec.remaining_frame_size)
  else if wants dec.events_wanted JXL_DEC_FRAME ∧ dec.is_last_of_still = true ∧
      dec.skipping_frame = false then
    Ctl.ret JXL_DEC_FRAME dec
  else Ctl.next dec

/-- The frame header stage once `InitFrame` has succeeded having consumed
`bits` bits. -/
def acceptFrameHeader (env : FrameEnv E) (dec : JxlDecoder E) (bits : Nat) : Ctl E :=
  let dec1 := dec.AdvanceCodestream (bits / 8)
  let dec2 := { dec1 with ext := env.storeFrameHeader dec1.ext }
  if !CheckSizeLimit dec2.memory_limit_base (env.xsize_upsampled_padded dec2.ext)
      (env.ysize_upsampled_padded dec2.ext) then
    Ctl.ret JXL_DEC_ERROR dec2
  else
    let c := chargeCpu env dec2
    if !c.1 then Ctl.ret JXL_DEC_ERROR c.2
    else
      let dec3 := { c.2 with
        remaining_frame_size := env.sumSectionSizes c.2.ext
        frame_stage := FrameStage.kTOC }
      if dec3.preview_frame then
        if !wants dec3.events_wanted JXL_DEC_PREVIEW_IMAGE then
          let dec4 :=
            ({ dec3 with frame_stage := FrameStage.kHeader }).AdvanceCodestream
              dec3.remaining_frame_size
          Ctl.again { dec4 with got_preview_image := true, preview_frame := false }
        else Ctl.again dec3
      else
        match registerFrame env dec3 with
        | none => Ctl.abort
        | some (internal_frame_index, dec4) => announceFrame env internal_frame_index dec4

/-- The local `output_needed` of the frame header stage. -/
def outputNeeded (dec : JxlDecoder E) : Bool :=
  if dec.preview_frame then wants dec.events_wanted JXL_DEC_PREVIEW_IMAGE
  else wants dec.events_wanted JXL_DEC_FULL_IMAGE

/-- The block `if (dec->frame_stage == FrameStage::kHeader)` of the frame loop. -/
def frameHeaderStage (env : FrameEnv E) (dec : JxlDecoder E) : Ctl E :=
  if dec.recon_output_jpeg = JpegReconStage.kSettingMetadata ∨
      dec.recon_output_jpeg = JpegReconStage.kOutputting then
    Ctl.ret JXL_DEC_ERROR dec
  else
    let j := env.setImageBundleJpegData dec.ext
    if !j.1 then Ctl.ret JXL_DEC_ERROR { dec with ext := j.2 }
    else
      let dec1 := { dec with ext := env.newFrameDecoder j.2, frame_dec := true, frame_header := true }
      match dec1.GetCodestreamInput with
      | none => Ctl.abort
      | some (st, span, dec2) =>
        if st ≠ JXL_DEC_SUCCESS then Ctl.ret st dec2
        else
          let r := env.initFrame dec2.ext span dec2.preview_frame (outputNeeded dec2)
          let dec3 := { dec2 with ext := r.2.2.2 }
          if !r.2.1 || r.1 = StatusKind.notEnoughBytes then
            Ctl.ret dec3.RequestMoreInput.1 dec3.RequestMoreInput.2
          else if r.1 ≠ StatusKind.ok then Ctl.ret JXL_DEC_ERROR dec3
          else acceptFrameHeader env dec3 r.2.2.1

/-- The block `if (dec->frame_stage == FrameStage::kTOC)` of the frame loop. -/
def frameTocStage (env : FrameEnv E) (dec : JxlDecoder E) : Ctl E :=
  let e1 := env.setupToc dec.ext dec.render_spotcolors dec.coalescing
  let pause : JxlProgressiveDetail × E :=
    if !dec.preview_frame && wants dec.events_wanted JXL_DEC_FRAME_PROGRESSION then
      env.setPauseAtProgressive e1 dec.prog_detail
    else (JxlProgressiveDetail.kFrames, e1)
  let dec1 := { dec with
    ext := pause.2
    frame_prog_detail := pause.1
    dc_frame_progression_done := false
    next_section := 0
    section_processed := List.replicate (env.toc pause.2).length false }
  if dec1.preview_frame || wants dec1.events_wanted JXL_DEC_FULL_IMAGE then
    Ctl.next { dec1 with frame_dec_in_progress := true, frame_stage := FrameStage.kFull }
  else if !dec1.is_last_total then
    Ctl.again
      (({ dec1 with frame_stage := FrameStage.kHeader }).AdvanceCodestream
        dec1.remaining_frame_size)
  else Ctl.stop dec1

/-- The conditional call of `MaybeSetRGB8OutputBuffer` in the block
`if (dec->frame_stage == FrameStage::kFull)`. -/
def setUpRGB8 (env : FrameEnv E) (dec : JxlDecoder E) : JxlDecoder E :=
  if !dec.preview_frame && dec.image_out_buffer_set &&
      decide (dec.image_out_buffer ≠ 0) &&
      decide (dec.image_out_format.data_type = JxlDataType.JXL_TYPE_UINT8) &&
      decide (dec.image_out_format.num_channels ≥ 3) &&
      dec.extra_channel_output.isEmpty then
    { dec with ext := env.maybeSetRGB8 dec }
  else dec

/-- The local `swap_endianness` of the block
`if (dec->frame_stage == FrameStage::kFull)`. -/
def swapEndianness (env : FrameEnv E) (dec : JxlDecoder E) : Bool :=
  let little_endian :=
    decide (dec.image_out_format.endianness = JxlEndianness.JXL_LITTLE_ENDIAN) ||
      (decide (dec.image_out_format.endianness = JxlEndianness.JXL_NATIVE_ENDIAN) &&
        env.isLittleEndian)
  little_endian != env.isLittleEndian

/-- The conditional call of `MaybeSetFloatCallback` in the block
`if (dec->frame_stage == FrameStage::kFull)`. -/
def setUpFloatCallback (env : FrameEnv E) (dec : JxlDecoder E) : JxlDecoder E :=
  if !dec.preview_frame && dec.image_out_buffer_set &&
      decide (dec.image_out_init_callback ≠ 0) &&
      decide (dec.image_out_run_callback ≠ 0) &&
      decide (dec.image_out_format.data_type = JxlDataType.JXL_TYPE_FLOAT) &&
      decide (dec.image_out_format.num_channels ≥ 3) &&
      dec.extra_channel_output.isEmpty && !swapEndianness env dec &&
      dec.frame_dec_in_progress then
    { dec with ext := env.maybeSetFloatCallback dec }
  else dec

/-- The start of the block `if (dec->frame_stage == FrameStage::kFull)`: the
requests for an output buffer, then the two conditional output set-ups. -/
def prepareOutput (env : FrameEnv E) (dec : JxlDecoder E) : Ctl E :=
  if dec.preview_frame ∧ dec.preview_out_buffer_set = false then
    Ctl.ret JXL_DEC_NEED_PREVIEW_OUT_BUFFER dec
  else if dec.preview_frame = false ∧ wants dec.events_wanted JXL_DEC_FULL_IMAGE ∧
      dec.image_out_buffer_set = false ∧ env.jpegOutput dec.ext = false ∧
      dec.is_last_of_still = true ∧ dec.skipping_frame = false then
    Ctl.ret JXL_DEC_NEED_IMAGE_OUT_BUFFER dec
  else Ctl.next (setUpFloatCallback env (setUpRGB8 env dec))

/-- The block `if (dec->frame_stage == FrameStage::kFull)` after
`JxlDecoderProcessSections` has succeeded, where `next_num_passes_to_pause` is
the value read before it. -/
def afterSections (env : FrameEnv E) (next_num_passes_to_pause : Nat)
    (dec : JxlDecoder E) : Ctl E :=
  let all_sections_done := env.hasDecodedAll dec.ext
  let got_dc_only := !all_sections_done && env.hasDecodedDC dec.ext
  if dec.frame_prog_detail.toNat ≥ JxlProgressiveDetail.kDC.toNat ∧
      dec.dc_frame_progression_done = false ∧ got_dc_only = true then
    Ctl.ret JXL_DEC_FRAME_PROGRESSION
      { dec with dc_frame_progression_done := true, downsampling_target := 8 }
  else
    let new_progression_step_done :=
      decide (env.numCompletePasses dec.ext ≥ next_num_passes_to_pause)
    if all_sections_done = false ∧
        dec.frame_prog_detail.toNat ≥ JxlProgressiveDetail.kLastPasses.toNat ∧
        new_progression_step_done = true then
      Ctl.ret JXL_DEC_FRAME_PROGRESSION
        { dec with
          downsampling_target :=
            env.downsamplingTarget dec.ext (env.numCompletePasses dec.ext) }
    else if !all_sections_done then
      Ctl.ret dec.RequestMoreInput.1 dec.RequestMoreInput.2
    else
      let refs : Option (JxlDecoder E) :=
        if !dec.preview_frame then
          let internal_index := sizeSub dec.internal_frames 1
          if dec.frame_references.length > internal_index then
            some { dec with
              frame_references :=
                dec.frame_references.set internal_index (env.references dec.ext) }
          else none
        else some dec
      match refs with
      | none => Ctl.abort
      | some dec1 =>
        let f := env.finalizeFrame dec1.ext
        if !f.1 then Ctl.ret JXL_DEC_ERROR { dec1 with ext := f.2 }
        else
          Ctl.next { dec1 with
            ext := f.2
            frame_dec_in_progress := false
            frame_stage := FrameStage.kFullOutput }

/-- The block `if (dec->frame_stage == FrameStage::kFull)` of the frame loop. -/
def frameFullStage (env : FrameEnv E) (dec : JxlDecoder E) : Ctl E :=
  (prepareOutput env dec).andThen fun dec1 =>
    let next_num_passes_to_pause := env.nextNumPassesToPause dec1.ext
    match JxlDecoderProcessSections env dec1 with
    | none => Ctl.abort
    | some (st, dec2) =>
      if st ≠ JXL_DEC_SUCCESS then Ctl.ret st dec2
      else afterSections env next_num_passes_to_pause dec2

/-- The loop over `extra_channel_output` of the output stage, from index `i`
on: `some (false, e)` when it returns `JXL_DEC_ERROR`, `none` when the
`JXL_ASSERT` of `ConvertImageInternal` fails. -/
def convertExtraChannels (env : FrameEnv E) (has_ec : Bool) (dec : JxlDecoder E) :
    List Bool → Nat → E → Option (Bool × E)
  | [], _, e => some (true, e)
  | false :: rest, i, e => convertExtraChannels env has_ec dec rest (i + 1) e
  | true :: rest, i, e =>
    if !has_ec then some (false, e)
    else
      match env.convertExtraChannel { dec with ext := e } i with
      | none => none
      | some (false, e1) => some (false, e1)
      | some (true, e1) => convertExtraChannels env has_ec dec rest (i + 1) e1

/-- The two local flags that the output stage leaves for the end of the loop
body. -/
structure OutputFlags where
  return_full_image : Bool
  output_jpeg_reconstruction : Bool

/-- The pixel output of a full image, in the branch
`return_full_image && dec->image_out_buffer_set`: `Ctl.next` when it goes on. -/
def writeFullImage (env : FrameEnv E) (dec : JxlDecoder E) : Ctl E :=
  let c : Bool × E :=
    if !env.hasRGBBuffer dec.ext then env.convertImage dec else (true, dec.ext)
  if !c.1 then Ctl.ret JXL_DEC_ERROR { dec with ext := c.2 }
  else
    let dec1 := { dec with ext := c.2, image_out_buffer_set := false }
    match convertExtraChannels env (env.hasExtraChannels dec1.ext) dec1
        dec1.extra_channel_output 0 dec1.ext with
    | none => Ctl.abort
    | some (false, e) => Ctl.ret JXL_DEC_ERROR { dec1 with ext := e }
    | some (true, e) => Ctl.next { dec1 with ext := e, extra_channel_output := [] }

/-- The update of `events_wanted` at the end of the last frame of a still:
whether `JXL_DEC_FULL_IMAGE` was wanted (`return_full_image`), and the new
value, with that bit cleared and the per-frame events of `orig_events_wanted`
restored. -/
def restoreFrameEvents (events_wanted orig_events_wanted : Nat) : Bool × Nat :=
  let return_full_image := wants events_wanted JXL_DEC_FULL_IMAGE
  let cleared :=
    if return_full_image then clearEvent events_wanted JXL_DEC_FULL_IMAGE else events_wanted
  (return_full_image,
    cleared ||| (orig_events_wanted &&&
      (JXL_DEC_FULL_IMAGE.code ||| JXL_DEC_FRAME.code ||| JXL_DEC_FRAME_PROGRESSION.code)))

/-- The block `if (dec->frame_stage == FrameStage::kFullOutput)` of the frame
loop, with the flags it leaves; `Ctl.next` when it goes on. -/
def frameOutputStage (env : FrameEnv E) (dec : JxlDecoder E) : OutputFlags × Ctl E :=
  if dec.preview_frame then
    let c := env.convertPreview dec
    if !c.1 then (⟨false, false⟩, Ctl.ret JXL_DEC_ERROR { dec with ext := c.2 })
    else (⟨false, false⟩, Ctl.next { dec with ext := c.2 })
  else if dec.is_last_of_still then
    let r := restoreFrameEvents dec.events_wanted dec.orig_events_wanted
    let dec1 := { dec with events_wanted := r.2 }
    if env.jpegOutput dec1.ext then (⟨r.1, true⟩, Ctl.next dec1)
    else if r.1 && dec1.image_out_buffer_set then (⟨r.1, false⟩, writeFullImage env dec1)
    else (⟨r.1, false⟩, Ctl.next dec1)
  else (⟨false, false⟩, Ctl.next dec)

/-- The end of the body of the frame loop, from
`dec->frame_stage = FrameStage::kHeader` on. -/
def frameFinish (env : FrameEnv E) (flags : OutputFlags) (dec : JxlDecoder E) : Ctl E :=
  let dec1 := { dec with frame_stage := FrameStage.kHeader }
  if flags.output_jpeg_reconstruction then
    Ctl.ret JXL_DEC_FULL_IMAGE
      { dec1 with recon_output_jpeg := JpegReconStage.kSettingMetadata }
  else
    let dec2 := { dec1 with ext := env.resetImage dec1.ext }
    if dec2.preview_frame then
      Ctl.ret JXL_DEC_PREVIEW_IMAGE
        { dec2 with
          got_preview_image := true
          preview_frame := false
          events_wanted := clearEvent dec2.events_wanted JXL_DEC_PREVIEW_IMAGE }
    else if flags.return_full_image && !dec2.skipping_frame then
      Ctl.ret JXL_DEC_FULL_IMAGE dec2
    else Ctl.again dec2

/-- One pass through the body of the frame loop `for (;;)`. -/
def frameIteration (env : FrameEnv E) (dec : JxlDecoder E) : Ctl E :=
  let parse_frames :=
    dec.events_wanted &&&
      (JXL_DEC_PREVIEW_IMAGE.code ||| JXL_DEC_FRAME.code ||| JXL_DEC_FULL_IMAGE.code) != 0
  if !parse_frames then Ctl.stop dec
  else if dec.frame_stage = FrameStage.kHeader ∧ dec.is_last_total = true then Ctl.stop dec
  else
    ((if dec.frame_stage = FrameStage.kHeader then frameHeaderStage env dec
      else Ctl.next dec).andThen fun dec1 =>
      (if dec1.frame_stage = FrameStage.kTOC then frameTocStage env dec1
       else Ctl.next dec1).andThen fun dec2 =>
        (if dec2.frame_stage = FrameStage.kFull then frameFullStage env dec2
         else Ctl.next dec2).andThen fun dec3 =>
          if dec3.frame_stage = FrameStage.kFullOutput then
            (frameOutputStage env dec3).2.andThen (frameFinish env (frameOutputStage env dec3).1)
          else frameFinish env ⟨false, false⟩ dec3)

/-- The frame loop `for (;;)` of `JxlDecoderProcessCodestream` with what follows
it, for at most `fuel` passes through the body: `none` when a `JXL_ASSERT`
fails or the passes are used up. -/
def frameLoop (env : FrameEnv E) : Nat → JxlDecoder E → Option (JxlDecoderStatus × JxlDecoder E)
  | 0, _ => none
  | fuel + 1, dec =>
    match frameIteration env dec with
    | Ctl.ret st d => some (st, d)
    | Ctl.next d => frameLoop env fuel d
    | Ctl.again d => frameLoop env fuel d
    | Ctl.stop d => some (JXL_DEC_SUCCESS, { d with stage := DecoderStage.kCodestreamFinished })
    | Ctl.abort => none

/-- `JxlDecoderProcessCodestream` from `if (!dec->got_all_headers)` on, that is
once the basic info is there and has been surfaced or is not wanted. -/
def processAfterBasicInfo (env : FrameEnv E) (fuel : Nat) (dec : JxlDecoder E) :
    Option (JxlDecoderStatus × JxlDecoder E) :=
  let headers : Option (JxlDecoderStatus × JxlDecoder E) :=
    if !dec.got_all_headers then JxlDecoderReadAllHeaders env dec
    else some (JXL_DEC_SUCCESS, dec)
  match headers with
  | none => none
  | some (st, dec1) =>
    if st ≠ JXL_DEC_SUCCESS then some (st, dec1)
    else if wants dec1.events_wanted JXL_DEC_COLOR_ENCODING then
      some (JXL_DEC_COLOR_ENCODING,
        { dec1 with events_wanted := clearEvent dec1.events_wanted JXL_DEC_COLOR_ENCODING })
    else if dec1.events_wanted = 0 then
      some (JXL_DEC_SUCCESS, { dec1 with stage := DecoderStage.kCodestreamFinished })
    else
      let dec2 := { dec1 with
        post_headers := true
        preview_frame :=
          if !dec1.got_preview_image && env.have_preview dec1.ext then true
          else dec1.preview_frame }
      frameLoop env fuel dec2

/-- `JxlDecoderProcessCodestream(dec)`, with at most `fuel` passes through the
body of the frame loop; `none` when a `JXL_ASSERT` fails or the passes are used
up. -/
def JxlDecoderProcessCodestream (env : FrameEnv E) (fuel : Nat) (dec : JxlDecoder E) :
    Option (JxlDecoderStatus × JxlDecoder E) :=
  let dec0 := { dec with ext := env.ensureThreadPool dec.ext }
  let info : Option (JxlDecoderStatus × JxlDecoder E) :=
    if !dec0.got_basic_info then JxlDecoderReadBasicInfo env.toHeaderEnv dec0
    else some (JXL_DEC_SUCCESS, dec0)
  match info with
  | none => none
  | some (st, dec1) =>
    if st ≠ JXL_DEC_SUCCESS then some (st, dec1)
    else if wants dec1.events_wanted JXL_DEC_BASIC_INFO then
      some (JXL_DEC_BASIC_INFO,
        { dec1 with events_wanted := clearEvent dec1.events_wanted JXL_DEC_BASIC_INFO })
    else if dec1.events_wanted = 0 then
      some (JXL_DEC_SUCCESS, { dec1 with stage := DecoderStage.kCodestreamFinished })
    else processAfterBasicInfo env fuel dec1

end Frames

/-! ## Signature and the entry point -/

/-- `JxlSignature` of `jxl/decode.h`, with the four values that `ReadSignature`
returns. -/
inductive JxlSignature
  | JXL_SIG_NOT_ENOUGH_BYTES
  | JXL_SIG_INVALID
  | JXL_SIG_CODESTREAM
  | JXL_SIG_CONTAINER
deriving DecidableEq, Repr

open JxlSignature

/-- The twelve bytes of the container signature that `ReadSignature` compares
with: `00 00 00 0C 'J' 'X' 'L' ' ' 0D 0A 87 0A`. -/
def containerSignature : List Nat :=
  [0, 0, 0, 0xC, 0x4A, 0x58, 0x4C, 0x20, 0xD, 0xA, 0x87, 0xA]

/-- `ReadSignature(buf, len, pos)`: the signature and the new `*pos`. `buf`
holds the bytes readable from the pointer; `none` when a byte below `len` that
the function compares is not among them. `jxl::kCodestreamMarker` is `0x0a`
(the comment in the function: "JPEG XL codestream: 0xff 0x0a"). -/
def ReadSignature (buf : List Nat) (len pos : Nat) : Option (JxlSignature × Nat) :=
  if pos ≥ len then some (JXL_SIG_NOT_ENOUGH_BYTES, pos)
  else
    let buf1 := buf.drop pos
    let len1 := sizeSub len pos
    match buf1[0]? with
    | none => none
    | some b0 =>
      if b0 = 0xff then
        if len1 < 2 then some (JXL_SIG_NOT_ENOUGH_BYTES, pos)
        else
          match buf1[1]? with
          | none => none
          | some b1 =>
            if b1 = 0x0a then some (JXL_SIG_CODESTREAM, sizeAdd pos 2)
            else some (JXL_SIG_INVALID, pos)
      else if b0 = 0 then
        if len1 < 12 then some (JXL_SIG_NOT_ENOUGH_BYTES, pos)
        else if (buf1.take 12).length < 12 then none
        else if buf1.take 12 = containerSignature then
          some (JXL_SIG_CONTAINER, sizeAdd pos 12)
        else some (JXL_SIG_INVALID, pos)
      else some (JXL_SIG_INVALID, pos)

/-- `JxlSignatureCheck(buf, len)`. -/
def JxlSignatureCheck (buf : List Nat) (len : Nat) : Option JxlSignature :=
  (ReadSignature buf len 0).map Prod.fst

section Entry
variable {E : Type}

/-- `JbrdNeedMoreBoxes()`. -/
def JxlDecoder.JbrdNeedMoreBoxes (dec : JxlDecoder E) : Bool :=
  if dec.store_exif < 2 ∧ dec.recon_exif_size > 0 then true
  else if dec.store_xmp < 2 ∧ dec.recon_xmp_size > 0 then true
  else false

/-- `CanUseMoreCodestreamInput()`. -/
def JxlDecoder.CanUseMoreCodestreamInput (dec : JxlDecoder E) : Bool :=
  dec.stage ≠ DecoderStage.kCodestreamFinished

/-- The block `if (!dec->got_signature)` of `JxlDecoderProcessInput`.
`JXL_DEC_SUCCESS` means that the function goes on. -/
def checkSignature (dec : JxlDecoder E) : Option (JxlDecoderStatus × JxlDecoder E) :=
  if !dec.got_signature then
    match JxlSignatureCheck dec.inputBytes dec.avail_in with
    | none => none
    | some JXL_SIG_INVALID => some (JXL_DEC_ERROR, dec)
    | some JXL_SIG_NOT_ENOUGH_BYTES =>
      if dec.input_closed then some (JXL_DEC_ERROR, dec)
      else some (JXL_DEC_NEED_MORE_INPUT, dec)
    | some JXL_SIG_CONTAINER =>
      some (JXL_DEC_SUCCESS, { dec with got_signature := true, have_container := true })
    | some JXL_SIG_CODESTREAM =>
      some (JXL_DEC_SUCCESS, { dec with got_signature := true, last_codestream_seen := true })
  else some (JXL_DEC_SUCCESS, dec)

/-- `JxlDecoderProcessInput(dec)`, for the given behaviour `handleBoxes` of the
call `HandleBoxes(dec)`; `none` when that call or the signature check does not
return. -/
def JxlDecoderProcessInput
    (handleBoxes : JxlDecoder E → Option (JxlDecoderStatus × JxlDecoder E))
    (dec : JxlDecoder E) : Option (JxlDecoderStatus × JxlDecoder E) :=
  let dec1 :=
    if dec.stage = DecoderStage.kInited then { dec with stage := DecoderStage.kStarted }
    else dec
  if dec1.stage = DecoderStage.kError then some (JXL_DEC_ERROR, dec1)
  else
    match checkSignature dec1 with
    | none => none
    | some (st, dec2) =>
      if st ≠ JXL_DEC_SUCCESS then some (st, dec2)
      else
        match handleBoxes dec2 with
        | none => none
        | some (status, dec3) =>
          if status = JXL_DEC_NEED_MORE_INPUT ∧ dec3.input_closed = true then
            some (JXL_DEC_ERROR, dec3)
          else if status = JXL_DEC_SUCCESS ∧ dec3.CanUseMoreCodestreamInput = true then
            some (JXL_DEC_ERROR, dec3)
          else if status = JXL_DEC_SUCCESS ∧ dec3.JbrdNeedMoreBoxes = true then
            some (JXL_DEC_ERROR, dec3)
          else some (status, dec3)

end Entry

/-! ## Settings and output buffers -/

section Output
variable {E : Type}

/-- `JxlDecoderSetProgressiveDetail(dec, detail)`. -/
def JxlDecoderSetProgressiveDetail (dec : JxlDecoder E) (detail : JxlProgressiveDetail) :
    JxlDecoderStatus × JxlDecoder E :=
  if detail ≠ JxlProgressiveDetail.kDC ∧ detail ≠ JxlProgressiveDetail.kLastPasses ∧
      detail ≠ JxlProgressiveDetail.kPasses then (JXL_DEC_ERROR, dec)
  else (JXL_DEC_SUCCESS, { dec with prog_detail := detail })

/-- `BitsPerChannel(data_type)`. -/
def BitsPerChannel : JxlDataType → Nat
  | JxlDataType.JXL_TYPE_UINT8 => 8
  | JxlDataType.JXL_TYPE_UINT16 => 16
  | JxlDataType.JXL_TYPE_FLOAT => 32
  | JxlDataType.JXL_TYPE_FLOAT16 => 16
  | JxlDataType.other => 0

/-- What the output size functions read from the parsed metadata and the frame
header, as functions of the state `E` of the external objects:
`frame_header->nonserialized_is_preview`, the oriented (preview) dimensions of
`metadata` for a given `keep_orientation` argument, the upsampled dimensions
of `frame_header->ToFrameDimensions()`, `metadata.m.GetOrientation()` as an
integer, and `metadata.m.color_encoding.IsGray()`. -/
structure DimEnv (E : Type) where
  isPreviewHeader : E → Bool
  oriented_preview_xsize : E → Bool → Nat
  oriented_preview_ysize : E → Bool → Nat
  oriented_xsize : E → Bool → Nat
  oriented_ysize : E → Bool → Nat
  xsize_upsampled : E → Nat
  ysize_upsampled : E → Nat
  orientation : E → Nat
  isGray : E → Bool

/-- `GetCurrentDimensions(dec, xsize, ysize, oriented)`: the pair
`(xsize, ysize)`. -/
def GetCurrentDimensions (env : DimEnv E) (dec : JxlDecoder E) (oriented : Bool) : Nat × Nat :=
  if env.isPreviewHeader dec.ext then
    (env.oriented_preview_xsize dec.ext dec.keep_orientation,
      env.oriented_preview_ysize dec.ext dec.keep_orientation)
  else if !dec.coalescing then
    if !dec.keep_orientation && oriented && decide (env.orientation dec.ext > 4) then
      (env.ysize_upsampled dec.ext, env.xsize_upsampled dec.ext)
    else (env.xsize_upsampled dec.ext, env.ysize_upsampled dec.ext)
  else
    (env.oriented_xsize dec.ext (dec.keep_orientation || !oriented),
      env.oriented_ysize dec.ext (dec.keep_orientation || !oriented))

/-- `PrepareSizeCheck(dec, format, bits)`: the status and `*bits` (0 when not
written). -/
def PrepareSizeCheck (dec : JxlDecoder E) (format : JxlPixelFormat) :
    JxlDecoderStatus × Nat :=
  if !dec.got_basic_info then (JXL_DEC_NEED_MORE_INPUT, 0)
  else if !dec.coalescing && (!dec.frame_header || decide (dec.frame_stage = FrameStage.kHeader))
  then (JXL_DEC_ERROR, 0)
  else if format.num_channels > 4 then (JXL_DEC_ERROR, 0)
  else if BitsPerChannel format.data_type = 0 then
    (JXL_DEC_ERROR, BitsPerChannel format.data_type)
  else (JXL_DEC_SUCCESS, BitsPerChannel format.data_type)

/-- `JxlDecoderImageOutBufferSize(dec, format, size)`: the status and `*size`
(0 when not written). -/
def JxlDecoderImageOutBufferSize (env : DimEnv E) (dec : JxlDecoder E)
    (format : JxlPixelFormat) : JxlDecoderStatus × Nat :=
  let p := PrepareSizeCheck dec format
  if p.1 ≠ JXL_DEC_SUCCESS then (p.1, 0)
  else if format.num_channels < 3 ∧ env.isGray dec.ext = false then (JXL_DEC_ERROR, 0)
  else
    let dims := GetCurrentDimensions env dec true
    let row_size := DivCeil (sizeMul (sizeMul dims.1 format.num_channels) p.2) 8
    let row_size1 :=
      if format.align > 1 then sizeMul (DivCeil row_size format.align) format.align
      else row_size
    (JXL_DEC_SUCCESS, sizeMul row_size1 dims.2)

/-- `JxlDecoderSetImageOutBuffer(dec, format, buffer, size)`; `buffer` is the
address given. -/
def JxlDecoderSetImageOutBuffer (env : DimEnv E) (dec : JxlDecoder E)
    (format : JxlPixelFormat) (buffer size : Nat) : JxlDecoderStatus × JxlDecoder E :=
  if !dec.got_basic_info || !wants dec.orig_events_wanted JXL_DEC_FULL_IMAGE then
    (JXL_DEC_ERROR, dec)
  else if dec.image_out_buffer_set && decide (dec.image_out_run_callback ≠ 0) then
    (JXL_DEC_ERROR, dec)
  else if format.num_channels < 3 ∧ env.isGray dec.ext = false then (JXL_DEC_ERROR, dec)
  else
    let s := JxlDecoderImageOutBufferSize env dec format
    if s.1 ≠ JXL_DEC_SUCCESS then (s.1, dec)
    else if size < s.2 then (JXL_DEC_ERROR, dec)
    else
      (JXL_DEC_SUCCESS,
        { dec with
          image_out_buffer_set := true
          image_out_buffer := buffer
          image_out_size := size
          image_out_format := format })

end Output

/-! ## Boxes -/

/-- `SumOverflows(a, b, c)`. -/
def SumOverflows (a b c : Nat) : Bool :=
  if sizeAdd a b < b then true
  else if sizeAdd (sizeAdd a b) c < c then true
  else false

/-- The value of a sequence of bytes read as a big-endian number. -/
def bigEndian (bytes : List Nat) : Nat :=
  bytes.foldl (fun acc b => acc * 256 + b) 0

/-- Modelled from the spec: `LoadBE32(p)` of `lib/jxl/base/byte_order.h` (not
among the sources), the big-endian value of the four bytes at `p`; `none` when
fewer than four bytes are readable there. -/
def LoadBE32 (bytes : List Nat) : Option Nat :=
  if (bytes.take 4).length < 4 then none else some (bigEndian (bytes.take 4))

/-- Modelled from the spec: `LoadBE64(p)` of `lib/jxl/base/byte_order.h` (not
among the sources), the big-endian value of the eight bytes at `p`; `none`
when fewer than eight bytes are readable there. -/
def LoadBE64 (bytes : List Nat) : Option Nat :=
  if (bytes.take 8).length < 8 then none else some (bigEndian (bytes.take 8))

/-- What `ParseBoxHeader` returns and leaves in its three output parameters
(the value passed in where it does not write). -/
structure BoxHeader where
  status : JxlDecoderStatus
  type : List Nat
  box_size : Nat
  header_size : Nat
deriving DecidableEq, Repr

/-- The end of `ParseBoxHeader`, from `memcpy(type, in + pos, 4)` on, with the
box size read so far; `none` when the four bytes are not readable. -/
def parseBoxType (input : List Nat) (pos box_start file_pos box_size : Nat) :
    Option BoxHeader :=
  if ((input.drop pos).take 4).length < 4 then none
  else
    let type := (input.drop pos).take 4
    let pos1 := sizeAdd pos 4
    let header_size := sizeSub pos1 box_start
    if box_size > 0 ∧ box_size < header_size then
      some ⟨JXL_DEC_ERROR, type, box_size, header_size⟩
    else if SumOverflows file_pos pos1 box_size then
      some ⟨JXL_DEC_ERROR, type, box_size, header_size⟩
    else some ⟨JXL_DEC_SUCCESS, type, box_size, header_size⟩

/-- `ParseBoxHeader(in, size, pos, file_pos, type, box_size, header_size)`:
`input` holds the bytes readable at `in`, and `type0`, `box_size0` are the
values of the output parameters `type` and `*box_size` before the call
(`*header_size` is written on every path); `none` when a byte that the
function reads is not readable. -/
def ParseBoxHeader (input : List Nat) (size pos file_pos : Nat) (type0 : List Nat)
    (box_size0 : Nat) : Option BoxHeader :=
  if OutOfBounds pos 8 size then some ⟨JXL_DEC_NEED_MORE_INPUT, type0, box_size0, 8⟩
  else
    match LoadBE32 (input.drop pos) with
    | none => none
    | some size32 =>
      let pos1 := sizeAdd pos 4
      if size32 = 1 then
        if OutOfBounds pos1 12 size then some ⟨JXL_DEC_NEED_MORE_INPUT, type0, size32, 16⟩
        else
          match LoadBE64 (input.drop pos1) with
          | none => none
          | some size64 => parseBoxType input (sizeAdd pos1 8) pos file_pos size64
      else parseBoxType input pos1 pos file_pos size32

/-- The four bytes of a box type written as text. -/
def boxTag (name : String) : List Nat := name.toList.map Char.toNat

/-- `v.resize(n)` on a vector of bytes: cut, or filled up with zeros. -/
def resizeBytes (v : List Nat) (n : Nat) : List Nat :=
  v.take n ++ List.replicate (n - v.length) 0

/-- The bytes of `v` after `bytes` have been written into it from index `pos`
on. -/
def writeBytes (v : List Nat) (pos : Nat) (bytes : List Nat) : List Nat :=
  v.take pos ++ bytes ++ v.drop (pos + bytes.length)

/-- The code outside `decode.cc` that `HandleBoxes` calls besides
`JxlDecoderProcessCodestream`, as functions of the decoder state or of the state
`E` of the external objects.

`boxContentProcess` is `box_content_decoder.Process` called with the input
window, the position in the box and the free part of the box output buffer:
the status and the number of bytes produced. `metadataProcess` is
`metadata_decoder.Process` with the given number of free bytes in the metadata
vector: the status and the bytes written (at most that many). `setExif`,
`setXmp` are `JxlToJpegDecoder::SetExif` and `SetXmp` with the bytes given;
`writeOutput` is `jpeg_decoder.WriteOutput(*ib->jpeg_data)`. `boxStart` and
`metadataStart` are the two `StartBox` calls of the box header stage
(decompress, unbounded, contents size). `jpegIsParsingBox`, `jpegStartBox` and
`jpegProcess` are `jpeg_decoder.IsParsingBox()`, `StartBox` and `Process` (the
status and the number of input bytes consumed); `numExifMarkers`,
`numXmpMarkers` count the markers of the reconstructed JPEG data, and
`exifBoxContentSize`, `xmlBoxContentSize` are `ExifBoxContentSize` and
`XmlBoxContentSize`: whether they succeed and the size they leave in the
output parameter, given its value before. -/
structure BoxEnv (E : Type) extends FrameEnv E where
  boxContentProcess : JxlDecoder E → JxlDecoderStatus × Nat × E
  metadataProcess : JxlDecoder E → Nat → JxlDecoderStatus × List Nat × E
  setExif : E → List Nat → JxlDecoderStatus × E
  setXmp : E → List Nat → JxlDecoderStatus × E
  writeOutput : E → JxlDecoderStatus × E
  boxStart : E → Bool → Bool → Nat → E
  metadataStart : E → Bool → Bool → Nat → E
  jpegIsParsingBox : E → Bool
  jpegStartBox : E → Bool → Nat → E
  jpegProcess : JxlDecoder E → JxlDecoderStatus × Nat × E
  numExifMarkers : E → Nat
  numXmpMarkers : E → Nat
  exifBoxContentSize : E → Nat → Bool × Nat
  xmlBoxContentSize : E → Nat → Bool × Nat

section Boxes
variable {E : Type}

/-- The call of `box_content_decoder.Process` at the start of a pass through
the box loop outside the header stage. -/
def outputBoxContent (env : BoxEnv E) (dec : JxlDecoder E) : Ctl E :=
  if wants dec.events_wanted JXL_DEC_BOX ∧ dec.box_out_buffer_set_current_box = true then
    let r := env.boxContentProcess dec
    let dec1 := { dec with
      ext := r.2.2
      box_out_buffer_pos := sizeAdd dec.box_out_buffer_pos r.2.1 }
    if r.1 ≠ JXL_DEC_SUCCESS ∧ r.1 ≠ JXL_DEC_NEED_MORE_INPUT then Ctl.ret r.1 dec1
    else Ctl.next dec1
  else Ctl.next dec

/-- The vector that the metadata loop writes to: `exif_metadata` when `exif`,
else `xmp_metadata`. -/
def JxlDecoder.reconMetadata (dec : JxlDecoder E) (exif : Bool) : List Nat :=
  if exif then dec.exif_metadata else dec.xmp_metadata

/-- The decoder with that vector replaced. -/
def JxlDecoder.setReconMetadata (dec : JxlDecoder E) (exif : Bool) (v : List Nat) :
    JxlDecoder E :=
  if exif then { dec with exif_metadata := v } else { dec with xmp_metadata := v }

/-- One pass through the metadata loop up to the tests on `box_result`: the
result of `metadata_decoder.Process` and the state once `recon_out_buffer_pos`
has been moved on. -/
def metadataPass (env : BoxEnv E) (exif : Bool) (dec : JxlDecoder E) :
    JxlDecoderStatus × JxlDecoder E :=
  let dec1 :=
    if (dec.reconMetadata exif).isEmpty then
      dec.setReconMetadata exif (resizeBytes (dec.reconMetadata exif) 64)
    else dec
  let avail_out := sizeSub (dec1.reconMetadata exif).length dec1.recon_out_buffer_pos
  let r := env.metadataProcess dec1 avail_out
  let written := r.2.1.take avail_out
  (r.1, { dec1.setReconMetadata exif
      (writeBytes (dec1.reconMetadata exif) dec1.recon_out_buffer_pos written) with
    ext := r.2.2
    recon_out_buffer_pos := sizeAdd dec1.recon_out_buffer_pos written.length })

/-- The branch `box_result == JXL_DEC_SUCCESS` of the metadata loop. -/
def metadataDone (exif : Bool) (dec : JxlDecoder E) : JxlDecoder E :=
  let needed_size := if dec.store_exif = 1 then dec.recon_exif_size else dec.recon_xmp_size
  if dec.box_contents_unbounded ∧ dec.recon_out_buffer_pos < needed_size then dec
  else
    let dec1 :=
      dec.setReconMetadata exif (resizeBytes (dec.reconMetadata exif) dec.recon_out_buffer_pos)
    { dec1 with
      store_exif := if dec1.store_exif = 1 then 2 else dec1.store_exif
      store_xmp := if dec1.store_xmp = 1 then 2 else dec1.store_xmp }

/-- The inner loop `for (;;)` that stores Exif or XMP data for the JPEG
reconstruction, for at most `fuel` passes; `exif` is `store_exif == 1` at its
start. `Ctl.next` when the loop ends with `break`, `Ctl.abort` when the passes
are used up. -/
def storeMetadata (env : BoxEnv E) (exif : Bool) : Nat → JxlDecoder E → Ctl E
  | 0, _ => Ctl.abort
  | fuel + 1, dec =>
    let p := metadataPass env exif dec
    if p.1 = JXL_DEC_BOX_NEED_MORE_OUTPUT then
      storeMetadata env exif fuel
        (p.2.setReconMetadata exif
          (resizeBytes (p.2.reconMetadata exif) (sizeMul (p.2.reconMetadata exif).length 2)))
    else if p.1 = JXL_DEC_NEED_MORE_INPUT then Ctl.next p.2
    else if p.1 = JXL_DEC_SUCCESS then Ctl.next (metadataDone exif p.2)
    else Ctl.ret p.1 p.2

/-- The block `if (dec->box_stage != BoxStage::kHeader)` at the start of the
body of the box loop. -/
def boxPrelude (env : BoxEnv E) (fuel : Nat) (dec : JxlDecoder E) : Ctl E :=
  let dec1 := { dec.AdvanceInput dec.header_size with header_size := 0 }
  (outputBoxContent env dec1).andThen fun dec2 =>
    if dec2.store_exif = 1 ∨ dec2.store_xmp = 1 then
      storeMetadata env (decide (dec2.store_exif = 1)) fuel dec2
    else Ctl.next dec2

/-- The block `if (dec->recon_output_jpeg == JpegReconStage::kSettingMetadata
&& !dec->JbrdNeedMoreBoxes())`. -/
def reconSetMetadata (env : BoxEnv E) (dec : JxlDecoder E) : Ctl E :=
  if dec.recon_output_jpeg = JpegReconStage.kSettingMetadata ∧
      dec.JbrdNeedMoreBoxes = false then
    let x : JxlDecoderStatus × E :=
      if dec.recon_exif_size ≠ 0 then env.setExif dec.ext dec.exif_metadata
      else (JXL_DEC_SUCCESS, dec.ext)
    if x.1 ≠ JXL_DEC_SUCCESS then Ctl.ret x.1 { dec with ext := x.2 }
    else
      let y : JxlDecoderStatus × E :=
        if dec.recon_xmp_size ≠ 0 then env.setXmp x.2 dec.xmp_metadata
        else (JXL_DEC_SUCCESS, x.2)
      if y.1 ≠ JXL_DEC_SUCCESS then Ctl.ret y.1 { dec with ext := y.2 }
      else Ctl.next { dec with ext := y.2, recon_output_jpeg := JpegReconStage.kOutputting }
  else Ctl.next dec

/-- The block `if (dec->recon_output_jpeg == JpegReconStage::kOutputting &&
!dec->JbrdNeedMoreBoxes())`. -/
def reconWriteOutput (env : BoxEnv E) (dec : JxlDecoder E) : Ctl E :=
  if dec.recon_output_jpeg = JpegReconStage.kOutputting ∧ dec.JbrdNeedMoreBoxes = false then
    let r := env.writeOutput dec.ext
    if r.1 ≠ JXL_DEC_SUCCESS then Ctl.ret r.1 { dec with ext := r.2 }
    else
      let dec1 := { dec with
        ext := env.resetImage r.2
        recon_output_jpeg := JpegReconStage.kFinished }
      if wants dec1.events_wanted JXL_DEC_FULL_IMAGE then Ctl.ret JXL_DEC_FULL_IMAGE dec1
      else Ctl.next dec1
  else Ctl.next dec

/-- The box header stage when `avail_in == 0`. -/
def boxHeaderNoInput (dec : JxlDecoder E) : Ctl E :=
  if dec.stage ≠ DecoderStage.kCodestreamFinished then Ctl.ret JXL_DEC_NEED_MORE_INPUT dec
  else if dec.JbrdNeedMoreBoxes then Ctl.ret JXL_DEC_NEED_MORE_INPUT dec
  else if dec.input_closed then Ctl.ret JXL_DEC_SUCCESS dec
  else if !wants dec.events_wanted JXL_DEC_BOX then Ctl.ret JXL_DEC_SUCCESS dec
  else Ctl.ret JXL_DEC_NEED_MORE_INPUT dec

/-- The local `boxed_codestream_done` of the box header stage. -/
def boxedCodestreamDone (dec : JxlDecoder E) : Bool :=
  wants dec.events_wanted JXL_DEC_BOX &&
    decide (dec.stage = DecoderStage.kCodestreamFinished) &&
    dec.last_codestream_seen && !dec.JbrdNeedMoreBoxes

/-- The test for the start of a next naked codestream in the box header
stage: `boxed_codestream_done && dec->avail_in >= 2 && dec->next_in[0] == 0xff
&& dec->next_in[1] == jxl::kCodestreamMarker`; `none` when a byte it reads is
not readable. -/
def nextCodestreamStarts (dec : JxlDecoder E) : Option Bool :=
  if boxedCodestreamDone dec && decide (dec.avail_in ≥ 2) then
    match dec.inputBytes[0]? with
    | none => none
    | some b0 =>
      if b0 = 0xff then
        match dec.inputBytes[1]? with
        | none => none
        | some b1 => some (decide (b1 = 0x0a))
      else some false
  else some false

/-- The box header stage from `dec->box_contents_unbounded = (box_size == 0)`
to `dec->header_size = header_size`: the geometry of the box. -/
def boxGeometry (dec : JxlDecoder E) (box_size header_size : Nat) : JxlDecoder E :=
  let unbounded := decide (box_size = 0)
  { dec with
    box_contents_unbounded := unbounded
    box_contents_begin := sizeAdd dec.file_pos header_size
    box_contents_end := if unbounded then 0 else sizeAdd dec.file_pos box_size
    box_contents_size := if unbounded then 0 else sizeSub box_size header_size
    box_size := box_size
    header_size := header_size }

/-- The block `if (dec->orig_events_wanted & JXL_DEC_JPEG_RECONSTRUCTION)` of
the box header stage: the start of the storing of Exif or XMP data. -/
def startStoring (dec : JxlDecoder E) : JxlDecoder E :=
  if wants dec.orig_events_wanted JXL_DEC_JPEG_RECONSTRUCTION then
    let dec1 :=
      if dec.store_exif = 0 ∧ dec.box_decoded_type = boxTag "Exif" then
        { dec with store_exif := 1, recon_out_buffer_pos := 0 }
      else dec
    if dec1.store_xmp = 0 ∧ dec1.box_decoded_type = boxTag "xml " then
      { dec1 with store_xmp := 1, recon_out_buffer_pos := 0 }
    else dec1
  else dec

/-- The two `StartBox` calls of the box header stage. -/
def startBoxDecoders (env : BoxEnv E) (dec : JxlDecoder E) : JxlDecoder E :=
  let brob := decide (dec.box_type = boxTag "brob")
  let dec1 :=
    if wants dec.events_wanted JXL_DEC_BOX then
      { dec with
        ext := env.boxStart dec.ext (dec.decompress_boxes && brob)
          dec.box_contents_unbounded dec.box_contents_size }
    else dec
  if dec1.store_exif = 1 ∨ dec1.store_xmp = 1 then
    { dec1 with
      ext := env.metadataStart dec1.ext brob dec1.box_contents_unbounded
        dec1.box_contents_size }
  else dec1

/-- The choice of the next stage by the type of the box; `none` for one of its
two `JXL_API_ERROR` returns. -/
def chooseBoxStage (dec : JxlDecoder E) : Option (JxlDecoder E) :=
  if dec.box_type = boxTag "ftyp" then some { dec with box_stage := BoxStage.kFtyp }
  else if dec.box_type = boxTag "jxlc" then
    if dec.last_codestream_seen then none
    else some { dec with last_codestream_seen := true, box_stage := BoxStage.kCodestream }
  else if dec.box_type = boxTag "jxlp" then
    some { dec with box_stage := BoxStage.kPartialCodestream }
  else if wants dec.orig_events_wanted JXL_DEC_JPEG_RECONSTRUCTION ∧
      dec.box_type = boxTag "jbrd" then
    if !wants dec.events_wanted JXL_DEC_JPEG_RECONSTRUCTION then none
    else some { dec with box_stage := BoxStage.kJpegRecon }
  else some { dec with box_stage := BoxStage.kSkip }

/-- The box header stage from `dec->box_contents_unbounded = (box_size == 0)`
on, for the header values parsed: the box geometry, the start of the storing
of Exif or XMP data, the `StartBox` calls, the choice of the next stage and
the `JXL_DEC_BOX` event. It falls through to the next pass of the loop
(`Ctl.again`) when it does not return. -/
def enterBox (env : BoxEnv E) (dec : JxlDecoder E) (box_size header_size : Nat) : Ctl E :=
  let dec1 := startBoxDecoders env (startStoring (boxGeometry dec box_size header_size))
  match chooseBoxStage dec1 with
  | none => Ctl.ret JXL_DEC_ERROR dec1
  | some dec2 =>
    if wants dec2.events_wanted JXL_DEC_BOX then
      Ctl.ret JXL_DEC_BOX { dec2 with box_event := true, box_out_buffer_set_current_box := false }
    else Ctl.again dec2

/-- The box header stage once `ParseBoxHeader` has succeeded with the values
`box_size` and `header_size` (the type is in `dec.box_type`): the decoded
type, the count of boxes and the checks of the box order. -/
def checkBoxOrder (env : BoxEnv E) (dec : JxlDecoder E) (done : Bool)
    (box_size header_size : Nat) : Ctl E :=
  let decoded : Option (Option (List Nat)) :=
    if dec.box_type = boxTag "brob" then
      if dec.avail_in < sizeAdd header_size 4 then some none
      else if ((dec.inputBytes.drop header_size).take 4).length < 4 then none
      else some (some ((dec.inputBytes.drop header_size).take 4))
    else some (some dec.box_type)
  match decoded with
  | none => Ctl.abort
  | some none => Ctl.ret JXL_DEC_NEED_MORE_INPUT dec
  | some (some box_decoded_type) =>
    let dec1 := { dec with
      box_decoded_type := box_decoded_type
      box_count := sizeAdd dec.box_count 1 }
    if done ∧ dec1.box_type = boxTag "JXL " then Ctl.ret JXL_DEC_SUCCESS dec1
    else if dec1.box_count = 2 ∧ dec1.box_type ≠ boxTag "ftyp" then Ctl.ret JXL_DEC_ERROR dec1
    else if dec1.box_type = boxTag "ftyp" ∧ dec1.box_count ≠ 2 then Ctl.ret JXL_DEC_ERROR dec1
    else enterBox env dec1 box_size header_size

/-- The block `if (dec->box_stage == BoxStage::kHeader)` of the box loop. -/
def boxHeaderStage (env : BoxEnv E) (dec : JxlDecoder E) : Ctl E :=
  if !dec.have_container then
    if dec.stage = DecoderStage.kCodestreamFinished then Ctl.ret JXL_DEC_SUCCESS dec
    else Ctl.again { dec with box_stage := BoxStage.kCodestream, box_contents_unbounded := true }
  else if dec.avail_in = 0 then boxHeaderNoInput dec
  else
    match nextCodestreamStarts dec with
    | none => Ctl.abort
    | some true => Ctl.ret JXL_DEC_SUCCESS dec
    | some false =>
      match ParseBoxHeader dec.inputBytes dec.avail_in 0 dec.file_pos dec.box_type 0 with
      | none => Ctl.abort
      | some h =>
        let dec1 := { dec with box_type := h.type }
        if h.status ≠ JXL_DEC_SUCCESS then
          if h.status = JXL_DEC_NEED_MORE_INPUT then
            Ctl.ret h.status { dec1 with
              basic_info_size_hint :=
                sizeSub (sizeAdd InitialBasicInfoSizeHint h.header_size) dec1.file_pos }
          else Ctl.ret h.status dec1
        else checkBoxOrder env dec1 (boxedCodestreamDone dec) h.box_size h.header_size

/-- The block `else if (dec->box_stage == BoxStage::kFtyp)`. -/
def boxFtypStage (dec : JxlDecoder E) : Ctl E :=
  if dec.box_contents_size < 12 then Ctl.ret JXL_DEC_ERROR dec
  else if dec.avail_in < 4 then Ctl.ret JXL_DEC_NEED_MORE_INPUT dec
  else if (dec.inputBytes.take 4).length < 4 then Ctl.abort
  else if dec.inputBytes.take 4 ≠ boxTag "jxl " then Ctl.ret JXL_DEC_ERROR dec
  else Ctl.again { dec.AdvanceInput 4 with box_stage := BoxStage.kSkip }

/-- The block `else if (dec->box_stage == BoxStage::kPartialCodestream)`. -/
def boxPartialCodestreamStage (dec : JxlDecoder E) : Ctl E :=
  if dec.last_codestream_seen then Ctl.ret JXL_DEC_ERROR dec
  else if dec.avail_in < 4 then Ctl.ret JXL_DEC_NEED_MORE_INPUT dec
  else if !dec.box_contents_unbounded && decide (dec.box_contents_size < 4) then
    Ctl.ret JXL_DEC_ERROR dec
  else
    match LoadBE32 dec.inputBytes with
    | none => Ctl.abort
    | some jxlp_index =>
      let dec1 :=
        if jxlp_index &&& 0x80000000 ≠ 0 then { dec with last_codestream_seen := true }
        else dec
      Ctl.again { dec1.AdvanceInput 4 with box_stage := BoxStage.kCodestream }

/-- The block `else if (dec->box_stage == BoxStage::kCodestream)`, with at most
`fuel` passes through the frame loop. -/
def boxCodestreamStage (env : BoxEnv E) (fuel : Nat) (dec : JxlDecoder E) : Ctl E :=
  match JxlDecoderProcessCodestream env.toFrameEnv fuel dec with
  | none => Ctl.abort
  | some (status, d) =>
    if status = JXL_DEC_FULL_IMAGE ∧ d.recon_output_jpeg ≠ JpegReconStage.kNone then Ctl.again d
    else if status = JXL_DEC_NEED_MORE_INPUT ∧ d.file_pos = d.box_contents_end ∧
        d.box_contents_unbounded = false then
      Ctl.again { d with box_stage := BoxStage.kHeader }
    else if status = JXL_DEC_SUCCESS then
      if d.JbrdNeedMoreBoxes then Ctl.again { d with box_stage := BoxStage.kSkip }
      else if d.box_contents_unbounded then Ctl.stop d
      else if wants d.events_wanted JXL_DEC_BOX then
        Ctl.again { d with box_stage := BoxStage.kSkip }
      else Ctl.ret status d
    else Ctl.ret status d

/-- The part of the JPEG reconstruction stage that reads the sizes announced
for the Exif and XMP boxes: false for one of its four `JXL_API_ERROR` returns,
with the state at that point. -/
def reconSizes (env : BoxEnv E) (dec : JxlDecoder E) : Bool × JxlDecoder E :=
  let withExif : Bool × JxlDecoder E :=
    if env.numExifMarkers dec.ext ≠ 0 then
      if env.numExifMarkers dec.ext > 1 then (false, dec)
      else
        let r := env.exifBoxContentSize dec.ext dec.recon_exif_size
        (r.1, { dec with recon_exif_size := r.2 })
    else (true, dec)
  if !withExif.1 then withExif
  else if env.numXmpMarkers withExif.2.ext ≠ 0 then
    if env.numXmpMarkers withExif.2.ext > 1 then (false, withExif.2)
    else
      let r := env.xmlBoxContentSize withExif.2.ext withExif.2.recon_xmp_size
      (r.1, { withExif.2 with recon_xmp_size := r.2 })
  else withExif

/-- The block `else if (dec->box_stage == BoxStage::kJpegRecon)`. -/
def boxJpegReconStage (env : BoxEnv E) (dec : JxlDecoder E) : Ctl E :=
  let dec1 :=
    if !env.jpegIsParsingBox dec.ext then
      { dec with
        ext := env.jpegStartBox dec.ext dec.box_contents_unbounded dec.box_contents_size }
    else dec
  let r := env.jpegProcess dec1
  let dec2 := { dec1 with ext := r.2.2 }.AdvanceInput r.2.1
  if r.1 = JXL_DEC_JPEG_RECONSTRUCTION then
    let s := reconSizes env dec2
    if !s.1 then Ctl.ret JXL_DEC_ERROR s.2
    else
      let dec4 := { s.2 with box_stage := BoxStage.kHeader }
      if wants dec4.events_wanted JXL_DEC_JPEG_RECONSTRUCTION then
        Ctl.ret JXL_DEC_JPEG_RECONSTRUCTION
          { dec4 with
            events_wanted := clearEvent dec4.events_wanted JXL_DEC_JPEG_RECONSTRUCTION }
      else Ctl.again dec4
  else Ctl.ret r.1 dec2

/-- The block `else if (dec->box_stage == BoxStage::kSkip)`. -/
def boxSkipStage (dec : JxlDecoder E) : Ctl E :=
  if dec.box_contents_unbounded then
    if dec.input_closed then Ctl.ret JXL_DEC_SUCCESS dec
    else if !dec.box_out_buffer_set then Ctl.ret JXL_DEC_SUCCESS dec
    else Ctl.ret JXL_DEC_NEED_MORE_INPUT (dec.AdvanceInput dec.avail_in)
  else
    let remaining := sizeSub dec.box_contents_end dec.file_pos
    if dec.avail_in < remaining then
      Ctl.ret JXL_DEC_NEED_MORE_INPUT
        ({ dec with
          basic_info_size_hint :=
            sizeSub (sizeAdd InitialBasicInfoSizeHint dec.box_contents_end) dec.file_pos
        }.AdvanceInput dec.avail_in)
    else Ctl.again { dec.AdvanceInput remaining with box_stage := BoxStage.kHeader }

/-- The stage blocks of the box loop, chosen by `box_stage`. -/
def boxStage (env : BoxEnv E) (fuel : Nat) (dec : JxlDecoder E) : Ctl E :=
  match dec.box_stage with
  | BoxStage.kHeader => boxHeaderStage env dec
  | BoxStage.kFtyp => boxFtypStage dec
  | BoxStage.kPartialCodestream => boxPartialCodestreamStage dec
  | BoxStage.kCodestream => boxCodestreamStage env fuel dec
  | BoxStage.kJpegRecon => boxJpegReconStage env dec
  | BoxStage.kSkip => boxSkipStage dec

/-- One pass through the body of the box loop `for (;;)` of `HandleBoxes`. -/
def boxIteration (env : BoxEnv E) (fuel : Nat) (dec : JxlDecoder E) : Ctl E :=
  ((if dec.box_stage ≠ BoxStage.kHeader then boxPrelude env fuel dec
    else Ctl.next dec).andThen fun dec1 =>
    (reconSetMetadata env dec1).andThen fun dec2 =>
      (reconWriteOutput env dec2).andThen fun dec3 => boxStage env fuel dec3)

/-- The box loop of `HandleBoxes` with the `return` after it, for at most
`passes` passes through its body, each with at most `fuel` passes through the
loops inside it. -/
def boxLoop (env : BoxEnv E) (fuel : Nat) :
    Nat → JxlDecoder E → Option (JxlDecoderStatus × JxlDecoder E)
  | 0, _ => none
  | passes + 1, dec =>
    match boxIteration env fuel dec with
    | Ctl.ret st d => some (st, d)
    | Ctl.next d => boxLoop env fuel passes d
    | Ctl.again d => boxLoop env fuel passes d
    | Ctl.stop d => some (JXL_DEC_SUCCESS, d)
    | Ctl.abort => none

/-- `HandleBoxes(dec)`, with at most `fuel` passes through each of its loops
(the box loop, the metadata loop and the frame loop); `none` when a
`JXL_ASSERT` fails, a byte outside the readable input is read, or the passes
are used up. -/
def HandleBoxes (env : BoxEnv E) (fuel : Nat) (dec : JxlDecoder E) :
    Option (JxlDecoderStatus × JxlDecoder E) :=
  boxLoop env fuel fuel dec

end Boxes

section BoxBuffer
variable {E : Type}

/-- `JxlDecoderSetBoxBuffer(dec, data, size)`; `data` is the address of the
buffer. -/
def JxlDecoderSetBoxBuffer (dec : JxlDecoder E) (data size : Nat) :
    JxlDecoderStatus × JxlDecoder E :=
  if dec.box_out_buffer_set then (JXL_DEC_ERROR, dec)
  else if !dec.box_event then (JXL_DEC_ERROR, dec)
  else
    (JXL_DEC_SUCCESS, { dec with
      box_out_buffer_set := true
      box_out_buffer_set_current_box := true
      box_out_buffer := data
      box_out_buffer_size := size
      box_out_buffer_pos := 0 })

/-- `JxlDecoderReleaseBoxBuffer(dec)`: the number of unused bytes of the buffer
and the state. -/
def JxlDecoderReleaseBoxBuffer (dec : JxlDecoder E) : Nat × JxlDecoder E :=
  if !dec.box_out_buffer_set then (0, dec)
  else
    (sizeSub dec.box_out_buffer_size dec.box_out_buffer_pos,
      { dec with
        box_out_buffer_set := false
        box_out_buffer := 0
        box_out_buffer_size := 0
        box_out_buffer_begin :=
          if !dec.box_out_buffer_set_current_box then 0
          else sizeAdd dec.box_out_buffer_begin dec.box_out_buffer_pos
        box_out_buffer_set_current_box := false })

end BoxBuffer

/-! ## Specification side of the boxes -/

section BoxSpec
variable {E : Type}

/-- The statuses of `n` successive calls of `JxlDecoderProcessInput` by a caller
that does nothing between them, and the state after the last one; `none` when
one of the calls does not return. -/
def processInputCalls
    (handleBoxes : JxlDecoder E → Option (JxlDecoderStatus × JxlDecoder E)) :
    Nat → JxlDecoder E → Option (List JxlDecoderStatus × JxlDecoder E)
  | 0, dec => some ([], dec)
  | n + 1, dec =>
    match JxlDecoderProcessInput handleBoxes dec with
    | none => none
    | some (st, d) => (processInputCalls handleBoxes n d).map fun r => (st :: r.1, r.2)

/-- No JPEG reconstruction is at the point of setting metadata or writing its
output: the two blocks of the box loop for it do nothing. -/
def reconIdle (dec : JxlDecoder E) : Prop :=
  dec.recon_output_jpeg ≠ JpegReconStage.kSettingMetadata ∧
    dec.recon_output_jpeg ≠ JpegReconStage.kOutputting

/-- Nothing is copied out of the current box: no box output buffer is set for
it while `JXL_DEC_BOX` is subscribed, and no Exif or XMP data is being
stored. -/
def boxOutputIdle (dec : JxlDecoder E) : Prop :=
  ¬ (wants dec.events_wanted JXL_DEC_BOX = true ∧ dec.box_out_buffer_set_current_box = true) ∧
    dec.store_exif ≠ 1 ∧ dec.store_xmp ≠ 1

/-- What the skipping of a box goes by, and the stage of the JPEG
reconstruction. -/
structure SkipView where
  box_stage : BoxStage
  box_contents_unbounded : Bool
  input_closed : Bool
  box_out_buffer_set : Bool
  recon_output_jpeg : JpegReconStage
deriving DecidableEq, Repr

/-- Those fields of a decoder. -/
def skipView (dec : JxlDecoder E) : SkipView :=
  ⟨dec.box_stage, dec.box_contents_unbounded, dec.input_closed, dec.box_out_buffer_set,
    dec.recon_output_jpeg⟩

/-- The state `d` has the box stage, the flag for an unbounded box, the flag
for closed input and the flag for a box output buffer of the state `dec`. -/
def sameSkip (dec d : JxlDecoder E) : Prop :=
  d.box_stage = dec.box_stage ∧ d.box_contents_unbounded = dec.box_contents_unbounded ∧
    d.input_closed = dec.input_closed ∧ d.box_out_buffer_set = dec.box_out_buffer_set

/-- A block of the box loop either returns a status for which `P` holds, or
falls through to the next block in a state for which `Q` holds, or ends in a
failed assertion; it neither continues nor leaves the loop. -/
def Ctl.Falls (P : JxlDecoderStatus → Prop) (Q : JxlDecoder E → Prop) : Ctl E → Prop
  | Ctl.ret st _ => P st
  | Ctl.next d => Q d
  | Ctl.again _ => False
  | Ctl.stop _ => False
  | Ctl.abort => True

end BoxSpec

/-! ## Specification side of the events -/

section EventSpec
variable {E : Type}

/-- The statuses that are neither an event nor a request for an output
buffer. -/
def IsPlainStatus (st : JxlDecoderStatus) : Prop :=
  st = JXL_DEC_SUCCESS ∨ st = JXL_DEC_ERROR ∨ st = JXL_DEC_NEED_MORE_INPUT

/-- The bits of an `events_wanted` value for the two header events
`JXL_DEC_BASIC_INFO` and `JXL_DEC_COLOR_ENCODING`. -/
def headerEvents (events : Nat) : Nat :=
  events &&& (JXL_DEC_BASIC_INFO.code ||| JXL_DEC_COLOR_ENCODING.code)

/-- What the blocks of the frame loop keep, for the header event bits `bits` of
`events_wanted` at the start: the state they end in has the same header event
bits, a returned status is neither header event, and `JXL_DEC_FRAME` is
returned only with its bit set in `events_wanted`. -/
def Ctl.Keeps (bits : Nat) : Ctl E → Prop
  | Ctl.ret st d => headerEvents d.events_wanted = bits ∧
      st ≠ JXL_DEC_BASIC_INFO ∧ st ≠ JXL_DEC_COLOR_ENCODING ∧
      (st = JXL_DEC_FRAME → wants d.events_wanted JXL_DEC_FRAME = true)
  | Ctl.next d => headerEvents d.events_wanted = bits
  | Ctl.again d => headerEvents d.events_wanted = bits
  | Ctl.stop d => headerEvents d.events_wanted = bits
  | Ctl.abort => True

/-- The statuses returned by successive calls of `JxlDecoderProcessCodestream`
that start from `dec`. Between two calls the caller and the rest of the
decoder may change the state in any way that leaves the two header event bits
of `events_wanted` as they are (no other function of `decode.cc` sets a bit of
`events_wanted` once decoding has started). -/
inductive CodestreamCalls (env : FrameEnv E) : JxlDecoder E → List JxlDecoderStatus → Prop
  | done (dec : JxlDecoder E) : CodestreamCalls env dec []
  | call (dec d dnext : JxlDecoder E) (fuel : Nat) (st : JxlDecoderStatus)
      (rest : List JxlDecoderStatus)
      (hcall : JxlDecoderProcessCodestream env fuel dec = some (st, d))
      (hbetween : headerEvents dnext.events_wanted = headerEvents d.events_wanted)
      (hrest : CodestreamCalls env dnext rest) : CodestreamCalls env dec (st :: rest)

end EventSpec

/-! ## Specification side of the byte cursor -/

section CursorSpec
variable {E : Type}

/-- The logical codestream position of the cursor, as an offset in the file:
the copy buffer ends `codestream_unconsumed` bytes after `file_pos`, and the
decoder is `codestream_pos` bytes into it (or, without copy buffer,
`codestream_pos` bytes after `file_pos`). -/
def JxlDecoder.logicalPos (dec : JxlDecoder E) : Nat :=
  dec.file_pos + dec.codestream_unconsumed + dec.codestream_pos - dec.codestream_copy.length

/-- Length of the span that `GetCodestreamInput` has just returned, read off
the state. -/
def JxlDecoder.spanLength (dec : JxlDecoder E) : Nat :=
  if dec.codestream_copy.isEmpty then dec.AvailableCodestream
  else dec.codestream_copy.length - dec.codestream_pos

/-- The decoder `dec` with the byte cursor of `c`: used to say that a function
changes nothing but the cursor. -/
def JxlDecoder.withCursorOf (dec c : JxlDecoder E) : JxlDecoder E :=
  { dec with
    next_in := c.next_in
    avail_in := c.avail_in
    file_pos := c.file_pos
    codestream_copy := c.codestream_copy
    codestream_unconsumed := c.codestream_unconsumed
    codestream_pos := c.codestream_pos }

/-- `d` differs from `dec` in the byte cursor only. -/
def ChangesOnlyCursor (dec d : JxlDecoder E) : Prop := d = dec.withCursorOf d

/-- `d` differs from `dec` only in the byte cursor, in
`got_codestream_signature` and in the state `ext` of the objects outside the
driver (which holds the parsed metadata). -/
def ChangesOnlyParse (dec d : JxlDecoder E) : Prop :=
  d = { dec.withCursorOf d with
        got_codestream_signature := d.got_codestream_signature
        ext := d.ext }

/-- Well-formed cursor: the window holds `avail_in` bytes, positions do not
wrap around, and the bytes counted by `codestream_unconsumed` are the tail of a
nonempty copy buffer and the head of the window. -/
structure CursorWF (dec : JxlDecoder E) : Prop where
  window : dec.avail_in ≤ dec.inputBytes.length
  nowrap : dec.file_pos + 2 * dec.avail_in < SIZE_MOD
  direct : dec.codestream_copy = [] → dec.codestream_unconsumed = 0
  unc_avail : dec.codestream_unconsumed ≤ dec.AvailableCodestream
  unc_copy : dec.codestream_unconsumed ≤ dec.codestream_copy.length
  copy_pos : dec.codestream_copy.length ≤ dec.file_pos + dec.codestream_unconsumed
  pos_lt : dec.codestream_pos < SIZE_MOD

/-- What a returned span guarantees about the state: its length can be read
off the state, and the position inside the copy buffer is in range. -/
def SpanOk (dec : JxlDecoder E) (span : List Nat) : Prop :=
  span.length = dec.spanLength ∧ dec.codestream_pos ≤ dec.codestream_copy.length ∧
  (dec.codestream_copy = [] → dec.codestream_pos = 0)

/-- One call of the caller or of the parser on the byte cursor. -/
inductive CursorOp
  | get
  | advance (n : Nat)
  | feed (k : Nat)
deriving DecidableEq, Repr

/-- The feeding protocol seen from the caller: the decoder, the offset in the
stream and the length of the window last handed to `JxlDecoderSetInput`, the
part of the last returned span not advanced over yet (`credit`), the total of
the amounts passed to `AdvanceCodestream` (`logical`), and every span returned
so far with the logical position at that moment. -/
structure Feeder (E : Type) where
  dec : JxlDecoder E
  caller_pos : Nat
  chunk_len : Nat
  credit : Nat
  logical : Nat
  spans : List (Nat × List Nat)

/-- How a run of the protocol ends: normally, in a failed assertion or a
refused `JxlDecoderSetInput`, or by a call the protocol does not allow. -/
inductive Run (α : Type)
  | ok (a : α)
  | failed
  | outOfProtocol

/-- One step of the protocol on the stream `cs`.
* `get`: `GetCodestreamInput`; a returned span is recorded.
* `advance n`: `AdvanceCodestream(n)`, allowed for `n` up to what is left of
  the last returned span.
* `feed k`: `RequestMoreInput`, `JxlDecoderReleaseInput`, then
  `JxlDecoderSetInput` with the next `k` bytes (fewer at the end of the
  stream) after the bytes the decoder took from the old window. -/
def Feeder.step (cs : List Nat) (f : Feeder E) : CursorOp → Run (Feeder E)
  | CursorOp.get =>
    match f.dec.GetCodestreamInput with
    | none => Run.failed
    | some (st, span, dec1) =>
      if st = JXL_DEC_SUCCESS then
        Run.ok { f with dec := dec1, credit := span.length,
                        spans := f.spans ++ [(f.logical, span)] }
      else Run.ok { f with dec := dec1, credit := 0 }
  | CursorOp.advance n =>
    if n ≤ f.credit then
      Run.ok { f with dec := f.dec.AdvanceCodestream n, credit := f.credit - n,
                      logical := f.logical + n }
    else Run.outOfProtocol
  | CursorOp.feed k =>
    let dec1 := f.dec.RequestMoreInput.2
    let released := JxlDecoderReleaseInput dec1
    let pos := f.caller_pos + (f.chunk_len - released.1)
    let chunk := (cs.drop pos).take k
    let r := JxlDecoderSetInput released.2 (some chunk) chunk.length
    if r.1 = JXL_DEC_SUCCESS then
      Run.ok { f with dec := r.2, caller_pos := pos, chunk_len := chunk.length, credit := 0 }
    else Run.failed

/-- A sequence of protocol steps. -/
def Feeder.run (cs : List Nat) : Feeder E → List CursorOp → Run (Feeder E)
  | f, [] => Run.ok f
  | f, op :: ops =>
    match f.step cs op with
    | Run.ok f1 => Feeder.run cs f1 ops
    | Run.failed => Run.failed
    | Run.outOfProtocol => Run.outOfProtocol

/-- The protocol from its start: `JxlDecoderSetInput` with the first `k0`
bytes of the stream, then the given steps. -/
def Feeder.start (cs : List Nat) (dec : JxlDecoder E) (k0 : Nat) (ops : List CursorOp) :
    Run (Feeder E) :=
  let chunk := cs.take k0
  let r := JxlDecoderSetInput dec (some chunk) chunk.length
  if r.1 = JXL_DEC_SUCCESS then
    Feeder.run cs
      { dec := r.2, caller_pos := 0, chunk_len := chunk.length, credit := 0,
        logical := 0, spans := [] } ops
  else Run.failed

/-- A decoder at the start of a bare codestream: no input set or closed, an
unbounded content range, nothing copied or skipped, at file position 0. -/
structure BareStart (dec : JxlDecoder E) : Prop where
  unbounded : dec.box_contents_unbounded = true
  no_input : dec.next_in = none
  avail : dec.avail_in = 0
  not_closed : dec.input_closed = false
  file_pos : dec.file_pos = 0
  copy : dec.codestream_copy = []
  unconsumed : dec.codestream_unconsumed = 0
  pos : dec.codestream_pos = 0

/-- The cursor of `dec` reads the bare codestream `cs`: it is well-formed, the
window is exactly the bytes at `next_in`, and the window and the copy buffer are
runs of `cs` at the positions the cursor assigns to them. -/
structure CursorTracks (cs : List Nat) (dec : JxlDecoder E) : Prop where
  wf : CursorWF dec
  unbounded : dec.box_contents_unbounded = true
  avail : dec.avail_in = dec.inputBytes.length
  window : dec.inputBytes <+: cs.drop dec.file_pos
  in_stream : dec.file_pos + dec.avail_in ≤ cs.length
  copy : dec.codestream_copy <+:
    cs.drop (dec.file_pos + dec.codestream_unconsumed - dec.codestream_copy.length)
  pos_le : dec.codestream_pos ≤ dec.codestream_copy.length

/-- Invariant of the protocol on a bare codestream `cs`: the cursor reads `cs`,
the caller's window ends where the decoder's does, the logical position of the
cursor is the total advanced, and every recorded span is a run of `cs` at the
position recorded with it. -/
structure Tracks (cs : List Nat) (f : Feeder E) : Prop where
  cursor : CursorTracks cs f.dec
  not_closed : f.dec.input_closed = false
  caller : f.caller_pos + f.chunk_len = f.dec.file_pos + f.dec.avail_in
  chunk : f.dec.avail_in ≤ f.chunk_len
  logical : f.logical = f.dec.logicalPos
  credit : f.credit ≤ f.dec.spanLength
  spans : ∀ p span, (p, span) ∈ f.spans → span <+: cs.drop p

end CursorSpec

/-! ## Skipping the current frame -/

section SkipCurrent
variable {E : Type}

/-- `JxlDecoderSkipCurrentFrame(dec)`. -/
def JxlDecoderSkipCurrentFrame (dec : JxlDecoder E) : JxlDecoderStatus × JxlDecoder E :=
  if !dec.frame_dec || !dec.frame_dec_in_progress then (JXL_DEC_ERROR, dec)
  else
    let dec1 :=
      ({ dec with frame_stage := FrameStage.kHeader }).AdvanceCodestream dec.remaining_frame_size
    let dec2 := { dec1 with frame_dec_in_progress := false }
    (JXL_DEC_SUCCESS,
      if dec2.is_last_of_still then { dec2 with image_out_buffer_set := false } else dec2)

end SkipCurrent

/-! ## jpegli bit writer: zero byte test -/

/-- `HasZeroByte(x)` of `lib/jpegli/bit_writer.h`, on `uint64_t` (arithmetic
modulo `2 ^ 64`): `(x - 0x0101010101010101ULL) & ~x & 0x8080808080808080ULL`. -/
def HasZeroByte (x : Nat) : Nat :=
  ((x + 2 ^ 64 - 0x0101010101010101) % 2 ^ 64) &&& (2 ^ 64 - 1 - x) &&& 0x8080808080808080

/-- Byte `k` of `x`, byte 0 being the least significant. -/
def byteOf (x k : Nat) : Nat := x / 256 ^ k % 256

/-! ## Gain map bundles (`lib/extras/gain_map.cc`) -/

section GainMap
variable {X C S : Type}

/-- `SwapByteOrder(uint32_t)` of `gain_map.cc`. -/
def SwapByteOrder32 (value : Nat) : Nat :=
  ((((value &&& 0x000000FF) <<< 24) ||| ((value &&& 0x0000FF00) <<< 8) |||
    ((value &&& 0x00FF0000) >>> 8) ||| ((value &&& 0xFF000000) >>> 24))) % 2 ^ 32

/-- `SwapByteOrder(uint16_t)` of `gain_map.cc`; the result is converted to
`uint16_t`. -/
def SwapByteOrder16 (value : Nat) : Nat :=
  (((value &&& 0x00FF) <<< 8) ||| ((value &&& 0xFF00) >>> 8)) % 2 ^ 16

/-- Modelled from the spec: the part of `jxl::Visitor` of `lib/jxl/fields.h`
(not among the sources) that `VisitFields` uses, over a bit stream state `S`:
`Bits(bits, default, &value)` takes the current value and gives the new one
(`none` for a failed status), `Conditional(condition)`, and `VisitNested` for
the nested colour encoding. -/
structure Visitor (S C : Type) where
  bits : Nat → Nat → S → Option (Nat × S)
  conditional : Bool → Bool
  visitNested : C → S → Option (C × S)

/-- `JxlGainMapBundleInternal`: the fields of the struct. -/
structure JxlGainMapBundleInternal (C : Type) where
  jhgm_version : Nat
  color_encoding_size : Nat
  color_encoding : C
  gain_map_metadata : List Nat
  compressed_icc : List Nat
  gain_map : List Nat

/-- The loops of `VisitFields` over a byte vector: each byte is promoted to
`uint32_t`, visited with `Bits(8, 0, &temp_u32)` and stored back as
`uint8_t`. -/
def visitBytes (v : Visitor S C) : List Nat → S → Option (List Nat × S)
  | [], s => some ([], s)
  | b :: rest, s =>
    match v.bits 8 b s with
    | none => none
    | some (t, s1) =>
      match visitBytes v rest s1 with
      | none => none
      | some (r, s2) => some (t % 256 :: r, s2)

/-- `JxlGainMapBundleInternal::VisitFields(visitor)`: the fields as the visit
leaves them and the state of the bit stream, `none` for a failed status. -/
def VisitFields (v : Visitor S C) (b : JxlGainMapBundleInternal C) (s : S) :
    Option (JxlGainMapBundleInternal C × S) :=
  match v.bits 8 b.jhgm_version s with
  | none => none
  | some (t0, s0) =>
    let jhgm_version := t0 % 256
    match v.bits 16 (SwapByteOrder16 (b.gain_map_metadata.length % 2 ^ 16)) s0 with
    | none => none
    | some (t1, s1) =>
      let temp_gain_map_metadata_size := SwapByteOrder16 (t1 % 2 ^ 16)
      match visitBytes v (resizeBytes b.gain_map_metadata temp_gain_map_metadata_size) s1 with
      | none => none
      | some (gain_map_metadata, s2) =>
        match v.bits 32 b.color_encoding_size s2 with
        | none => none
        | some (color_encoding_size, s3) =>
          let nested : Option (C × S) :=
            if v.conditional (decide (0 < color_encoding_size)) then
              v.visitNested b.color_encoding s3
            else some (b.color_encoding, s3)
          match nested with
          | none => none
          | some (color_encoding, s4) =>
            match v.bits 32 (SwapByteOrder32 (b.compressed_icc.length % 2 ^ 32)) s4 with
            | none => none
            | some (t5, s5) =>
              match visitBytes v (resizeBytes b.compressed_icc (SwapByteOrder32 t5)) s5 with
              | none => none
              | some (compressed_icc, s6) =>
                match v.bits 32 (SwapByteOrder32 (b.gain_map.length % 2 ^ 32)) s6 with
                | none => none
                | some (t7, s7) =>
                  match visitBytes v (resizeBytes b.gain_map (SwapByteOrder32 t7)) s7 with
                  | none => none
                  | some (gain_map, s8) =>
                    some ({ jhgm_version := jhgm_version
                            color_encoding_size := color_encoding_size
                            color_encoding := color_encoding
                            gain_map_metadata := gain_map_metadata
                            compressed_icc := compressed_icc
                            gain_map := gain_map }, s8)

/-- The `bits` low bits of `value`, least significant first. -/
def toBits : Nat → Nat → List Bool
  | 0, _ => []
  | bits + 1, value => decide (value % 2 = 1) :: toBits bits (value / 2)

/-- The value of a list of bits, least significant first. -/
def ofBits : List Bool → Nat
  | [] => 0
  | b :: rest => (if b then 1 else 0) + 2 * ofBits rest

/-- Modelled from the spec: the processing of the colour encoding and of the
ICC profile by code that is not among the sources. `fromExternal` and
`toExternal` are `ColorEncoding::FromExternal` and `ToExternal`,
`defaultColor` is a default-constructed `ColorEncoding`, `writeColor` gives
the bits that the writing visitor's `VisitNested` emits for a colour encoding
and `readColor` is the reading visitor's `VisitNested` on the bits that are
left (the value and the bits left after it); `writeICC` is `WriteICC` followed
by `ZeroPadToByte` (the bytes of the compressed profile) and `readICC` is
`ICCReader::Init` and `Process` followed by `Close` on such bytes. `none` is a
failed status. -/
structure GainMapEnv (X C : Type) where
  fromExternal : X → Option C
  toExternal : C → X
  defaultColor : C
  writeColor : C → Option (List Bool)
  readColor : List Bool → Option (C × List Bool)
  writeICC : List Nat → Option (List Nat)
  readICC : List Nat → Option (List Nat)

/-- Modelled from the spec: the visitor of `Bundle::Write`, on the bits
written so far. `Bits` fails for a value that does not fit in `bits` bits and
appends the bits otherwise; `Conditional` returns its argument. -/
def writeVisitor (env : GainMapEnv X C) : Visitor (List Bool) C where
  bits := fun bits value s =>
    if value < 2 ^ bits then some (value, s ++ toBits bits value) else none
  conditional := id
  visitNested := fun c s => (env.writeColor c).map fun cbits => (c, s ++ cbits)

/-- Modelled from the spec: the visitor of `Bundle::Read`, on the bits that
are left. `Bits` fails when fewer than `bits` bits are left (the bit reader
does not close then) and gives the value of the next `bits` bits otherwise;
`Conditional` returns its argument. -/
def readVisitor (env : GainMapEnv X C) : Visitor (List Bool) C where
  bits := fun bits _ s =>
    if bits ≤ s.length then some (ofBits (s.take bits), s.drop bits) else none
  conditional := id
  visitNested := fun _ s => env.readColor s

/-- Modelled from the spec: the bytes of a bit writer after `ZeroPadToByte`,
each byte holding eight bits, least significant first; the last byte is filled
up with zero bits. -/
def packBits : List Bool → List Nat
  | b0 :: b1 :: b2 :: b3 :: b4 :: b5 :: b6 :: b7 :: rest =>
    ofBits [b0, b1, b2, b3, b4, b5, b6, b7] :: packBits rest
  | [] => []
  | b0 :: rest => [ofBits (b0 :: rest)]

/-- Modelled from the spec: the bits that a bit reader finds in a buffer. -/
def unpackBits (bytes : List Nat) : List Bool := bytes.flatMap (toBits 8)

/-- `JxlGainMapBundle` of `jxl/gain_map.h`, with each buffer and its size
field as one list; `alt_icc` is `none` for a null pointer. -/
structure JxlGainMapBundle (X : Type) where
  jhgm_version : Nat
  gain_map_metadata : List Nat
  color_encoding_size : Nat
  color_encoding : X
  alt_icc : Option (List Nat)
  gain_map : List Nat

/-- The internal bundle that `JxlGainMapGetBundleSize` and
`JxlGainMapWriteBundle` set up from the caller's bundle; `none` for a failed
status of `FromExternal` or `WriteICC`. -/
def toInternal (env : GainMapEnv X C) (b : JxlGainMapBundle X) :
    Option (JxlGainMapBundleInternal C) :=
  match env.fromExternal b.color_encoding with
  | none => none
  | some c =>
    let compressed : Option (List Nat) :=
      match b.alt_icc with
      | some icc => env.writeICC icc
      | none => some []
    match compressed with
    | none => none
    | some compressed_icc =>
      some { jhgm_version := b.jhgm_version
             color_encoding_size := b.color_encoding_size
             color_encoding := c
             gain_map_metadata := b.gain_map_metadata
             compressed_icc := compressed_icc
             gain_map := b.gain_map }

/-- `JxlGainMapWriteBundle` for a bundle that is not null and an output buffer
that is large enough: the bytes written, `none` for `JXL_FALSE`. -/
def JxlGainMapWriteBundle (env : GainMapEnv X C) (b : JxlGainMapBundle X) :
    Option (List Nat) :=
  match toInternal env b with
  | none => none
  | some internal =>
    match VisitFields (writeVisitor env) internal [] with
    | none => none
    | some (_, written) => some (packBits written)

/-- The default-constructed internal bundle that the reading functions start
from. -/
def emptyInternal (env : GainMapEnv X C) : JxlGainMapBundleInternal C :=
  { jhgm_version := 0
    color_encoding_size := 0
    color_encoding := env.defaultColor
    gain_map_metadata := []
    compressed_icc := []
    gain_map := [] }

/-- The sizes that `JxlGainMapGetBufferSizes` stores in the bundle. -/
structure GainMapSizes where
  alt_icc_size : Nat
  gain_map_metadata_size : Nat
  color_encoding_size : Nat
  gain_map_size : Nat

/-- `JxlGainMapGetBufferSizes` on an input buffer that is not null: `none`
for a failed status. -/
def JxlGainMapGetBufferSizes (env : GainMapEnv X C) (input : List Nat) :
    Option GainMapSizes :=
  match VisitFields (readVisitor env) (emptyInternal env) (unpackBits input) with
  | none => none
  | some (internal, _) =>
    match env.readICC internal.compressed_icc with
    | none => none
    | some icc =>
      some { alt_icc_size := icc.length
             gain_map_metadata_size := internal.gain_map_metadata.length
             color_encoding_size := internal.color_encoding_size
             gain_map_size := internal.gain_map.length }

/-- The buffers of the bundle that `JxlGainMapReadBundle` fills, with the
fields it sets. -/
structure GainMapOutput (X : Type) where
  jhgm_version : Nat
  color_encoding_size : Nat
  color_encoding : X
  gain_map_metadata : List Nat
  alt_icc : List Nat
  gain_map : List Nat

/-- `JxlGainMapReadBundle` on a bundle and an input buffer that are not null,
where `metadata`, `alt_icc` and `gain_map` are the caller's buffers (their
lengths are the size fields of the bundle): a buffer is overwritten only if
its size is the size found in the input. `none` for `JXL_FALSE`. -/
def JxlGainMapReadBundle (env : GainMapEnv X C) (metadata alt_icc gain_map : List Nat)
    (input : List Nat) : Option (GainMapOutput X) :=
  match VisitFields (readVisitor env) (emptyInternal env) (unpackBits input) with
  | none => none
  | some (internal, _) =>
    match env.readICC internal.compressed_icc with
    | none => none
    | some icc =>
      some { jhgm_version := internal.jhgm_version
             color_encoding_size := internal.color_encoding_size
             color_encoding := env.toExternal internal.color_encoding
             gain_map_metadata :=
               if metadata.length = internal.gain_map_metadata.length then
                 internal.gain_map_metadata
               else metadata
             alt_icc := if alt_icc.length = icc.length then icc else alt_icc
             gain_map :=
               if gain_map.length = internal.gain_map.length then internal.gain_map
               else gain_map }

end GainMap

/-- The bits of a bundle in the order of `VisitFields`, followed by `rest`:
the version, the byte-swapped 16-bit size and the bytes of the metadata, the
32-bit `color_encoding_size`, the bits `cbits` of the colour encoding, and the
byte-swapped 32-bit sizes and the bytes of the compressed ICC profile and of
the gain map. -/
def bundleBits {C : Type} (b : JxlGainMapBundleInternal C) (cbits rest : List Bool) :
    List Bool :=
  toBits 8 b.jhgm_version ++
    (toBits 16 (SwapByteOrder16 b.gain_map_metadata.length) ++
      (b.gain_map_metadata.flatMap (toBits 8) ++
        (toBits 32 b.color_encoding_size ++
          (cbits ++
            (toBits 32 (SwapByteOrder32 b.compressed_icc.length) ++
              (b.compressed_icc.flatMap (toBits 8) ++
                (toBits 32 (SwapByteOrder32 b.gain_map.length) ++
                  (b.gain_map.flatMap (toBits 8) ++ rest))))))))

/-! ## Specification side of the section bookkeeping -/

section SectionSpec
variable {E : Type}

/-- Sum of the sizes of the entries of a table of contents. -/
def tocBytes (toc : List (Nat × Nat)) : Nat := (toc.map Prod.snd).sum

/-- The ids of the entries of a table of contents whose flag in
`section_processed` is not set, in the order of the table. -/
def unprocessedIds : List (Nat × Nat) → List Bool → List Nat
  | [], _ => []
  | _ :: _, [] => []
  | (id, _) :: toc, processed :: flags =>
    if processed then unprocessedIds toc flags else id :: unprocessedIds toc flags

/-- The bit readers as the table of contents places them: going through the
entries from `next_section` on, with `off` the sum of the sizes of all entries
passed, one reader (id, bytes) of `size` bytes at offset `off` of the span for
each entry that is not yet processed, up to the first such entry that does not
lie inside the span. -/
def sectionReaders (span : List Nat) : List (Nat × Nat) → List Bool → Nat → List (Nat × List Nat)
  | [], _, _ => []
  | _ :: _, [], _ => []
  | (id, size) :: toc, processed :: flags, off =>
    if processed then sectionReaders span toc flags (off + size)
    else if off + size ≤ span.length then
      (id, (span.drop off).take size) :: sectionReaders span toc flags (off + size)
    else []

/-- The number of statuses `kDone` at the head of a list of section statuses. -/
def leadingDone : List SectionStatus → Nat
  | SectionStatus.kDone :: rest => leadingDone rest + 1
  | _ => 0

/-- The flags of `section_processed` set in `dec` are set in `d`, and the
vector has the same length. -/
def FlagsKept (dec d : JxlDecoder E) : Prop :=
  d.section_processed.length = dec.section_processed.length ∧
  ∀ j : Nat, dec.section_processed[j]? = some true → d.section_processed[j]? = some true

/-- The state `d` has the skip counter and the section bookkeeping of the
state `dec`. -/
def SameBook (dec d : JxlDecoder E) : Prop :=
  d.skip_frames = dec.skip_frames ∧ d.next_section = dec.next_section ∧
  d.remaining_frame_size = dec.remaining_frame_size ∧
  d.section_processed = dec.section_processed

/-- The state in which a block of the frame loop ends, in whatever way it
ends, satisfies `Q` (nothing is said when an assertion fails). -/
def Ctl.Each (Q : JxlDecoder E → Prop) : Ctl E → Prop
  | Ctl.ret _ d => Q d
  | Ctl.next d => Q d
  | Ctl.again d => Q d
  | Ctl.stop d => Q d
  | Ctl.abort => True

/-- The frame headers registered one after the other from the state `dec`
on, each with the pair (marked as skipping, last of its still) that
`registerFrame` leaves, up to the state `dlast`. Between two headers the
decoder may change the state in any way that leaves `skip_frames` as it is (as
the other blocks of the frame loop do). -/
inductive HeaderRun (env : FrameEnv E) : JxlDecoder E → List (Bool × Bool) → JxlDecoder E → Prop
  | done (dec dlast : JxlDecoder E) (hlast : dlast.skip_frames = dec.skip_frames) :
      HeaderRun env dec [] dlast
  | header (dec d dnext dlast : JxlDecoder E) (i : Nat) (rest : List (Bool × Bool))
      (hreg : registerFrame env dec = some (i, d))
      (hbetween : dnext.skip_frames = d.skip_frames)
      (hrest : HeaderRun env dnext rest dlast) :
      HeaderRun env dec ((d.skipping_frame, d.is_last_of_still) :: rest) dlast

/-- The number of frames before position `k` of a run of frame headers that
are the last of their still: the number of externally visible frames completed
before the frame at position `k`. -/
def stillsBefore (log : List (Bool × Bool)) (k : Nat) : Nat :=
  ((log.take k).filter Prod.snd).length

end SectionSpec

/-! ## Specification side of the skip logic and of the Full stage -/

section FrameSpec
variable {E : Type}

/-- The progress in either result of `applySectionStatus`. -/
def progressOf : Except SectionProgress SectionProgress → SectionProgress
  | Except.ok p => p
  | Except.error p => p

/-- The state `d` has the fields of the skip logic of the state `dec`. -/
def SkipKept (dec d : JxlDecoder E) : Prop :=
  d.skip_frames = dec.skip_frames ∧ d.skipping_frame = dec.skipping_frame ∧
  d.coalescing = dec.coalescing ∧ d.is_last_of_still = dec.is_last_of_still

/-- What the header stage does to the fields of the skip logic: it leaves them
as they are, or the header is of a frame that is not the preview and they are
as `registerFrame` leaves them. -/
def HeaderSkip (env : FrameEnv E) (dec d : JxlDecoder E) : Prop :=
  SkipKept dec d ∨
  (dec.preview_frame = false ∧ ∃ dh i dr, registerFrame env dh = some (i, dr) ∧
    dh.skip_frames = dec.skip_frames ∧ dh.coalescing = dec.coalescing ∧
    d.skip_frames = dr.skip_frames ∧ d.skipping_frame = dr.skipping_frame ∧
    d.is_last_of_still = dr.is_last_of_still)

end FrameSpec

/-! ## Row stride of the pixel output -/

section OutputStride
variable {E : Type}

/-- `GetStride(dec, format)`: the row stride in bytes used when pixels are
written. -/
def GetStride (env : DimEnv E) (dec : JxlDecoder E) (format : JxlPixelFormat) : Nat :=
  let dims := GetCurrentDimensions env dec true
  let stride :=
    sizeMul dims.1 (sizeMul (BitsPerChannel format.data_type) format.num_channels / 8)
  if format.align > 1 then sizeMul (DivCeil stride format.align) format.align
  else stride

end OutputStride

/-! ## Specification side of the frame ledger -/

section LedgerSpec
variable {E : Type}

/-- The size invariant of the dependency ledger: `frame_saved_as` and
`frame_references` have the same size, which is at least `internal_frames`,
and `frame_external_to_internal` has at least `external_frames` entries. -/
def LedgerOk (dec : JxlDecoder E) : Prop :=
  dec.frame_saved_as.length = dec.frame_references.length ∧
  dec.internal_frames ≤ dec.frame_saved_as.length ∧
  dec.external_frames ≤ dec.frame_external_to_internal.length

/-- From `dec` to `d` the flag `input_closed` is kept and the size invariant of
the ledger is preserved. -/
def Steady (dec d : JxlDecoder E) : Prop :=
  d.input_closed = dec.input_closed ∧ (LedgerOk dec → LedgerOk d)

end LedgerSpec

section LedgerReachSpec
variable {E : Type}

/-- The decoder states reached from a new decoder through the registration of
frame headers (by itself, or inside a call of `JxlDecoderProcessInput`),
`JxlDecoderRewind`, `JxlDecoderReset`, `JxlDecoderSkipFrames`, and through
steps that write neither the two frame counters nor the three vectors of the
ledger other than entries of `frame_references`. -/
inductive LedgerReach (env : BoxEnv E) (rewindExt : E → E) : JxlDecoder E → Prop
  | create (ext : E) : LedgerReach env rewindExt (JxlDecoderCreate rewindExt ext)
  | register {dec d : JxlDecoder E} {i : Nat} : LedgerReach env rewindExt dec →
      registerFrame env.toFrameEnv dec = some (i, d) → LedgerReach env rewindExt d
  | process {dec d : JxlDecoder E} {st : JxlDecoderStatus} {fuel : Nat} :
      LedgerReach env rewindExt dec →
      JxlDecoderProcessInput (HandleBoxes env fuel) dec = some (st, d) →
      LedgerReach env rewindExt d
  | rewind {dec : JxlDecoder E} : LedgerReach env rewindExt dec →
      LedgerReach env rewindExt (JxlDecoderRewind rewindExt dec)
  | reset {dec : JxlDecoder E} : LedgerReach env rewindExt dec →
      LedgerReach env rewindExt (JxlDecoderReset rewindExt dec)
  | skip {dec d : JxlDecoder E} {amount : Nat} : LedgerReach env rewindExt dec →
      JxlDecoderSkipFrames dec amount = some d → LedgerReach env rewindExt d
  | other {dec d : JxlDecoder E} : LedgerReach env rewindExt dec →
      d.frame_saved_as = dec.frame_saved_as →
      d.frame_references.length = dec.frame_references.length →
      d.frame_external_to_internal = dec.frame_external_to_internal →
      d.internal_frames = dec.internal_frames →
      d.external_frames = dec.external_frames → LedgerReach env rewindExt d

end LedgerReachSpec

/-! ## Specification side of the decision to pass over a frame -/

section SkipDecisionSpec
variable {E : Type}

/-- The frame at hand, with internal index `i`, cannot be referenced (it is
neither `CanBeReferenced()` nor a DC frame), or `frame_required` has an entry
for it and the entry is zero. -/
def Unreferenced (env : FrameEnv E) (i : Nat) (dec : JxlDecoder E) : Prop :=
  (env.canBeReferenced dec.ext = false ∧ env.isDCFrame dec.ext = false) ∨
  (i < dec.frame_required.length ∧ dec.frame_required[i]? = some false)

end SkipDecisionSpec

/-! ## Output callback and basic info getter -/

section OutputCallback
variable {E : Type}

/-- `JxlDecoderSetMultithreadedImageOutCallback(dec, format, init_callback,
run_callback, destroy_callback, init_opaque)`; the callbacks and the opaque
pointer are the addresses given. -/
def JxlDecoderSetMultithreadedImageOutCallback (dec : JxlDecoder E) (format : JxlPixelFormat)
    (init_callback run_callback destroy_callback init_opaque : Nat) :
    JxlDecoderStatus × JxlDecoder E :=
  if dec.image_out_buffer_set && decide (dec.image_out_buffer ≠ 0) then (JXL_DEC_ERROR, dec)
  else if init_callback = 0 ∨ run_callback = 0 ∨ destroy_callback = 0 then (JXL_DEC_ERROR, dec)
  else
    let p := PrepareSizeCheck dec format
    if p.1 ≠ JXL_DEC_SUCCESS then (p.1, dec)
    else
      (JXL_DEC_SUCCESS,
        { dec with
          image_out_buffer_set := true
          image_out_init_callback := init_callback
          image_out_run_callback := run_callback
          image_out_destroy_callback := destroy_callback
          image_out_init_opaque := init_opaque
          image_out_format := format })

/-- The status of `JxlDecoderGetBasicInfo(dec, info)`; what it writes to `info`
is read from the parsed metadata and is not part of the state. -/
def JxlDecoderGetBasicInfo (dec : JxlDecoder E) : JxlDecoderStatus :=
  if !dec.got_basic_info then JXL_DEC_NEED_MORE_INPUT else JXL_DEC_SUCCESS

end OutputCallback

/-! ## jpegli bit writer (`lib/jpegli/bit_writer.h`) -/

/-- `struct JpegBitWriter`. The destination `cinfo` is represented by the
bytes `flushed` that `WriteOutput` has handed to it; `data` holds the bytes
`data[0 .. pos)` of the buffer, so that `pos` is its length. -/
structure JpegBitWriter where
  flushed : List Nat
  data : List Nat
  put_buffer : Nat
  free_bits : Int
  healthy : Bool

/-- `kJpegBitWriterChunkSize`. -/
def kJpegBitWriterChunkSize : Nat := 16384

/-- `JpegBitWriterInit(bw, cinfo)`, for a destination that has received
nothing yet. -/
def JpegBitWriterInit : JpegBitWriter :=
  { flushed := [], data := [], put_buffer := 0, free_bits := 64, healthy := true }

/-- `EmptyBitWriterBuffer(bw)`: `WriteOutput` hands the bytes of the buffer to
the destination. -/
def EmptyBitWriterBuffer (bw : JpegBitWriter) : JpegBitWriter :=
  { bw with flushed := bw.flushed ++ bw.data, data := [] }

/-- `Reserve(bw, n_bytes)`. -/
def Reserve (bw : JpegBitWriter) (n_bytes : Nat) : JpegBitWriter :=
  if bw.data.length + n_bytes > kJpegBitWriterChunkSize then EmptyBitWriterBuffer bw else bw

/-- `EmitByte(bw, byte)`; the store into the `uint8_t` buffer keeps the low 8
bits. -/
def EmitByte (bw : JpegBitWriter) (byte : Nat) : JpegBitWriter :=
  let bw1 := { bw with data := bw.data ++ [byte % 256] }
  if byte = 0xFF then { bw1 with data := bw1.data ++ [0] } else bw1

/-- The shift `x << k` on `uint64_t`. (C++ defines it for `k < 64` only;
`JumpToByteBoundary` shifts by 64 when the bit buffer is empty and does not use
the result.) -/
def shl64 (x k : Nat) : Nat := (x <<< k) % 2 ^ 64

/-- `DischargeBitBuffer(bw)`. -/
def DischargeBitBuffer (bw : JpegBitWriter) : JpegBitWriter :=
  let bw1 := Reserve bw 16
  if HasZeroByte (2 ^ 64 - 1 - bw1.put_buffer) ≠ 0 then
    let b0 := EmitByte bw1 ((bw1.put_buffer >>> 56) &&& 0xFF)
    let b1 := EmitByte b0 ((bw1.put_buffer >>> 48) &&& 0xFF)
    let b2 := EmitByte b1 ((bw1.put_buffer >>> 40) &&& 0xFF)
    let b3 := EmitByte b2 ((bw1.put_buffer >>> 32) &&& 0xFF)
    let b4 := EmitByte b3 ((bw1.put_buffer >>> 24) &&& 0xFF)
    let b5 := EmitByte b4 ((bw1.put_buffer >>> 16) &&& 0xFF)
    let b6 := EmitByte b5 ((bw1.put_buffer >>> 8) &&& 0xFF)
    EmitByte b6 ((bw1.put_buffer >>> 0) &&& 0xFF)
  else
    { bw1 with
      data := bw1.data ++
        [(bw1.put_buffer >>> 56) &&& 0xFF, (bw1.put_buffer >>> 48) &&& 0xFF,
         (bw1.put_buffer >>> 40) &&& 0xFF, (bw1.put_buffer >>> 32) &&& 0xFF,
         (bw1.put_buffer >>> 24) &&& 0xFF, (bw1.put_buffer >>> 16) &&& 0xFF,
         (bw1.put_buffer >>> 8) &&& 0xFF, (bw1.put_buffer >>> 0) &&& 0xFF] }

/-- `WriteBits(bw, nbits, bits)`, for `nbits ≥ 0`. -/
def WriteBits (bw : JpegBitWriter) (nbits bits : Nat) : JpegBitWriter :=
  if nbits = 0 then { bw with healthy := false }
  else
    let bw1 : JpegBitWriter := { bw with free_bits := bw.free_bits - (nbits : Int) }
    let bw2 :=
      if bw1.free_bits < (0 : Int) then
        let pb := shl64 bw1.put_buffer (bw1.free_bits + (nbits : Int)).toNat
        let pb1 := pb ||| (bits >>> (-bw1.free_bits).toNat)
        let d := DischargeBitBuffer { bw1 with put_buffer := pb1 }
        { d with free_bits := d.free_bits + 64, put_buffer := nbits }
      else bw1
    { bw2 with put_buffer := shl64 bw2.put_buffer nbits ||| bits }

/-- The loop `while (bw->free_bits <= 56)` of `JumpToByteBoundary`, for at
most `fuel` passes. -/
def flushBytes : Nat → JpegBitWriter → JpegBitWriter
  | 0, bw => bw
  | fuel + 1, bw =>
    if bw.free_bits ≤ 56 then
      let e := EmitByte bw ((bw.put_buffer >>> 56) &&& 0xFF)
      flushBytes fuel { e with put_buffer := shl64 e.put_buffer 8, free_bits := e.free_bits + 8 }
    else bw

/-- `JumpToByteBoundary(bw)`. The loop ends after `(64 - free_bits) / 8`
passes, which is the fuel given to it. -/
def JumpToByteBoundary (bw : JpegBitWriter) : JpegBitWriter :=
  let n_bits := (bw.free_bits % 2 ^ 32).toNat &&& 7
  let bw1 := if n_bits > 0 then WriteBits bw n_bits ((1 <<< n_bits) - 1) else bw
  let bw2 := Reserve bw1 16
  let bw3 := { bw2 with put_buffer := shl64 bw2.put_buffer bw2.free_bits.toNat }
  let bw4 := flushBytes ((64 - bw3.free_bits) / 8).toNat bw3
  { bw4 with put_buffer := 0, free_bits := 64 }

/-! ## Specification side of the bit writer -/

/-- The `n` low bits of `b`, most significant first. -/
def msbBits : Nat → Nat → List Bool
  | 0, _ => []
  | n + 1, b => b.testBit n :: msbBits n b

/-- The value of a list of bits, most significant first. -/
def msbValue (l : List Bool) : Nat :=
  l.foldl (fun acc bit => 2 * acc + (if bit then 1 else 0)) 0

/-- The bytes of a list of bits, eight bits to a byte, most significant
first; bits of an incomplete last byte are left out. -/
def msbBytes : List Bool → List Nat
  | b0 :: b1 :: b2 :: b3 :: b4 :: b5 :: b6 :: b7 :: rest =>
    msbValue [b0, b1, b2, b3, b4, b5, b6, b7] :: msbBytes rest
  | _ => []

/-- Byte stuffing: a `0x00` byte after every `0xFF` byte. -/
def stuffBytes : List Nat → List Nat
  | [] => []
  | b :: rest => if b = 0xFF then b :: 0 :: stuffBytes rest else b :: stuffBytes rest

/-- The 1 bits that fill a bit string of length `len` up to the next byte
boundary. -/
def padBits (len : Nat) : List Bool := List.replicate ((8 - len % 8) % 8) true

/-- The concatenation of the values written, each as `nbits` bits, most
significant first. -/
def writtenBits (ws : List (Nat × Nat)) : List Bool := ws.flatMap fun w => msbBits w.1 w.2

/-- The bytes emitted so far, wherever the buffer was flushed. -/
def JpegBitWriter.emitted (bw : JpegBitWriter) : List Nat := bw.flushed ++ bw.data

/-- The calls `WriteBits(bw, nbits, bits)` for the pairs of `ws`, in order. -/
def writeAll (ws : List (Nat × Nat)) (bw : JpegBitWriter) : JpegBitWriter :=
  ws.foldl (fun b w => WriteBits b w.1 w.2) bw

/-- The `m` low bytes of `v`, most significant first. -/
def beBytes : Nat → Nat → List Nat
  | 0, _ => []
  | m + 1, v => (v / 2 ^ (8 * m) % 256) :: beBytes m v

/-! ## Specification side of the bit writer: the invariant -/

/-- The state of a bit writer after the bits `bits` have been written: the
fields are in range, and `bits` is a run `E` of whole bytes, which have been
emitted with byte stuffing, followed by the `64 - free_bits` bits `P` that are
the low bits of `put_buffer`. -/
structure WriterInv (bw : JpegBitWriter) (bits : List Bool) : Prop where
  lo : 0 ≤ bw.free_bits
  hi : bw.free_bits ≤ 64
  pb : bw.put_buffer < 2 ^ 64
  room : bw.data.length ≤ kJpegBitWriterChunkSize
  healthy : bw.healthy = true
  split : ∃ (k : Nat) (E P : List Bool), bits = E ++ P ∧ E.length = 8 * k ∧
    (P.length : Int) = 64 - bw.free_bits ∧ bw.put_buffer % 2 ^ P.length = msbValue P ∧
    bw.emitted = stuffBytes (msbBytes E)

/-! ## Specification side of the stage and of the closed input -/

section StartedSpec
variable {E : Type}

/-- From `dec` to `d` the stage does not go back to `kInited`: when it is not
`kInited` in `dec`, it is not in `d`. -/
structure StaysStarted (dec d : JxlDecoder E) : Prop where
  stays : dec.stage ≠ DecoderStage.kInited → d.stage ≠ DecoderStage.kInited

end StartedSpec

section ClosedSpec
variable {E : Type}

/-- The decoder states after a call of `JxlDecoderCloseInput` and before the
next `JxlDecoderRewind` or `JxlDecoderReset`: the state the call leaves, and
the states reached from it through calls of `JxlDecoderProcessInput`,
`JxlDecoderSetInput` and `JxlDecoderReleaseInput` and through steps that do not
write `input_closed` (every other function of the API). -/
inductive ClosedSince (env : BoxEnv E) : JxlDecoder E → Prop
  | close (dec : JxlDecoder E) : ClosedSince env (JxlDecoderCloseInput dec)
  | process {dec d : JxlDecoder E} {st : JxlDecoderStatus} {fuel : Nat} :
      ClosedSince env dec →
      JxlDecoderProcessInput (HandleBoxes env fuel) dec = some (st, d) → ClosedSince env d
  | setInput {dec : JxlDecoder E} (data : Option (List Nat)) (size : Nat) :
      ClosedSince env dec → ClosedSince env (JxlDecoderSetInput dec data size).2
  | releaseInput {dec : JxlDecoder E} :
      ClosedSince env dec → ClosedSince env (JxlDecoderReleaseInput dec).2
  | other {dec d : JxlDecoder E} : ClosedSince env dec →
      d.input_closed = dec.input_closed → ClosedSince env d

end ClosedSpec

/-! ## Concrete decoders and environments for the examples -/

/-- A decoder in the state in which `JxlDecoderProcessCodestream` first runs on
a bare codestream: created, started, signature recognised, the content range
unbounded, and `input` set as the caller's window. There are no external
objects (`E = Unit`). -/
def demoBare (input : List Nat) : JxlDecoder Unit :=
  { JxlDecoderCreate id () with
    stage := DecoderStage.kStarted
    got_signature := true
    last_codestream_seen := true
    box_stage := BoxStage.kCodestream
    box_contents_unbounded := true
    next_in := some input
    avail_in := input.length }

/-- A decoder at the start of a bare codestream, before the first
`JxlDecoderSetInput`. -/
def demoBareStart : JxlDecoder Unit :=
  { JxlDecoderCreate id () with
    stage := DecoderStage.kStarted
    got_signature := true
    last_codestream_seen := true
    box_stage := BoxStage.kCodestream
    box_contents_unbounded := true }

/-- A header environment in which the size bundle takes 2 bytes and the image
metadata bundle takes 3 more bits (it starts with a fourth byte), and the
image is `xsize` by `ysize`. -/
def demoHeaderEnv (xsize ysize : Nat) : HeaderEnv Unit where
  canReadSize := fun _ span bits => some (decide (bits + 16 ≤ 8 * span.length), ())
  readSize := fun _ _ bits => (true, bits + 16, ())
  canReadMeta := fun _ span bits => some (decide (bits + 3 ≤ 8 * span.length), ())
  readMeta := fun _ _ bits => (true, bits + 3, ())
  xsize := fun _ => xsize
  ysize := fun _ => ysize

/-- A decoder with a ledger of five frames, the first four of them externally
visible before a rewind, which has since seen one external frame again. -/
def demoLedger : JxlDecoder Unit :=
  { JxlDecoderCreate id () with
    frame_saved_as := [1, 2, 1, 4, 0]
    frame_references := [0, 1, 2, 1, 4]
    frame_external_to_internal := [0, 1, 2, 4]
    external_frames := 1
    internal_frames := 1 }

/-- A new decoder whose first input is the single byte `01`, which starts
neither signature. -/
def demoBadSignature : JxlDecoder Unit :=
  (JxlDecoderSetInput (JxlDecoderCreate id ()) (some [0x01]) 1).2

/-- The decoder `demoBadSignature` after the `JxlDecoderProcessInput` call that
returns `JXL_DEC_ERROR`, with the input released and the single byte `ff` set as
the next input. -/
def demoRetry : JxlDecoder Unit :=
  (JxlDecoderSetInput
    (JxlDecoderReleaseInput { demoBadSignature with stage := DecoderStage.kStarted }).2
    (some [0xff]) 1).2

/-- The same decoder with the codestream signature `ff 0a` set as the next
input instead. -/
def demoRetryCodestream : JxlDecoder Unit :=
  (JxlDecoderSetInput
    (JxlDecoderReleaseInput { demoBadSignature with stage := DecoderStage.kStarted }).2
    (some [0xff, 0x0a]) 2).2

/-- The decoder `demoRetryCodestream` once its signature has been accepted. -/
def demoSigned : JxlDecoder Unit :=
  { demoRetryCodestream with got_signature := true, last_codestream_seen := true }

/-- A frame environment without state: the headers of `demoHeaderEnv 100 100`,
a transform data bundle of 2 bits, no ICC profile and no preview, and frames
whose header takes 2 bytes and that are the last frame of the codestream, with
one section of 4 bytes that decodes at once. -/
def demoFrameEnv : FrameEnv Unit where
  toHeaderEnv := demoHeaderEnv 100 100
  canReadTransform := fun _ span bits => some (decide (bits + 2 ≤ 8 * span.length), ())
  readTransform := fun _ _ bits => (true, bits + 2, ())
  setXybEncoded := id
  wantICC := fun _ => false
  iccInit := fun _ _ bits _ => (StatusKind.ok, true, bits, ())
  iccProcess := fun _ _ bits => (StatusKind.ok, bits, ())
  setICCRaw := fun _ => (true, ())
  jumpToByteBoundary := fun _ bits => (true, (bits + 7) / 8 * 8)
  setFromMetadata := fun _ _ => (true, ())
  have_preview := fun _ => false
  ensureThreadPool := id
  setImageBundleJpegData := fun _ => (true, ())
  newFrameDecoder := id
  initFrame := fun _ span _ _ =>
    (if span.length < 2 then StatusKind.notEnoughBytes else StatusKind.ok,
      decide (2 ≤ span.length), 16, ())
  storeFrameHeader := id
  xsize_upsampled_padded := fun _ => 104
  ysize_upsampled_padded := fun _ => 104
  frame_xsize := fun _ => 100
  frame_ysize := fun _ => 100
  sumSectionSizes := fun _ => 4
  savedAs := fun _ => 0
  is_last := fun _ => true
  duration := fun _ => 0
  isRegularFrame := fun _ => true
  isDCFrame := fun _ => false
  canBeReferenced := fun _ => false
  toc := fun _ => [(0, 4)]
  setupToc := fun e _ _ => e
  setPauseAtProgressive := fun e detail => (detail, e)
  jpegOutput := fun _ => false
  isLittleEndian := true
  maybeSetRGB8 := fun dec => dec.ext
  maybeSetFloatCallback := fun dec => dec.ext
  nextNumPassesToPause := fun _ => 0
  processSections := fun e info => (true, info.map fun _ => SectionStatus.kDone, true, true, e)
  hasDecodedAll := fun _ => true
  hasDecodedDC := fun _ => true
  numCompletePasses := fun _ => 1
  downsamplingTarget := fun _ _ => 1
  references := fun _ => 0
  finalizeFrame := fun e => (true, e)
  hasRGBBuffer := fun _ => false
  convertPreview := fun dec => (true, dec.ext)
  convertImage := fun dec => (true, dec.ext)
  convertExtraChannel := fun dec _ => some (true, dec.ext)
  hasExtraChannels := fun _ => false
  resetImage := id

/-- A decoder on a bare codestream of ten bytes that starts with the signature,
subscribed to `JXL_DEC_BASIC_INFO | JXL_DEC_COLOR_ENCODING | JXL_DEC_FRAME`. -/
def demoSubscribed : JxlDecoder Unit :=
  { demoBare [0xff, 0x0a, 1, 2, 3, 4, 5, 6, 7, 8] with
    events_wanted := 0x540
    orig_events_wanted := 0x540 }

/-- The decoder `demoSubscribed` after the call that returns
`JXL_DEC_BASIC_INFO`: signature and two whole bytes of the headers consumed,
three bits ahead, the event bit cleared. -/
def demoAfterBasicInfo : JxlDecoder Unit :=
  { demoBare [3, 4, 5, 6, 7, 8] with
    file_pos := 4
    got_codestream_signature := true
    got_basic_info := true
    codestream_bits_ahead := 3
    basic_info_size_hint := 0
    events_wanted := 0x500
    orig_events_wanted := 0x540 }

/-- The decoder `demoAfterBasicInfo` after the call that returns
`JXL_DEC_COLOR_ENCODING`. -/
def demoAfterColorEncoding : JxlDecoder Unit :=
  { demoBare [4, 5, 6, 7, 8] with
    file_pos := 5
    got_codestream_signature := true
    got_basic_info := true
    got_transform_data := true
    got_all_headers := true
    basic_info_size_hint := 0
    events_wanted := 0x400
    orig_events_wanted := 0x540 }

/-- The decoder `demoAfterColorEncoding` after the call that returns
`JXL_DEC_FRAME`: the frame header is consumed and the frame is entered in the
ledger. -/
def demoAfterFrame : JxlDecoder Unit :=
  { demoBare [6, 7, 8] with
    file_pos := 7
    got_codestream_signature := true
    got_basic_info := true
    got_transform_data := true
    got_all_headers := true
    post_headers := true
    basic_info_size_hint := 0
    frame_dec := true
    remaining_frame_size := 4
    frame_stage := FrameStage.kTOC
    is_last_total := true
    is_last_of_still := true
    external_frames := 1
    internal_frames := 1
    frame_external_to_internal := [0]
    frame_saved_as := [0]
    frame_references := [0xff]
    events_wanted := 0x400
    orig_events_wanted := 0x540 }

/-- A new decoder on which `JxlDecoderSetProgressiveDetail(kPasses)` has been
called. -/
def demoDetailSet : JxlDecoder Unit :=
  (JxlDecoderSetProgressiveDetail (JxlDecoderCreate id ()) JxlProgressiveDetail.kPasses).2

/-- An environment for the output sizes of an image of 10 by 5 pixels in
colour, without preview. -/
def demoDimEnv : DimEnv Unit where
  isPreviewHeader := fun _ => false
  oriented_preview_xsize := fun _ _ => 0
  oriented_preview_ysize := fun _ _ => 0
  oriented_xsize := fun _ _ => 10
  oriented_ysize := fun _ _ => 5
  xsize_upsampled := fun _ => 10
  ysize_upsampled := fun _ => 5
  orientation := fun _ => 1
  isGray := fun _ => false

/-- A decoder that has the basic info and was subscribed to
`JXL_DEC_FULL_IMAGE`. -/
def demoWantsImage : JxlDecoder Unit :=
  { JxlDecoderCreate id () with
    stage := DecoderStage.kStarted
    got_basic_info := true
    events_wanted := 0x1000
    orig_events_wanted := 0x1000 }

/-- The pixel format of three 8-bit channels without alignment. -/
def demoRGB8 : JxlPixelFormat :=
  ⟨3, JxlDataType.JXL_TYPE_UINT8, JxlEndianness.JXL_NATIVE_ENDIAN, 0⟩

/-- A length-extended box header: 32-bit size 1, type `jxlc`, 64-bit size
`0x20`. -/
def demoLongHeader : List Nat :=
  [0, 0, 0, 1] ++ boxTag "jxlc" ++ [0, 0, 0, 0, 0, 0, 0, 0x20]

/-- A window of 20 bytes that starts with the short header of a `jxlc` box of
size `0x10`. -/
def demoShortHeader : List Nat :=
  [0, 0, 0, 0x10] ++ boxTag "jxlc" ++ [1, 2, 3, 4, 5, 6, 7, 8] ++ [0, 0, 0, 0]

/-- A box environment without state on top of `demoFrameEnv`: the content
decoders produce nothing and ask for more input, the JPEG reconstruction
decoder consumes its input and asks for more, and there are no Exif or XMP
markers. -/
def demoBoxEnv : BoxEnv Unit where
  toFrameEnv := demoFrameEnv
  boxContentProcess := fun dec => (JXL_DEC_NEED_MORE_INPUT, 0, dec.ext)
  metadataProcess := fun dec _ => (JXL_DEC_NEED_MORE_INPUT, [], dec.ext)
  setExif := fun e _ => (JXL_DEC_SUCCESS, e)
  setXmp := fun e _ => (JXL_DEC_SUCCESS, e)
  writeOutput := fun e => (JXL_DEC_SUCCESS, e)
  boxStart := fun e _ _ _ => e
  metadataStart := fun e _ _ _ => e
  jpegIsParsingBox := fun _ => false
  jpegStartBox := fun e _ _ => e
  jpegProcess := fun dec => (JXL_DEC_NEED_MORE_INPUT, dec.avail_in, dec.ext)
  numExifMarkers := fun _ => 0
  numXmpMarkers := fun _ => 0
  exifBoxContentSize := fun _ n => (true, n)
  xmlBoxContentSize := fun _ n => (true, n)

/-- The 12 bytes of the container signature box. -/
def demoSignatureBox : List Nat :=
  [0, 0, 0, 0xC, 0x4A, 0x58, 0x4C, 0x20, 0xD, 0xA, 0x87, 0xA]

/-- A file type box of 20 bytes with the major brand `jxl `. -/
def demoFtypBox : List Nat :=
  [0, 0, 0, 0x14] ++ boxTag "ftyp" ++ boxTag "jxl " ++ [0, 0, 0, 0] ++ boxTag "jxl "

/-- A `jxlc` box of 19 bytes with a codestream of 11 bytes, which is complete
for `demoFrameEnv`. -/
def demoJxlcBox : List Nat :=
  [0, 0, 0, 0x13] ++ boxTag "jxlc" ++ [0xff, 0x0a, 1, 2, 3, 4, 5, 6, 7, 8, 9]

/-- A `jxlp` box with index 0 (not the last part) that holds the first two
bytes of that codestream. -/
def demoJxlpPart : List Nat :=
  [0, 0, 0, 0x0E] ++ boxTag "jxlp" ++ [0, 0, 0, 0] ++ [0xff, 0x0a]

/-- A `jxlp` box with index `0x80000000` (the last part) that holds the first
two bytes of that codestream. -/
def demoJxlpLast : List Nat :=
  [0, 0, 0, 0x0E] ++ boxTag "jxlp" ++ [0x80, 0, 0, 0] ++ [0xff, 0x0a]

/-- A `jxlc` box of 17 bytes that holds the other nine bytes of that
codestream. -/
def demoJxlcRest : List Nat :=
  [0, 0, 0, 0x11] ++ boxTag "jxlc" ++ [1, 2, 3, 4, 5, 6, 7, 8, 9]

/-- A new decoder subscribed to `events` with the whole of `file` set as its
input. -/
def demoStart (events : Nat) (file : List Nat) : JxlDecoder Unit :=
  (JxlDecoderSetInput (JxlDecoderSubscribeEvents (JxlDecoderCreate id ()) events).2
    (some file) file.length).2

/-- A container whose fourth box has the bytes `ff 0a 00 00` in its size field
and the type `ftyp`. -/
def demoLateFtyp : List Nat :=
  demoSignatureBox ++ demoFtypBox ++ demoJxlcBox ++ [0xff, 0x0a, 0, 0] ++ boxTag "ftyp"

/-- A container whose fourth box is an `ftyp` box of size 8. -/
def demoLateFtypSmall : List Nat :=
  demoSignatureBox ++ demoFtypBox ++ demoJxlcBox ++ [0, 0, 0, 8] ++ boxTag "ftyp"

/-- A container whose second box is a `jxlc` box. -/
def demoNoFtyp : List Nat := demoSignatureBox ++ demoJxlcBox

/-- A container with a `jxlp` box that is not the last part, followed by a
`jxlc` box with the rest of the codestream. -/
def demoPartThenComplete : List Nat :=
  demoSignatureBox ++ demoFtypBox ++ demoJxlpPart ++ demoJxlcRest

/-- A container with a last `jxlp` box followed by a `jxlc` box. -/
def demoLastThenComplete : List Nat :=
  demoSignatureBox ++ demoFtypBox ++ demoJxlpLast ++ demoJxlcRest

/-- A container with a last `jxlp` box followed by another `jxlp` box. -/
def demoLastThenPart : List Nat :=
  demoSignatureBox ++ demoFtypBox ++ demoJxlpLast ++ demoJxlpPart

/-- A container with two `jxlc` boxes. -/
def demoTwoComplete : List Nat :=
  demoSignatureBox ++ demoFtypBox ++ demoJxlcBox ++ demoJxlcBox

/-- A container that ends in an unbounded box of type `abcd`, of which three
bytes of content are there. -/
def demoUnboundedLast : List Nat :=
  demoSignatureBox ++ demoFtypBox ++ demoJxlcBox ++ [0, 0, 0, 0] ++ boxTag "abcd" ++ [1, 2, 3]

/-- The decoder subscribed to `JXL_DEC_BOX` on `demoUnboundedLast` after the
four calls of `JxlDecoderProcessInput` that return `JXL_DEC_BOX`: it is about
to skip the unbounded box, whose header of eight bytes and three bytes of
content are the rest of the input. -/
def demoSkipping : JxlDecoder Unit :=
  ((processInputCalls (HandleBoxes demoBoxEnv 10) 4 (demoStart 0x4000 demoUnboundedLast)).map
    Prod.snd).getD (JxlDecoderCreate id ())

/-- The decoder on the container `demoNoFtyp` once its signature box has been
skipped: at the header of the second box, a `jxlc` box. -/
def demoAtSecondBox : JxlDecoder Unit :=
  { demoStart 0 demoJxlcBox with
    stage := DecoderStage.kStarted
    got_signature := true
    have_container := true
    box_type := boxTag "JXL "
    box_decoded_type := boxTag "JXL "
    box_count := 1
    file_pos := 12 }

/-- The decoder subscribed to `JXL_DEC_BASIC_INFO` on `demoLastThenPart` after
the call of `JxlDecoderProcessInput` that returns `JXL_DEC_ERROR`: the last
`jxlp` box has been accepted and the decoder is at the content of the `jxlp`
box after it. -/
def demoAfterLast : JxlDecoder Unit :=
  ((processInputCalls (HandleBoxes demoBoxEnv 10) 1 (demoStart 0x40 demoLastThenPart)).map
    Prod.snd).getD (JxlDecoderCreate id ())

/-- The decoder `demoSkipping` once the caller has set a box output buffer of
16 bytes for the unbounded box. -/
def demoSkippingWithBuffer : JxlDecoder Unit :=
  (JxlDecoderSetBoxBuffer demoSkipping 1000 16).2

/-- The decoder `demoSkippingWithBuffer` at a later box, for which the buffer
is not the current one. -/
def demoSkippingOldBuffer : JxlDecoder Unit :=
  { demoSkippingWithBuffer with box_out_buffer_set_current_box := false }

/-! ## Concrete environments for the examples of the section bookkeeping -/

/-- A frame environment over any type of external state in which only the
frame decoder's section processing (`sections`), the table of contents and the
duration of the frame in the header are of interest: every other step succeeds
and leaves the external state as it is. -/
def demoEnvOn {E : Type} (toc : List (Nat × Nat))
    (sections : E → List (Nat × List Nat) → List SectionStatus × E) (duration : E → Nat) :
    FrameEnv E where
  canReadSize := fun e span bits => some (decide (bits + 16 ≤ 8 * span.length), e)
  readSize := fun e _ bits => (true, bits + 16, e)
  canReadMeta := fun e span bits => some (decide (bits + 3 ≤ 8 * span.length), e)
  readMeta := fun e _ bits => (true, bits + 3, e)
  xsize := fun _ => 100
  ysize := fun _ => 100
  canReadTransform := fun e span bits => some (decide (bits + 2 ≤ 8 * span.length), e)
  readTransform := fun e _ bits => (true, bits + 2, e)
  setXybEncoded := id
  wantICC := fun _ => false
  iccInit := fun e _ bits _ => (StatusKind.ok, true, bits, e)
  iccProcess := fun e _ bits => (StatusKind.ok, bits, e)
  setICCRaw := fun e => (true, e)
  jumpToByteBoundary := fun _ bits => (true, (bits + 7) / 8 * 8)
  setFromMetadata := fun e _ => (true, e)
  have_preview := fun _ => false
  ensureThreadPool := id
  setImageBundleJpegData := fun e => (true, e)
  newFrameDecoder := id
  initFrame := fun e span _ _ =>
    (if span.length < 2 then StatusKind.notEnoughBytes else StatusKind.ok,
      decide (2 ≤ span.length), 16, e)
  storeFrameHeader := id
  xsize_upsampled_padded := fun _ => 104
  ysize_upsampled_padded := fun _ => 104
  frame_xsize := fun _ => 100
  frame_ysize := fun _ => 100
  sumSectionSizes := fun _ => tocBytes toc
  savedAs := fun _ => 0
  is_last := fun _ => false
  duration := duration
  isRegularFrame := fun _ => true
  isDCFrame := fun _ => false
  canBeReferenced := fun _ => false
  toc := fun _ => toc
  setupToc := fun e _ _ => e
  setPauseAtProgressive := fun e detail => (detail, e)
  jpegOutput := fun _ => false
  isLittleEndian := true
  maybeSetRGB8 := fun dec => dec.ext
  maybeSetFloatCallback := fun dec => dec.ext
  nextNumPassesToPause := fun _ => 0
  processSections := fun e info => (true, (sections e info).1, true, true, (sections e info).2)
  hasDecodedAll := fun _ => false
  hasDecodedDC := fun _ => false
  numCompletePasses := fun _ => 0
  downsamplingTarget := fun _ _ => 1
  references := fun _ => 0
  finalizeFrame := fun e => (true, e)
  hasRGBBuffer := fun _ => false
  convertPreview := fun dec => (true, dec.ext)
  convertImage := fun dec => (true, dec.ext)
  convertExtraChannel := fun dec _ => some (true, dec.ext)
  hasExtraChannels := fun _ => false
  resetImage := id

/-- A table of contents of three sections of 4, 3 and 5 bytes. -/
def demoToc : List (Nat × Nat) := [(0, 4), (1, 3), (2, 5)]

/-- A frame decoder that keeps a log of the bit readers it is handed (the
external state is that log). At its first call it cannot yet decode the first
section it is handed and reports it as skipped and the others as done; at
every later call it reports all sections as done. -/
def demoSectionEnv : FrameEnv (List (List (Nat × List Nat))) :=
  demoEnvOn demoToc
    (fun log info =>
      (match log, info with
        | [], _ :: rest => SectionStatus.kSkipped :: rest.map fun _ => SectionStatus.kDone
        | _, _ => info.map fun _ => SectionStatus.kDone,
       log ++ [info]))
    (fun _ => 0)

/-- A decoder in the Full stage of a frame with the table `demoToc`, before
any section is processed, with `input` as the caller's window on a bare
codestream. -/
def demoSections (input : List Nat) : JxlDecoder (List (List (Nat × List Nat))) :=
  { JxlDecoderCreate id [] with
    stage := DecoderStage.kStarted
    got_signature := true
    last_codestream_seen := true
    box_stage := BoxStage.kCodestream
    box_contents_unbounded := true
    next_in := some input
    avail_in := input.length
    frame_dec := true
    frame_dec_in_progress := true
    frame_stage := FrameStage.kFull
    remaining_frame_size := 12
    next_section := 0
    section_processed := [false, false, false] }

/-- The decoder `demoSections` on the first 7 bytes of the frame after one
pass through the Full stage, which returns `JXL_DEC_NEED_MORE_INPUT`: the frame
decoder has reported the first section as skipped and the second as done, and
the 7 bytes are kept in the copy buffer. -/
def demoSectionsStalled : JxlDecoder (List (List (Nat × List Nat))) :=
  { demoSections [] with
    ext := [[(0, [10, 11, 12, 13]), (1, [20, 21, 22])]]
    section_processed := [false, true, false]
    file_pos := 7
    codestream_copy := [10, 11, 12, 13, 20, 21, 22] }

/-- The decoder `demoSectionsStalled` after the caller has released the input
and set the last 5 bytes of the frame as the new input. -/
def demoSectionsGap : JxlDecoder (List (List (Nat × List Nat))) :=
  (JxlDecoderSetInput (JxlDecoderReleaseInput demoSectionsStalled).2
    (some [30, 31, 32, 33, 34]) 5).2

/-- The decoder `demoSectionsGap` after the next pass through the Full
stage, which returns `JXL_DEC_NEED_MORE_INPUT` again. -/
def demoSectionsAgain : JxlDecoder (List (List (Nat × List Nat))) :=
  { demoSections [] with
    ext := [[(0, [10, 11, 12, 13]), (1, [20, 21, 22])],
      [(0, [10, 11, 12, 13]), (2, [20, 21, 22, 30, 31])]]
    section_processed := [true, true, false]
    next_section := 2
    remaining_frame_size := 5
    file_pos := 12
    codestream_copy := [30, 31, 32, 33, 34] }

/-- A frame environment whose external state is the duration in the frame
header at hand; no frame is the last of the codestream, and for a coalescing
decoder a frame is the last of its still exactly when its duration is not
zero. -/
def demoDurationEnv : FrameEnv Nat :=
  demoEnvOn demoToc (fun e info => (info.map fun _ => SectionStatus.kDone, e)) id

/-- A decoder at a frame header with duration `duration`, with `skip`
frames to skip and `frames` frames in the ledger, all of them externally
visible. -/
def demoAtHeader (duration skip frames : Nat) : JxlDecoder Nat :=
  { JxlDecoderCreate id duration with
    stage := DecoderStage.kStarted
    skip_frames := skip
    internal_frames := frames
    external_frames := frames
    frame_external_to_internal := List.range frames
    frame_saved_as := List.replicate frames 0
    frame_references := List.replicate frames 0xff }

/-- The registered frame with the header of the next frame at hand: the state
that `registerFrame` leaves from `dec`, with `duration` as the duration in the
next frame header. -/
def demoNextHeader (dec : JxlDecoder Nat) (duration : Nat) : JxlDecoder Nat :=
  match registerFrame demoDurationEnv dec with
  | some (_, d) => { d with ext := duration }
  | none => dec

/-! ## Concrete gain map bundles for the examples -/

/-- A colour encoding codec for the examples: a colour encoding is a number
below 8, written in 3 bits; the default is 0. The ICC codec puts the length
of the profile in front of it. -/
def demoGainMapEnv : GainMapEnv Nat Nat where
  fromExternal := fun x => if x < 8 then some x else none
  toExternal := id
  defaultColor := 0
  writeColor := fun c => some (toBits 3 c)
  readColor := fun s => if 3 ≤ s.length then some (ofBits (s.take 3), s.drop 3) else none
  writeICC := fun icc => some (icc.length :: icc)
  readICC := fun bytes =>
    match bytes with
    | [] => none
    | n :: rest => if rest.length = n then some rest else none

/-- A bundle with a colour encoding, an ICC profile of two bytes, and
`color_encoding_size` set as given. -/
def demoGainMapBundle (color_encoding_size color_encoding : Nat) : JxlGainMapBundle Nat :=
  { jhgm_version := 0
    gain_map_metadata := [1, 2, 3]
    color_encoding_size := color_encoding_size
    color_encoding := color_encoding
    alt_icc := some [7, 9]
    gain_map := [4, 5] }

/-! ## Concrete values for the examples of the ledger, the output and the bit writer -/

/-- The format `demoRGB8` with rows aligned to 16 bytes. -/
def demoRGB8Aligned : JxlPixelFormat :=
  { demoRGB8 with align := 16 }

/-- A decoder whose window holds two codestream bytes of an unbounded
codestream. -/
def demoTwoBytes : JxlDecoder Unit :=
  { JxlDecoderCreate id () with
    next_in := some [1, 2]
    avail_in := 2
    box_contents_unbounded := true }

/-- A new decoder on which the header of one frame has been registered. -/
def demoRegisteredOnce : JxlDecoder Unit :=
  match registerFrame demoFrameEnv (JxlDecoderCreate id ()) with
  | some r => r.2
  | none => JxlDecoderCreate id ()

/-- A new decoder with one byte of input, closed. -/
def demoClosedShort : JxlDecoder Unit :=
  JxlDecoderCloseInput (demoStart 0x40 [0xff])

/-- A frame decoder that keeps a log of the bit readers it is handed (the
external state is that log) and reports every section as done; every frame has
duration 100, can be referenced, and is not the last one; the frame decoder
has decoded the DC of the frame and never all of it. -/
def demoReferenceEnv : FrameEnv (List (List (Nat × List Nat))) :=
  { demoEnvOn demoToc (fun log info => (info.map fun _ => SectionStatus.kDone, log ++ [info]))
      (fun _ => 100) with
    canBeReferenced := fun _ => true
    hasDecodedDC := fun _ => true }

/-- A decoder on a bare codestream past the headers of the image, subscribed to
`events`, with `input` as the caller's window, after
`JxlDecoderSkipFrames(dec, 1)`. -/
def demoSkipFirst (events : Nat) (input : List Nat) :
    JxlDecoder (List (List (Nat × List Nat))) :=
  match JxlDecoderSkipFrames
    ({ JxlDecoderCreate id [] with
      stage := DecoderStage.kStarted
      got_signature := true
      last_codestream_seen := true
      box_stage := BoxStage.kCodestream
      box_contents_unbounded := true
      got_codestream_signature := true
      got_basic_info := true
      got_all_headers := true
      events_wanted := events
      orig_events_wanted := events
      next_in := some input
      avail_in := input.length } : JxlDecoder (List (List (Nat × List Nat)))) 1 with
  | some d => d
  | none => JxlDecoderCreate id []

/-- The state `demoSkipFirst` once the header of the first frame has been
registered: the state on which the frame header stage decides whether to pass
over the frame. -/
def demoSkipRegistered (events : Nat) : JxlDecoder (List (List (Nat × List Nat))) :=
  { demoSkipFirst events [] with
    frame_dec := true
    frame_header := true
    frame_stage := FrameStage.kTOC
    remaining_frame_size := 12
    is_last_of_still := true
    skipping_frame := true
    skip_frames := 0
    internal_frames := 1
    external_frames := 1
    frame_external_to_internal := [0]
    frame_saved_as := [0]
    frame_references := [0xff] }

/-- A frame environment for an animation: every frame has one section of 4
bytes and duration 100, none is the last one, and the frame decoder has decoded
all of a frame once it was handed its section. -/
def demoAnimationEnv : FrameEnv Unit :=
  { demoEnvOn [(0, 4)] (fun e info => (info.map fun _ => SectionStatus.kDone, e))
      (fun _ => 100) with
    hasDecodedAll := fun _ => true }

/-- A decoder on a bare codestream past the headers of the image, subscribed to
`JXL_DEC_FULL_IMAGE`, with two frames of 6 bytes each as input. -/
def demoTwoFrames : JxlDecoder Unit :=
  { demoBare [1, 2, 10, 11, 12, 13, 1, 2, 20, 21, 22, 23] with
    got_codestream_signature := true
    got_basic_info := true
    got_all_headers := true
    events_wanted := 0x1000
    orig_events_wanted := 0x1000 }

/-- The pixel format of three 32-bit float channels without alignment. -/
def demoFloat : JxlPixelFormat :=
  ⟨3, JxlDataType.JXL_TYPE_FLOAT, JxlEndianness.JXL_NATIVE_ENDIAN, 0⟩

/-- The state of `demoTwoFrames` after the calls of a caller that takes the
first frame through a callback: `JxlDecoderProcessCodestream` (which asks for
an output buffer), `JxlDecoderSetMultithreadedImageOutCallback`,
`JxlDecoderProcessCodestream` (which returns the first image) and
`JxlDecoderProcessCodestream` (which asks for an output buffer again);
`none` when one of them does not return what is said. -/
def demoAfterCallbackFrame : Option (JxlDecoder Unit) :=
  match JxlDecoderProcessCodestream demoAnimationEnv 5 demoTwoFrames with
  | some (JXL_DEC_NEED_IMAGE_OUT_BUFFER, d1) =>
    match JxlDecoderSetMultithreadedImageOutCallback d1 demoFloat 71 72 73 74 with
    | (JXL_DEC_SUCCESS, d2) =>
      match JxlDecoderProcessCodestream demoAnimationEnv 5 d2 with
      | some (JXL_DEC_FULL_IMAGE, d3) =>
        match JxlDecoderProcessCodestream demoAnimationEnv 5 d3 with
        | some (JXL_DEC_NEED_IMAGE_OUT_BUFFER, d4) => some d4
        | _ => none
      | _ => none
    | _ => none
  | _ => none

/-- A frame environment like `demoFrameEnv` for an image of 4000 by 4000
pixels (with frames of 100 by 100). -/
def demoLimitEnv : BoxEnv Unit :=
  { demoBoxEnv with
    toFrameEnv := { demoFrameEnv with toHeaderEnv := demoHeaderEnv 4000 4000 } }

/-- The state in which `demoAfterCallbackFrame` ends: the first frame has been
taken through a callback and the decoder asks for the output of the second. -/
def demoSecondFrame : JxlDecoder Unit :=
  match demoAfterCallbackFrame with
  | some d => d
  | none => demoTwoFrames

/-- The state `demoSecondFrame` after
`JxlDecoderSetImageOutBuffer(dec, &format, buffer, 150)` with the format
`demoRGB8` and the buffer at address 500. -/
def demoBothSinks : JxlDecoder Unit :=
  (JxlDecoderSetImageOutBuffer demoDimEnv demoSecondFrame demoRGB8 500 150).2

/-- A decoder of the fuzzing build (memory limit `53 << 16`), subscribed to
`JXL_DEC_BASIC_INFO | JXL_DEC_FULL_IMAGE`, with a bare codestream of 11 bytes
as input. -/
def demoLimited : JxlDecoder Unit :=
  (JxlDecoderSetInput (JxlDecoderSubscribeEvents (JxlDecoderCreateFuzzing id ()) 0x1040).2
    (some [0xff, 0x0a, 1, 2, 3, 4, 5, 6, 7, 8, 9]) 11).2

/-- The state of `demoLimited` after the first `JxlDecoderProcessInput`. -/
def demoAfterSizeError : JxlDecoder Unit :=
  match JxlDecoderProcessInput (HandleBoxes demoLimitEnv 10) demoLimited with
  | some r => r.2
  | none => demoLimited

/-- The state of `demoLimited` after the second `JxlDecoderProcessInput`. -/
def demoAfterSizeErrorAgain : JxlDecoder Unit :=
  match JxlDecoderProcessInput (HandleBoxes demoLimitEnv 10) demoAfterSizeError with
  | some r => r.2
  | none => demoAfterSizeError

/-- Three writes that fill the bit buffer past 64 bits with 1 bits. -/
def demoWrites : List (Nat × Nat) := [(3, 5), (32, 0xFFFFFFFF), (32, 0xFFFFFFFF)]

/-- The decoder of the fuzzing build at the start of a bare codestream of five
bytes, in the state in which `JxlDecoderReadBasicInfo` first runs. -/
def demoLimitedBare : JxlDecoder Unit :=
  { demoBare [0xff, 0x0a, 1, 2, 3] with
    memory_limit_base := (JxlDecoderCreateFuzzing id ()).memory_limit_base
    cpu_limit_base := (JxlDecoderCreateFuzzing id ()).cpu_limit_base }

/-- A new decoder subscribed to `JXL_DEC_BASIC_INFO`, with a bare codestream of
11 bytes as input, after the first call of `JxlDecoderProcessInput`. -/
def demoAfterFirstCall : JxlDecoder Unit :=
  match JxlDecoderProcessInput (HandleBoxes demoBoxEnv 10)
      (demoStart 0x40 [0xff, 0x0a, 1, 2, 3, 4, 5, 6, 7, 8, 9]) with
  | some r => r.2
  | none => demoStart 0x40 [0xff, 0x0a, 1, 2, 3, 4, 5, 6, 7, 8, 9]

/-- The decoder `demoClosedShort` after `JxlDecoderRewind` and a
`JxlDecoderSetInput` with the single byte `ff`. -/
def demoReopened : JxlDecoder Unit :=
  (JxlDecoderSetInput (JxlDecoderRewind id demoClosedShort) (some [0xff]) 1).2

/-! # Theorems -/

/-! ## Frame dependency tracker -/

theorem fillStorage_length (s : Nat) (l : List Nat) (i id : Nat) :
    (fillStorage s l i id).length = l.length := by
  induction l generalizing i id with
  | nil => rfl
  | cons v rest ih => simp [fillStorage, ih]

/-- Entry `k` of a filled row is the start value when no frame up to `k` has
the bit, and otherwise the offset index of the last frame up to `k` that has it. -/
theorem fillStorage_getElem (s : Nat) (l : List Nat) (i id k : Nat) (hk : k < l.length) :
    ∃ v, (fillStorage s l i id)[k]? = some v ∧
      ((v = id ∧ ∀ m, m ≤ k → ∀ x, l[m]? = some x → maskBit x s = false) ∨
       (∃ j, v = i + j ∧ IsLastWriter l s k j)) := by
  induction l generalizing i id k with
  | nil => simp at hk
  | cons a rest ih =>
    cases k with
    | zero =>
      by_cases hb : maskBit a s = true
      · refine ⟨i, by simp [fillStorage, hb], Or.inr ⟨0, rfl, le_refl _, ⟨a, by simp, hb⟩, ?_⟩⟩
        intro m h1 h2; omega
      · refine ⟨id, by simp [fillStorage, hb], Or.inl ⟨rfl, ?_⟩⟩
        intro m hm x hx
        have : m = 0 := by omega
        subst this
        simp at hx; subst hx
        simpa using hb
    | succ k =>
      have hk1 : k < rest.length := by simpa using hk
      obtain ⟨v, hv, hcase⟩ := ih (i + 1) (if maskBit a s then i else id) k hk1
      refine ⟨v, by simpa [fillStorage] using hv, ?_⟩
      rcases hcase with ⟨hvid, hno⟩ | ⟨j, hvj, hj1, ⟨x, hx, hxb⟩, hj3⟩
      · by_cases hb : maskBit a s = true
        · right
          refine ⟨0, by simp [hvid, hb], Nat.zero_le _, ⟨a, by simp, hb⟩, ?_⟩
          intro m hm1 hm2 y hy
          obtain ⟨m1, rfl⟩ : ∃ m1, m = m1 + 1 := ⟨m - 1, by omega⟩
          simp at hy
          exact hno m1 (by omega) y hy
        · left
          refine ⟨by simp [hvid, hb], ?_⟩
          intro m hm y hy
          cases m with
          | zero => simp at hy; subst hy; simpa using hb
          | succ m1 =>
            simp at hy
            exact hno m1 (by omega) y hy
      · right
        refine ⟨j + 1, by omega, by omega, ⟨x, by simpa using hx, hxb⟩, ?_⟩
        intro m hm1 hm2 y hy
        obtain ⟨m1, rfl⟩ : ∃ m1, m = m1 + 1 := ⟨m - 1, by omega⟩
        simp at hy
        exact hj3 m1 (by omega) (by omega) y hy

/-- A slot has at most one last writer at a given index. -/
theorem IsLastWriter.unique {saved_as : List Nat} {s i j1 j2 : Nat}
    (h1 : IsLastWriter saved_as s i j1) (h2 : IsLastWriter saved_as s i j2) : j1 = j2 := by
  obtain ⟨a1, ⟨v1, hv1, hb1⟩, c1⟩ := h1
  obtain ⟨a2, ⟨v2, hv2, hb2⟩, c2⟩ := h2
  rcases Nat.lt_trichotomy j1 j2 with h | h | h
  · have := c1 j2 h a2 v2 hv2
    rw [this] at hb2; cases hb2
  · exact h
  · have := c2 j1 h a1 v1 hv1
    rw [this] at hb1; cases hb1

/-- What `storage[s][i]` holds: the last writer of slot `s` at `i` when there
is one, and `invalid` otherwise. -/
theorem storageAt_buildStorage (saved_as : List Nat) (s i : Nat)
    (hs : s < kNumStorage) (hi : i < saved_as.length) :
    ∃ v, storageAt (buildStorage saved_as saved_as.length) s i = some v ∧
      (v ≠ saved_as.length → IsLastWriter saved_as s i v) ∧
      (∀ j, IsLastWriter saved_as s i j → v = j) := by
  obtain ⟨v, hv, hcase⟩ := fillStorage_getElem s saved_as 0 saved_as.length i hi
  refine ⟨v, ?_, ?_, ?_⟩
  · simp [storageAt, buildStorage, List.getElem?_range hs, hv]
  · intro hne
    rcases hcase with ⟨h, _⟩ | ⟨j, hj, hw⟩
    · exact absurd h hne
    · have : v = j := by omega
      rw [this]; exact hw
  · intro j hj
    rcases hcase with ⟨_, hno⟩ | ⟨j1, hj1, hw⟩
    · obtain ⟨a1, ⟨x, hx, hb⟩, _⟩ := hj
      have := hno j a1 x hx
      rw [this] at hb; cases hb
    · have : v = j1 := by omega
      rw [this]; exact hw.unique hj

theorem count_false_set {l : List Bool} {i : Nat} (h : l[i]? = some false) :
    (l.set i true).count false + 1 = l.count false := by
  induction l generalizing i with
  | nil => simp at h
  | cons a t ih =>
    cases i with
    | zero => simp at h; subst h; simp
    | succ k =>
      simp at h
      have := ih h
      cases a <;> simp [List.count_cons] <;> omega

/-- A frame that some frame reads lies strictly before the reader. -/
theorem Reads.lt_reader {saved_as references : List Nat} {f j : Nat}
    (h : Reads saved_as references f j) : j < f := by
  obtain ⟨hpos, s, r, _, _, _, hle, _⟩ := h
  omega

/-- Every required frame lies strictly before the target. -/
theorem Required.lt_index {saved_as references : List Nat} {index j : Nat}
    (h : Required saved_as references index j) : j < index := by
  induction h with
  | base s j hs hw hne => have := hw.1; omega
  | target j hr => exact hr.lt_reader
  | step f j hf hr ih => have := hr.lt_reader; omega

/-- One visit keeps the invariant and the amount of pending work, and leaves
the visited frame in the result (unless it is the target itself). -/
theorem visitRef_spec {saved_as references : List Nat} {index : Nat} {cur : Option Nat}
    (invalid x : Nat) (st : DepState) (hI : DepInv saved_as references index cur st)
    (hx : x ≠ invalid → x = index ∨ Required saved_as references index x) :
    ∃ st1, visitRef invalid x st = some st1 ∧ DepInv saved_as references index cur st1 ∧
      pending st1 = pending st ∧ st.result ⊆ st1.result ∧
      (x ≠ invalid → x = index ∨ x ∈ st1.result) := by
  by_cases hxi : x = invalid
  · exact ⟨st, by simp [visitRef, hxi], hI, rfl, fun _ h => h, fun h => absurd hxi h⟩
  · have hlt : x < st.seen.length := by
      have := hI.len
      rcases hx hxi with h | h
      · omega
      · have := h.lt_index; omega
    cases hb : st.seen[x] with
    | true =>
      have hsome : st.seen[x]? = some true := by
        rw [List.getElem?_eq_getElem hlt, hb]
      exact ⟨st, by simp [visitRef, hxi, hsome], hI, rfl, fun _ h => h,
        fun _ => (hI.seen_iff x).1 hsome⟩
    | false =>
      have hsome : st.seen[x]? = some false := by
        rw [List.getElem?_eq_getElem hlt, hb]
      have hne : x ≠ index := fun h => by
        have := (hI.seen_iff x).2 (Or.inl h)
        rw [hsome] at this; cases this
      have hreq : Required saved_as references index x := by
        rcases hx hxi with h | h
        · exact absurd h hne
        · exact h
      have hnot : x ∉ st.result := fun hmem => by
        have := (hI.seen_iff x).2 (Or.inr hmem)
        rw [hsome] at this; cases this
      refine ⟨{ seen := st.seen.set x true, stack := x :: st.stack,
                result := st.result ++ [x] },
        by simp [visitRef, hxi, hsome], ?_, ?_, ?_, ?_⟩
      · constructor
        · simpa using hI.len
        · intro j
          simp only [List.getElem?_set, List.mem_append, List.mem_singleton]
          by_cases hj : x = j
          · subst hj; simp [hlt]
          · simp only [hj, if_false]
            rw [hI.seen_iff j]
            constructor
            · rintro (h | h)
              · exact Or.inl h
              · exact Or.inr (Or.inl h)
            · rintro (h | h | h)
              · exact Or.inl h
              · exact Or.inr h
              · exact absurd h.symm hj
        · intro j hj
          simp only [List.mem_append, List.mem_singleton] at hj
          rcases hj with h | h
          · exact hI.sound j h
          · rw [h]; exact hreq
        · intro j hj
          simp only [List.mem_cons] at hj
          simp only [List.mem_append, List.mem_singleton]
          rcases hj with h | h
          · exact Or.inr (Or.inr h)
          · rcases hI.stack_sub j h with h1 | h1
            · exact Or.inl h1
            · exact Or.inr (Or.inl h1)
        · simp only [List.nodup_append, List.nodup_singleton, true_and]
          refine ⟨hI.nodup, ?_⟩
          intro a ha hax
          simp only [List.mem_singleton] at hax
          rw [hax] at ha; exact hnot ha
        · intro f hf hfs hcur j hj
          simp only [List.mem_cons, not_or] at hfs
          simp only [List.mem_append, List.mem_singleton] at hf ⊢
          left
          refine hI.closed f ?_ hfs.2 hcur j hj
          rcases hf with h | h | h
          · exact Or.inl h
          · exact Or.inr h
          · exact absurd h hfs.1
      · have := count_false_set hsome
        simp only [pending, List.length_cons]
        omega
      · intro a ha
        simp only [List.mem_append, List.mem_singleton]
        exact Or.inl ha
      · intro _
        simp

/-- A slot loop whose body keeps an invariant `I`, only adds to the result and
puts the frames `C s` of its slot `s` in the result, ends with `I` and with
the frames of all its slots in the result. -/
theorem forSlots_spec (body : Nat → DepState → Option DepState)
    (I : DepState → Prop) (C : Nat → Nat → Prop) (slots : List Nat)
    (hbody : ∀ s ∈ slots, ∀ st, I st → ∃ st1, body s st = some st1 ∧ I st1 ∧
      st.result ⊆ st1.result ∧ ∀ j, C s j → j ∈ st1.result)
    (st : DepState) (hI : I st) :
    ∃ st1, forSlots body slots st = some st1 ∧ I st1 ∧ st.result ⊆ st1.result ∧
      ∀ s ∈ slots, ∀ j, C s j → j ∈ st1.result := by
  induction slots generalizing st with
  | nil => exact ⟨st, rfl, hI, fun _ h => h, by simp⟩
  | cons s rest ih =>
    obtain ⟨st1, h1, hI1, hsub1, hC1⟩ := hbody s (by simp) st hI
    obtain ⟨st2, h2, hI2, hsub2, hC2⟩ :=
      ih (fun s1 hs1 => hbody s1 (List.mem_cons_of_mem _ hs1)) st1 hI1
    refine ⟨st2, by simp [forSlots, h1, h2], hI2, fun _ h => hsub2 (hsub1 h), ?_⟩
    intro s1 hs1 j hj
    simp only [List.mem_cons] at hs1
    rcases hs1 with h | h
    · subst h; exact hsub2 (hC1 j hj)
    · exact hC2 s1 h j hj

/-- The body of the first slot loop keeps the invariant and puts the last
writer of its slot at `index` in the result. -/
theorem initBody_spec (saved_as references : List Nat) (index p s : Nat)
    (hidx : index < saved_as.length) (hs : s < kNumStorage) (st : DepState)
    (hI : DepInv saved_as references index none st ∧ pending st = p) :
    ∃ st1, initBody (buildStorage saved_as saved_as.length) saved_as.length index s st
        = some st1 ∧
      (DepInv saved_as references index none st1 ∧ pending st1 = p) ∧
      st.result ⊆ st1.result ∧
      ∀ j, (IsLastWriter saved_as s index j ∧ j ≠ index) → j ∈ st1.result := by
  obtain ⟨v, hv, hw, huniq⟩ := storageAt_buildStorage saved_as s index hs hidx
  have hx : v ≠ saved_as.length → v = index ∨ Required saved_as references index v := by
    intro hne
    by_cases hvi : v = index
    · exact Or.inl hvi
    · exact Or.inr (Required.base s v hs (hw hne) hvi)
  obtain ⟨st1, h1, hI1, hp1, hsub, hin⟩ := visitRef_spec saved_as.length v st hI.1 hx
  refine ⟨st1, by simp [initBody, hv, h1], ⟨hI1, by rw [hp1]; exact hI.2⟩, hsub, ?_⟩
  rintro j ⟨hj, hji⟩
  have hvj := huniq j hj
  subst hvj
  have hvn : v ≠ saved_as.length := by have := hj.1; omega
  rcases hin hvn with h | h
  · exact absurd h hji
  · exact h

/-- The body of the slot loop for the popped frame `f` keeps the invariant and
puts the frame that `f` reads through its slot in the result. -/
theorem stepBody_spec (saved_as references : List Nat) (index p f s : Nat)
    (hlen : references.length = saved_as.length) (hidx : index < saved_as.length)
    (hf : f = index ∨ Required saved_as references index f) (hpos : 0 < f)
    (hs : s < kNumStorage) (st : DepState)
    (hI : DepInv saved_as references index (some f) st ∧ pending st = p) :
    ∃ st1, stepBody references (buildStorage saved_as saved_as.length) saved_as.length f s st
        = some st1 ∧
      (DepInv saved_as references index (some f) st1 ∧ pending st1 = p) ∧
      st.result ⊆ st1.result ∧
      ∀ j, (∃ r, references[f]? = some r ∧ maskBit r s = true ∧
        IsLastWriter saved_as s (f - 1) j) → j ∈ st1.result := by
  have hfle : f ≤ index := by
    rcases hf with h | h
    · omega
    · exact Nat.le_of_lt h.lt_index
  have hflt : f < references.length := by omega
  have hr : references[f]? = some references[f] := List.getElem?_eq_getElem hflt
  by_cases hb : maskBit references[f] s = true
  · obtain ⟨v, hv, hw, huniq⟩ :=
      storageAt_buildStorage saved_as s (f - 1) hs (by omega)
    have hreads : v ≠ saved_as.length → Required saved_as references index v := by
      intro hne
      have hrd : Reads saved_as references f v := ⟨hpos, s, references[f], hs, hr, hb, hw hne⟩
      rcases hf with h | h
      · subst h; exact Required.target v hrd
      · exact Required.step f v h hrd
    obtain ⟨st1, h1, hI1, hp1, hsub, hin⟩ :=
      visitRef_spec saved_as.length v st hI.1 (fun hne => Or.inr (hreads hne))
    refine ⟨st1, by simp [stepBody, hr, hb, hv, h1], ⟨hI1, by rw [hp1]; exact hI.2⟩,
      hsub, ?_⟩
    rintro j ⟨r, _, _, hj⟩
    have hvj := huniq j hj
    subst hvj
    have hvn : v ≠ saved_as.length := by have := hj.1; omega
    rcases hin hvn with h | h
    · have := (hreads hvn).lt_index; omega
    · exact h
  · refine ⟨st, by simp [stepBody, hr, hb], hI, fun _ h => h, ?_⟩
    rintro j ⟨r, hr1, hb1, _⟩
    rw [hr] at hr1
    cases hr1
    exact absurd hb1 hb

/-- With more fuel than pending work the `while` loop ends, with an empty
stack and the invariant. -/
theorem whileStack_spec (saved_as references : List Nat) (index : Nat)
    (hlen : references.length = saved_as.length) (hidx : index < saved_as.length)
    (fuel : Nat) (st : DepState) (hI : DepInv saved_as references index none st)
    (hfuel : pending st < fuel) :
    ∃ st1, whileStack references (buildStorage saved_as saved_as.length) saved_as.length
        fuel st = some st1 ∧
      DepInv saved_as references index none st1 ∧ st1.stack = [] ∧
      st.result ⊆ st1.result := by
  induction fuel generalizing st with
  | zero => omega
  | succ fuel ih =>
    cases hstack : st.stack with
    | nil => exact ⟨st, by simp [whileStack, hstack], hI, hstack, fun _ h => h⟩
    | cons f rest =>
      have hfmem : f = index ∨ f ∈ st.result := hI.stack_sub f (by simp [hstack])
      have hfreq : f = index ∨ Required saved_as references index f :=
        hfmem.imp id (hI.sound f)
      have hpend : pending { st with stack := rest } + 1 = pending st := by
        simp [pending, hstack]; omega
      have hI1 : DepInv saved_as references index (some f) { st with stack := rest } := by
        refine ⟨hI.len, hI.seen_iff, hI.sound, ?_, hI.nodup, ?_⟩
        · intro j hj
          exact hI.stack_sub j (by simp [hstack, hj])
        · intro g hg hgs hcur j hj
          refine hI.closed g hg ?_ (by simp) j hj
          simp only [hstack, List.mem_cons, not_or]
          exact ⟨fun h => hcur (by rw [h]), hgs⟩
      by_cases hf0 : f = 0
      · have hI2 : DepInv saved_as references index none { st with stack := rest } := by
          refine ⟨hI1.len, hI1.seen_iff, hI1.sound, hI1.stack_sub, hI1.nodup, ?_⟩
          intro g hg hgs _ j hj
          by_cases hgf : g = f
          · have := hj.1; omega
          · exact hI1.closed g hg hgs (fun h => hgf (Option.some.inj h).symm) j hj
        obtain ⟨st2, h2, hI3, hs3, hsub3⟩ := ih _ hI2 (by omega)
        exact ⟨st2, by simp [whileStack, hstack, hf0, h2] , hI3, hs3, hsub3⟩
      · obtain ⟨st2, h2, ⟨hI2, hp2⟩, hsub2, hC2⟩ :=
          forSlots_spec
            (stepBody references (buildStorage saved_as saved_as.length) saved_as.length f)
            (fun st0 => DepInv saved_as references index (some f) st0 ∧
              pending st0 = pending { st with stack := rest })
            (fun s j => ∃ r, references[f]? = some r ∧ maskBit r s = true ∧
              IsLastWriter saved_as s (f - 1) j)
            (List.range kNumStorage)
            (fun s hs st0 hst0 => stepBody_spec saved_as references index _ f s hlen hidx
              hfreq (by omega) (List.mem_range.1 hs) st0 hst0)
            { st with stack := rest } ⟨hI1, rfl⟩
        have hI3 : DepInv saved_as references index none st2 := by
          refine ⟨hI2.len, hI2.seen_iff, hI2.sound, hI2.stack_sub, hI2.nodup, ?_⟩
          intro g hg hgs _ j hj
          by_cases hgf : g = f
          · subst hgf
            obtain ⟨_, s, r, hs, hr, hb, hw⟩ := hj
            exact hC2 s (List.mem_range.2 hs) j ⟨r, hr, hb, hw⟩
          · exact hI2.closed g hg hgs (fun h => hgf (Option.some.inj h).symm) j hj
        obtain ⟨st3, h3, hI4, hs4, hsub4⟩ := ih st2 hI3 (by omega)
        refine ⟨st3, ?_, hI4, hs4, fun _ h => hsub4 (hsub2 h)⟩
        simp [whileStack, hstack, hf0, h2, h3]

/-- The function returns on every well-formed input, and its result lists,
without repetition, exactly the required frames. -/
theorem GetFrameDependencies_required (saved_as references : List Nat) (index : Nat)
    (hlen : references.length = saved_as.length) (hidx : index < references.length) :
    ∃ result, GetFrameDependencies index saved_as references = some result ∧
      result.Nodup ∧ ∀ j, j ∈ result ↔ Required saved_as references index j := by
  have hidx1 : index < saved_as.length := by omega
  have hset : ∀ j, ((List.replicate (index + 1) false).set index true)[j]? = some true ↔
      j = index := by
    intro j
    simp only [List.getElem?_set, List.length_replicate, List.getElem?_replicate]
    by_cases h : index = j
    · simp [h]
    · simp only [h, if_false]
      constructor
      · intro h1; split at h1 <;> cases h1
      · intro h1; exact absurd h1.symm h
  obtain ⟨st0, hst0⟩ : ∃ st0 : DepState, st0 =
      ⟨(List.replicate (index + 1) false).set index true, [index], []⟩ := ⟨_, rfl⟩
  have hI0 : DepInv saved_as references index none st0 := by
    subst hst0
    refine ⟨by simp, ?_, by simp, by simp, by simp, ?_⟩
    · intro j; simp [hset j]
    · intro f hf hfs
      simp at hf hfs
      exact absurd hf hfs
  have hp0 : pending st0 = index + 1 := by
    have : ((List.replicate (index + 1) false).set index true).count false = index := by
      rw [List.count_set _ _ _ _ (by simp)]
      simp [List.count_replicate]
    subst hst0
    simp [pending, this]; omega
  obtain ⟨st1, h1, ⟨hI1, hp1⟩, _, hC1⟩ :=
    forSlots_spec (initBody (buildStorage saved_as saved_as.length) saved_as.length index)
      (fun st => DepInv saved_as references index none st ∧ pending st = index + 1)
      (fun s j => IsLastWriter saved_as s index j ∧ j ≠ index)
      (List.range kNumStorage)
      (fun s hs st0 hst0 => initBody_spec saved_as references index _ s hidx1
        (List.mem_range.1 hs) st0 hst0)
      st0 ⟨hI0, hp0⟩
  obtain ⟨st2, h2, hI2, hs2, hsub2⟩ :=
    whileStack_spec saved_as references index hlen hidx1 (index + 2) st1 hI1 (by omega)
  refine ⟨st2.result, ?_, hI2.nodup, fun j => ⟨hI2.sound j, ?_⟩⟩
  · subst hst0
    simp [GetFrameDependencies, hlen, hidx1, h1, h2]
  · intro hreq
    induction hreq with
    | base s j hs hw hne => exact hsub2 (hC1 s (List.mem_range.2 hs) j ⟨hw, hne⟩)
    | target j hr => exact hI2.closed index (Or.inl rfl) (by simp [hs2]) (by simp) j hr
    | step f j hf hr ih => exact hI2.closed f (Or.inr ih) (by simp [hs2]) (by simp) j hr

/-- C1: on every ledger (`saved_as` and `references` of equal length) and
every `index` below that length, `GetFrameDependencies` returns a list without
repetition whose members are exactly the frames of the least set `R` that holds
the last writer at `index` of each of the 8 slots (when defined and different
from `index`) and the last writer before `f` of each slot referenced by a frame
`f > 0` that is `index` or in `R`. In particular the ledger `saved_as = [8, 0]`,
`references = [0, 8]` gives `[0]` at index 1, and index 0 always gives the
empty list. -/
theorem GetFrameDependencies_exact :
    (∀ (saved_as references : List Nat) (index : Nat),
      references.length = saved_as.length → index < references.length →
      ∃ result, GetFrameDependencies index saved_as references = some result ∧
        result.Nodup ∧ ∀ j, j ∈ result ↔ Required saved_as references index j) ∧
    GetFrameDependencies 1 [8, 0] [0, 8] = some [0] ∧
    (∀ (saved_as references : List Nat),
      references.length = saved_as.length → 0 < references.length →
      GetFrameDependencies 0 saved_as references = some []) := by
  refine ⟨GetFrameDependencies_required, by decide, ?_⟩
  intro saved_as references hlen hpos
  obtain ⟨result, hres, _, hmem⟩ := GetFrameDependencies_required saved_as references 0 hlen hpos
  rw [hres]
  congr 1
  apply List.eq_nil_iff_forall_not_mem.2
  intro j hj
  have := ((hmem j).1 hj).lt_index
  omega

/-- C1, at a concrete ledger of five frames: the call returns, and what it
returns is a list without repetition of exactly the required frames. -/
theorem GetFrameDependencies_exact_witness :
    GetFrameDependencies 4 [1, 2, 1, 4, 0] [0, 1, 2, 1, 4] = some [2, 1, 3, 0] ∧
    ∃ result, GetFrameDependencies 4 [1, 2, 1, 4, 0] [0, 1, 2, 1, 4] = some result ∧
      result.Nodup ∧ ∀ j, j ∈ result ↔ Required [1, 2, 1, 4, 0] [0, 1, 2, 1, 4] 4 j :=
  ⟨by decide, GetFrameDependencies_exact.1 [1, 2, 1, 4, 0] [0, 1, 2, 1, 4] 4 rfl (by decide)⟩

/-- Every required frame is the last writer of a slot at `index`, or is
reached by a chain of slot reads from the target or from such a last writer. -/
theorem Required.dependsOn {saved_as references : List Nat} {index j : Nat}
    (h : Required saved_as references index j) :
    DependsOn saved_as references index j ∨
      ∃ s w, s < kNumStorage ∧ IsLastWriter saved_as s index w ∧ w ≠ index ∧
        (w = j ∨ DependsOn saved_as references w j) := by
  induction h with
  | base s j hs hw hne => exact Or.inr ⟨s, j, hs, hw, hne, Or.inl rfl⟩
  | target j hr => exact Or.inl (Relation.TransGen.single hr)
  | step f j hf hr ih =>
    rcases ih with h | ⟨s, w, hs, hw, hne, h | h⟩
    · exact Or.inl (Relation.TransGen.tail h hr)
    · subst h
      exact Or.inr ⟨s, w, hs, hw, hne, Or.inr (Relation.TransGen.single hr)⟩
    · exact Or.inr ⟨s, w, hs, hw, hne, Or.inr (Relation.TransGen.tail h hr)⟩

/-- C2 fails as stated: with `saved_as = [8, 0]` and `references = [0, 0]`
frame 1 reads no slot at all, so it depends on no frame through slot reads,
and yet frame 0 is in the result for index 1. -/
theorem GetFrameDependencies_not_only_reads :
    GetFrameDependencies 1 [8, 0] [0, 0] = some [0] ∧
      ¬ DependsOn [8, 0] [0, 0] 1 0 := by
  refine ⟨by decide, ?_⟩
  intro h
  obtain ⟨b, hb, _⟩ := Relation.TransGen.head'_iff.1 h
  obtain ⟨_, s, r, _, hr, hbit, _⟩ := hb
  simp at hr
  subst hr
  simp [maskBit] at hbit

/-- C2, amended: a frame `j` is in the result only if the target depends on
`j` transitively through slot reads, or `j` is the last writer at `index` of
one of the 8 slots (and is not `index`), or such a last writer depends on `j`
transitively through slot reads. -/
theorem GetFrameDependencies_only_needed (saved_as references : List Nat)
    (index : Nat) (result : List Nat)
    (hres : GetFrameDependencies index saved_as references = some result)
    (j : Nat) (hj : j ∈ result) :
    DependsOn saved_as references index j ∨
      ∃ s w, s < kNumStorage ∧ IsLastWriter saved_as s index w ∧ w ≠ index ∧
        (w = j ∨ DependsOn saved_as references w j) := by
  have hlen : references.length = saved_as.length := by
    by_contra h
    simp [GetFrameDependencies, h] at hres
  have hidx : index < references.length := by
    by_contra h
    simp only [GetFrameDependencies, hlen, ne_eq, not_true_eq_false, if_false] at hres
    rw [hlen] at h
    simp [h] at hres
  obtain ⟨result1, hres1, _, hmem⟩ :=
    GetFrameDependencies_required saved_as references index hlen hidx
  rw [hres] at hres1
  cases hres1
  exact ((hmem j).1 hj).dependsOn

/-- C2 amended, at the two-frame ledger of the specification: frame 0 is in
the result for index 1, and frame 1 depends on it. -/
theorem GetFrameDependencies_only_needed_witness :
    GetFrameDependencies 1 [8, 0] [0, 8] = some [0] ∧
    (DependsOn [8, 0] [0, 8] 1 0 ∨
      ∃ s w, s < kNumStorage ∧ IsLastWriter [8, 0] s 1 w ∧ w ≠ 1 ∧
        (w = 0 ∨ DependsOn [8, 0] [0, 8] w 0)) :=
  ⟨by decide,
    GetFrameDependencies_only_needed [8, 0] [0, 8] 1 [0] (by decide) 0 (by simp)⟩

/-! ## `size_t` arithmetic -/

theorem sizeAdd_assoc (a b c : Nat) : sizeAdd (sizeAdd a b) c = sizeAdd a (sizeAdd b c) := by
  simp only [sizeAdd, SIZE_MOD]
  omega

theorem sizeSub_self (a : Nat) : sizeSub a a = 0 := by
  simp only [sizeSub, SIZE_MOD]
  omega

theorem sizeSub_of_le {a b : Nat} (h : b ≤ a) (ha : a < SIZE_MOD) : sizeSub a b = a - b := by
  simp only [sizeSub, SIZE_MOD] at *
  omega

theorem sizeAdd_of_lt {a b : Nat} (h : a + b < SIZE_MOD) : sizeAdd a b = a + b := by
  simp only [sizeAdd, SIZE_MOD] at *
  omega

/-! ## Byte cursor: `RequestMoreInput` -/

section CursorTheorems
variable {E : Type}

/-- C4: `RequestMoreInput` always returns `JXL_DEC_NEED_MORE_INPUT`; when the
copy buffer is empty it makes `codestream_copy` the first
`AvailableCodestream()` bytes at `next_in` (exactly that many when the window
holds them) and advances the input past them, so that afterwards
`AvailableCodestream()` is 0, the copy followed by the rest of the window is
the old window, and the copy survives `JxlDecoderReleaseInput`. -/
theorem RequestMoreInput_copies (dec : JxlDecoder E) :
    dec.RequestMoreInput.1 = JXL_DEC_NEED_MORE_INPUT ∧
    (dec.codestream_copy = [] →
      dec.RequestMoreInput.2.codestream_copy = dec.inputBytes.take dec.AvailableCodestream ∧
      (dec.AvailableCodestream ≤ dec.inputBytes.length →
        dec.RequestMoreInput.2.codestream_copy.length = dec.AvailableCodestream) ∧
      dec.RequestMoreInput.2.next_in = dec.next_in.map (List.drop dec.AvailableCodestream) ∧
      dec.RequestMoreInput.2.avail_in = sizeSub dec.avail_in dec.AvailableCodestream ∧
      dec.RequestMoreInput.2.file_pos = sizeAdd dec.file_pos dec.AvailableCodestream ∧
      dec.RequestMoreInput.2.AvailableCodestream = 0 ∧
      dec.RequestMoreInput.2.codestream_copy ++ dec.RequestMoreInput.2.inputBytes
        = dec.inputBytes ∧
      (JxlDecoderReleaseInput dec.RequestMoreInput.2).2.codestream_copy
        = dec.inputBytes.take dec.AvailableCodestream) := by
  constructor
  · unfold JxlDecoder.RequestMoreInput
    split <;> rfl
  · intro hcopy
    have h2 : dec.RequestMoreInput.2 =
        ({ dec with codestream_copy :=
            dec.codestream_copy ++ dec.inputBytes.take dec.AvailableCodestream }
          ).AdvanceInput dec.AvailableCodestream := by
      simp [JxlDecoder.RequestMoreInput, hcopy]
    rw [h2]
    refine ⟨by simp [JxlDecoder.AdvanceInput, hcopy], ?_,
      by simp [JxlDecoder.AdvanceInput], by simp [JxlDecoder.AdvanceInput],
      by simp [JxlDecoder.AdvanceInput], ?_, ?_,
      by simp [JxlDecoderReleaseInput, JxlDecoder.AdvanceInput, hcopy]⟩
    · intro hle
      simp [JxlDecoder.AdvanceInput, hcopy, hle]
    · simp only [JxlDecoder.AvailableCodestream, JxlDecoder.AdvanceInput]
      cases hb : dec.box_contents_unbounded
      · simp only [Bool.not_false, if_true, sizeSub, sizeAdd, SIZE_MOD]
        omega
      · simp only [Bool.not_true, Bool.false_eq_true, if_false, sizeSub, SIZE_MOD]
        omega
    · simp only [JxlDecoder.AdvanceInput, JxlDecoder.inputBytes, hcopy, List.nil_append]
      cases dec.next_in with
      | none => simp
      | some l => simp

end CursorTheorems

/-! ## Size limit -/

theorem DivCeil_32 {xsize : Nat} (hx : xsize ≤ 2 ^ 64 - 32) :
    sizeMul (DivCeil xsize 32) 32 = (xsize + 31) / 32 * 32 := by
  simp only [sizeMul, DivCeil, sizeSub, sizeAdd, SIZE_MOD] at *
  omega

/-- With a nonzero limit, dimensions whose pixel count exceeds the limit are
rejected. -/
theorem CheckSizeLimit_rejects {L xsize ysize : Nat} (hL : L ≠ 0)
    (hx : xsize ≤ 2 ^ 64 - 32) (hpix : xsize * ysize > L) :
    CheckSizeLimit L xsize ysize = false := by
  have hx0 : xsize ≠ 0 := by rintro rfl; simp at hpix
  have hy0 : ysize ≠ 0 := by rintro rfl; simp at hpix
  unfold CheckSizeLimit
  simp only [hL, if_false, hx0, hy0, or_self]
  by_cases hge : xsize ≥ L ∨ ysize ≥ L
  · simp [hge]
  · simp only [hge, if_false, DivCeil_32 hx]
    have hxs : xsize ≤ (xsize + 31) / 32 * 32 := by omega
    have hpos : 0 < (xsize + 31) / 32 * 32 := by omega
    generalize (xsize + 31) / 32 * 32 = X at hxs hpos
    have hprod : L < X * ysize := lt_of_lt_of_le hpix (Nat.mul_le_mul_right _ hxs)
    by_cases hov : sizeMul X ysize / X ≠ ysize
    · simp [hov]
    · simp only [hov, if_false]
      have heq : sizeMul X ysize / X = ysize := by simpa using hov
      have hle : sizeMul X ysize ≤ X * ysize := Nat.mod_le _ _
      have hge2 : X * ysize ≤ sizeMul X ysize := by
        have := Nat.div_mul_le_self (sizeMul X ysize) X
        rw [heq] at this
        rw [Nat.mul_comm]; exact this
      have : sizeMul X ysize = X * ysize := le_antisymm hle hge2
      simp [this, hprod]

/-! ## Skipping and subscription -/

section ApiTheorems
variable {E : Type}

/-- Marking the dependencies succeeds when each of them lies inside the list,
and keeps the length of the list. -/
theorem markRequired_some (deps : List Nat) (required : List Bool)
    (h : ∀ d ∈ deps, d < required.length) :
    ∃ r, markRequired deps required = some r ∧ r.length = required.length := by
  induction deps generalizing required with
  | nil => exact ⟨required, rfl, rfl⟩
  | cons d deps ih =>
    have hd : d < required.length := h d (by simp)
    obtain ⟨r, hr, hlen⟩ := ih (required.set d true) (fun x hx => by
      simpa using h x (List.mem_cons_of_mem _ hx))
    exact ⟨r, by simp [markRequired, hd, hr], by simpa using hlen⟩

/-- On a ledger whose two vectors have the same length, `JxlDecoderSkipFrames`
passes its assertions and changes `skip_frames` and `frame_required` only. -/
theorem JxlDecoderSkipFrames_shape (dec : JxlDecoder E) (amount : Nat)
    (hlen : dec.frame_references.length = dec.frame_saved_as.length) :
    ∃ required, JxlDecoderSkipFrames dec amount =
      some { dec with skip_frames := sizeAdd dec.skip_frames amount
                      frame_required := required } := by
  unfold JxlDecoderSkipFrames recomputeFrameRequired
  simp only []
  cases hext : dec.frame_external_to_internal[sizeAdd dec.external_frames
      (sizeAdd dec.skip_frames amount)]? with
  | none => exact ⟨[], rfl⟩
  | some internal_index =>
    simp only []
    by_cases hidx : internal_index < dec.frame_saved_as.length
    · obtain ⟨deps, hdeps, _, hmem⟩ := GetFrameDependencies_required dec.frame_saved_as
        dec.frame_references internal_index hlen (by omega)
      obtain ⟨r, hr, _⟩ := markRequired_some deps
        (List.replicate (internal_index + 1) false) (fun d hd => by
          have := ((hmem d).1 hd).lt_index
          simp; omega)
      exact ⟨r, by simp [hidx, hdeps, hr]⟩
    · exact ⟨[], by simp [hidx]⟩

/-- C8: `JxlDecoderSkipFrames` is additive. In every decoder state whose
ledger vectors `frame_references` and `frame_saved_as` have the same length
(the precondition that `GetFrameDependencies` asserts), skipping `a` and then
`b` frames passes all assertions and leaves exactly the state that skipping
`a + b` (modulo `2 ^ 64`) at once leaves; that state differs from the initial
one in `skip_frames` and `frame_required` only. -/
theorem JxlDecoderSkipFrames_additive (dec : JxlDecoder E) (a b : Nat)
    (hlen : dec.frame_references.length = dec.frame_saved_as.length) :
    (JxlDecoderSkipFrames dec a).bind (fun dec1 => JxlDecoderSkipFrames dec1 b)
      = JxlDecoderSkipFrames dec (sizeAdd a b) ∧
    ∃ required, JxlDecoderSkipFrames dec (sizeAdd a b) =
      some { dec with skip_frames := sizeAdd dec.skip_frames (a + b)
                      frame_required := required } := by
  obtain ⟨r1, h1⟩ := JxlDecoderSkipFrames_shape dec a hlen
  obtain ⟨r2, h2⟩ := JxlDecoderSkipFrames_shape dec (sizeAdd a b) hlen
  have hsum : sizeAdd dec.skip_frames (sizeAdd a b) = sizeAdd dec.skip_frames (a + b) := by
    simp only [sizeAdd, SIZE_MOD]; omega
  refine ⟨?_, r2, by rw [h2, hsum]⟩
  rw [h1]
  simp only [Option.some_bind]
  unfold JxlDecoderSkipFrames
  simp only [sizeAdd_assoc]

theorem checkSignature_stage (dec d : JxlDecoder E) (st : JxlDecoderStatus)
    (h : checkSignature dec = some (st, d)) : d.stage = dec.stage := by
  unfold checkSignature at h
  split at h
  · split at h
    · cases h
    · simp only [Option.some.injEq, Prod.mk.injEq] at h
      rw [← h.2]
    · split at h
      · simp only [Option.some.injEq, Prod.mk.injEq] at h
        rw [← h.2]
      · simp only [Option.some.injEq, Prod.mk.injEq] at h
        rw [← h.2]
    · simp only [Option.some.injEq, Prod.mk.injEq] at h
      rw [← h.2]
    · simp only [Option.some.injEq, Prod.mk.injEq] at h
      rw [← h.2]
  · simp only [Option.some.injEq, Prod.mk.injEq] at h
    rw [← h.2]

/-- A call of `JxlDecoderProcessInput` leaves the stage other than `kInited`,
when the call of `HandleBoxes` in it does. -/
theorem JxlDecoderProcessInput_started
    (handleBoxes : JxlDecoder E → Option (JxlDecoderStatus × JxlDecoder E))
    (dec d : JxlDecoder E) (st : JxlDecoderStatus)
    (h : JxlDecoderProcessInput handleBoxes dec = some (st, d))
    (hb : ∀ x s y, handleBoxes x = some (s, y) →
      x.stage ≠ DecoderStage.kInited → y.stage ≠ DecoderStage.kInited) :
    d.stage ≠ DecoderStage.kInited := by
  unfold JxlDecoderProcessInput at h
  simp only at h
  have h1 : (if dec.stage = DecoderStage.kInited then
      { dec with stage := DecoderStage.kStarted } else dec).stage ≠ DecoderStage.kInited := by
    split
    · simp
    · assumption
  generalize (if dec.stage = DecoderStage.kInited then
      { dec with stage := DecoderStage.kStarted } else dec) = dec1 at h h1
  split at h
  · simp only [Option.some.injEq, Prod.mk.injEq] at h
    rw [← h.2]; exact h1
  · split at h
    · cases h
    · rename_i st2 dec2 hc
      have h2 : dec2.stage ≠ DecoderStage.kInited := by
        rw [checkSignature_stage _ _ _ hc]; exact h1
      split at h
      · simp only [Option.some.injEq, Prod.mk.injEq] at h
        rw [← h.2]; exact h2
      · split at h
        · cases h
        · rename_i status dec3 hh
          have h3 := hb _ _ _ hh h2
          split at h
          · simp only [Option.some.injEq, Prod.mk.injEq] at h
            rw [← h.2]; exact h3
          · split at h
            · simp only [Option.some.injEq, Prod.mk.injEq] at h
              rw [← h.2]; exact h3
            · split at h
              · simp only [Option.some.injEq, Prod.mk.injEq] at h
                rw [← h.2]; exact h3
              · simp only [Option.some.injEq, Prod.mk.injEq] at h
                rw [← h.2]; exact h3

end ApiTheorems
section CursorLemmas
variable {E : Type}

theorem AvailableCodestream_le (dec : JxlDecoder E) : dec.AvailableCodestream ≤ dec.avail_in := by
  unfold JxlDecoder.AvailableCodestream
  split
  · exact Nat.min_le_left _ _
  · exact le_refl _

/-- Available codestream bytes after advancing the input inside them. -/
theorem AvailableCodestream_AdvanceInput (dec : JxlDecoder E) (k : Nat)
    (hk : k ≤ dec.AvailableCodestream) (ha : dec.avail_in < SIZE_MOD) :
    (dec.AdvanceInput k).AvailableCodestream = dec.AvailableCodestream - k := by
  revert hk
  simp only [JxlDecoder.AvailableCodestream, JxlDecoder.AdvanceInput]
  cases dec.box_contents_unbounded
  · simp only [Bool.not_false, if_true, sizeSub, sizeAdd, SIZE_MOD] at *
    intro hk
    omega
  · simp only [Bool.not_true, Bool.false_eq_true, if_false, sizeSub, SIZE_MOD] at *
    intro hk
    omega

theorem inputBytes_AdvanceInput (dec : JxlDecoder E) (k : Nat) :
    (dec.AdvanceInput k).inputBytes = dec.inputBytes.drop k := by
  simp only [JxlDecoder.inputBytes, JxlDecoder.AdvanceInput]
  cases dec.next_in <;> simp

/-- Advancing the input inside the available codestream bytes keeps the window
well-formed. -/
theorem AdvanceInput_window (dec : JxlDecoder E) (k : Nat)
    (hw : dec.avail_in ≤ dec.inputBytes.length)
    (hn : dec.file_pos + 2 * dec.avail_in < SIZE_MOD) (hk : k ≤ dec.avail_in) :
    (dec.AdvanceInput k).avail_in = dec.avail_in - k ∧
    (dec.AdvanceInput k).file_pos = dec.file_pos + k ∧
    (dec.AdvanceInput k).avail_in ≤ (dec.AdvanceInput k).inputBytes.length ∧
    (dec.AdvanceInput k).file_pos + 2 * (dec.AdvanceInput k).avail_in < SIZE_MOD := by
  have h1 : (dec.AdvanceInput k).avail_in = dec.avail_in - k := by
    simp only [JxlDecoder.AdvanceInput, sizeSub, SIZE_MOD] at *
    omega
  have h2 : (dec.AdvanceInput k).file_pos = dec.file_pos + k := by
    simp only [JxlDecoder.AdvanceInput, sizeAdd, SIZE_MOD] at *
    omega
  refine ⟨h1, h2, ?_, ?_⟩
  · rw [h1, inputBytes_AdvanceInput, List.length_drop]
    omega
  · rw [h1, h2]
    omega

end CursorLemmas

section CursorLemmas2
variable {E : Type}

theorem RequestMoreInput_cursorOnly (dec : JxlDecoder E) :
    dec.RequestMoreInput.2 = dec.withCursorOf dec.RequestMoreInput.2 := by
  unfold JxlDecoder.RequestMoreInput
  split <;> rfl

theorem AdvanceInput_cursorOnly (dec : JxlDecoder E) (k : Nat) :
    dec.AdvanceInput k = dec.withCursorOf (dec.AdvanceInput k) := rfl

theorem AdvanceCodestream_cursorOnly (dec : JxlDecoder E) (n : Nat) :
    dec.AdvanceCodestream n = dec.withCursorOf (dec.AdvanceCodestream n) := by
  unfold JxlDecoder.AdvanceCodestream
  simp only []
  split
  · split <;> rfl
  · split <;> rfl

/-- `RequestMoreInput` keeps the cursor well-formed and at the same logical
position. -/
theorem RequestMoreInput_wf (dec : JxlDecoder E) (hwf : CursorWF dec) :
    CursorWF dec.RequestMoreInput.2 ∧
    dec.RequestMoreInput.2.logicalPos = dec.logicalPos ∧
    dec.RequestMoreInput.2.codestream_pos = dec.codestream_pos := by
  obtain ⟨hw, hn, hd, hua, huc, hcp, hpl⟩ := hwf
  have hale := AvailableCodestream_le dec
  by_cases hc : dec.codestream_copy = []
  · have hu := hd hc
    have heq : dec.RequestMoreInput.2 =
        ({ dec with codestream_copy :=
            dec.codestream_copy ++ dec.inputBytes.take dec.AvailableCodestream }
          ).AdvanceInput dec.AvailableCodestream := by
      simp [JxlDecoder.RequestMoreInput, hc]
    obtain ⟨h1, h2, h3, h4⟩ := AdvanceInput_window
      ({ dec with codestream_copy :=
            dec.codestream_copy ++ dec.inputBytes.take dec.AvailableCodestream })
      dec.AvailableCodestream hw hn hale
    have h5 := AvailableCodestream_AdvanceInput
      ({ dec with codestream_copy :=
            dec.codestream_copy ++ dec.inputBytes.take dec.AvailableCodestream })
      dec.AvailableCodestream (le_refl _) (by simp only [SIZE_MOD] at *; omega)
    rw [heq]
    have hlen : (dec.inputBytes.take dec.AvailableCodestream).length = dec.AvailableCodestream := by
      rw [List.length_take]; omega
    refine ⟨⟨h3, h4, ?_, ?_, ?_, ?_, ?_⟩, ?_, ?_⟩
    · intro _; simpa [JxlDecoder.AdvanceInput] using hu
    · simp only [JxlDecoder.AdvanceInput] at *
      simp [hu]
    · simp only [JxlDecoder.AdvanceInput] at *
      simp [hu]
    · simp only [JxlDecoder.AdvanceInput] at *
      simp only [hc, List.nil_append, hlen, hu]
      rw [h2]; omega
    · simpa [JxlDecoder.AdvanceInput] using hpl
    · simp only [JxlDecoder.logicalPos]
      simp only [JxlDecoder.AdvanceInput] at *
      simp only [hc, List.nil_append, hlen, hu, h2, List.length_nil]
      omega
    · simp [JxlDecoder.AdvanceInput]
  · have heq : dec.RequestMoreInput.2 =
        { dec.AdvanceInput dec.codestream_unconsumed with codestream_unconsumed := 0 } := by
      simp [JxlDecoder.RequestMoreInput, hc]
    obtain ⟨h1, h2, h3, h4⟩ := AdvanceInput_window dec dec.codestream_unconsumed hw hn
      (le_trans hua hale)
    rw [heq]
    refine ⟨⟨?_, ?_, ?_, ?_, ?_, ?_, ?_⟩, ?_, ?_⟩
    · exact h3
    · exact h4
    · intro _; rfl
    · exact Nat.zero_le _
    · exact Nat.zero_le _
    · show dec.codestream_copy.length ≤ (dec.AdvanceInput dec.codestream_unconsumed).file_pos + 0
      rw [h2]; omega
    · exact hpl
    · show (dec.AdvanceInput dec.codestream_unconsumed).file_pos + 0 + dec.codestream_pos
        - dec.codestream_copy.length = _
      rw [h2]; simp only [JxlDecoder.logicalPos]; omega
    · rfl

end CursorLemmas2

section CursorLemmas3
variable {E : Type}

theorem RequestMoreInput_status (dec : JxlDecoder E) :
    dec.RequestMoreInput.1 = JXL_DEC_NEED_MORE_INPUT := by
  unfold JxlDecoder.RequestMoreInput
  split <;> rfl

theorem getSpan_wf (dec dec1 : JxlDecoder E) (st : JxlDecoderStatus) (span : List Nat)
    (hwf : CursorWF dec) (h : dec.getSpan = some (st, span, dec1)) :
    CursorWF dec1 ∧ dec1.logicalPos = dec.logicalPos ∧ dec1 = dec.withCursorOf dec1 ∧
    (st = JXL_DEC_SUCCESS ∨ st = JXL_DEC_NEED_MORE_INPUT) ∧
    (st = JXL_DEC_SUCCESS → SpanOk dec1 span) := by
  unfold JxlDecoder.getSpan at h
  by_cases hp : dec.codestream_pos ≤ dec.codestream_copy.length
  swap
  · simp [hp] at h
  by_cases hu : dec.codestream_unconsumed ≤ dec.codestream_copy.length
  swap
  · simp [hp, hu] at h
  simp only [hp, hu, not_true_eq_false, if_false] at h
  have hale := AvailableCodestream_le dec
  by_cases hc : dec.codestream_copy = []
  · simp only [hc, List.isEmpty_nil, if_true] at h
    by_cases ha : dec.AvailableCodestream = 0
    · simp only [ha, if_true, Option.some.injEq, Prod.mk.injEq] at h
      obtain ⟨h1, _, h3⟩ := h
      subst h3
      obtain ⟨w1, w2, _⟩ := RequestMoreInput_wf dec hwf
      refine ⟨w1, w2, RequestMoreInput_cursorOnly dec, Or.inr ?_, ?_⟩
      · rw [← h1]; exact RequestMoreInput_status dec
      · intro hs
        rw [← h1, RequestMoreInput_status] at hs
        cases hs
    · simp only [ha, if_false, Option.some.injEq, Prod.mk.injEq] at h
      obtain ⟨h1, h2, h3⟩ := h
      subst h3
      refine ⟨hwf, rfl, rfl, Or.inl h1.symm, fun _ => ⟨?_, hp, ?_⟩⟩
      · rw [← h2, List.length_take]
        simp only [JxlDecoder.spanLength, hc, List.isEmpty_nil, if_true]
        have := hwf.window
        omega
      · intro _
        simp only [hc, List.length_nil] at hp
        omega
  · have hne : dec.codestream_copy.isEmpty = false := by
      cases hcc : dec.codestream_copy with
      | nil => exact absurd hcc hc
      | cons a t => rfl
    simp only [hne, Bool.false_eq_true, if_false, Option.some.injEq, Prod.mk.injEq] at h
    obtain ⟨h1, h2, h3⟩ := h
    obtain ⟨hw, hn, hd, hua, huc, hcp, hpl⟩ := hwf
    have hlen : ((dec.inputBytes.take dec.AvailableCodestream).drop
        dec.codestream_unconsumed).length
        = dec.AvailableCodestream - dec.codestream_unconsumed := by
      rw [List.length_drop, List.length_take]; omega
    have hav : dec1.AvailableCodestream = dec.AvailableCodestream := by
      rw [← h3]; rfl
    have hcopy : dec1.codestream_copy.length = dec.codestream_copy.length +
        (dec.AvailableCodestream - dec.codestream_unconsumed) := by
      rw [← h3]; simp only [List.length_append, hlen]
    have hne1 : dec1.codestream_copy ≠ [] := by
      rw [← h3]; simp [hc]
    refine ⟨⟨?_, ?_, ?_, ?_, ?_, ?_, ?_⟩, ?_, ?_, Or.inl h1.symm, fun _ => ⟨?_, ?_, ?_⟩⟩
    · rw [← h3]; exact hw
    · rw [← h3]; exact hn
    · intro hnil; exact absurd hnil hne1
    · rw [hav, ← h3]
    · rw [hcopy, ← h3]; show dec.AvailableCodestream ≤ _; omega
    · rw [hcopy, ← h3]
      show _ ≤ dec.file_pos + dec.AvailableCodestream
      omega
    · rw [← h3]; exact hpl
    · simp only [JxlDecoder.logicalPos, hcopy]
      rw [← h3]
      show dec.file_pos + dec.AvailableCodestream + dec.codestream_pos - _ = _
      omega
    · rw [← h3]; rfl
    · have hne2 : dec1.codestream_copy.isEmpty = false := by
        cases hcc : dec1.codestream_copy with
        | nil => exact absurd hcc hne1
        | cons a t => rfl
      simp only [JxlDecoder.spanLength, hne2, Bool.false_eq_true, if_false]
      rw [← h2, ← h3]
      simp only [List.length_drop]
    · rw [hcopy, ← h3]; show dec.codestream_pos ≤ _; omega
    · intro hnil; exact absurd hnil hne1

/-- `GetCodestreamInput` keeps the cursor well-formed and at the same logical
position, changes nothing but the cursor, returns success or need-more-input,
and on success the span is what the state says. -/
theorem GetCodestreamInput_wf (dec dec1 : JxlDecoder E) (st : JxlDecoderStatus)
    (span : List Nat) (hwf : CursorWF dec)
    (h : dec.GetCodestreamInput = some (st, span, dec1)) :
    CursorWF dec1 ∧ dec1.logicalPos = dec.logicalPos ∧ dec1 = dec.withCursorOf dec1 ∧
    (st = JXL_DEC_SUCCESS ∨ st = JXL_DEC_NEED_MORE_INPUT) ∧
    (st = JXL_DEC_SUCCESS → SpanOk dec1 span) := by
  unfold JxlDecoder.GetCodestreamInput at h
  by_cases hskip : (dec.codestream_copy.isEmpty && decide (dec.codestream_pos > 0)) = true
  swap
  · simp only [hskip, Bool.false_eq_true, if_false] at h
    exact getSpan_wf dec dec1 st span hwf h
  simp only [hskip, if_true] at h
  simp only [Bool.and_eq_true, List.isEmpty_iff, decide_eq_true_eq] at hskip
  obtain ⟨hc, hpos⟩ := hskip
  obtain ⟨hw, hn, hd, hua, huc, hcp, hpl⟩ := hwf
  have hu := hd hc
  have hale := AvailableCodestream_le dec
  have hk : min dec.codestream_pos dec.AvailableCodestream ≤ dec.AvailableCodestream :=
    Nat.min_le_right _ _
  obtain ⟨a1, a2, a3, a4⟩ := AdvanceInput_window dec
    (min dec.codestream_pos dec.AvailableCodestream) hw hn (le_trans hk hale)
  have a5 := AvailableCodestream_AdvanceInput dec
    (min dec.codestream_pos dec.AvailableCodestream) hk (by simp only [SIZE_MOD] at *; omega)
  have hwf2 : CursorWF { dec.AdvanceInput (min dec.codestream_pos dec.AvailableCodestream) with
      codestream_pos := (dec.AdvanceInput (min dec.codestream_pos
        dec.AvailableCodestream)).codestream_pos
          - min dec.codestream_pos dec.AvailableCodestream } := by
    refine ⟨a3, a4, fun _ => hu, ?_, ?_, ?_, ?_⟩
    · show dec.codestream_unconsumed ≤ _; omega
    · show dec.codestream_unconsumed ≤ _; omega
    · show dec.codestream_copy.length ≤ _
      simp [hc]
    · show dec.codestream_pos - _ < _
      omega
  have hlog : JxlDecoder.logicalPos { dec.AdvanceInput (min dec.codestream_pos
      dec.AvailableCodestream) with
      codestream_pos := (dec.AdvanceInput (min dec.codestream_pos
        dec.AvailableCodestream)).codestream_pos
          - min dec.codestream_pos dec.AvailableCodestream } = dec.logicalPos := by
    simp only [JxlDecoder.logicalPos]
    show (dec.AdvanceInput _).file_pos + dec.codestream_unconsumed +
      (dec.codestream_pos - _) - dec.codestream_copy.length = _
    rw [a2]
    omega
  split at h
  · simp only [Option.some.injEq, Prod.mk.injEq] at h
    obtain ⟨h1, _, h3⟩ := h
    obtain ⟨w1, w2, _⟩ := RequestMoreInput_wf _ hwf2
    rw [← h3]
    refine ⟨w1, by rw [w2, hlog], ?_, Or.inr ?_, ?_⟩
    · rw [RequestMoreInput_cursorOnly]; rfl
    · rw [← h1]; exact RequestMoreInput_status _
    · intro hs
      rw [← h1, RequestMoreInput_status] at hs
      cases hs
  · obtain ⟨w1, w2, w3, w4, w5⟩ := getSpan_wf _ dec1 st span hwf2 h
    refine ⟨w1, by rw [w2, hlog], ?_, w4, w5⟩
    rw [w3]; rfl

end CursorLemmas3

section CursorLemmas4
variable {E : Type}

/-- Advancing inside the span last returned keeps the cursor well-formed and
moves the logical position by exactly the amount. -/
theorem AdvanceCodestream_wf (dec : JxlDecoder E) (n : Nat) (hwf : CursorWF dec)
    (hn : n ≤ dec.spanLength) (hp : dec.codestream_pos ≤ dec.codestream_copy.length)
    (hz : dec.codestream_copy = [] → dec.codestream_pos = 0) :
    CursorWF (dec.AdvanceCodestream n) ∧
    (dec.AdvanceCodestream n).logicalPos = dec.logicalPos + n ∧
    (dec.AdvanceCodestream n).codestream_pos ≤ (dec.AdvanceCodestream n).codestream_copy.length ∧
    ((dec.AdvanceCodestream n).codestream_copy = [] →
      (dec.AdvanceCodestream n).codestream_pos = 0) ∧
    dec.spanLength - n ≤ (dec.AdvanceCodestream n).spanLength := by
  obtain ⟨hw, hnw, hd, hua, huc, hcp, hpl⟩ := hwf
  have hale := AvailableCodestream_le dec
  by_cases hc : dec.codestream_copy = []
  · have hu := hd hc
    have hp0 := hz hc
    have hn1 : n ≤ dec.AvailableCodestream := by
      simpa [JxlDecoder.spanLength, hc] using hn
    have heq : dec.AdvanceCodestream n = dec.AdvanceInput n := by
      simp [JxlDecoder.AdvanceCodestream, hc, hn1]
    obtain ⟨a1, a2, a3, a4⟩ := AdvanceInput_window dec n hw hnw (le_trans hn1 hale)
    have a5 := AvailableCodestream_AdvanceInput dec n hn1 (by simp only [SIZE_MOD] at *; omega)
    rw [heq]
    refine ⟨⟨a3, a4, fun _ => hu, ?_, ?_, ?_, hpl⟩, ?_, ?_, fun _ => hp0, ?_⟩
    · show dec.codestream_unconsumed ≤ _; omega
    · show dec.codestream_unconsumed ≤ _; omega
    · show dec.codestream_copy.length ≤ _; simp [hc]
    · simp only [JxlDecoder.logicalPos]
      show (dec.AdvanceInput n).file_pos + dec.codestream_unconsumed + dec.codestream_pos
        - dec.codestream_copy.length = _
      rw [a2]; simp only [hc, List.length_nil]; omega
    · show dec.codestream_pos ≤ _; omega
    · have e1 : (dec.AdvanceInput n).spanLength = (dec.AdvanceInput n).AvailableCodestream := by
        simp only [JxlDecoder.spanLength]
        show (if dec.codestream_copy.isEmpty = true then _ else _) = _
        simp [hc]
      have e2 : dec.spanLength = dec.AvailableCodestream := by
        simp [JxlDecoder.spanLength, hc]
      rw [e1, e2, a5]
  · have hne : dec.codestream_copy.isEmpty = false := by
      cases hcc : dec.codestream_copy with
      | nil => exact absurd hcc hc
      | cons a t => rfl
    have hsl : dec.spanLength = dec.codestream_copy.length - dec.codestream_pos := by
      simp [JxlDecoder.spanLength, hne]
    rw [hsl] at hn
    have hp1 : sizeAdd dec.codestream_pos n = dec.codestream_pos + n := by
      simp only [sizeAdd, SIZE_MOD] at *; omega
    have hp2 : sizeAdd (dec.codestream_pos + n) dec.codestream_unconsumed
        = dec.codestream_pos + n + dec.codestream_unconsumed := by
      simp only [sizeAdd, SIZE_MOD] at *; omega
    by_cases hcond : dec.codestream_pos + n + dec.codestream_unconsumed
        ≥ dec.codestream_copy.length
    · have hadv : min dec.codestream_unconsumed
          (sizeSub (sizeAdd dec.codestream_unconsumed (dec.codestream_pos + n))
            dec.codestream_copy.length)
          = dec.codestream_unconsumed + dec.codestream_pos + n - dec.codestream_copy.length := by
        simp only [sizeAdd, sizeSub, SIZE_MOD] at *; omega
      have heq : dec.AdvanceCodestream n =
          { dec.AdvanceInput (dec.codestream_unconsumed + dec.codestream_pos + n
              - dec.codestream_copy.length) with
            codestream_pos := 0, codestream_unconsumed := 0, codestream_copy := [] } := by
        simp only [JxlDecoder.AdvanceCodestream, hne, Bool.false_eq_true, if_false, hp1, hp2,
          hcond, ge_iff_le, if_true, hadv]
        show { dec.AdvanceInput _ with
          codestream_pos := dec.codestream_pos + n - min (dec.codestream_pos + n)
            dec.codestream_copy.length, codestream_unconsumed := 0, codestream_copy := [] } = _
        have : dec.codestream_pos + n - min (dec.codestream_pos + n)
            dec.codestream_copy.length = 0 := by omega
        rw [this]
      have hk : dec.codestream_unconsumed + dec.codestream_pos + n
          - dec.codestream_copy.length ≤ dec.AvailableCodestream := by omega
      obtain ⟨a1, a2, a3, a4⟩ := AdvanceInput_window dec _ hw hnw (le_trans hk hale)
      have a5 := AvailableCodestream_AdvanceInput dec _ hk (by simp only [SIZE_MOD] at *; omega)
      rw [heq]
      refine ⟨⟨a3, a4, fun _ => rfl, Nat.zero_le _, Nat.zero_le _, Nat.zero_le _, ?_⟩,
        ?_, Nat.zero_le _, fun _ => rfl, ?_⟩
      · show 0 < SIZE_MOD
        simp [SIZE_MOD]
      · simp only [JxlDecoder.logicalPos]
        show (dec.AdvanceInput _).file_pos + 0 + 0 - 0 = _
        rw [a2]; omega
      · rw [hsl]
        show _ ≤ JxlDecoder.AvailableCodestream (dec.AdvanceInput _)
        rw [a5]; omega
    · have heq : dec.AdvanceCodestream n =
          { dec with codestream_pos := dec.codestream_pos + n } := by
        simp only [JxlDecoder.AdvanceCodestream, hne, Bool.false_eq_true, if_false, hp1, hp2,
          hcond, ge_iff_le]
      rw [heq]
      refine ⟨⟨hw, hnw, hd, hua, huc, hcp, ?_⟩, ?_, ?_, ?_, ?_⟩
      · show dec.codestream_pos + n < SIZE_MOD
        simp only [SIZE_MOD] at *; omega
      · simp only [JxlDecoder.logicalPos]; omega
      · show dec.codestream_pos + n ≤ dec.codestream_copy.length
        omega
      · intro h; exact absurd h hc
      · rw [hsl]
        simp only [JxlDecoder.spanLength, hne, Bool.false_eq_true, if_false]
        omega

end CursorLemmas4

section HeaderLemmas
variable {E : Type}

theorem ChangesOnlyCursor.refl_cursor (dec : JxlDecoder E) : ChangesOnlyCursor dec dec := rfl

theorem ChangesOnlyCursor.trans_cursor {d1 d2 d3 : JxlDecoder E} (h1 : ChangesOnlyCursor d1 d2)
    (h2 : ChangesOnlyCursor d2 d3) : ChangesOnlyCursor d1 d3 := by
  unfold ChangesOnlyCursor at *
  conv => lhs; rw [h2, h1]
  rfl

theorem ChangesOnlyParse.refl_parse (dec : JxlDecoder E) : ChangesOnlyParse dec dec := rfl

theorem ChangesOnlyParse.trans_parse {d1 d2 d3 : JxlDecoder E} (h1 : ChangesOnlyParse d1 d2)
    (h2 : ChangesOnlyParse d2 d3) : ChangesOnlyParse d1 d3 := by
  unfold ChangesOnlyParse at *
  conv => lhs; rw [h2, h1]
  rfl

theorem ChangesOnlyCursor.parse {d1 d2 : JxlDecoder E} (h : ChangesOnlyCursor d1 d2) :
    ChangesOnlyParse d1 d2 := by
  unfold ChangesOnlyCursor at h
  unfold ChangesOnlyParse
  have hg : d2.got_codestream_signature = d1.got_codestream_signature := by rw [h]; rfl
  have he : d2.ext = d1.ext := by rw [h]; rfl
  rw [hg, he]
  exact h

theorem ChangesOnlyParse.got_basic_info {d1 d2 : JxlDecoder E} (h : ChangesOnlyParse d1 d2) :
    d2.got_basic_info = d1.got_basic_info := by
  unfold ChangesOnlyParse at h
  conv => lhs; rw [h]
  rfl

theorem ChangesOnlyParse.codestream_bits_ahead {d1 d2 : JxlDecoder E}
    (h : ChangesOnlyParse d1 d2) : d2.codestream_bits_ahead = d1.codestream_bits_ahead := by
  unfold ChangesOnlyParse at h
  conv => lhs; rw [h]
  rfl

theorem ChangesOnlyCursor.got_codestream_signature {d1 d2 : JxlDecoder E}
    (h : ChangesOnlyCursor d1 d2) :
    d2.got_codestream_signature = d1.got_codestream_signature := by
  unfold ChangesOnlyCursor at h
  conv => lhs; rw [h]
  rfl

theorem CursorWF.congr {d1 d2 : JxlDecoder E} (h : CursorWF d1)
    (hc : d2.withCursorOf d1 = d2) (hb : d2.box_contents_unbounded = d1.box_contents_unbounded)
    (he : d2.box_contents_end = d1.box_contents_end) : CursorWF d2 := by
  obtain ⟨h1, h2, h3, h4, h5, h6, h7⟩ := h
  have e1 : d2.next_in = d1.next_in := by rw [← hc]; rfl
  have e2 : d2.avail_in = d1.avail_in := by rw [← hc]; rfl
  have e3 : d2.file_pos = d1.file_pos := by rw [← hc]; rfl
  have e4 : d2.codestream_copy = d1.codestream_copy := by rw [← hc]; rfl
  have e5 : d2.codestream_unconsumed = d1.codestream_unconsumed := by rw [← hc]; rfl
  have e6 : d2.codestream_pos = d1.codestream_pos := by rw [← hc]; rfl
  have e7 : d2.AvailableCodestream = d1.AvailableCodestream := by
    simp only [JxlDecoder.AvailableCodestream, e2, e3, hb, he]
  have e8 : d2.inputBytes = d1.inputBytes := by simp only [JxlDecoder.inputBytes, e1]
  exact ⟨by rw [e2, e8]; exact h1, by rw [e2, e3]; exact h2, by rw [e4, e5]; exact h3,
    by rw [e5, e7]; exact h4, by rw [e4, e5]; exact h5, by rw [e3, e4, e5]; exact h6,
    by rw [e6]; exact h7⟩

/-- The commit step never asks for more input; it sets `got_basic_info`. -/
theorem commitBasicInfo_spec (env : HeaderEnv E) (dec : JxlDecoder E) (bits : Nat) :
    ((commitBasicInfo env dec bits).1 = JXL_DEC_SUCCESS ∨
      (commitBasicInfo env dec bits).1 = JXL_DEC_ERROR) ∧
    (commitBasicInfo env dec bits).2 =
      { dec.AdvanceCodestream (bits / 8) with
        codestream_bits_ahead := bits % 8
        got_basic_info := true
        basic_info_size_hint := 0 } ∧
    ((commitBasicInfo env dec bits).1 = JXL_DEC_ERROR ↔
      CheckSizeLimit dec.memory_limit_base
        (env.xsize (dec.AdvanceCodestream (bits / 8)).ext)
        (env.ysize (dec.AdvanceCodestream (bits / 8)).ext) = false) := by
  have hm : (dec.AdvanceCodestream (bits / 8)).memory_limit_base = dec.memory_limit_base := by
    rw [AdvanceCodestream_cursorOnly]; rfl
  unfold commitBasicInfo
  simp only [hm]
  cases CheckSizeLimit dec.memory_limit_base
      (env.xsize (dec.AdvanceCodestream (bits / 8)).ext)
      (env.ysize (dec.AdvanceCodestream (bits / 8)).ext) <;> simp

end HeaderLemmas

section HeaderTheorems
variable {E : Type}

/-- `GetCodestreamInput` changes nothing but the cursor. -/
theorem GetCodestreamInput_cursorOnly (dec dec1 : JxlDecoder E) (st : JxlDecoderStatus)
    (span : List Nat) (h : dec.GetCodestreamInput = some (st, span, dec1)) :
    ChangesOnlyCursor dec dec1 := by
  have hspan : ∀ d : JxlDecoder E, d.getSpan = some (st, span, dec1) →
      ChangesOnlyCursor d dec1 := by
    intro d hd
    unfold JxlDecoder.getSpan at hd
    split at hd
    · cases hd
    · split at hd
      · cases hd
      · simp only [] at hd
        split at hd
        · split at hd
          · simp only [Option.some.injEq, Prod.mk.injEq] at hd
            rw [← hd.2.2]; exact RequestMoreInput_cursorOnly d
          · simp only [Option.some.injEq, Prod.mk.injEq] at hd
            rw [← hd.2.2]; exact ChangesOnlyCursor.refl_cursor d
        · simp only [Option.some.injEq, Prod.mk.injEq] at hd
          rw [← hd.2.2]; rfl
  unfold JxlDecoder.GetCodestreamInput at h
  split at h
  · simp only [] at h
    split at h
    · simp only [Option.some.injEq, Prod.mk.injEq] at h
      rw [← h.2.2]
      refine ChangesOnlyCursor.trans_cursor ?_ (RequestMoreInput_cursorOnly _)
      rfl
    · refine ChangesOnlyCursor.trans_cursor ?_ (hspan _ h)
      rfl
  · exact hspan dec h

/-- `JxlDecoderReadBasicInfo` sets `got_basic_info` only through its commit
step, reached from a state that differs from the initial one in the cursor,
the signature flag and `ext` only. -/
theorem JxlDecoderReadBasicInfo_commit (env : HeaderEnv E) (dec dec1 : JxlDecoder E)
    (st : JxlDecoderStatus) (h : JxlDecoderReadBasicInfo env dec = some (st, dec1))
    (hne : dec1.got_basic_info ≠ dec.got_basic_info) :
    ∃ d bits, ChangesOnlyParse dec d ∧ (st, dec1) = commitBasicInfo env d bits := by
  have hsig : ∀ (s0 : JxlDecoderStatus) (d0 : JxlDecoder E),
      readCodestreamSignature dec = some (s0, d0) → ChangesOnlyParse dec d0 := by
    intro s0 d0 h0
    unfold readCodestreamSignature at h0
    split at h0
    · cases hget : dec.GetCodestreamInput with
      | none => simp [hget] at h0
      | some r =>
        obtain ⟨s1, span, d1⟩ := r
        have hc := GetCodestreamInput_cursorOnly dec d1 s1 span hget
        simp only [hget] at h0
        split at h0
        · simp only [Option.some.injEq, Prod.mk.injEq] at h0
          rw [← h0.2]; exact hc.parse
        · split at h0
          · simp only [Option.some.injEq] at h0
            have : d1.RequestMoreInput.2 = d0 := by rw [h0]
            rw [← this]
            exact (hc.trans_cursor (RequestMoreInput_cursorOnly d1)).parse
          · split at h0
            · simp only [Option.some.injEq, Prod.mk.injEq] at h0
              rw [← h0.2]; exact hc.parse
            · simp only [Option.some.injEq, Prod.mk.injEq] at h0
              rw [← h0.2]
              have hp1 : ChangesOnlyParse d1 { d1 with got_codestream_signature := true } := rfl
              exact (hc.parse.trans_parse hp1).trans_parse
                (ChangesOnlyCursor.parse (AdvanceCodestream_cursorOnly _ 2))
    · simp only [Option.some.injEq, Prod.mk.injEq] at h0
      rw [← h0.2]; exact ChangesOnlyParse.refl_parse dec
  have hbundle : ∀ (canRead : E → List Nat → Nat → Option (Bool × E))
      (read : E → List Nat → Nat → Bool × Nat × E) (d d1 : JxlDecoder E) (data : List Nat)
      (b b1 : Nat) (s : JxlDecoderStatus),
      ReadBundle canRead read d data b = some (s, b1, d1) → ChangesOnlyParse d d1 := by
    intro canRead read d d1 data b b1 s hb
    unfold ReadBundle at hb
    split at hb
    · cases hb
    · simp only [Option.some.injEq, Prod.mk.injEq] at hb
      rw [← hb.2.2]
      have hp1 : ChangesOnlyParse d { d with ext := ‹E› } := rfl
      exact hp1.trans_parse (ChangesOnlyCursor.parse (RequestMoreInput_cursorOnly _))
    · simp only [] at hb
      split at hb
      · simp only [Option.some.injEq, Prod.mk.injEq] at hb
        rw [← hb.2.2]; rfl
      · simp only [Option.some.injEq, Prod.mk.injEq] at hb
        rw [← hb.2.2]; rfl
  unfold JxlDecoderReadBasicInfo at h
  cases hs : readCodestreamSignature dec with
  | none => simp [hs] at h
  | some r =>
    obtain ⟨s0, d0⟩ := r
    have p0 := hsig s0 d0 hs
    simp only [hs] at h
    split at h
    · simp only [Option.some.injEq, Prod.mk.injEq] at h
      rw [← h.2] at hne
      exact absurd p0.got_basic_info hne
    · unfold readBasicInfoBundles at h
      cases hget : d0.GetCodestreamInput with
      | none => simp [hget] at h
      | some r1 =>
        obtain ⟨s1, span, d1⟩ := r1
        have p1 := p0.trans_parse (GetCodestreamInput_cursorOnly d0 d1 s1 span hget).parse
        simp only [hget] at h
        split at h
        · simp only [Option.some.injEq, Prod.mk.injEq] at h
          rw [← h.2] at hne
          exact absurd p1.got_basic_info hne
        · cases hb1 : ReadBundle env.canReadSize env.readSize d1 span 0 with
          | none => simp [hb1] at h
          | some r2 =>
            obtain ⟨s2, b2, d2⟩ := r2
            have p2 := p1.trans_parse (hbundle _ _ _ _ _ _ _ _ hb1)
            simp only [hb1] at h
            split at h
            · simp only [Option.some.injEq, Prod.mk.injEq] at h
              rw [← h.2] at hne
              exact absurd p2.got_basic_info hne
            · cases hb2 : ReadBundle env.canReadMeta env.readMeta d2 span b2 with
              | none => simp [hb2] at h
              | some r3 =>
                obtain ⟨s3, b3, d3⟩ := r3
                have p3 := p2.trans_parse (hbundle _ _ _ _ _ _ _ _ hb2)
                simp only [hb2] at h
                split at h
                · simp only [Option.some.injEq, Prod.mk.injEq] at h
                  rw [← h.2] at hne
                  exact absurd p3.got_basic_info hne
                · simp only [Option.some.injEq] at h
                  exact ⟨d3, b3, p3, h.symm⟩

theorem ChangesOnlyParse.memory_limit_base {d1 d2 : JxlDecoder E}
    (h : ChangesOnlyParse d1 d2) : d2.memory_limit_base = d1.memory_limit_base := by
  unfold ChangesOnlyParse at h
  conv => lhs; rw [h]
  rfl

end HeaderTheorems

section RestartTheorems
variable {E : Type}

end RestartTheorems

/-! ## Byte cursor on a bare codestream -/

theorem run_drop {cs x : List Nat} {p : Nat} (k : Nat) (h : x <+: cs.drop p)
    (hk : k ≤ x.length) : x.drop k <+: cs.drop (p + k) := by
  obtain ⟨t, ht⟩ := h
  refine ⟨t, ?_⟩
  rw [← List.drop_drop, ← ht, List.drop_append_of_le_length hk]

theorem run_append {cs x y : List Nat} {p : Nat} (hx : x <+: cs.drop p)
    (hy : y <+: cs.drop (p + x.length)) : x ++ y <+: cs.drop p := by
  obtain ⟨t, ht⟩ := hx
  obtain ⟨u, hu⟩ := hy
  refine ⟨u, ?_⟩
  have : cs.drop (p + x.length) = t := by
    rw [← List.drop_drop, ← ht, List.drop_left]
  rw [this] at hu
  rw [List.append_assoc, hu, ht]

section TrackLemmas
variable {E : Type}

theorem AvailableCodestream_unbounded (dec : JxlDecoder E)
    (h : dec.box_contents_unbounded = true) : dec.AvailableCodestream = dec.avail_in := by
  simp [JxlDecoder.AvailableCodestream, h]

/-- Advancing the input inside the window keeps the window a run of the
stream and keeps its end. -/
theorem AdvanceInput_tracks (cs : List Nat) (dec : JxlDecoder E) (k : Nat)
    (hnw : dec.file_pos + 2 * dec.avail_in < SIZE_MOD)
    (ha : dec.avail_in = dec.inputBytes.length)
    (hw : dec.inputBytes <+: cs.drop dec.file_pos) (hk : k ≤ dec.avail_in) :
    (dec.AdvanceInput k).avail_in = (dec.AdvanceInput k).inputBytes.length ∧
    (dec.AdvanceInput k).inputBytes <+: cs.drop (dec.AdvanceInput k).file_pos ∧
    (dec.AdvanceInput k).file_pos + (dec.AdvanceInput k).avail_in
      = dec.file_pos + dec.avail_in ∧
    (dec.AdvanceInput k).file_pos = dec.file_pos + k ∧
    (dec.AdvanceInput k).avail_in = dec.avail_in - k := by
  obtain ⟨a1, a2, _, _⟩ := AdvanceInput_window dec k (le_of_eq ha) hnw hk
  refine ⟨?_, ?_, by rw [a1, a2]; omega, a2, a1⟩
  · rw [a1, inputBytes_AdvanceInput, List.length_drop, ha]
  · rw [a2, inputBytes_AdvanceInput]
    exact run_drop k hw (by omega)

/-- `RequestMoreInput` on a cursor that reads `cs`: it still reads `cs`, at
the same logical position, nothing is counted as unconsumed, and the window
ends where it did. -/
theorem RequestMoreInput_tracks (cs : List Nat) (dec : JxlDecoder E)
    (ht : CursorTracks cs dec) :
    CursorTracks cs dec.RequestMoreInput.2 ∧
    dec.RequestMoreInput.2.logicalPos = dec.logicalPos ∧
    dec.RequestMoreInput.2.codestream_unconsumed = 0 ∧
    dec.RequestMoreInput.2.file_pos + dec.RequestMoreInput.2.avail_in
      = dec.file_pos + dec.avail_in ∧
    dec.RequestMoreInput.2.avail_in ≤ dec.avail_in := by
  obtain ⟨hwf, hub, hav, hwin, hin, hcopy, hpos⟩ := ht
  obtain ⟨w1, w2, w3⟩ := RequestMoreInput_wf dec hwf
  have hco := RequestMoreInput_cursorOnly dec
  have hub1 : dec.RequestMoreInput.2.box_contents_unbounded = true := by
    rw [hco]; exact hub
  have hA := AvailableCodestream_unbounded dec hub
  by_cases hc : dec.codestream_copy = []
  · have hu := hwf.direct hc
    have heq : dec.RequestMoreInput.2 =
        ({ dec with codestream_copy :=
            dec.codestream_copy ++ dec.inputBytes.take dec.AvailableCodestream }
          ).AdvanceInput dec.AvailableCodestream := by
      simp [JxlDecoder.RequestMoreInput, hc]
    obtain ⟨t1, t2, t3, t4, t5⟩ := AdvanceInput_tracks cs
      ({ dec with codestream_copy :=
            dec.codestream_copy ++ dec.inputBytes.take dec.AvailableCodestream })
      dec.AvailableCodestream hwf.nowrap hav hwin (le_of_eq hA)
    rw [← heq] at t1 t2 t3 t4 t5
    have t3a : dec.RequestMoreInput.2.file_pos + dec.RequestMoreInput.2.avail_in
        = dec.file_pos + dec.avail_in := t3
    have t4a : dec.RequestMoreInput.2.file_pos = dec.file_pos + dec.AvailableCodestream := t4
    have t5a : dec.RequestMoreInput.2.avail_in = dec.avail_in - dec.AvailableCodestream := t5
    have hcopy1 : dec.RequestMoreInput.2.codestream_copy = dec.inputBytes := by
      rw [heq]
      show dec.codestream_copy ++ dec.inputBytes.take dec.AvailableCodestream = _
      rw [hc, hA, hav, List.take_length, List.nil_append]
    have hunc1 : dec.RequestMoreInput.2.codestream_unconsumed = 0 := by
      rw [heq]; exact hu
    refine ⟨⟨w1, hub1, t1, t2, ?_, ?_, ?_⟩, w2, hunc1, t3a, ?_⟩
    · rw [t3a]; exact hin
    · rw [hcopy1, hunc1, t4a, hA, hav]
      simpa using hwin
    · rw [w3, hcopy1]
      rw [hc] at hpos
      simp only [List.length_nil] at hpos
      omega
    · rw [t5a]; omega
  · have heq : dec.RequestMoreInput.2 =
        { dec.AdvanceInput dec.codestream_unconsumed with codestream_unconsumed := 0 } := by
      simp [JxlDecoder.RequestMoreInput, hc]
    have hk : dec.codestream_unconsumed ≤ dec.avail_in := by
      have := hwf.unc_avail; rw [hA] at this; exact this
    obtain ⟨t1, t2, t3, t4, t5⟩ := AdvanceInput_tracks cs dec dec.codestream_unconsumed
      hwf.nowrap hav hwin hk
    have t1a : dec.RequestMoreInput.2.avail_in = dec.RequestMoreInput.2.inputBytes.length := by
      rw [heq]; exact t1
    have t2a : dec.RequestMoreInput.2.inputBytes <+: cs.drop dec.RequestMoreInput.2.file_pos := by
      rw [heq]; exact t2
    have t3a : dec.RequestMoreInput.2.file_pos + dec.RequestMoreInput.2.avail_in
        = dec.file_pos + dec.avail_in := by rw [heq]; exact t3
    have t4a : dec.RequestMoreInput.2.file_pos = dec.file_pos + dec.codestream_unconsumed := by
      rw [heq]; exact t4
    have t5a : dec.RequestMoreInput.2.avail_in = dec.avail_in - dec.codestream_unconsumed := by
      rw [heq]; exact t5
    have hcopy1 : dec.RequestMoreInput.2.codestream_copy = dec.codestream_copy := by
      rw [heq]; rfl
    have hunc1 : dec.RequestMoreInput.2.codestream_unconsumed = 0 := by
      rw [heq]
    refine ⟨⟨w1, hub1, t1a, t2a, ?_, ?_, ?_⟩, w2, hunc1, t3a, ?_⟩
    · rw [t3a]; exact hin
    · rw [hcopy1, hunc1, t4a]; exact hcopy
    · rw [w3, hcopy1]; exact hpos
    · rw [t5a]; omega

end TrackLemmas

section TrackLemmas2
variable {E : Type}

/-- `GetCodestreamInput` on a cursor that reads `cs` passes its assertions; the
cursor still reads `cs` at the same logical position, and a returned span is a
run of `cs` at that position. -/
theorem GetCodestreamInput_tracks (cs : List Nat) (dec : JxlDecoder E)
    (ht : CursorTracks cs dec) :
    ∃ st span dec1, dec.GetCodestreamInput = some (st, span, dec1) ∧
      CursorTracks cs dec1 ∧ dec1.logicalPos = dec.logicalPos ∧
      dec1.file_pos + dec1.avail_in = dec.file_pos + dec.avail_in ∧
      dec1.avail_in ≤ dec.avail_in ∧
      (st = JXL_DEC_SUCCESS →
        span <+: cs.drop dec1.logicalPos ∧ span.length = dec1.spanLength) := by
  obtain ⟨hwf, hub, hav, hwin, hin, hcopy, hpos⟩ := ht
  have hA := AvailableCodestream_unbounded dec hub
  have hskip : (dec.codestream_copy.isEmpty && decide (dec.codestream_pos > 0)) = false := by
    cases hcc : dec.codestream_copy with
    | nil =>
      rw [hcc] at hpos
      simp only [List.length_nil, Nat.le_zero] at hpos
      simp [hpos]
    | cons a t => simp
  have hget : dec.GetCodestreamInput = dec.getSpan := by
    simp [JxlDecoder.GetCodestreamInput, hskip]
  rw [hget]
  have hasserts : dec.getSpan =
      (if dec.codestream_copy.isEmpty then
        if dec.AvailableCodestream = 0 then
          some (dec.RequestMoreInput.1, [], dec.RequestMoreInput.2)
        else some (JXL_DEC_SUCCESS, dec.inputBytes.take dec.AvailableCodestream, dec)
      else
        some (JXL_DEC_SUCCESS,
          (dec.codestream_copy ++ (dec.inputBytes.take dec.AvailableCodestream).drop
            dec.codestream_unconsumed).drop dec.codestream_pos,
          { dec with
            codestream_copy := dec.codestream_copy ++
              (dec.inputBytes.take dec.AvailableCodestream).drop dec.codestream_unconsumed
            codestream_unconsumed := dec.AvailableCodestream })) := by
    simp [JxlDecoder.getSpan, hpos, hwf.unc_copy]
  rw [hasserts]
  by_cases hc : dec.codestream_copy = []
  · simp only [hc, List.isEmpty_nil, if_true]
    by_cases ha : dec.AvailableCodestream = 0
    · simp only [ha, if_true]
      obtain ⟨t1, t2, _, t4, t5⟩ := RequestMoreInput_tracks cs dec
        ⟨hwf, hub, hav, hwin, hin, hcopy, hpos⟩
      refine ⟨_, _, _, rfl, t1, t2, t4, t5, fun hs => ?_⟩
      rw [RequestMoreInput_status] at hs
      cases hs
    · simp only [ha, if_false]
      refine ⟨_, _, _, rfl, ⟨hwf, hub, hav, hwin, hin, hcopy, hpos⟩, rfl, rfl, le_refl _,
        fun _ => ⟨?_, ?_⟩⟩
      · rw [hA, hav, List.take_length]
        have hlp : dec.logicalPos = dec.file_pos := by
          have hu := hwf.direct hc
          rw [hc] at hpos
          simp only [List.length_nil, Nat.le_zero] at hpos
          simp [JxlDecoder.logicalPos, hu, hpos, hc]
        rw [hlp]; exact hwin
      · rw [List.length_take]
        simp only [JxlDecoder.spanLength, hc, List.isEmpty_nil, if_true]
        rw [hA, hav]; simp
  · have hne : dec.codestream_copy.isEmpty = false := by
      cases hcc : dec.codestream_copy with
      | nil => exact absurd hcc hc
      | cons a t => rfl
    simp only [hne, Bool.false_eq_true, if_false]
    have hunc : dec.codestream_unconsumed ≤ dec.avail_in := by
      have := hwf.unc_avail; rw [hA] at this; exact this
    have hnew : (dec.inputBytes.take dec.AvailableCodestream).drop dec.codestream_unconsumed
        = dec.inputBytes.drop dec.codestream_unconsumed := by
      rw [hA, hav, List.take_length]
    have hnewlen : (dec.inputBytes.drop dec.codestream_unconsumed).length
        = dec.avail_in - dec.codestream_unconsumed := by
      rw [List.length_drop, hav]
    have hrun : dec.codestream_copy ++ dec.inputBytes.drop dec.codestream_unconsumed <+:
        cs.drop (dec.file_pos + dec.codestream_unconsumed - dec.codestream_copy.length) := by
      apply run_append hcopy
      have hcp := hwf.copy_pos
      have e : dec.file_pos + dec.codestream_unconsumed - dec.codestream_copy.length
          + dec.codestream_copy.length = dec.file_pos + dec.codestream_unconsumed := by omega
      rw [e]
      exact run_drop _ hwin (by omega)
    have hget2 : dec.getSpan = some (JXL_DEC_SUCCESS,
          (dec.codestream_copy ++ (dec.inputBytes.take dec.AvailableCodestream).drop
            dec.codestream_unconsumed).drop dec.codestream_pos,
          { dec with
            codestream_copy := dec.codestream_copy ++
              (dec.inputBytes.take dec.AvailableCodestream).drop dec.codestream_unconsumed
            codestream_unconsumed := dec.AvailableCodestream }) := by
      rw [hasserts]; simp [hne]
    obtain ⟨w1, w2, _, _, w5⟩ := getSpan_wf dec _ _ _ hwf hget2
    obtain ⟨s1, s2, _⟩ := w5 rfl
    have hcp := hwf.copy_pos
    refine ⟨_, _, _, rfl, ⟨w1, hub, hav, hwin, hin, ?_, s2⟩, w2, rfl, le_refl _,
      fun _ => ⟨?_, s1⟩⟩
    · show dec.codestream_copy ++ (dec.inputBytes.take dec.AvailableCodestream).drop
          dec.codestream_unconsumed <+: cs.drop (dec.file_pos + dec.AvailableCodestream -
            (dec.codestream_copy ++ (dec.inputBytes.take dec.AvailableCodestream).drop
              dec.codestream_unconsumed).length)
      rw [hnew, List.length_append, hnewlen, hA]
      have e : dec.file_pos + dec.avail_in -
          (dec.codestream_copy.length + (dec.avail_in - dec.codestream_unconsumed))
          = dec.file_pos + dec.codestream_unconsumed - dec.codestream_copy.length := by omega
      rw [e]; exact hrun
    · rw [w2, hnew]
      have e : dec.logicalPos = dec.file_pos + dec.codestream_unconsumed
          - dec.codestream_copy.length + dec.codestream_pos := by
        simp only [JxlDecoder.logicalPos]; omega
      rw [e]
      exact run_drop _ hrun (by rw [List.length_append]; omega)

/-- Advancing inside the last returned span, on a cursor that reads `cs`: the
cursor still reads `cs`, the logical position has moved by the amount, and what
is left of the span is still there. -/
theorem AdvanceCodestream_tracks (cs : List Nat) (dec : JxlDecoder E) (n : Nat)
    (ht : CursorTracks cs dec) (hn : n ≤ dec.spanLength) :
    CursorTracks cs (dec.AdvanceCodestream n) ∧
    (dec.AdvanceCodestream n).logicalPos = dec.logicalPos + n ∧
    (dec.AdvanceCodestream n).file_pos + (dec.AdvanceCodestream n).avail_in
      = dec.file_pos + dec.avail_in ∧
    (dec.AdvanceCodestream n).avail_in ≤ dec.avail_in ∧
    dec.spanLength - n ≤ (dec.AdvanceCodestream n).spanLength := by
  obtain ⟨hwf, hub, hav, hwin, hin, hcopy, hpos⟩ := ht
  have hA := AvailableCodestream_unbounded dec hub
  have hz : dec.codestream_copy = [] → dec.codestream_pos = 0 := by
    intro hc
    rw [hc] at hpos
    simpa using hpos
  obtain ⟨w1, w2, w3, w4, w5⟩ := AdvanceCodestream_wf dec n hwf hn hpos hz
  have hub1 : (dec.AdvanceCodestream n).box_contents_unbounded = true := by
    rw [AdvanceCodestream_cursorOnly]; exact hub
  obtain ⟨hw0, hnw, hd, hua, huc, hcp, hpl⟩ := hwf
  by_cases hc : dec.codestream_copy = []
  · have hn1 : n ≤ dec.AvailableCodestream := by
      simpa [JxlDecoder.spanLength, hc] using hn
    have heq : dec.AdvanceCodestream n = dec.AdvanceInput n := by
      simp [JxlDecoder.AdvanceCodestream, hc, hn1]
    obtain ⟨t1, t2, t3, t4, t5⟩ := AdvanceInput_tracks cs dec n hnw hav hwin (by omega)
    rw [← heq] at t1 t2 t3 t4 t5
    refine ⟨⟨w1, hub1, t1, t2, by rw [t3]; exact hin, ?_, w3⟩, w2, t3, by rw [t5]; omega, w5⟩
    have : (dec.AdvanceCodestream n).codestream_copy = [] := by rw [heq]; exact hc
    rw [this]; exact List.nil_prefix
  · have hne : dec.codestream_copy.isEmpty = false := by
      cases hcc : dec.codestream_copy with
      | nil => exact absurd hcc hc
      | cons a t => rfl
    have hsl : dec.spanLength = dec.codestream_copy.length - dec.codestream_pos := by
      simp [JxlDecoder.spanLength, hne]
    rw [hsl] at hn
    have hp1 : sizeAdd dec.codestream_pos n = dec.codestream_pos + n := by
      simp only [sizeAdd, SIZE_MOD] at *; omega
    have hp2 : sizeAdd (dec.codestream_pos + n) dec.codestream_unconsumed
        = dec.codestream_pos + n + dec.codestream_unconsumed := by
      simp only [sizeAdd, SIZE_MOD] at *; omega
    by_cases hcond : dec.codestream_pos + n + dec.codestream_unconsumed
        ≥ dec.codestream_copy.length
    · have hadv : min dec.codestream_unconsumed
          (sizeSub (sizeAdd dec.codestream_unconsumed (dec.codestream_pos + n))
            dec.codestream_copy.length)
          = dec.codestream_unconsumed + dec.codestream_pos + n - dec.codestream_copy.length := by
        simp only [sizeAdd, sizeSub, SIZE_MOD] at *; omega
      have heq : dec.AdvanceCodestream n =
          { dec.AdvanceInput (dec.codestream_unconsumed + dec.codestream_pos + n
              - dec.codestream_copy.length) with
            codestream_pos := 0, codestream_unconsumed := 0, codestream_copy := [] } := by
        simp only [JxlDecoder.AdvanceCodestream, hne, Bool.false_eq_true, if_false, hp1, hp2,
          hcond, ge_iff_le, if_true, hadv]
        show { dec.AdvanceInput _ with
          codestream_pos := dec.codestream_pos + n - min (dec.codestream_pos + n)
            dec.codestream_copy.length, codestream_unconsumed := 0, codestream_copy := [] } = _
        have : dec.codestream_pos + n - min (dec.codestream_pos + n)
            dec.codestream_copy.length = 0 := by omega
        rw [this]
      obtain ⟨t1, t2, t3, t4, t5⟩ := AdvanceInput_tracks cs dec
        (dec.codestream_unconsumed + dec.codestream_pos + n - dec.codestream_copy.length)
        hnw hav hwin (by omega)
      have t1a : (dec.AdvanceCodestream n).avail_in
          = (dec.AdvanceCodestream n).inputBytes.length := by rw [heq]; exact t1
      have t2a : (dec.AdvanceCodestream n).inputBytes <+:
          cs.drop (dec.AdvanceCodestream n).file_pos := by rw [heq]; exact t2
      have t3a : (dec.AdvanceCodestream n).file_pos + (dec.AdvanceCodestream n).avail_in
          = dec.file_pos + dec.avail_in := by rw [heq]; exact t3
      have t5a : (dec.AdvanceCodestream n).avail_in ≤ dec.avail_in := by
        rw [heq]; show (dec.AdvanceInput _).avail_in ≤ _; rw [t5]; omega
      refine ⟨⟨w1, hub1, t1a, t2a, by rw [t3a]; exact hin, ?_, w3⟩, w2, t3a, t5a, w5⟩
      have : (dec.AdvanceCodestream n).codestream_copy = [] := by rw [heq]
      rw [this]; exact List.nil_prefix
    · have heq : dec.AdvanceCodestream n =
          { dec with codestream_pos := dec.codestream_pos + n } := by
        simp only [JxlDecoder.AdvanceCodestream, hne, Bool.false_eq_true, if_false, hp1, hp2,
          hcond, ge_iff_le]
      refine ⟨⟨w1, hub1, ?_, ?_, ?_, ?_, w3⟩, w2, ?_, ?_, w5⟩
      · rw [heq]; exact hav
      · rw [heq]; exact hwin
      · rw [heq]; exact hin
      · rw [heq]; exact hcopy
      · rw [heq]
      · rw [heq]

end TrackLemmas2

section ProtocolTheorems
variable {E : Type}

theorem ChangesOnlyCursor.input_closed {d1 d2 : JxlDecoder E} (h : ChangesOnlyCursor d1 d2) :
    d2.input_closed = d1.input_closed := by
  unfold ChangesOnlyCursor at h
  conv => lhs; rw [h]
  rfl

/-- Setting a fresh window, taken from `cs` at the file position, on a cursor
that reads `cs` and counts no byte of the old window as unconsumed. -/
theorem SetInput_tracks (cs : List Nat) (hcs : 2 * cs.length < SIZE_MOD)
    (dec : JxlDecoder E) (k : Nat) (ht : CursorTracks cs dec)
    (hu : dec.codestream_unconsumed = 0) :
    CursorTracks cs
      { dec with next_in := some ((cs.drop dec.file_pos).take k)
                 avail_in := ((cs.drop dec.file_pos).take k).length } := by
  obtain ⟨hwf, hub, hav, hwin, hin, hcopy, hpos⟩ := ht
  have hlen : ((cs.drop dec.file_pos).take k).length ≤ cs.length - dec.file_pos := by
    rw [List.length_take, List.length_drop]; exact Nat.min_le_right _ _
  have hfp : dec.file_pos ≤ cs.length := by omega
  refine ⟨⟨?_, ?_, hwf.direct, ?_, hwf.unc_copy, hwf.copy_pos, hwf.pos_lt⟩, hub, ?_, ?_, ?_,
    hcopy, hpos⟩
  · show ((cs.drop dec.file_pos).take k).length ≤ ((cs.drop dec.file_pos).take k).length
    exact le_refl _
  · show dec.file_pos + 2 * ((cs.drop dec.file_pos).take k).length < SIZE_MOD
    omega
  · show dec.codestream_unconsumed ≤ _
    rw [hu]; exact Nat.zero_le _
  · rfl
  · show (cs.drop dec.file_pos).take k <+: cs.drop dec.file_pos
    exact List.take_prefix _ _
  · show dec.file_pos + ((cs.drop dec.file_pos).take k).length ≤ cs.length
    omega

/-- One step of the protocol keeps its invariant, unless the step is a call
that the protocol does not allow. A step never fails. -/
theorem Feeder.step_tracks (cs : List Nat) (hcs : 2 * cs.length < SIZE_MOD)
    (f : Feeder E) (op : CursorOp) (ht : Tracks cs f) :
    (∃ f1, f.step cs op = Run.ok f1 ∧ Tracks cs f1) ∨ f.step cs op = Run.outOfProtocol := by
  obtain ⟨hcur, hnc, hcaller, hchunk, hlog, hcredit, hspans⟩ := ht
  cases op with
  | get =>
    left
    obtain ⟨st, span, dec1, hget, t1, t2, t3, t4, t5⟩ :=
      GetCodestreamInput_tracks cs f.dec hcur
    have hco := GetCodestreamInput_cursorOnly f.dec dec1 st span hget
    by_cases hst : st = JXL_DEC_SUCCESS
    · obtain ⟨u1, u2⟩ := t5 hst
      refine ⟨{ f with dec := dec1, credit := span.length,
                       spans := f.spans ++ [(f.logical, span)] }, ?_, ?_⟩
      · simp [Feeder.step, hget, hst]
      · refine ⟨t1, by rw [hco.input_closed]; exact hnc, ?_, ?_, ?_, ?_, ?_⟩
        · show f.caller_pos + f.chunk_len = dec1.file_pos + dec1.avail_in
          rw [t3]; exact hcaller
        · show dec1.avail_in ≤ f.chunk_len
          omega
        · show f.logical = dec1.logicalPos
          rw [t2]; exact hlog
        · show span.length ≤ dec1.spanLength
          omega
        · intro p sp hmem
          simp only [List.mem_append, List.mem_singleton, Prod.mk.injEq] at hmem
          rcases hmem with h | ⟨h1, h2⟩
          · exact hspans p sp h
          · rw [h1, h2, hlog, ← t2]; exact u1
    · refine ⟨{ f with dec := dec1, credit := 0 }, ?_, ?_⟩
      · simp [Feeder.step, hget, hst]
      · refine ⟨t1, by rw [hco.input_closed]; exact hnc, ?_, ?_, ?_, Nat.zero_le _, hspans⟩
        · show f.caller_pos + f.chunk_len = dec1.file_pos + dec1.avail_in
          rw [t3]; exact hcaller
        · show dec1.avail_in ≤ f.chunk_len
          omega
        · show f.logical = dec1.logicalPos
          rw [t2]; exact hlog
  | advance n =>
    by_cases hn : n ≤ f.credit
    · left
      obtain ⟨t1, t2, t3, t4, t5⟩ := AdvanceCodestream_tracks cs f.dec n hcur (by omega)
      have hco : ChangesOnlyCursor f.dec (f.dec.AdvanceCodestream n) :=
        AdvanceCodestream_cursorOnly f.dec n
      refine ⟨{ f with dec := f.dec.AdvanceCodestream n, credit := f.credit - n,
                       logical := f.logical + n }, ?_, ?_⟩
      · simp [Feeder.step, hn]
      · refine ⟨t1, by rw [hco.input_closed]; exact hnc, ?_, ?_, ?_, ?_, hspans⟩
        · show f.caller_pos + f.chunk_len = _
          rw [t3]; exact hcaller
        · show (f.dec.AdvanceCodestream n).avail_in ≤ f.chunk_len
          omega
        · show f.logical + n = _
          rw [t2, hlog]
        · show f.credit - n ≤ (f.dec.AdvanceCodestream n).spanLength
          omega
    · right
      simp [Feeder.step, hn]
  | feed k =>
    left
    obtain ⟨t1, t2, t3, t4, t5⟩ := RequestMoreInput_tracks cs f.dec hcur
    have hco : ChangesOnlyCursor f.dec f.dec.RequestMoreInput.2 :=
      RequestMoreInput_cursorOnly f.dec
    have hnc1 : f.dec.RequestMoreInput.2.input_closed = false := by
      rw [hco.input_closed]; exact hnc
    have hpos : f.caller_pos + (f.chunk_len - f.dec.RequestMoreInput.2.avail_in)
        = f.dec.RequestMoreInput.2.file_pos := by omega
    have t6 := SetInput_tracks cs hcs f.dec.RequestMoreInput.2 k t1 t3
    refine ⟨{ f with
        dec := { f.dec.RequestMoreInput.2 with
          next_in := some ((cs.drop f.dec.RequestMoreInput.2.file_pos).take k)
          avail_in := ((cs.drop f.dec.RequestMoreInput.2.file_pos).take k).length }
        caller_pos := f.dec.RequestMoreInput.2.file_pos
        chunk_len := ((cs.drop f.dec.RequestMoreInput.2.file_pos).take k).length
        credit := 0 }, ?_, ?_⟩
    · simp only [Feeder.step, JxlDecoderReleaseInput, JxlDecoderSetInput, hpos,
        Option.isSome_none, Bool.false_eq_true, if_false, hnc1, if_true]
    · refine ⟨t6, hnc1, rfl, le_refl _, ?_, Nat.zero_le _, hspans⟩
      show f.logical = _
      rw [hlog, ← t2]
      rfl

/-- A run of the protocol from a state that satisfies the invariant ends in a
state that satisfies it, or stops at a call that the protocol does not allow. -/
theorem Feeder.run_tracks (cs : List Nat) (hcs : 2 * cs.length < SIZE_MOD)
    (ops : List CursorOp) (f : Feeder E) (ht : Tracks cs f) :
    (∃ f1, Feeder.run cs f ops = Run.ok f1 ∧ Tracks cs f1) ∨
      Feeder.run cs f ops = Run.outOfProtocol := by
  induction ops generalizing f with
  | nil => exact Or.inl ⟨f, rfl, ht⟩
  | cons op ops ih =>
    rcases Feeder.step_tracks cs hcs f op ht with ⟨f1, h1, ht1⟩ | h1
    · rcases ih f1 ht1 with ⟨f2, h2, ht2⟩ | h2
      · exact Or.inl ⟨f2, by simp [Feeder.run, h1, h2], ht2⟩
      · exact Or.inr (by simp [Feeder.run, h1, h2])
    · exact Or.inr (by simp [Feeder.run, h1])

/-- C3: on a bare codestream `cs` (shorter than `2^63` bytes) fed in
arbitrary chunks under the protocol `JxlDecoderSetInput`, then any
`GetCodestreamInput` / `AdvanceCodestream(n)` calls with `n` within what is
left of the last returned span, then `RequestMoreInput`,
`JxlDecoderReleaseInput` and `JxlDecoderSetInput` with the following bytes: no
assertion fails and no `JxlDecoderSetInput` is refused, and every span that
`GetCodestreamInput` returns is a run of `cs` that starts exactly at the
logical position, the total of the amounts passed to `AdvanceCodestream` up to
then; that total is also the position that the cursor state encodes. -/
theorem cursor_spans_are_runs (cs : List Nat) (hcs : 2 * cs.length < SIZE_MOD)
    (dec : JxlDecoder E) (hstart : BareStart dec) (k0 : Nat) (ops : List CursorOp) :
    (∃ f, Feeder.start cs dec k0 ops = Run.ok f ∧
      (∀ p span, (p, span) ∈ f.spans → span <+: cs.drop p) ∧
      f.logical = f.dec.logicalPos) ∨
    Feeder.start cs dec k0 ops = Run.outOfProtocol := by
  obtain ⟨s1, s2, s3, s4, s5, s6, s7, s8⟩ := hstart
  have hinit : Tracks cs
      { dec := { dec with next_in := some (cs.take k0), avail_in := (cs.take k0).length },
        caller_pos := 0, chunk_len := (cs.take k0).length, credit := 0,
        logical := 0, spans := [] } := by
    have hlen : (cs.take k0).length ≤ cs.length := by
      rw [List.length_take]; exact Nat.min_le_right _ _
    refine ⟨⟨⟨?_, ?_, fun _ => s7, ?_, ?_, ?_, ?_⟩, s1, rfl, ?_, ?_, ?_, ?_⟩, s4, ?_,
      le_refl _, ?_, Nat.zero_le _, ?_⟩
    · exact le_refl _
    · show dec.file_pos + 2 * (cs.take k0).length < SIZE_MOD
      rw [s5]; omega
    · show dec.codestream_unconsumed ≤ _
      rw [s7]; exact Nat.zero_le _
    · show dec.codestream_unconsumed ≤ _
      rw [s7]; exact Nat.zero_le _
    · show dec.codestream_copy.length ≤ _
      rw [s6]; exact Nat.zero_le _
    · show dec.codestream_pos < SIZE_MOD
      rw [s8]; simp [SIZE_MOD]
    · show cs.take k0 <+: cs.drop dec.file_pos
      rw [s5]; exact List.take_prefix _ _
    · show dec.file_pos + (cs.take k0).length ≤ cs.length
      rw [s5]; omega
    · show dec.codestream_copy <+: _
      rw [s6]; exact List.nil_prefix
    · show dec.codestream_pos ≤ dec.codestream_copy.length
      rw [s8]; exact Nat.zero_le _
    · show 0 + (cs.take k0).length = dec.file_pos + (cs.take k0).length
      rw [s5]
    · show 0 = dec.file_pos + dec.codestream_unconsumed + dec.codestream_pos
        - dec.codestream_copy.length
      rw [s5, s7, s8, s6]
      rfl
    · intro p span h; cases h
  have hstart : Feeder.start cs dec k0 ops = Feeder.run cs
      { dec := { dec with next_in := some (cs.take k0), avail_in := (cs.take k0).length },
        caller_pos := 0, chunk_len := (cs.take k0).length, credit := 0,
        logical := 0, spans := [] } ops := by
    simp [Feeder.start, JxlDecoderSetInput, s2, s4]
  rw [hstart]
  rcases Feeder.run_tracks cs hcs ops _ hinit with ⟨f1, h1, ht1⟩ | h1
  · exact Or.inl ⟨f1, h1, ht1.spans, ht1.logical⟩
  · exact Or.inr h1

end ProtocolTheorems

/-! ## The theorems at concrete inputs -/

/-- C3 on the stream `ff 0a 01 02 03`, fed as 1, 1 and 2 bytes: the run ends
normally, the three spans returned are `ff` at 0, `0a` at 1 and `0a 01 02` at
1, and each is a run of the stream at its position. -/
theorem cursor_spans_are_runs_witness :
    (∃ f, Feeder.start [0xff, 0x0a, 1, 2, 3] demoBareStart 1
        [CursorOp.get, CursorOp.advance 1, CursorOp.get, CursorOp.feed 1, CursorOp.get,
         CursorOp.feed 2, CursorOp.get] = Run.ok f ∧
      f.spans = [(0, [0xff]), (1, [0x0a]), (1, [0x0a, 1, 2])]) ∧
    ((∃ f, Feeder.start [0xff, 0x0a, 1, 2, 3] demoBareStart 1
        [CursorOp.get, CursorOp.advance 1, CursorOp.get, CursorOp.feed 1, CursorOp.get,
         CursorOp.feed 2, CursorOp.get] = Run.ok f ∧
      (∀ p span, (p, span) ∈ f.spans → span <+: List.drop p [0xff, 0x0a, 1, 2, 3]) ∧
      f.logical = f.dec.logicalPos) ∨
    Feeder.start [0xff, 0x0a, 1, 2, 3] demoBareStart 1
        [CursorOp.get, CursorOp.advance 1, CursorOp.get, CursorOp.feed 1, CursorOp.get,
         CursorOp.feed 2, CursorOp.get] = Run.outOfProtocol) :=
  ⟨⟨_, rfl, rfl⟩,
    cursor_spans_are_runs [0xff, 0x0a, 1, 2, 3] (by decide) demoBareStart
      ⟨rfl, rfl, rfl, rfl, rfl, rfl, rfl, rfl⟩ 1 _⟩

/-- C4 on a window of three bytes with an empty copy buffer: the three bytes
are copied and none is left available. -/
theorem RequestMoreInput_copies_witness :
    (demoBare [7, 8, 9]).RequestMoreInput.1 = JXL_DEC_NEED_MORE_INPUT ∧
    (demoBare [7, 8, 9]).RequestMoreInput.2.codestream_copy = [7, 8, 9] ∧
    (demoBare [7, 8, 9]).RequestMoreInput.2.AvailableCodestream = 0 :=
  ⟨(RequestMoreInput_copies (demoBare [7, 8, 9])).1,
   ((RequestMoreInput_copies (demoBare [7, 8, 9])).2 rfl).1,
   ((RequestMoreInput_copies (demoBare [7, 8, 9])).2 rfl).2.2.2.2.2.1⟩

/-- C8 on a ledger of five frames of which one external frame has been seen
again after a rewind: skipping 1 and then 2 frames is skipping 3 frames. -/
theorem JxlDecoderSkipFrames_additive_witness :
    (JxlDecoderSkipFrames demoLedger 1).bind (fun dec1 => JxlDecoderSkipFrames dec1 2)
      = JxlDecoderSkipFrames demoLedger (sizeAdd 1 2) ∧
    ∃ required, JxlDecoderSkipFrames demoLedger (sizeAdd 1 2) =
      some { demoLedger with skip_frames := sizeAdd demoLedger.skip_frames (1 + 2)
                             frame_required := required } :=
  JxlDecoderSkipFrames_additive demoLedger 1 2 rfl

section EventLemmas
variable {E : Type}

theorem ChangesOnlyCursor.events_wanted {d1 d2 : JxlDecoder E} (h : ChangesOnlyCursor d1 d2) :
    d2.events_wanted = d1.events_wanted :=
  (congrArg JxlDecoder.events_wanted h).trans rfl

@[simp] theorem RequestMoreInput_events (dec : JxlDecoder E) :
    dec.RequestMoreInput.2.events_wanted = dec.events_wanted :=
  ChangesOnlyCursor.events_wanted (RequestMoreInput_cursorOnly dec)

@[simp] theorem AdvanceCodestream_events (dec : JxlDecoder E) (n : Nat) :
    (dec.AdvanceCodestream n).events_wanted = dec.events_wanted :=
  ChangesOnlyCursor.events_wanted (AdvanceCodestream_cursorOnly dec n)

theorem getSpan_status (dec dec1 : JxlDecoder E) (st : JxlDecoderStatus) (span : List Nat)
    (h : dec.getSpan = some (st, span, dec1)) : IsPlainStatus st := by
  unfold JxlDecoder.getSpan at h
  split at h
  · cases h
  · split at h
    · cases h
    · simp only at h
      split at h
      · split at h
        · simp only [Option.some.injEq, Prod.mk.injEq] at h
          rw [← h.1, RequestMoreInput_status]; exact Or.inr (Or.inr rfl)
        · simp only [Option.some.injEq, Prod.mk.injEq] at h
          rw [← h.1]; exact Or.inl rfl
      · simp only [Option.some.injEq, Prod.mk.injEq] at h
        rw [← h.1]; exact Or.inl rfl

theorem GetCodestreamInput_events (dec dec1 : JxlDecoder E) (st : JxlDecoderStatus)
    (span : List Nat) (h : dec.GetCodestreamInput = some (st, span, dec1)) :
    dec1.events_wanted = dec.events_wanted ∧ IsPlainStatus st := by
  refine ⟨ChangesOnlyCursor.events_wanted (GetCodestreamInput_cursorOnly dec dec1 st span h), ?_⟩
  unfold JxlDecoder.GetCodestreamInput at h
  split at h
  · simp only at h
    split at h
    · simp only [Option.some.injEq, Prod.mk.injEq] at h
      rw [← h.1, RequestMoreInput_status]; exact Or.inr (Or.inr rfl)
    · exact getSpan_status _ _ _ _ h
  · exact getSpan_status _ _ _ _ h

theorem ReadBundle_events (canRead : E → List Nat → Nat → Option (Bool × E))
    (read : E → List Nat → Nat → Bool × Nat × E) (dec dec1 : JxlDecoder E)
    (data : List Nat) (bits bits1 : Nat) (st : JxlDecoderStatus)
    (h : ReadBundle canRead read dec data bits = some (st, bits1, dec1)) :
    dec1.events_wanted = dec.events_wanted ∧ IsPlainStatus st := by
  unfold ReadBundle at h
  split at h
  · cases h
  · simp only [Option.some.injEq, Prod.mk.injEq] at h
    obtain ⟨h1, -, h3⟩ := h
    subst h3
    rw [← h1, RequestMoreInput_status]
    exact ⟨by simp, Or.inr (Or.inr rfl)⟩
  · simp only at h
    split at h
    · simp only [Option.some.injEq, Prod.mk.injEq] at h
      obtain ⟨h1, -, h3⟩ := h
      subst h3; subst h1
      exact ⟨rfl, Or.inr (Or.inl rfl)⟩
    · simp only [Option.some.injEq, Prod.mk.injEq] at h
      obtain ⟨h1, -, h3⟩ := h
      subst h3; subst h1
      exact ⟨rfl, Or.inl rfl⟩

theorem readCodestreamSignature_events (dec dec1 : JxlDecoder E) (st : JxlDecoderStatus)
    (h : readCodestreamSignature dec = some (st, dec1)) :
    dec1.events_wanted = dec.events_wanted ∧ IsPlainStatus st := by
  unfold readCodestreamSignature at h
  split at h
  · split at h
    · cases h
    · rename_i st0 span d0 hg
      have hg2 := GetCodestreamInput_events _ _ _ _ hg
      split at h
      · simp only [Option.some.injEq, Prod.mk.injEq] at h
        rw [← h.1, ← h.2]; exact hg2
      · split at h
        · simp only [Option.some.injEq] at h
          have h1 : st = d0.RequestMoreInput.1 := (congrArg Prod.fst h).symm
          have h2 : dec1 = d0.RequestMoreInput.2 := (congrArg Prod.snd h).symm
          rw [h1, h2, RequestMoreInput_status]
          exact ⟨by simp [hg2.1], Or.inr (Or.inr rfl)⟩
        · split at h
          · simp only [Option.some.injEq, Prod.mk.injEq] at h
            rw [← h.1, ← h.2]; exact ⟨hg2.1, Or.inr (Or.inl rfl)⟩
          · simp only [Option.some.injEq, Prod.mk.injEq] at h
            rw [← h.1, ← h.2]
            exact ⟨by simp [hg2.1], Or.inl rfl⟩
  · simp only [Option.some.injEq, Prod.mk.injEq] at h
    rw [← h.1, ← h.2]; exact ⟨rfl, Or.inl rfl⟩

theorem commitBasicInfo_events (env : HeaderEnv E) (dec : JxlDecoder E) (bits : Nat) :
    (commitBasicInfo env dec bits).2.events_wanted = dec.events_wanted ∧
    IsPlainStatus (commitBasicInfo env dec bits).1 ∧
    (commitBasicInfo env dec bits).2.got_basic_info = true := by
  unfold commitBasicInfo
  simp only
  split
  · exact ⟨by simp, Or.inr (Or.inl rfl), rfl⟩
  · exact ⟨by simp, Or.inl rfl, rfl⟩

theorem readBasicInfoBundles_events (env : HeaderEnv E) (dec dec1 : JxlDecoder E)
    (st : JxlDecoderStatus) (h : readBasicInfoBundles env dec = some (st, dec1)) :
    dec1.events_wanted = dec.events_wanted ∧ IsPlainStatus st ∧
    (st = JXL_DEC_SUCCESS → dec1.got_basic_info = true) := by
  unfold readBasicInfoBundles at h
  split at h
  · cases h
  · rename_i st0 span d0 hg
    have hg2 := GetCodestreamInput_events _ _ _ _ hg
    split at h
    · rename_i hne
      simp only [Option.some.injEq, Prod.mk.injEq] at h
      rw [← h.1, ← h.2]; exact ⟨hg2.1, hg2.2, fun hs => absurd hs hne⟩
    · split at h
      · cases h
      · rename_i st1 bits1 d1 hb1
        have hb1e := ReadBundle_events _ _ _ _ _ _ _ _ hb1
        split at h
        · rename_i hne
          simp only [Option.some.injEq, Prod.mk.injEq] at h
          rw [← h.1, ← h.2]
          exact ⟨hb1e.1.trans hg2.1, hb1e.2, fun hs => absurd hs hne⟩
        · split at h
          · cases h
          · rename_i st2 bits2 d2 hb2
            have hb2e := ReadBundle_events _ _ _ _ _ _ _ _ hb2
            split at h
            · rename_i hne
              simp only [Option.some.injEq, Prod.mk.injEq] at h
              rw [← h.1, ← h.2]
              exact ⟨hb2e.1.trans (hb1e.1.trans hg2.1), hb2e.2, fun hs => absurd hs hne⟩
            · simp only [Option.some.injEq] at h
              have hc := commitBasicInfo_events env d2 bits2
              rw [h] at hc
              exact ⟨hc.1.trans (hb2e.1.trans (hb1e.1.trans hg2.1)), hc.2.1, fun _ => hc.2.2⟩

theorem JxlDecoderReadBasicInfo_events (env : HeaderEnv E) (dec dec1 : JxlDecoder E)
    (st : JxlDecoderStatus) (h : JxlDecoderReadBasicInfo env dec = some (st, dec1)) :
    dec1.events_wanted = dec.events_wanted ∧ IsPlainStatus st ∧
    (st = JXL_DEC_SUCCESS → dec1.got_basic_info = true) := by
  unfold JxlDecoderReadBasicInfo at h
  split at h
  · cases h
  · rename_i st0 d0 hs
    have hs2 := readCodestreamSignature_events _ _ _ hs
    split at h
    · rename_i hne
      simp only [Option.some.injEq, Prod.mk.injEq] at h
      rw [← h.1, ← h.2]; exact ⟨hs2.1, hs2.2, fun hs => absurd hs hne⟩
    · have hb := readBasicInfoBundles_events env _ _ _ h
      exact ⟨hb.1.trans hs2.1, hb.2⟩

theorem readTransformData_events (env : FrameEnv E) (dec dec1 : JxlDecoder E)
    (st : JxlDecoderStatus) (h : readTransformData env dec = some (st, dec1)) :
    dec1.events_wanted = dec.events_wanted ∧ IsPlainStatus st := by
  unfold readTransformData at h
  split at h
  · split at h
    · cases h
    · rename_i st0 span d0 hg
      have hg2 := GetCodestreamInput_events _ _ _ _ hg
      split at h
      · simp only [Option.some.injEq, Prod.mk.injEq] at h
        rw [← h.1, ← h.2]; exact hg2
      · simp only at h
        split at h
        · cases h
        · rename_i st1 bits1 d1 hb1
          have hb1e := ReadBundle_events _ _ _ _ _ _ _ _ hb1
          split at h
          · simp only [Option.some.injEq, Prod.mk.injEq] at h
            rw [← h.1, ← h.2]
            exact ⟨hb1e.1.trans hg2.1, hb1e.2⟩
          · simp only [Option.some.injEq, Prod.mk.injEq] at h
            rw [← h.1, ← h.2]
            refine ⟨?_, Or.inl rfl⟩
            simp only [AdvanceCodestream_events]
            exact hb1e.1.trans hg2.1
  · simp only [Option.some.injEq, Prod.mk.injEq] at h
    rw [← h.1, ← h.2]; exact ⟨rfl, Or.inl rfl⟩

theorem readICC_events (env : FrameEnv E) (dec : JxlDecoder E) (span : List Nat) (bits : Nat) :
    (readICC env dec span bits).2.2.events_wanted = dec.events_wanted ∧
    IsPlainStatus (readICC env dec span bits).1 := by
  unfold readICC
  simp only
  split
  · split
    · simp only [RequestMoreInput_events, RequestMoreInput_status]
      exact ⟨trivial, Or.inr (Or.inr rfl)⟩
    · split
      · exact ⟨rfl, Or.inr (Or.inl rfl)⟩
      · split
        · simp only [RequestMoreInput_events, RequestMoreInput_status]
          exact ⟨trivial, Or.inr (Or.inr rfl)⟩
        · split
          · exact ⟨rfl, Or.inr (Or.inl rfl)⟩
          · split
            · exact ⟨rfl, Or.inr (Or.inl rfl)⟩
            · exact ⟨rfl, Or.inl rfl⟩
  · exact ⟨rfl, Or.inl rfl⟩

theorem JxlDecoderReadAllHeaders_events (env : FrameEnv E) (dec dec1 : JxlDecoder E)
    (st : JxlDecoderStatus) (h : JxlDecoderReadAllHeaders env dec = some (st, dec1)) :
    dec1.events_wanted = dec.events_wanted ∧ IsPlainStatus st ∧
    (st = JXL_DEC_SUCCESS → dec1.got_all_headers = true) := by
  unfold JxlDecoderReadAllHeaders at h
  split at h
  · cases h
  · rename_i st0 d0 ht
    have ht2 := readTransformData_events env _ _ _ ht
    split at h
    · rename_i hne
      simp only [Option.some.injEq, Prod.mk.injEq] at h
      rw [← h.1, ← h.2]; exact ⟨ht2.1, ht2.2, fun hs => absurd hs hne⟩
    · split at h
      · cases h
      · rename_i st1 span d1 hg
        have hg2 := GetCodestreamInput_events _ _ _ _ hg
        split at h
        · rename_i hne
          simp only [Option.some.injEq, Prod.mk.injEq] at h
          rw [← h.1, ← h.2]
          exact ⟨hg2.1.trans ht2.1, hg2.2, fun hs => absurd hs hne⟩
        · have hi := readICC_events env d1 span d1.codestream_bits_ahead
          simp only at h
          split at h
          · rename_i hne
            simp only [Option.some.injEq, Prod.mk.injEq] at h
            rw [← h.1, ← h.2]
            exact ⟨hi.1.trans (hg2.1.trans ht2.1), hi.2, fun hs => absurd hs hne⟩
          · split at h
            · simp only [Option.some.injEq, Prod.mk.injEq] at h
              rw [← h.1, ← h.2]
              exact ⟨hi.1.trans (hg2.1.trans ht2.1), Or.inr (Or.inl rfl), fun hs => by cases hs⟩
            · split at h
              · simp only [Option.some.injEq, Prod.mk.injEq] at h
                rw [← h.1, ← h.2]
                refine ⟨?_, Or.inr (Or.inl rfl), fun hs => by cases hs⟩
                simp only [AdvanceCodestream_events]
                exact hi.1.trans (hg2.1.trans ht2.1)
              · simp only [Option.some.injEq, Prod.mk.injEq] at h
                rw [← h.1, ← h.2]
                refine ⟨?_, Or.inl rfl, fun _ => ?_⟩
                · simp only [AdvanceCodestream_events]
                  exact hi.1.trans (hg2.1.trans ht2.1)
                · have hc := AdvanceCodestream_cursorOnly
                    ({ (readICC env d1 span d1.codestream_bits_ahead).2.2 with
                        got_all_headers := true })
                    ((env.jumpToByteBoundary span
                      (readICC env d1 span d1.codestream_bits_ahead).2.1).2 / 8)
                  exact (congrArg JxlDecoder.got_all_headers hc).trans rfl

theorem JxlDecoderProcessSections_events (env : FrameEnv E) (dec dec1 : JxlDecoder E)
    (st : JxlDecoderStatus) (h : JxlDecoderProcessSections env dec = some (st, dec1)) :
    dec1.events_wanted = dec.events_wanted ∧ IsPlainStatus st := by
  unfold JxlDecoderProcessSections at h
  split at h
  · cases h
  · rename_i st0 span d0 hg
    have hg2 := GetCodestreamInput_events _ _ _ _ hg
    split at h
    · simp only [Option.some.injEq, Prod.mk.injEq] at h
      rw [← h.1, ← h.2]; exact hg2
    · simp only at h
      split at h
      · cases h
      · split at h
        · cases h
        · split at h
          · simp only [Option.some.injEq, Prod.mk.injEq] at h
            rw [← h.1, ← h.2]; exact ⟨hg2.1, Or.inr (Or.inl rfl)⟩
          · split at h
            · simp only [Option.some.injEq, Prod.mk.injEq] at h
              rw [← h.1, ← h.2]; exact ⟨hg2.1, Or.inr (Or.inl rfl)⟩
            · split at h
              · cases h
              · simp only [Option.some.injEq, Prod.mk.injEq] at h
                rw [← h.1, ← h.2]; exact ⟨hg2.1, Or.inr (Or.inl rfl)⟩
              · simp only [Option.some.injEq, Prod.mk.injEq] at h
                rw [← h.1, ← h.2]
                refine ⟨?_, Or.inl rfl⟩
                simp only [AdvanceCodestream_events]
                exact hg2.1

end EventLemmas

section FrameEventLemmas
variable {E : Type}

theorem IsPlainStatus.keeps {st : JxlDecoderStatus} (h : IsPlainStatus st) :
    st ≠ JXL_DEC_BASIC_INFO ∧ st ≠ JXL_DEC_COLOR_ENCODING ∧ st ≠ JXL_DEC_FRAME := by
  rcases h with h | h | h <;> subst h <;> decide

theorem Ctl.Keeps.ret_plain {bits : Nat} {st : JxlDecoderStatus} {d : JxlDecoder E}
    (hd : headerEvents d.events_wanted = bits) (hst : IsPlainStatus st) :
    Ctl.Keeps bits (Ctl.ret st d) :=
  ⟨hd, hst.keeps.1, hst.keeps.2.1, fun h => absurd h hst.keeps.2.2⟩

theorem Ctl.Keeps.andThen {bits : Nat} {c : Ctl E} {f : JxlDecoder E → Ctl E}
    (hc : Ctl.Keeps bits c)
    (hf : ∀ d, headerEvents d.events_wanted = bits → Ctl.Keeps bits (f d)) :
    Ctl.Keeps bits (c.andThen f) := by
  cases c with
  | ret st d => exact hc
  | next d => exact hf d hc
  | again d => exact hc
  | stop d => exact hc
  | abort => exact hc

theorem headerEvents_clear_full (e : Nat) :
    headerEvents (clearEvent e JXL_DEC_FULL_IMAGE) = headerEvents e := by
  unfold headerEvents clearEvent
  rw [Nat.and_assoc]
  rfl

theorem headerEvents_clear_preview (e : Nat) :
    headerEvents (clearEvent e JXL_DEC_PREVIEW_IMAGE) = headerEvents e := by
  unfold headerEvents clearEvent
  rw [Nat.and_assoc]
  rfl

theorem headerEvents_restore (e o : Nat) :
    headerEvents (restoreFrameEvents e o).2 = headerEvents e := by
  have hor : ∀ a : Nat, headerEvents (a ||| (o &&&
      (JXL_DEC_FULL_IMAGE.code ||| JXL_DEC_FRAME.code ||| JXL_DEC_FRAME_PROGRESSION.code)))
      = headerEvents a := by
    intro a
    unfold headerEvents
    rw [Nat.and_distrib_right, Nat.and_assoc]
    have hz : (JXL_DEC_FULL_IMAGE.code ||| JXL_DEC_FRAME.code |||
        JXL_DEC_FRAME_PROGRESSION.code) &&&
        (JXL_DEC_BASIC_INFO.code ||| JXL_DEC_COLOR_ENCODING.code) = 0 := rfl
    rw [hz, Nat.and_zero, Nat.or_zero]
  unfold restoreFrameEvents
  simp only
  rw [hor]
  split
  · exact headerEvents_clear_full e
  · rfl

theorem wants_basic_info_header (e : Nat) :
    wants e JXL_DEC_BASIC_INFO = (headerEvents e &&& JXL_DEC_BASIC_INFO.code != 0) := by
  unfold wants headerEvents
  rw [Nat.and_assoc]
  rfl

theorem wants_color_encoding_header (e : Nat) :
    wants e JXL_DEC_COLOR_ENCODING = (headerEvents e &&& JXL_DEC_COLOR_ENCODING.code != 0) := by
  unfold wants headerEvents
  rw [Nat.and_assoc]
  rfl

theorem announceFrame_keeps (env : FrameEnv E) (i : Nat) (dec : JxlDecoder E) :
    Ctl.Keeps (headerEvents dec.events_wanted) (announceFrame env i dec) := by
  unfold announceFrame
  simp only
  split
  · simp [Ctl.Keeps]
  · split
    · rename_i h
      exact ⟨rfl, by decide, by decide, fun _ => h.1⟩
    · exact rfl

theorem chargeCpu_events (env : FrameEnv E) (dec : JxlDecoder E) :
    (chargeCpu env dec).2.events_wanted = dec.events_wanted := by
  unfold chargeCpu
  split
  · simp only
    split
    · rfl
    · split <;> rfl
  · rfl

theorem registerFrame_events (env : FrameEnv E) (dec d : JxlDecoder E) (i : Nat)
    (h : registerFrame env dec = some (i, d)) : d.events_wanted = dec.events_wanted := by
  unfold registerFrame at h
  simp only at h
  split at h
  · cases h
  · rename_i d2 h2
    have hd2 : d2.events_wanted = dec.events_wanted := by
      split at h2
      · split at h2
        · simp only [Option.some.injEq] at h2
          rw [← h2]
        · cases h2
      · simp only [Option.some.injEq] at h2
        rw [← h2]
    split at h
    · split at h
      · simp only [Option.some.injEq, Prod.mk.injEq] at h
        rw [← h.2]; exact hd2
      · cases h
    · simp only [Option.some.injEq, Prod.mk.injEq] at h
      rw [← h.2]; exact hd2

theorem acceptFrameHeader_keeps (env : FrameEnv E) (dec : JxlDecoder E) (bits : Nat) :
    Ctl.Keeps (headerEvents dec.events_wanted) (acceptFrameHeader env dec bits) := by
  unfold acceptFrameHeader
  simp only
  split
  · exact Ctl.Keeps.ret_plain (by simp) (Or.inr (Or.inl rfl))
  · split
    · exact Ctl.Keeps.ret_plain (by simp [chargeCpu_events]) (Or.inr (Or.inl rfl))
    · split
      · split
        · simp [Ctl.Keeps, chargeCpu_events]
        · simp [Ctl.Keeps, chargeCpu_events]
      · split
        · trivial
        · rename_i i d4 hr
          have h4 := registerFrame_events env _ _ _ hr
          have hk := announceFrame_keeps env i d4
          rw [h4] at hk
          simpa [chargeCpu_events] using hk

theorem frameHeaderStage_keeps (env : FrameEnv E) (dec : JxlDecoder E) :
    Ctl.Keeps (headerEvents dec.events_wanted) (frameHeaderStage env dec) := by
  unfold frameHeaderStage
  split
  · exact Ctl.Keeps.ret_plain rfl (Or.inr (Or.inl rfl))
  · simp only
    split
    · exact Ctl.Keeps.ret_plain rfl (Or.inr (Or.inl rfl))
    · split
      · trivial
      · rename_i st span d2 hg
        have hg2 := GetCodestreamInput_events _ _ _ _ hg
        have he : d2.events_wanted = dec.events_wanted := hg2.1
        split
        · exact Ctl.Keeps.ret_plain (by rw [he]) hg2.2
        · generalize env.initFrame d2.ext span d2.preview_frame (outputNeeded d2) = r
          have he2 : headerEvents d2.events_wanted = headerEvents dec.events_wanted :=
            congrArg headerEvents he
          split
          · refine Ctl.Keeps.ret_plain ?_ ?_
            · rw [RequestMoreInput_events]; exact he2
            · rw [RequestMoreInput_status]; exact Or.inr (Or.inr rfl)
          · split
            · exact Ctl.Keeps.ret_plain he2 (Or.inr (Or.inl rfl))
            · have hk := acceptFrameHeader_keeps env { d2 with ext := r.2.2.2 } r.2.2.1
              rw [← he2]
              exact hk

end FrameEventLemmas

section FrameEventLemmas2
variable {E : Type}

theorem frameTocStage_keeps (env : FrameEnv E) (dec : JxlDecoder E) :
    Ctl.Keeps (headerEvents dec.events_wanted) (frameTocStage env dec) := by
  unfold frameTocStage
  simp only
  generalize (if (!dec.preview_frame && wants dec.events_wanted JXL_DEC_FRAME_PROGRESSION) = true
      then env.setPauseAtProgressive (env.setupToc dec.ext dec.render_spotcolors dec.coalescing)
        dec.prog_detail
      else (JxlProgressiveDetail.kFrames,
        env.setupToc dec.ext dec.render_spotcolors dec.coalescing)) = pause
  split
  · exact rfl
  · split
    · simp [Ctl.Keeps]
    · exact rfl

theorem setUpRGB8_events (env : FrameEnv E) (dec : JxlDecoder E) :
    (setUpRGB8 env dec).events_wanted = dec.events_wanted := by
  unfold setUpRGB8
  split <;> rfl

theorem setUpFloatCallback_events (env : FrameEnv E) (dec : JxlDecoder E) :
    (setUpFloatCallback env dec).events_wanted = dec.events_wanted := by
  unfold setUpFloatCallback
  split <;> rfl

theorem prepareOutput_keeps (env : FrameEnv E) (dec : JxlDecoder E) :
    Ctl.Keeps (headerEvents dec.events_wanted) (prepareOutput env dec) := by
  unfold prepareOutput
  split
  · exact ⟨rfl, by decide, by decide, fun h => by cases h⟩
  · split
    · exact ⟨rfl, by decide, by decide, fun h => by cases h⟩
    · show headerEvents (setUpFloatCallback env (setUpRGB8 env dec)).events_wanted = _
      rw [setUpFloatCallback_events, setUpRGB8_events]

theorem afterSections_keeps (env : FrameEnv E) (n : Nat) (dec : JxlDecoder E) :
    Ctl.Keeps (headerEvents dec.events_wanted) (afterSections env n dec) := by
  unfold afterSections
  simp only
  split
  · exact ⟨rfl, by decide, by decide, fun h => by cases h⟩
  · split
    · exact ⟨rfl, by decide, by decide, fun h => by cases h⟩
    · split
      · refine Ctl.Keeps.ret_plain ?_ ?_
        · rw [RequestMoreInput_events]
        · rw [RequestMoreInput_status]; exact Or.inr (Or.inr rfl)
      · split
        · trivial
        · rename_i d1 hr
          have h1 : d1.events_wanted = dec.events_wanted := by
            split at hr
            · split at hr
              · simp only [Option.some.injEq] at hr
                rw [← hr]
              · cases hr
            · simp only [Option.some.injEq] at hr
              rw [← hr]
          split
          · exact Ctl.Keeps.ret_plain (congrArg headerEvents h1) (Or.inr (Or.inl rfl))
          · exact congrArg headerEvents h1

theorem frameFullStage_keeps (env : FrameEnv E) (dec : JxlDecoder E) :
    Ctl.Keeps (headerEvents dec.events_wanted) (frameFullStage env dec) := by
  unfold frameFullStage
  refine Ctl.Keeps.andThen (prepareOutput_keeps env dec) ?_
  intro d hd
  simp only
  split
  · trivial
  · rename_i st d2 hp
    have hp2 := JxlDecoderProcessSections_events env _ _ _ hp
    have he : headerEvents d2.events_wanted = headerEvents dec.events_wanted := by
      rw [hp2.1]; exact hd
    split
    · exact Ctl.Keeps.ret_plain he hp2.2
    · rw [← he]
      exact afterSections_keeps env _ d2

theorem writeFullImage_keeps (env : FrameEnv E) (dec : JxlDecoder E) :
    Ctl.Keeps (headerEvents dec.events_wanted) (writeFullImage env dec) := by
  unfold writeFullImage
  simp only
  generalize (if (!env.hasRGBBuffer dec.ext) = true then env.convertImage dec
    else (true, dec.ext)) = c
  split
  · exact Ctl.Keeps.ret_plain rfl (Or.inr (Or.inl rfl))
  · split
    · trivial
    · exact Ctl.Keeps.ret_plain rfl (Or.inr (Or.inl rfl))
    · exact rfl

theorem frameOutputStage_keeps (env : FrameEnv E) (dec : JxlDecoder E) :
    Ctl.Keeps (headerEvents dec.events_wanted) (frameOutputStage env dec).2 := by
  unfold frameOutputStage
  split
  · simp only
    split
    · exact Ctl.Keeps.ret_plain rfl (Or.inr (Or.inl rfl))
    · exact rfl
  · split
    · simp only
      have hr := headerEvents_restore dec.events_wanted dec.orig_events_wanted
      split
      · exact hr
      · split
        · have hw := writeFullImage_keeps env
            { dec with events_wanted :=
                (restoreFrameEvents dec.events_wanted dec.orig_events_wanted).2 }
          rw [← hr]
          exact hw
        · exact hr
    · exact rfl

theorem frameFinish_keeps (env : FrameEnv E) (flags : OutputFlags) (dec : JxlDecoder E) :
    Ctl.Keeps (headerEvents dec.events_wanted) (frameFinish env flags dec) := by
  unfold frameFinish
  simp only
  split
  · exact ⟨rfl, by decide, by decide, fun h => by cases h⟩
  · split
    · exact ⟨headerEvents_clear_preview _, by decide, by decide, fun h => by cases h⟩
    · split
      · exact ⟨rfl, by decide, by decide, fun h => by cases h⟩
      · exact rfl

theorem frameIteration_keeps (env : FrameEnv E) (dec : JxlDecoder E) :
    Ctl.Keeps (headerEvents dec.events_wanted) (frameIteration env dec) := by
  unfold frameIteration
  simp only
  split
  · exact rfl
  · split
    · exact rfl
    · refine Ctl.Keeps.andThen ?_ ?_
      · split
        · exact frameHeaderStage_keeps env dec
        · exact rfl
      · intro d1 h1
        refine Ctl.Keeps.andThen ?_ ?_
        · split
          · rw [← h1]; exact frameTocStage_keeps env d1
          · exact h1
        · intro d2 h2
          refine Ctl.Keeps.andThen ?_ ?_
          · split
            · rw [← h2]; exact frameFullStage_keeps env d2
            · exact h2
          · intro d3 h3
            split
            · refine Ctl.Keeps.andThen ?_ ?_
              · rw [← h3]; exact frameOutputStage_keeps env d3
              · intro d4 h4
                rw [← h4]; exact frameFinish_keeps env _ d4
            · rw [← h3]; exact frameFinish_keeps env _ d3

/-- What `frameLoop` keeps from the state it starts in to a result. -/
theorem frameLoop_keeps (env : FrameEnv E) (fuel : Nat) (dec d : JxlDecoder E)
    (st : JxlDecoderStatus) (h : frameLoop env fuel dec = some (st, d)) :
    Ctl.Keeps (headerEvents dec.events_wanted) (Ctl.ret st d) := by
  induction fuel generalizing dec with
  | zero => cases h
  | succ n ih =>
    unfold frameLoop at h
    have hk := frameIteration_keeps env dec
    split at h
    · rename_i st1 d1 hi
      rw [hi] at hk
      simp only [Option.some.injEq, Prod.mk.injEq] at h
      rw [← h.1, ← h.2]; exact hk
    · rename_i d1 hi
      rw [hi] at hk
      have := ih d1 h
      rw [← hk]; exact this
    · rename_i d1 hi
      rw [hi] at hk
      have := ih d1 h
      rw [← hk]; exact this
    · rename_i d1 hi
      rw [hi] at hk
      simp only [Option.some.injEq, Prod.mk.injEq] at h
      rw [← h.1, ← h.2]
      exact Ctl.Keeps.ret_plain hk (Or.inl rfl)
    · cases h

end FrameEventLemmas2

section MainLemmas
variable {E : Type}

theorem wants_clearEvent_basic_info (e : Nat) :
    wants (clearEvent e JXL_DEC_BASIC_INFO) JXL_DEC_BASIC_INFO = false := by
  unfold wants clearEvent
  rw [Nat.and_assoc]
  have : (0xFFFFFFFF ^^^ JXL_DEC_BASIC_INFO.code) &&& JXL_DEC_BASIC_INFO.code = 0 := rfl
  rw [this, Nat.and_zero]
  rfl

theorem wants_clearEvent_color_encoding (e : Nat) :
    wants (clearEvent e JXL_DEC_COLOR_ENCODING) JXL_DEC_COLOR_ENCODING = false := by
  unfold wants clearEvent
  rw [Nat.and_assoc]
  have : (0xFFFFFFFF ^^^ JXL_DEC_COLOR_ENCODING.code) &&& JXL_DEC_COLOR_ENCODING.code = 0 := rfl
  rw [this, Nat.and_zero]
  rfl

theorem wants_basic_info_clear_color (e : Nat) :
    wants (clearEvent e JXL_DEC_COLOR_ENCODING) JXL_DEC_BASIC_INFO = wants e JXL_DEC_BASIC_INFO := by
  unfold wants clearEvent
  rw [Nat.and_assoc]
  rfl

theorem wants_color_encoding_clear_basic (e : Nat) :
    wants (clearEvent e JXL_DEC_BASIC_INFO) JXL_DEC_COLOR_ENCODING =
      wants e JXL_DEC_COLOR_ENCODING := by
  unfold wants clearEvent
  rw [Nat.and_assoc]
  rfl

/-- The result of `processAfterBasicInfo`: what it returns, against the
`events_wanted` it starts with. -/
theorem processAfterBasicInfo_events (env : FrameEnv E) (fuel : Nat) (dec d : JxlDecoder E)
    (st : JxlDecoderStatus) (h : processAfterBasicInfo env fuel dec = some (st, d)) :
    st ≠ JXL_DEC_BASIC_INFO ∧
    wants d.events_wanted JXL_DEC_BASIC_INFO = wants dec.events_wanted JXL_DEC_BASIC_INFO ∧
    (st = JXL_DEC_COLOR_ENCODING →
      wants dec.events_wanted JXL_DEC_COLOR_ENCODING = true ∧ d.got_all_headers = true ∧
      d.events_wanted = clearEvent dec.events_wanted JXL_DEC_COLOR_ENCODING) ∧
    (wants dec.events_wanted JXL_DEC_COLOR_ENCODING = false →
      wants d.events_wanted JXL_DEC_COLOR_ENCODING = false) ∧
    (st = JXL_DEC_FRAME → wants d.events_wanted JXL_DEC_FRAME = true) := by
  unfold processAfterBasicInfo at h
  simp only at h
  split at h
  · cases h
  · rename_i st1 d1 hh
    have h1 : d1.events_wanted = dec.events_wanted ∧ IsPlainStatus st1 ∧
        (dec.got_all_headers = true ∨ st1 = JXL_DEC_SUCCESS → d1.got_all_headers = true) := by
      split at hh
      · have := JxlDecoderReadAllHeaders_events env _ _ _ hh
        refine ⟨this.1, this.2.1, fun hs => ?_⟩
        rcases hs with hs | hs
        · rename_i hg
          simp [hs] at hg
        · exact this.2.2 hs
      · rename_i hg
        simp only [Option.some.injEq, Prod.mk.injEq] at hh
        rw [← hh.1, ← hh.2]
        refine ⟨rfl, Or.inl rfl, fun _ => ?_⟩
        simpa using hg
    split at h
    · simp only [Option.some.injEq, Prod.mk.injEq] at h
      rw [← h.1, ← h.2, h1.1]
      have hp := h1.2.1.keeps
      exact ⟨hp.1, rfl, fun hs => absurd hs hp.2.1, fun hw => hw, fun hs => absurd hs hp.2.2⟩
    · rename_i hs1
      have hs1 : st1 = JXL_DEC_SUCCESS := not_not.mp hs1
      split at h
      · rename_i hw
        simp only [Option.some.injEq, Prod.mk.injEq] at h
        rw [← h.1, ← h.2]
        rw [h1.1] at hw
        refine ⟨by decide, ?_, fun _ => ⟨hw, h1.2.2 (Or.inr hs1), (by rw [h1.1])⟩, ?_,
          (fun hs => by cases hs)⟩
        · show wants (clearEvent d1.events_wanted JXL_DEC_COLOR_ENCODING) JXL_DEC_BASIC_INFO = _
          rw [wants_basic_info_clear_color, h1.1]
        · intro hf
          rw [hf] at hw
          cases hw
      · split at h
        · simp only [Option.some.injEq, Prod.mk.injEq] at h
          rw [← h.1, ← h.2]
          refine ⟨by decide, ?_, (fun hs => by cases hs), ?_, (fun hs => by cases hs)⟩
          · show wants d1.events_wanted JXL_DEC_BASIC_INFO = _
            rw [h1.1]
          · intro hf
            show wants d1.events_wanted JXL_DEC_COLOR_ENCODING = false
            rw [h1.1]; exact hf
        · have hk := frameLoop_keeps env fuel _ d st h
          obtain ⟨hbits, hb, hc, hf⟩ := hk
          have hbits2 : headerEvents d.events_wanted = headerEvents dec.events_wanted := by
            rw [hbits]
            exact congrArg headerEvents h1.1
          refine ⟨hb, ?_, fun hs => absurd hs hc, ?_, hf⟩
          · rw [wants_basic_info_header, wants_basic_info_header, hbits2]
          · intro hw
            rw [wants_color_encoding_header, hbits2, ← wants_color_encoding_header]
            exact hw

end MainLemmas

section MainLemmas2
variable {E : Type}

/-- One call of `JxlDecoderProcessCodestream`, against the state it starts
in. -/
theorem JxlDecoderProcessCodestream_step (env : FrameEnv E) (fuel : Nat)
    (dec d : JxlDecoder E) (st : JxlDecoderStatus)
    (h : JxlDecoderProcessCodestream env fuel dec = some (st, d)) :
    (dec.got_basic_info = false →
      ∃ st1 dec1,
        JxlDecoderReadBasicInfo env.toHeaderEnv { dec with ext := env.ensureThreadPool dec.ext }
          = some (st1, dec1) ∧
        (st1 ≠ JXL_DEC_SUCCESS → st = st1 ∧ d = dec1) ∧
        (st1 = JXL_DEC_SUCCESS → dec1.got_basic_info = true)) ∧
    (st = JXL_DEC_BASIC_INFO →
      wants dec.events_wanted JXL_DEC_BASIC_INFO = true ∧ d.got_basic_info = true ∧
      d.events_wanted = clearEvent dec.events_wanted JXL_DEC_BASIC_INFO ∧
      wants d.events_wanted JXL_DEC_BASIC_INFO = false) ∧
    (wants dec.events_wanted JXL_DEC_BASIC_INFO = false →
      st ≠ JXL_DEC_BASIC_INFO ∧ wants d.events_wanted JXL_DEC_BASIC_INFO = false) ∧
    (st = JXL_DEC_COLOR_ENCODING →
      wants dec.events_wanted JXL_DEC_COLOR_ENCODING = true ∧ d.got_all_headers = true ∧
      d.events_wanted = clearEvent dec.events_wanted JXL_DEC_COLOR_ENCODING ∧
      wants d.events_wanted JXL_DEC_COLOR_ENCODING = false) ∧
    (wants dec.events_wanted JXL_DEC_COLOR_ENCODING = false →
      st ≠ JXL_DEC_COLOR_ENCODING ∧ wants d.events_wanted JXL_DEC_COLOR_ENCODING = false) ∧
    (st = JXL_DEC_FRAME → wants d.events_wanted JXL_DEC_FRAME = true) := by
  unfold JxlDecoderProcessCodestream at h
  simp only at h
  split at h
  · cases h
  · rename_i st1 d1 hh
    -- the basic info step
    have h1 : d1.events_wanted = dec.events_wanted ∧ IsPlainStatus st1 ∧
        (st1 = JXL_DEC_SUCCESS → d1.got_basic_info = true) ∧
        (dec.got_basic_info = false →
          JxlDecoderReadBasicInfo env.toHeaderEnv
            { dec with ext := env.ensureThreadPool dec.ext } = some (st1, d1)) := by
      split at hh
      · have := JxlDecoderReadBasicInfo_events env.toHeaderEnv _ _ _ hh
        exact ⟨this.1, this.2.1, this.2.2, fun _ => hh⟩
      · rename_i hg
        simp only [Option.some.injEq, Prod.mk.injEq] at hh
        rw [← hh.1, ← hh.2]
        have hg2 : dec.got_basic_info = true := by simpa using hg
        refine ⟨rfl, Or.inl rfl, fun _ => hg2, fun hf => ?_⟩
        rw [hg2] at hf
        cases hf
    obtain ⟨he, hplain, hgot, hread⟩ := h1
    have hp := hplain.keeps
    split at h
    · -- the basic info step failed
      rename_i hne
      simp only [Option.some.injEq, Prod.mk.injEq] at h
      obtain ⟨hst, hd⟩ := h
      subst hst; subst hd
      refine ⟨fun hf => ⟨st1, d1, hread hf, fun _ => ⟨rfl, rfl⟩, hgot⟩,
        (fun hs => absurd hs hp.1), (fun hw => ⟨hp.1, by rw [he]; exact hw⟩),
        (fun hs => absurd hs hp.2.1), (fun hw => ⟨hp.2.1, by rw [he]; exact hw⟩),
        (fun hs => absurd hs hp.2.2)⟩
    · rename_i hs1
      have hs1 : st1 = JXL_DEC_SUCCESS := not_not.mp hs1
      have hfirst : dec.got_basic_info = false →
          ∃ st1 dec1,
            JxlDecoderReadBasicInfo env.toHeaderEnv
              { dec with ext := env.ensureThreadPool dec.ext } = some (st1, dec1) ∧
            (st1 ≠ JXL_DEC_SUCCESS → st = st1 ∧ d = dec1) ∧
            (st1 = JXL_DEC_SUCCESS → dec1.got_basic_info = true) :=
        fun hf => ⟨st1, d1, hread hf, fun hne => absurd hs1 hne, hgot⟩
      split at h
      · -- the event is wanted
        rename_i hw
        simp only [Option.some.injEq, Prod.mk.injEq] at h
        obtain ⟨hst, hd⟩ := h
        subst hst; subst hd
        rw [he] at hw
        refine ⟨hfirst, (fun _ => ⟨hw, hgot hs1, by rw [he], ?_⟩), ?_,
          (fun hs => by cases hs), ?_, (fun hs => by cases hs)⟩
        · exact wants_clearEvent_basic_info _
        · intro hf
          rw [hf] at hw
          cases hw
        · intro hf
          refine ⟨by decide, ?_⟩
          show wants (clearEvent d1.events_wanted JXL_DEC_BASIC_INFO) JXL_DEC_COLOR_ENCODING
            = false
          rw [wants_color_encoding_clear_basic, he]
          exact hf
      · rename_i hnw
        have hnw2 : wants dec.events_wanted JXL_DEC_BASIC_INFO = false := by
          rw [he] at hnw
          simpa using hnw
        split at h
        · simp only [Option.some.injEq, Prod.mk.injEq] at h
          obtain ⟨hst, hd⟩ := h
          subst hst; subst hd
          refine ⟨hfirst, (fun hs => by cases hs), (fun _ => ⟨by decide, ?_⟩),
            (fun hs => by cases hs), (fun hf => ⟨by decide, ?_⟩), (fun hs => by cases hs)⟩
          · show wants d1.events_wanted JXL_DEC_BASIC_INFO = false
            rw [he]; exact hnw2
          · show wants d1.events_wanted JXL_DEC_COLOR_ENCODING = false
            rw [he]; exact hf
        · have ha := processAfterBasicInfo_events env fuel d1 d st h
          obtain ⟨hb, hwb, hc, hwc, hf⟩ := ha
          rw [he] at hwb hc hwc
          refine ⟨hfirst, (fun hs => absurd hs hb), (fun _ => ⟨hb, by rw [hwb]; exact hnw2⟩),
            ?_, ?_, hf⟩
          · intro hs
            obtain ⟨c1, c2, c3⟩ := hc hs
            exact ⟨c1, c2, c3, by rw [c3]; exact wants_clearEvent_color_encoding _⟩
          · intro hw
            refine ⟨fun hs => ?_, hwc hw⟩
            have := (hc hs).1
            rw [hw] at this
            cases this

/-- Over successive calls each header event is returned at most once, and not
at all when its bit is clear at the start. -/
theorem CodestreamCalls_count (env : FrameEnv E) (dec : JxlDecoder E)
    (sts : List JxlDecoderStatus) (h : CodestreamCalls env dec sts) :
    (sts.count JXL_DEC_BASIC_INFO ≤ 1 ∧
      (wants dec.events_wanted JXL_DEC_BASIC_INFO = false →
        sts.count JXL_DEC_BASIC_INFO = 0)) ∧
    (sts.count JXL_DEC_COLOR_ENCODING ≤ 1 ∧
      (wants dec.events_wanted JXL_DEC_COLOR_ENCODING = false →
        sts.count JXL_DEC_COLOR_ENCODING = 0)) := by
  induction h with
  | done dec => simp
  | call dec d dnext fuel st rest hcall hbetween hrest ih =>
    obtain ⟨-, hB, hnB, hC, hnC, -⟩ := JxlDecoderProcessCodestream_step env fuel dec d st hcall
    have hwB : wants dnext.events_wanted JXL_DEC_BASIC_INFO
        = wants d.events_wanted JXL_DEC_BASIC_INFO := by
      rw [wants_basic_info_header, wants_basic_info_header, hbetween]
    have hwC : wants dnext.events_wanted JXL_DEC_COLOR_ENCODING
        = wants d.events_wanted JXL_DEC_COLOR_ENCODING := by
      rw [wants_color_encoding_header, wants_color_encoding_header, hbetween]
    refine ⟨⟨?_, ?_⟩, ⟨?_, ?_⟩⟩
    · by_cases hs : st = JXL_DEC_BASIC_INFO
      · have h0 := ih.1.2 (by rw [hwB]; exact (hB hs).2.2.2)
        rw [hs, List.count_cons_self, h0]
      · rw [List.count_cons_of_ne (fun e => hs e.symm)]
        exact ih.1.1
    · intro hw
      have := hnB hw
      rw [List.count_cons_of_ne (fun e => this.1 e.symm)]
      exact ih.1.2 (by rw [hwB]; exact this.2)
    · by_cases hs : st = JXL_DEC_COLOR_ENCODING
      · have h0 := ih.2.2 (by rw [hwC]; exact (hC hs).2.2.2)
        rw [hs, List.count_cons_self, h0]
      · rw [List.count_cons_of_ne (fun e => hs e.symm)]
        exact ih.2.1
    · intro hw
      have := hnC hw
      rw [List.count_cons_of_ne (fun e => this.1 e.symm)]
      exact ih.2.2 (by rw [hwC]; exact this.2)

end MainLemmas2

section Claim10
variable {E : Type}

/-- C10: for a call of `JxlDecoderProcessCodestream` that returns status `st`
in state `d`. (1) Basic info is always parsed: when `got_basic_info` is not
set, the call runs `JxlDecoderReadBasicInfo` whatever `events_wanted` is, and
returns its status and state when that is not `JXL_DEC_SUCCESS`. (2)
`JXL_DEC_BASIC_INFO` is returned only if its bit is set in `events_wanted` (and
the basic info is there), and the call then clears exactly that bit. (3) With
the bit clear the event is not returned and the bit stays clear. (4), (5) The
same for `JXL_DEC_COLOR_ENCODING`. (6) `JXL_DEC_FRAME` is returned only with its
bit set in `events_wanted` at that time. (7) So over this call and any further
calls, each of the two header events is returned at most once, and never when
its bit is clear at the start. -/
theorem JxlDecoderProcessCodestream_events (env : FrameEnv E) (fuel : Nat)
    (dec d : JxlDecoder E) (st : JxlDecoderStatus)
    (h : JxlDecoderProcessCodestream env fuel dec = some (st, d)) :
    (dec.got_basic_info = false →
      ∃ st1 dec1,
        JxlDecoderReadBasicInfo env.toHeaderEnv { dec with ext := env.ensureThreadPool dec.ext }
          = some (st1, dec1) ∧
        (st1 ≠ JXL_DEC_SUCCESS → st = st1 ∧ d = dec1) ∧
        (st1 = JXL_DEC_SUCCESS → dec1.got_basic_info = true)) ∧
    (st = JXL_DEC_BASIC_INFO →
      wants dec.events_wanted JXL_DEC_BASIC_INFO = true ∧ d.got_basic_info = true ∧
      d.events_wanted = clearEvent dec.events_wanted JXL_DEC_BASIC_INFO ∧
      wants d.events_wanted JXL_DEC_BASIC_INFO = false) ∧
    (wants dec.events_wanted JXL_DEC_BASIC_INFO = false →
      st ≠ JXL_DEC_BASIC_INFO ∧ wants d.events_wanted JXL_DEC_BASIC_INFO = false) ∧
    (st = JXL_DEC_COLOR_ENCODING →
      wants dec.events_wanted JXL_DEC_COLOR_ENCODING = true ∧ d.got_all_headers = true ∧
      d.events_wanted = clearEvent dec.events_wanted JXL_DEC_COLOR_ENCODING ∧
      wants d.events_wanted JXL_DEC_COLOR_ENCODING = false) ∧
    (wants dec.events_wanted JXL_DEC_COLOR_ENCODING = false →
      st ≠ JXL_DEC_COLOR_ENCODING ∧ wants d.events_wanted JXL_DEC_COLOR_ENCODING = false) ∧
    (st = JXL_DEC_FRAME → wants d.events_wanted JXL_DEC_FRAME = true) ∧
    (∀ dnext sts, headerEvents dnext.events_wanted = headerEvents d.events_wanted →
      CodestreamCalls env dnext sts →
      (st :: sts).count JXL_DEC_BASIC_INFO ≤ 1 ∧
      (st :: sts).count JXL_DEC_COLOR_ENCODING ≤ 1 ∧
      (wants dec.events_wanted JXL_DEC_BASIC_INFO = false →
        JXL_DEC_BASIC_INFO ∉ st :: sts) ∧
      (wants dec.events_wanted JXL_DEC_COLOR_ENCODING = false →
        JXL_DEC_COLOR_ENCODING ∉ st :: sts)) := by
  obtain ⟨h1, h2, h3, h4, h5, h6⟩ := JxlDecoderProcessCodestream_step env fuel dec d st h
  refine ⟨h1, h2, h3, h4, h5, h6, ?_⟩
  intro dnext sts hb hc
  have hcount := CodestreamCalls_count env dec (st :: sts)
    (CodestreamCalls.call dec d dnext fuel st sts h hb hc)
  refine ⟨hcount.1.1, hcount.2.1, fun hw => ?_, fun hw => ?_⟩
  · exact List.count_eq_zero.mp (hcount.1.2 hw)
  · exact List.count_eq_zero.mp (hcount.2.2 hw)

end Claim10

/-- C10 on a bare codestream of ten bytes with `JXL_DEC_BASIC_INFO`,
`JXL_DEC_COLOR_ENCODING` and `JXL_DEC_FRAME` subscribed: three calls return the
three events in this order; the first clears the bit `0x40`, the second the bit
`0x100`, and the third returns `JXL_DEC_FRAME` with the bit `0x400` still
set. -/
theorem JxlDecoderProcessCodestream_events_witness :
    JxlDecoderProcessCodestream demoFrameEnv 1 demoSubscribed
      = some (JXL_DEC_BASIC_INFO, demoAfterBasicInfo) ∧
    JxlDecoderProcessCodestream demoFrameEnv 1 demoAfterBasicInfo
      = some (JXL_DEC_COLOR_ENCODING, demoAfterColorEncoding) ∧
    JxlDecoderProcessCodestream demoFrameEnv 1 demoAfterColorEncoding
      = some (JXL_DEC_FRAME, demoAfterFrame) ∧
    (wants demoSubscribed.events_wanted JXL_DEC_BASIC_INFO = true ∧
      demoAfterBasicInfo.got_basic_info = true ∧
      demoAfterBasicInfo.events_wanted
        = clearEvent demoSubscribed.events_wanted JXL_DEC_BASIC_INFO ∧
      wants demoAfterBasicInfo.events_wanted JXL_DEC_BASIC_INFO = false) ∧
    (wants demoAfterBasicInfo.events_wanted JXL_DEC_COLOR_ENCODING = true ∧
      demoAfterColorEncoding.got_all_headers = true ∧
      demoAfterColorEncoding.events_wanted
        = clearEvent demoAfterBasicInfo.events_wanted JXL_DEC_COLOR_ENCODING ∧
      wants demoAfterColorEncoding.events_wanted JXL_DEC_COLOR_ENCODING = false) ∧
    wants demoAfterFrame.events_wanted JXL_DEC_FRAME = true ∧
    [JXL_DEC_BASIC_INFO, JXL_DEC_COLOR_ENCODING, JXL_DEC_FRAME].count JXL_DEC_BASIC_INFO ≤ 1 :=
  ⟨rfl, rfl, rfl,
    (JxlDecoderProcessCodestream_events demoFrameEnv 1 demoSubscribed demoAfterBasicInfo
      JXL_DEC_BASIC_INFO rfl).2.1 rfl,
    (JxlDecoderProcessCodestream_events demoFrameEnv 1 demoAfterBasicInfo
      demoAfterColorEncoding JXL_DEC_COLOR_ENCODING rfl).2.2.2.1 rfl,
    (JxlDecoderProcessCodestream_events demoFrameEnv 1 demoAfterColorEncoding demoAfterFrame
      JXL_DEC_FRAME rfl).2.2.2.2.2.1 rfl,
    ((JxlDecoderProcessCodestream_events demoFrameEnv 1 demoSubscribed demoAfterBasicInfo
      JXL_DEC_BASIC_INFO rfl).2.2.2.2.2.2 demoAfterBasicInfo
      [JXL_DEC_COLOR_ENCODING, JXL_DEC_FRAME] rfl
      (CodestreamCalls.call demoAfterBasicInfo demoAfterColorEncoding demoAfterColorEncoding 1
        JXL_DEC_COLOR_ENCODING [JXL_DEC_FRAME] rfl rfl
        (CodestreamCalls.call demoAfterColorEncoding demoAfterFrame demoAfterFrame 1
          JXL_DEC_FRAME [] rfl rfl (CodestreamCalls.done demoAfterFrame)))).1⟩

/-- C6 fails in the code: no statement of `decode.cc` assigns
`DecoderStage::kError`, so the test for it in `JxlDecoderProcessInput` never
holds. On a new decoder whose input is the byte `01`, the call returns
`JXL_DEC_ERROR` ("invalid signature") and leaves the stage `kStarted`. After
releasing that input, a call with the byte `ff` as input returns
`JXL_DEC_NEED_MORE_INPUT`, and a call with `ff 0a` as input accepts the
signature and returns what `HandleBoxes` returns, for instance
`JXL_DEC_BASIC_INFO`; this holds for every behaviour of `HandleBoxes`. -/
theorem JxlDecoderProcessInput_error_not_latched :
    ∀ handleBoxes : JxlDecoder Unit → Option (JxlDecoderStatus × JxlDecoder Unit),
      JxlDecoderProcessInput handleBoxes demoBadSignature =
        some (JXL_DEC_ERROR, { demoBadSignature with stage := DecoderStage.kStarted }) ∧
      JxlDecoderProcessInput handleBoxes demoRetry =
        some (JXL_DEC_NEED_MORE_INPUT, demoRetry) ∧
      ∀ d, handleBoxes demoSigned = some (JXL_DEC_BASIC_INFO, d) →
        JxlDecoderProcessInput handleBoxes demoRetryCodestream = some (JXL_DEC_BASIC_INFO, d) := by
  intro hb
  refine ⟨rfl, rfl, ?_⟩
  intro d hd
  have hst : demoRetryCodestream.stage = DecoderStage.kStarted := rfl
  have hs : checkSignature demoRetryCodestream = some (JXL_DEC_SUCCESS, demoSigned) := rfl
  unfold JxlDecoderProcessInput
  simp [hst]
  rw [hs]
  simp [hd]

/-! ## Rewind, reset and the output buffer -/

/-- C11 fails in the code: `JxlDecoderRewindDecodingState` clears `events_wanted`
and keeps `orig_events_wanted`, and nothing restores the one from the other. On
a new decoder, subscribing to `JXL_DEC_BASIC_INFO` succeeds, and after
`JxlDecoderRewind` the active mask `events_wanted` is `0`, not `0x40`. -/
theorem JxlDecoderRewind_drops_events :
    (JxlDecoderSubscribeEvents (JxlDecoderCreate id ()) 0x40).1 = JXL_DEC_SUCCESS ∧
    (JxlDecoderSubscribeEvents (JxlDecoderCreate id ()) 0x40).2.events_wanted = 0x40 ∧
    (JxlDecoderRewind id
      (JxlDecoderSubscribeEvents (JxlDecoderCreate id ()) 0x40).2).events_wanted ≠ 0x40 := by
  refine ⟨rfl, rfl, ?_⟩
  decide

section Claim11
variable {E : Type}

/-- With nothing subscribed, `JxlDecoderProcessCodestream` returns no event. -/
theorem JxlDecoderProcessCodestream_unsubscribed (env : FrameEnv E) (fuel : Nat)
    (dec d : JxlDecoder E) (st : JxlDecoderStatus) (h0 : dec.events_wanted = 0)
    (h : JxlDecoderProcessCodestream env fuel dec = some (st, d)) :
    IsPlainStatus st ∧ d.events_wanted = 0 := by
  unfold JxlDecoderProcessCodestream at h
  simp only at h
  split at h
  · cases h
  · rename_i st1 d1 hh
    have h1 : d1.events_wanted = 0 ∧ IsPlainStatus st1 := by
      split at hh
      · have := JxlDecoderReadBasicInfo_events env.toHeaderEnv _ _ _ hh
        exact ⟨this.1.trans h0, this.2.1⟩
      · simp only [Option.some.injEq, Prod.mk.injEq] at hh
        rw [← hh.1, ← hh.2]
        exact ⟨h0, Or.inl rfl⟩
    split at h
    · simp only [Option.some.injEq, Prod.mk.injEq] at h
      rw [← h.1, ← h.2]
      exact ⟨h1.2, h1.1⟩
    · split at h
      · rename_i hw
        rw [h1.1] at hw
        exact absurd hw (by decide)
      · split at h
        · simp only [Option.some.injEq, Prod.mk.injEq] at h
          rw [← h.1, ← h.2]
          exact ⟨Or.inl rfl, h1.1⟩
        · rename_i hne
          exact absurd h1.1 hne

theorem JxlDecoderSubscribeEvents_ok (dec : JxlDecoder E) (e : Nat)
    (hs : dec.stage = DecoderStage.kInited) (he : e &&& 63 = 0) :
    JxlDecoderSubscribeEvents dec e =
      (JXL_DEC_SUCCESS, { dec with events_wanted := e, orig_events_wanted := e }) := by
  unfold JxlDecoderSubscribeEvents
  simp [hs, he]

/-- What `JxlDecoderRewind` does with the event masks: after it the active mask
`events_wanted` is `0` whatever was subscribed; the mask `e` of an earlier successful
`JxlDecoderSubscribeEvents(e)` is kept in `orig_events_wanted` only. The stage
is `kInited` again, so that a new `JxlDecoderSubscribeEvents(e2)` with
`e2 & 63 == 0` succeeds and makes `e2` the active mask; without it a call of
`JxlDecoderProcessCodestream` with this mask returns no event. -/
theorem JxlDecoderRewind_events (rewindExt : E → E) (dec : JxlDecoder E) (e : Nat)
    (hsub : (JxlDecoderSubscribeEvents dec e).1 = JXL_DEC_SUCCESS) :
    (JxlDecoderRewind rewindExt (JxlDecoderSubscribeEvents dec e).2).events_wanted = 0 ∧
    (JxlDecoderRewind rewindExt (JxlDecoderSubscribeEvents dec e).2).orig_events_wanted = e ∧
    (JxlDecoderRewind rewindExt (JxlDecoderSubscribeEvents dec e).2).stage
      = DecoderStage.kInited ∧
    (∀ e2, e2 &&& 63 = 0 →
      (JxlDecoderSubscribeEvents
        (JxlDecoderRewind rewindExt (JxlDecoderSubscribeEvents dec e).2) e2).1
        = JXL_DEC_SUCCESS ∧
      (JxlDecoderSubscribeEvents
        (JxlDecoderRewind rewindExt (JxlDecoderSubscribeEvents dec e).2) e2).2.events_wanted
        = e2) ∧
    (∀ (env : FrameEnv E) (fuel : Nat) (d0 d : JxlDecoder E) (st : JxlDecoderStatus),
      d0.events_wanted
        = (JxlDecoderRewind rewindExt (JxlDecoderSubscribeEvents dec e).2).events_wanted →
      JxlDecoderProcessCodestream env fuel d0 = some (st, d) →
      IsPlainStatus st) := by
  have hok : dec.stage = DecoderStage.kInited ∧ e &&& 63 = 0 := by
    unfold JxlDecoderSubscribeEvents at hsub
    by_cases hs : dec.stage = DecoderStage.kInited
    · by_cases he : e &&& 63 = 0
      · exact ⟨hs, he⟩
      · simp [hs, he] at hsub
    · simp [hs] at hsub
  have hstate : (JxlDecoderSubscribeEvents dec e).2 =
      { dec with events_wanted := e, orig_events_wanted := e } := by
    rw [JxlDecoderSubscribeEvents_ok dec e hok.1 hok.2]
  refine ⟨rfl, ?_, rfl, ?_, ?_⟩
  · rw [hstate]; rfl
  · intro e2 he2
    rw [JxlDecoderSubscribeEvents_ok
      (JxlDecoderRewind rewindExt (JxlDecoderSubscribeEvents dec e).2) e2 rfl he2]
    exact ⟨rfl, rfl⟩
  · intro env fuel d0 d st h0 h
    exact (JxlDecoderProcessCodestream_unsubscribed env fuel d0 d st (h0.trans rfl) h).1

end Claim11

/-- The event masks of a new decoder subscribed to `JXL_DEC_BASIC_INFO |
JXL_DEC_FRAME`: after the rewind nothing is active, the mask `0x440` is still
in `orig_events_wanted`, and subscribing to `JXL_DEC_FRAME` alone succeeds. -/
theorem JxlDecoderRewind_events_witness :
    (JxlDecoderRewind id
      (JxlDecoderSubscribeEvents (JxlDecoderCreate id ()) 0x440).2).events_wanted = 0 ∧
    (JxlDecoderRewind id
      (JxlDecoderSubscribeEvents (JxlDecoderCreate id ()) 0x440).2).orig_events_wanted
      = 0x440 ∧
    (JxlDecoderSubscribeEvents
      (JxlDecoderRewind id (JxlDecoderSubscribeEvents (JxlDecoderCreate id ()) 0x440).2)
      0x400).1 = JXL_DEC_SUCCESS :=
  ⟨(JxlDecoderRewind_events id (JxlDecoderCreate id ()) 0x440 rfl).1,
   (JxlDecoderRewind_events id (JxlDecoderCreate id ()) 0x440 rfl).2.1,
   ((JxlDecoderRewind_events id (JxlDecoderCreate id ()) 0x440 rfl).2.2.2.1 0x400
      (by decide)).1⟩

/-- C12 fails as stated: `JxlDecoderRewind` on a decoder whose ledger holds five
frames leaves `frame_saved_as` and `frame_references` as they are. -/
theorem JxlDecoderRewind_keeps_ledger :
    (JxlDecoderRewind id demoLedger).frame_saved_as = [1, 2, 1, 4, 0] ∧
    (JxlDecoderRewind id demoLedger).frame_references = [0, 1, 2, 1, 4] ∧
    (JxlDecoderRewind id demoLedger).frame_saved_as ≠ [] :=
  ⟨rfl, rfl, by decide⟩

section Claim12
variable {E : Type}

/-- C12, amended: the frame reference ledger is cleared on reset and kept on
rewind. After `JxlDecoderReset`, `frame_saved_as`, `frame_references`,
`frame_external_to_internal` and `frame_required` are empty, whatever they
held; `JxlDecoderRewind` leaves all four as they are (so that
`JxlDecoderSkipFrames` can use them for "a frame that has been seen before a
rewind") and only sets the frame counters back to 0. -/
theorem ledger_reset_and_rewind (rewindExt : E → E) (dec : JxlDecoder E) :
    ((JxlDecoderReset rewindExt dec).frame_saved_as = [] ∧
      (JxlDecoderReset rewindExt dec).frame_references = [] ∧
      (JxlDecoderReset rewindExt dec).frame_external_to_internal = [] ∧
      (JxlDecoderReset rewindExt dec).frame_required = []) ∧
    ((JxlDecoderRewind rewindExt dec).frame_saved_as = dec.frame_saved_as ∧
      (JxlDecoderRewind rewindExt dec).frame_references = dec.frame_references ∧
      (JxlDecoderRewind rewindExt dec).frame_external_to_internal
        = dec.frame_external_to_internal ∧
      (JxlDecoderRewind rewindExt dec).frame_required = dec.frame_required) ∧
    ((JxlDecoderRewind rewindExt dec).internal_frames = 0 ∧
      (JxlDecoderRewind rewindExt dec).external_frames = 0 ∧
      (JxlDecoderRewind rewindExt dec).skip_frames = 0) :=
  ⟨⟨rfl, rfl, rfl, rfl⟩, ⟨rfl, rfl, rfl, rfl⟩, ⟨rfl, rfl, rfl⟩⟩

end Claim12

section Claim13
variable {E : Type}

/-- C13 fails in the code: `JxlDecoderReset` assigns every setting but
`prog_detail`, which only the default member initialiser sets to `kDC`. After
`JxlDecoderSetProgressiveDetail(kPasses)` on a new decoder (which succeeds), a
reset leaves the progressive detail `kPasses`, where a newly created decoder
has `kDC`. For every state, the reset decoder is a newly created one except
for the fields that neither function assigns: `prog_detail`,
`frame_prog_detail`, `dc_frame_progression_done`, the two pixel formats and the
three limit counters (and the external objects). -/
theorem JxlDecoderReset_keeps_prog_detail :
    (JxlDecoderSetProgressiveDetail (JxlDecoderCreate id ()) JxlProgressiveDetail.kPasses).1
      = JXL_DEC_SUCCESS ∧
    (JxlDecoderReset id demoDetailSet).prog_detail = JxlProgressiveDetail.kPasses ∧
    (JxlDecoderCreate id ()).prog_detail = JxlProgressiveDetail.kDC ∧
    (∀ (E1 : Type) (rewindExt : E1 → E1) (dec : JxlDecoder E1) (ext0 : E1),
      JxlDecoderReset rewindExt dec =
        { JxlDecoderCreate rewindExt ext0 with
          prog_detail := dec.prog_detail
          frame_prog_detail := dec.frame_prog_detail
          dc_frame_progression_done := dec.dc_frame_progression_done
          preview_out_format := dec.preview_out_format
          image_out_format := dec.image_out_format
          memory_limit_base := dec.memory_limit_base
          cpu_limit_base := dec.cpu_limit_base
          used_cpu_base := dec.used_cpu_base
          ext := rewindExt dec.ext }) :=
  ⟨rfl, rfl, rfl, fun _ _ _ _ => rfl⟩

end Claim13

/-- C14 fails in the code after a rewind. On a new decoder `JxlDecoderSetInput`
with the byte `01` succeeds; after `JxlDecoderRewind`, and without a
`JxlDecoderReleaseInput`, a second `JxlDecoderSetInput` with the byte `02`
returns `JXL_DEC_SUCCESS` and replaces the input. -/
theorem JxlDecoderSetInput_after_rewind :
    (JxlDecoderSetInput (JxlDecoderCreate id ()) (some [1]) 1).1 = JXL_DEC_SUCCESS ∧
    (JxlDecoderSetInput (JxlDecoderCreate id ()) (some [1]) 1).2.next_in = some [1] ∧
    (JxlDecoderSetInput
      (JxlDecoderRewind id (JxlDecoderSetInput (JxlDecoderCreate id ()) (some [1]) 1).2)
      (some [2]) 1).1 = JXL_DEC_SUCCESS ∧
    (JxlDecoderSetInput
      (JxlDecoderRewind id (JxlDecoderSetInput (JxlDecoderCreate id ()) (some [1]) 1).2)
      (some [2]) 1).2.next_in = some [2] :=
  ⟨rfl, rfl, rfl, rfl⟩

section Claim14
variable {E : Type}

/-- C14 (amended): while `next_in` is set (non-null), `JxlDecoderSetInput`
returns `JXL_DEC_ERROR` and changes nothing. A `JxlDecoderSetInput` that
succeeds with a non-null pointer sets `next_in` to it, and consuming input
(`AdvanceInput`) keeps it non-null, so that a second `JxlDecoderSetInput`
fails. After `JxlDecoderReleaseInput`, and with the input not closed,
`JxlDecoderSetInput` succeeds and sets `next_in` and `avail_in`.
`JxlDecoderRewind` and `JxlDecoderReset` set `next_in` to null and open the
input again, so that `JxlDecoderSetInput` succeeds after them as well. -/
theorem JxlDecoderSetInput_twice (dec : JxlDecoder E) (data : Option (List Nat))
    (size : Nat) :
    (dec.next_in.isSome = true → JxlDecoderSetInput dec data size = (JXL_DEC_ERROR, dec)) ∧
    (∀ bytes n, (JxlDecoderSetInput dec (some bytes) n).1 = JXL_DEC_SUCCESS →
      (JxlDecoderSetInput dec (some bytes) n).2.next_in = some bytes ∧
      (JxlDecoderSetInput dec (some bytes) n).2.avail_in = n ∧
      JxlDecoderSetInput (JxlDecoderSetInput dec (some bytes) n).2 data size
        = (JXL_DEC_ERROR, (JxlDecoderSetInput dec (some bytes) n).2)) ∧
    (∀ k, (dec.AdvanceInput k).next_in.isSome = dec.next_in.isSome) ∧
    ((JxlDecoderReleaseInput dec).2.next_in = none ∧
      (dec.input_closed = false →
        JxlDecoderSetInput (JxlDecoderReleaseInput dec).2 data size =
          (JXL_DEC_SUCCESS,
            { (JxlDecoderReleaseInput dec).2 with next_in := data, avail_in := size }))) ∧
    (∀ rewindExt : E → E,
      (JxlDecoderRewind rewindExt dec).next_in = none ∧
      (JxlDecoderReset rewindExt dec).next_in = none ∧
      JxlDecoderSetInput (JxlDecoderRewind rewindExt dec) data size =
        (JXL_DEC_SUCCESS,
          { JxlDecoderRewind rewindExt dec with next_in := data, avail_in := size }) ∧
      JxlDecoderSetInput (JxlDecoderReset rewindExt dec) data size =
        (JXL_DEC_SUCCESS,
          { JxlDecoderReset rewindExt dec with next_in := data, avail_in := size })) := by
  have h1 : ∀ (d : JxlDecoder E) (x : Option (List Nat)) (m : Nat),
      d.next_in.isSome = true → JxlDecoderSetInput d x m = (JXL_DEC_ERROR, d) := by
    intro d x m hd
    unfold JxlDecoderSetInput
    simp [hd]
  have h2 : ∀ (d : JxlDecoder E), d.next_in = none → d.input_closed = false →
      JxlDecoderSetInput d data size =
        (JXL_DEC_SUCCESS, { d with next_in := data, avail_in := size }) := by
    intro d hn hc
    unfold JxlDecoderSetInput
    simp [hn, hc]
  refine ⟨h1 dec data size, ?_, ?_, ⟨rfl, fun hc => h2 _ rfl hc⟩, ?_⟩
  · intro bytes n hok
    have hstate : JxlDecoderSetInput dec (some bytes) n =
        (JXL_DEC_SUCCESS, { dec with next_in := some bytes, avail_in := n }) := by
      unfold JxlDecoderSetInput at hok ⊢
      by_cases hn : dec.next_in.isSome = true
      · simp [hn] at hok
      · by_cases hc : dec.input_closed = true
        · simp [hn, hc] at hok
        · simp [hn, hc]
    rw [hstate]
    exact ⟨rfl, rfl, h1 _ data size rfl⟩
  · intro k
    unfold JxlDecoder.AdvanceInput
    cases dec.next_in <;> rfl
  · intro rewindExt
    exact ⟨rfl, rfl, h2 _ rfl rfl, h2 _ rfl rfl⟩

end Claim14

section Claim15
variable {E : Type}

/-- C15: `JxlDecoderSetImageOutBuffer(format, buffer, size)` returns
`JXL_DEC_SUCCESS` only if `got_basic_info` is set, `JXL_DEC_FULL_IMAGE` is in
`orig_events_wanted`, and `JxlDecoderImageOutBufferSize` succeeds for the same
format with a value that is at most `size`; it then sets
`image_out_buffer_set`, `image_out_buffer`, `image_out_size` and
`image_out_format` and nothing else. Whenever it returns another status the
decoder is unchanged, these four fields included. -/
theorem JxlDecoderSetImageOutBuffer_guards (env : DimEnv E) (dec : JxlDecoder E)
    (format : JxlPixelFormat) (buffer size : Nat) :
    ((JxlDecoderSetImageOutBuffer env dec format buffer size).1 = JXL_DEC_SUCCESS →
      dec.got_basic_info = true ∧ wants dec.orig_events_wanted JXL_DEC_FULL_IMAGE = true ∧
      (JxlDecoderImageOutBufferSize env dec format).1 = JXL_DEC_SUCCESS ∧
      (JxlDecoderImageOutBufferSize env dec format).2 ≤ size ∧
      (JxlDecoderSetImageOutBuffer env dec format buffer size).2 =
        { dec with
          image_out_buffer_set := true
          image_out_buffer := buffer
          image_out_size := size
          image_out_format := format }) ∧
    ((JxlDecoderSetImageOutBuffer env dec format buffer size).1 ≠ JXL_DEC_SUCCESS →
      (JxlDecoderSetImageOutBuffer env dec format buffer size).2 = dec) := by
  unfold JxlDecoderSetImageOutBuffer
  split
  · exact ⟨(fun h => by cases h), fun _ => rfl⟩
  · rename_i hg
    split
    · exact ⟨(fun h => by cases h), fun _ => rfl⟩
    · split
      · exact ⟨(fun h => by cases h), fun _ => rfl⟩
      · simp only
        split
        · rename_i hne
          exact ⟨fun h => absurd h hne, fun _ => rfl⟩
        · rename_i hs
          split
          · exact ⟨(fun h => by cases h), fun _ => rfl⟩
          · rename_i hsz
            refine ⟨fun _ => ⟨?_, ?_, not_not.mp hs, Nat.le_of_not_lt hsz, rfl⟩,
              fun h => absurd rfl h⟩
            · cases hb : dec.got_basic_info
              · simp [hb] at hg
              · rfl
            · cases hw : wants dec.orig_events_wanted JXL_DEC_FULL_IMAGE
              · simp [hw] at hg
              · rfl

end Claim15

/-- C15 for an image of 10 by 5 pixels and three 8-bit channels: the size
reported is 150; a buffer of 150 bytes is accepted, one of 149 bytes is
rejected with the decoder unchanged, and so is any buffer before the basic
info is there. -/
theorem JxlDecoderSetImageOutBuffer_guards_witness :
    JxlDecoderImageOutBufferSize demoDimEnv demoWantsImage demoRGB8 = (JXL_DEC_SUCCESS, 150) ∧
    (JxlDecoderSetImageOutBuffer demoDimEnv demoWantsImage demoRGB8 0x1000 150).1
      = JXL_DEC_SUCCESS ∧
    (JxlDecoderImageOutBufferSize demoDimEnv demoWantsImage demoRGB8).2 ≤ 150 ∧
    (JxlDecoderSetImageOutBuffer demoDimEnv demoWantsImage demoRGB8 0x1000 149).1
      = JXL_DEC_ERROR ∧
    (JxlDecoderSetImageOutBuffer demoDimEnv demoWantsImage demoRGB8 0x1000 149).2
      = demoWantsImage ∧
    (JxlDecoderSetImageOutBuffer demoDimEnv (JxlDecoderCreate id ()) demoRGB8 0x1000 150).2
      = JxlDecoderCreate id () :=
  ⟨rfl, rfl,
    ((JxlDecoderSetImageOutBuffer_guards demoDimEnv demoWantsImage demoRGB8 0x1000 150).1
      rfl).2.2.2.1,
    rfl,
    (JxlDecoderSetImageOutBuffer_guards demoDimEnv demoWantsImage demoRGB8 0x1000 149).2
      (by decide),
    (JxlDecoderSetImageOutBuffer_guards demoDimEnv (JxlDecoderCreate id ()) demoRGB8 0x1000
      150).2 (by decide)⟩

theorem OutOfBounds_eq {a b size : Nat} (ha : a < SIZE_MOD) (hb : b < SIZE_MOD)
    (hs : size < SIZE_MOD) : OutOfBounds a b size = decide (size < a + b) := by
  unfold OutOfBounds sizeAdd
  simp only [SIZE_MOD] at *
  split
  · rw [eq_comm, decide_eq_true_eq]; omega
  · split
    · rw [eq_comm, decide_eq_true_eq]; omega
    · rw [eq_comm, decide_eq_false_iff_not]; omega

theorem SumOverflows_eq {a b c : Nat} (ha : a < SIZE_MOD) (hb : b < SIZE_MOD)
    (hc : c < SIZE_MOD) : SumOverflows a b c = decide (SIZE_MOD ≤ a + b + c) := by
  unfold SumOverflows sizeAdd
  simp only [SIZE_MOD] at *
  split
  · rw [eq_comm, decide_eq_true_eq]; omega
  · split
    · rw [eq_comm, decide_eq_true_eq]; omega
    · rw [eq_comm, decide_eq_false_iff_not]; omega

theorem foldl_bigEndian_lt (l : List Nat) (h : ∀ b ∈ l, b < 256) (acc k : Nat)
    (hacc : acc < 256 ^ k) :
    l.foldl (fun acc b => acc * 256 + b) acc < 256 ^ (k + l.length) := by
  induction l generalizing acc k with
  | nil => simpa using hacc
  | cons x xs ih =>
    have hx : x < 256 := h x (List.mem_cons_self _ _)
    have hstep : acc * 256 + x < 256 ^ (k + 1) := by
      rw [pow_succ]
      have : acc + 1 ≤ 256 ^ k := hacc
      nlinarith
    have := ih (fun b hb => h b (List.mem_cons_of_mem _ hb)) (acc * 256 + x) (k + 1) hstep
    simp only [List.foldl_cons, List.length_cons]
    have e : k + (xs.length + 1) = k + 1 + xs.length := by omega
    rw [e]
    exact this

theorem bigEndian_lt (l : List Nat) (h : ∀ b ∈ l, b < 256) : bigEndian l < 256 ^ l.length := by
  have := foldl_bigEndian_lt l h 0 0 (by norm_num)
  simpa [bigEndian] using this

theorem LoadBE32_some (bytes : List Nat) (h : 4 ≤ bytes.length) :
    LoadBE32 bytes = some (bigEndian (bytes.take 4)) := by
  unfold LoadBE32
  have : (bytes.take 4).length = 4 := by simp [List.length_take, h]
  simp [this]

theorem LoadBE64_some (bytes : List Nat) (h : 8 ≤ bytes.length) :
    LoadBE64 bytes = some (bigEndian (bytes.take 8)) := by
  unfold LoadBE64
  have : (bytes.take 8).length = 8 := by simp [List.length_take, h]
  simp [this]

theorem LoadBE32_lt (bytes : List Nat) (h : ∀ b ∈ bytes, b < 256) (v : Nat)
    (hv : LoadBE32 bytes = some v) : v < 2 ^ 32 := by
  unfold LoadBE32 at hv
  split at hv
  · cases hv
  · rename_i hlen
    simp only [Option.some.injEq] at hv
    rw [← hv]
    have h1 := bigEndian_lt (bytes.take 4) (fun b hb => h b (List.mem_of_mem_take hb))
    have h2 : (bytes.take 4).length ≤ 4 := by simp [List.length_take]
    calc bigEndian (bytes.take 4) < 256 ^ (bytes.take 4).length := h1
      _ ≤ 256 ^ 4 := Nat.pow_le_pow_right (by norm_num) h2
      _ = 2 ^ 32 := by norm_num

theorem LoadBE64_lt (bytes : List Nat) (h : ∀ b ∈ bytes, b < 256) (v : Nat)
    (hv : LoadBE64 bytes = some v) : v < SIZE_MOD := by
  unfold LoadBE64 at hv
  split at hv
  · cases hv
  · simp only [Option.some.injEq] at hv
    rw [← hv]
    have h1 := bigEndian_lt (bytes.take 8) (fun b hb => h b (List.mem_of_mem_take hb))
    have h2 : (bytes.take 8).length ≤ 8 := by simp [List.length_take]
    calc bigEndian (bytes.take 8) < 256 ^ (bytes.take 8).length := h1
      _ ≤ 256 ^ 8 := Nat.pow_le_pow_right (by norm_num) h2
      _ = SIZE_MOD := by norm_num [SIZE_MOD]

theorem parseBoxType_spec (input : List Nat) (size p box_start file_pos box_size : Nat)
    (hread : size ≤ input.length) (hsize : size < SIZE_MOD) (hp : p + 4 ≤ size)
    (hstart : box_start ≤ p) (hfile : file_pos < SIZE_MOD) (hbox : box_size < SIZE_MOD) :
    ∃ st, parseBoxType input p box_start file_pos box_size =
        some ⟨st, (input.drop p).take 4, box_size, p + 4 - box_start⟩ ∧
      (st = JXL_DEC_ERROR ↔
        (0 < box_size ∧ box_size < p + 4 - box_start) ∨
          SIZE_MOD ≤ file_pos + (p + 4) + box_size) ∧
      (st ≠ JXL_DEC_ERROR → st = JXL_DEC_SUCCESS) := by
  have hlen : ((input.drop p).take 4).length = 4 := by
    simp only [List.length_take, List.length_drop]
    omega
  have hadd : sizeAdd p 4 = p + 4 := sizeAdd_of_lt (by omega)
  have hsub : sizeSub (p + 4) box_start = p + 4 - box_start :=
    sizeSub_of_le (by omega) (by omega)
  have hsum : SumOverflows file_pos (p + 4) box_size
      = decide (SIZE_MOD ≤ file_pos + (p + 4) + box_size) :=
    SumOverflows_eq hfile (by omega) hbox
  unfold parseBoxType
  simp only [hlen, hadd, hsub, hsum, lt_self_iff_false, if_false]
  by_cases h1 : box_size > 0 ∧ box_size < p + 4 - box_start
  · refine ⟨JXL_DEC_ERROR, by simp [h1], ?_, fun h => absurd rfl h⟩
    exact ⟨fun _ => Or.inl h1, fun _ => rfl⟩
  · by_cases h2 : SIZE_MOD ≤ file_pos + (p + 4) + box_size
    · refine ⟨JXL_DEC_ERROR, by simp [h1, h2], ?_, fun h => absurd rfl h⟩
      exact ⟨fun _ => Or.inr h2, fun _ => rfl⟩
    · refine ⟨JXL_DEC_SUCCESS, by simp [h1, h2], ?_, fun _ => rfl⟩
      constructor
      · intro h; cases h
      · intro h
        rcases h with h | h
        · exact absurd h h1
        · exact absurd h h2

/-- The short form: with at least 8 bytes at `pos` and a 32-bit size other than
1, `ParseBoxHeader` takes the type from offset 4. -/
theorem ParseBoxHeader_short (input : List Nat) (size pos file_pos : Nat) (type0 : List Nat)
    (box_size0 size32 : Nat)
    (hread : size ≤ input.length) (hbytes : ∀ b ∈ input, b < 256)
    (hsize : size < SIZE_MOD) (hfile : file_pos < SIZE_MOD)
    (h8 : pos + 8 ≤ size) (h32 : LoadBE32 (input.drop pos) = some size32) (hne : size32 ≠ 1) :
    ∃ st, ParseBoxHeader input size pos file_pos type0 box_size0 =
        some ⟨st, (input.drop (pos + 4)).take 4, size32, 8⟩ ∧
      (st = JXL_DEC_ERROR ↔
        (0 < size32 ∧ size32 < 8) ∨ SIZE_MOD ≤ file_pos + (pos + 8) + size32) ∧
      (st ≠ JXL_DEC_ERROR → st = JXL_DEC_SUCCESS) := by
  have hoob : OutOfBounds pos 8 size = false := by
    rw [OutOfBounds_eq (by omega) (by norm_num [SIZE_MOD]) hsize]
    simp; omega
  have hadd : sizeAdd pos 4 = pos + 4 := sizeAdd_of_lt (by omega)
  have hlt : size32 < SIZE_MOD := by
    have := LoadBE32_lt (input.drop pos) (fun b hb => hbytes b (List.mem_of_mem_drop hb))
      size32 h32
    simp only [SIZE_MOD]; omega
  obtain ⟨st, hst, herr, hok⟩ := parseBoxType_spec input size (pos + 4) pos file_pos size32
    hread hsize (by omega) (by omega) hfile hlt
  refine ⟨st, ?_, ?_, hok⟩
  · unfold ParseBoxHeader
    simp only [hoob, h32, hadd, if_neg hne]
    rw [hst]
    have : pos + 4 + 4 - pos = 8 := by omega
    simp [this]
  · rw [herr]
    have e1 : pos + 4 + 4 - pos = 8 := by omega
    have e2 : pos + 4 + 4 = pos + 8 := by omega
    rw [e1, e2]

/-- The length-extended form: with at least 16 bytes at `pos` and the 32-bit
size 1, `ParseBoxHeader` takes the 64-bit size from offset 4 and the type from
offset 12. -/
theorem ParseBoxHeader_long (input : List Nat) (size pos file_pos : Nat) (type0 : List Nat)
    (box_size0 : Nat)
    (hread : size ≤ input.length) (hbytes : ∀ b ∈ input, b < 256)
    (hsize : size < SIZE_MOD) (hfile : file_pos < SIZE_MOD)
    (h16 : pos + 16 ≤ size) (h32 : LoadBE32 (input.drop pos) = some 1) :
    ∃ st, ParseBoxHeader input size pos file_pos type0 box_size0 =
        some ⟨st, (input.drop (pos + 12)).take 4,
          bigEndian ((input.drop (pos + 4)).take 8), 16⟩ ∧
      (st = JXL_DEC_ERROR ↔
        (0 < bigEndian ((input.drop (pos + 4)).take 8) ∧
            bigEndian ((input.drop (pos + 4)).take 8) < 16) ∨
          SIZE_MOD ≤ file_pos + (pos + 16) + bigEndian ((input.drop (pos + 4)).take 8)) ∧
      (st ≠ JXL_DEC_ERROR → st = JXL_DEC_SUCCESS) := by
  have hoob : OutOfBounds pos 8 size = false := by
    rw [OutOfBounds_eq (by omega) (by norm_num [SIZE_MOD]) hsize]
    simp; omega
  have hadd : sizeAdd pos 4 = pos + 4 := sizeAdd_of_lt (by omega)
  have hadd2 : sizeAdd (pos + 4) 8 = pos + 12 := by
    rw [sizeAdd_of_lt (by omega)]
  have hoob2 : OutOfBounds (pos + 4) 12 size = false := by
    rw [OutOfBounds_eq (by omega) (by norm_num [SIZE_MOD]) hsize]
    simp; omega
  have h64 : LoadBE64 (input.drop (pos + 4))
      = some (bigEndian ((input.drop (pos + 4)).take 8)) :=
    LoadBE64_some _ (by simp only [List.length_drop]; omega)
  have hlt : bigEndian ((input.drop (pos + 4)).take 8) < SIZE_MOD :=
    LoadBE64_lt (input.drop (pos + 4)) (fun b hb => hbytes b (List.mem_of_mem_drop hb)) _ h64
  obtain ⟨st, hst, herr, hok⟩ := parseBoxType_spec input size (pos + 12) pos file_pos
    (bigEndian ((input.drop (pos + 4)).take 8)) hread hsize (by omega) (by omega) hfile hlt
  refine ⟨st, ?_, ?_, hok⟩
  · unfold ParseBoxHeader
    simp only [hoob, h32, hadd, hadd2, hoob2, h64, if_true]
    rw [hst]
    have : pos + 12 + 4 - pos = 16 := by omega
    simp [this]
  · rw [herr]
    have e1 : pos + 12 + 4 - pos = 16 := by omega
    have e2 : pos + 12 + 4 = pos + 16 := by omega
    rw [e1, e2]

/-- C16 fails in the code for the length-extended form. On the 16 bytes
`00 00 00 01 'j' 'x' 'l' 'c' 00 00 00 00 00 00 00 20` (type `jxlc` at offset 4,
64-bit size `0x20` at offset 8) `ParseBoxHeader` succeeds with the type
`00 00 00 20` and the box size `0x6A786C6300000000`: after the 32-bit size it
reads the 64-bit size at offset 4, over the type tag, and the type at offset
12. In general, with 16 bytes available and the 32-bit size 1, the box size is
the big-endian value of the bytes at offsets 4 to 11 and the type is the bytes
at offsets 12 to 15; in the short form the type is the bytes at offsets 4 to 7,
the box size is the 32-bit size and `header_size` is 8, as the claim says. -/
theorem ParseBoxHeader_long_form_misread :
    ParseBoxHeader demoLongHeader 16 0 0 [0, 0, 0, 0] 0 =
      some ⟨JXL_DEC_SUCCESS, [0, 0, 0, 0x20], 0x6A786C6300000000, 16⟩ ∧
    (demoLongHeader.drop 4).take 4 = boxTag "jxlc" ∧
    bigEndian ((demoLongHeader.drop 8).take 8) = 0x20 ∧
    (∀ (input : List Nat) (size pos file_pos : Nat) (type0 : List Nat) (box_size0 : Nat),
      size ≤ input.length → (∀ b ∈ input, b < 256) → size < SIZE_MOD →
      file_pos < SIZE_MOD → pos + 16 ≤ size → LoadBE32 (input.drop pos) = some 1 →
      ∃ st, ParseBoxHeader input size pos file_pos type0 box_size0 =
        some ⟨st, (input.drop (pos + 12)).take 4,
          bigEndian ((input.drop (pos + 4)).take 8), 16⟩) ∧
    (∀ (input : List Nat) (size pos file_pos : Nat) (type0 : List Nat)
        (box_size0 size32 : Nat),
      size ≤ input.length → (∀ b ∈ input, b < 256) → size < SIZE_MOD →
      file_pos < SIZE_MOD → pos + 8 ≤ size → LoadBE32 (input.drop pos) = some size32 →
      size32 ≠ 1 →
      ∃ st, ParseBoxHeader input size pos file_pos type0 box_size0 =
        some ⟨st, (input.drop (pos + 4)).take 4, size32, 8⟩) := by
  refine ⟨by decide, by decide, by decide, ?_, ?_⟩
  · intro input size pos file_pos type0 box_size0 hread hbytes hsize hfile h16 h32
    obtain ⟨st, hst, -⟩ := ParseBoxHeader_long input size pos file_pos type0 box_size0
      hread hbytes hsize hfile h16 h32
    exact ⟨st, hst⟩
  · intro input size pos file_pos type0 box_size0 size32 hread hbytes hsize hfile h8 h32 hne
    obtain ⟨st, hst, -⟩ := ParseBoxHeader_short input size pos file_pos type0 box_size0 size32
      hread hbytes hsize hfile h8 h32 hne
    exact ⟨st, hst⟩

/-- C17: on a window of `size` readable bytes (`pos`, `size` and `file_pos`
within 64 bits), `ParseBoxHeader` returns. It returns
`JXL_DEC_NEED_MORE_INPUT` exactly when fewer than 8 bytes are available at
`pos`, or the 32-bit size field is 1 and fewer than 16 bytes are available,
with `header_size` 8 respectively 16. Otherwise `header_size` is 8 or 16, and
the status is `JXL_DEC_ERROR` exactly when `0 < box_size < header_size` or
`file_pos + (pos + header_size) + box_size` does not fit in 64 bits, and
`JXL_DEC_SUCCESS` otherwise (so also for `box_size` 0). -/
theorem ParseBoxHeader_status (input : List Nat) (size pos file_pos : Nat)
    (type0 : List Nat) (box_size0 : Nat)
    (hread : size ≤ input.length) (hbytes : ∀ b ∈ input, b < 256)
    (hsize : size < SIZE_MOD) (hpos : pos < SIZE_MOD) (hfile : file_pos < SIZE_MOD) :
    ∃ h, ParseBoxHeader input size pos file_pos type0 box_size0 = some h ∧
      (h.status = JXL_DEC_NEED_MORE_INPUT ↔
        size < pos + 8 ∨ (LoadBE32 (input.drop pos) = some 1 ∧ size < pos + 16)) ∧
      (h.status = JXL_DEC_NEED_MORE_INPUT →
        h.header_size = if size < pos + 8 then 8 else 16) ∧
      (h.status ≠ JXL_DEC_NEED_MORE_INPUT →
        (h.header_size = 8 ∨ h.header_size = 16) ∧
        (h.status = JXL_DEC_ERROR ↔
          (0 < h.box_size ∧ h.box_size < h.header_size) ∨
            SIZE_MOD ≤ file_pos + (pos + h.header_size) + h.box_size) ∧
        (h.status ≠ JXL_DEC_ERROR → h.status = JXL_DEC_SUCCESS)) := by
  by_cases h8 : size < pos + 8
  · -- fewer than 8 bytes
    have hoob : OutOfBounds pos 8 size = true := by
      rw [OutOfBounds_eq hpos (by norm_num [SIZE_MOD]) hsize]
      simpa using h8
    refine ⟨⟨JXL_DEC_NEED_MORE_INPUT, type0, box_size0, 8⟩, ?_, ?_, ?_, ?_⟩
    · unfold ParseBoxHeader
      simp [hoob]
    · exact ⟨fun _ => Or.inl h8, fun _ => rfl⟩
    · intro _
      simp [h8]
    · intro h
      exact absurd rfl h
  · have h8' : pos + 8 ≤ size := Nat.le_of_not_lt h8
    have hoob : OutOfBounds pos 8 size = false := by
      rw [OutOfBounds_eq hpos (by norm_num [SIZE_MOD]) hsize]
      simpa using h8'
    have hadd : sizeAdd pos 4 = pos + 4 := sizeAdd_of_lt (by omega)
    have h32 : LoadBE32 (input.drop pos) = some (bigEndian ((input.drop pos).take 4)) :=
      LoadBE32_some _ (by simp only [List.length_drop]; omega)
    by_cases h1 : bigEndian ((input.drop pos).take 4) = 1
    · rw [h1] at h32
      by_cases h16 : size < pos + 16
      · -- size field 1 and fewer than 16 bytes
        have hoob2 : OutOfBounds (pos + 4) 12 size = true := by
          rw [OutOfBounds_eq (by omega) (by norm_num [SIZE_MOD]) hsize]
          simp; omega
        refine ⟨⟨JXL_DEC_NEED_MORE_INPUT, type0, 1, 16⟩, ?_, ?_, ?_, ?_⟩
        · unfold ParseBoxHeader
          simp [hoob, h32, hadd, hoob2]
        · exact ⟨fun _ => Or.inr ⟨h32, h16⟩, fun _ => rfl⟩
        · intro _
          simp [h8]
        · intro h
          exact absurd rfl h
      · obtain ⟨st, hst, herr, hok⟩ := ParseBoxHeader_long input size pos file_pos type0
          box_size0 hread hbytes hsize hfile (Nat.le_of_not_lt h16) h32
        refine ⟨_, hst, ?_, ?_, ?_⟩
        · constructor
          · intro hs
            by_cases he : st = JXL_DEC_ERROR
            · rw [he] at hs; cases hs
            · rw [hok he] at hs; cases hs
          · intro hs
            rcases hs with hs | hs
            · exact absurd hs h8
            · exact absurd hs.2 h16
        · intro hs
          by_cases he : st = JXL_DEC_ERROR
          · rw [he] at hs; cases hs
          · rw [hok he] at hs; cases hs
        · intro _
          exact ⟨Or.inr rfl, herr, hok⟩
    · obtain ⟨st, hst, herr, hok⟩ := ParseBoxHeader_short input size pos file_pos type0
        box_size0 _ hread hbytes hsize hfile h8' h32 h1
      refine ⟨_, hst, ?_, ?_, ?_⟩
      · constructor
        · intro hs
          by_cases he : st = JXL_DEC_ERROR
          · rw [he] at hs; cases hs
          · rw [hok he] at hs; cases hs
        · intro hs
          rcases hs with hs | hs
          · exact absurd hs h8
          · rw [h32] at hs
            exact absurd (Option.some.inj hs.1) h1
      · intro hs
        by_cases he : st = JXL_DEC_ERROR
        · rw [he] at hs; cases hs
        · rw [hok he] at hs; cases hs
      · intro _
        exact ⟨Or.inl rfl, herr, hok⟩

/-- C17 on a short `jxlc` header: with all 20 bytes the status is
`JXL_DEC_SUCCESS` with `header_size` 8 and box size 16; with 7 bytes it is
`JXL_DEC_NEED_MORE_INPUT` with `header_size` 8. -/
theorem ParseBoxHeader_status_witness :
    ParseBoxHeader demoShortHeader 20 0 0 [0, 0, 0, 0] 0 =
      some ⟨JXL_DEC_SUCCESS, boxTag "jxlc", 16, 8⟩ ∧
    ParseBoxHeader demoShortHeader 7 0 0 [0, 0, 0, 0] 0 =
      some ⟨JXL_DEC_NEED_MORE_INPUT, [0, 0, 0, 0], 0, 8⟩ ∧
    ∃ h, ParseBoxHeader demoShortHeader 20 0 0 [0, 0, 0, 0] 0 = some h ∧
      (h.status = JXL_DEC_NEED_MORE_INPUT ↔
        20 < 0 + 8 ∨ (LoadBE32 (demoShortHeader.drop 0) = some 1 ∧ 20 < 0 + 16)) :=
  ⟨by decide, by decide,
    (ParseBoxHeader_status demoShortHeader 20 0 0 [0, 0, 0, 0] 0 (by decide) (by decide)
      (by decide) (by decide) (by decide)).imp fun _ hh => ⟨hh.1, hh.2.1⟩⟩

section BoxTheorems
variable {E : Type}

/-- The header size that the end of `ParseBoxHeader` leaves. -/
theorem parseBoxType_header_size (input : List Nat) (p box_start file_pos box_size : Nat)
    (h : BoxHeader) (hparse : parseBoxType input p box_start file_pos box_size = some h) :
    h.header_size = sizeSub (sizeAdd p 4) box_start := by
  unfold parseBoxType at hparse
  split at hparse
  · cases hparse
  · simp only [] at hparse
    split at hparse
    · cases hparse; rfl
    · split at hparse <;> (cases hparse; rfl)

/-- At position 0 the header size that `ParseBoxHeader` leaves is 8 or 16. -/
theorem ParseBoxHeader_header_size (input : List Nat) (size file_pos : Nat)
    (type0 : List Nat) (box_size0 : Nat) (h : BoxHeader)
    (hparse : ParseBoxHeader input size 0 file_pos type0 box_size0 = some h) :
    h.header_size = 8 ∨ h.header_size = 16 := by
  unfold ParseBoxHeader at hparse
  split at hparse
  · cases hparse; exact Or.inl rfl
  · split at hparse
    · cases hparse
    · simp only [] at hparse
      split at hparse
      · split at hparse
        · cases hparse; exact Or.inr rfl
        · split at hparse
          · cases hparse
          · exact Or.inr ((parseBoxType_header_size _ _ _ _ _ h hparse).trans rfl)
      · exact Or.inl ((parseBoxType_header_size _ _ _ _ _ h hparse).trans rfl)

/-- In the header stage with no JPEG reconstruction at work, a pass through the
box loop is the header stage. -/
theorem boxIteration_header (env : BoxEnv E) (fuel : Nat) (dec : JxlDecoder E)
    (hstage : dec.box_stage = BoxStage.kHeader) (hidle : reconIdle dec) :
    boxIteration env fuel dec = boxHeaderStage env dec := by
  have h1 : reconSetMetadata env dec = Ctl.next dec := by
    unfold reconSetMetadata
    rw [if_neg (fun hh => hidle.1 hh.1)]
  have h2 : reconWriteOutput env dec = Ctl.next dec := by
    unfold reconWriteOutput
    rw [if_neg (fun hh => hidle.2 hh.1)]
  unfold boxIteration
  rw [if_neg (fun hh => hh hstage)]
  simp only [Ctl.andThen, h1, h2]
  unfold boxStage
  rw [hstage]

/-- A pass through the box loop that returns ends `HandleBoxes`. -/
theorem HandleBoxes_of_ret (env : BoxEnv E) (fuel : Nat) (dec d : JxlDecoder E)
    (st : JxlDecoderStatus) (h : boxIteration env (fuel + 1) dec = Ctl.ret st d) :
    HandleBoxes env (fuel + 1) dec = some (st, d) := by
  unfold HandleBoxes
  rw [boxLoop, h]

/-- The checks of the box order: a box that is second and not `ftyp`, or `ftyp`
and not second, is an error, unless the start of a next boxed stream is
detected. -/
theorem checkBoxOrder_error (env : BoxEnv E) (dec : JxlDecoder E) (done : Bool)
    (box_size header_size : Nat)
    (hbrob : dec.box_type = boxTag "brob" →
      sizeAdd header_size 4 ≤ dec.avail_in ∧ header_size + 4 ≤ dec.inputBytes.length)
    (hjxl : ¬ (done = true ∧ dec.box_type = boxTag "JXL "))
    (horder : (sizeAdd dec.box_count 1 = 2 ∧ dec.box_type ≠ boxTag "ftyp") ∨
      (dec.box_type = boxTag "ftyp" ∧ sizeAdd dec.box_count 1 ≠ 2)) :
    ∃ d, checkBoxOrder env dec done box_size header_size = Ctl.ret JXL_DEC_ERROR d ∧
      d.box_count = sizeAdd dec.box_count 1 := by
  unfold checkBoxOrder
  by_cases hb : dec.box_type = boxTag "brob"
  · obtain ⟨ha, hl⟩ := hbrob hb
    have hlen : ¬ ((dec.inputBytes.drop header_size).take 4).length < 4 := by
      simp only [List.length_take, List.length_drop]
      omega
    rw [if_pos hb, if_neg (Nat.not_lt.mpr ha), if_neg hlen]
    simp only []
    rw [if_neg hjxl]
    rcases horder with ho | ho
    · rw [if_pos ho]
      exact ⟨_, rfl, rfl⟩
    · by_cases h2 : sizeAdd dec.box_count 1 = 2 ∧ dec.box_type ≠ boxTag "ftyp"
      · rw [if_pos h2]
        exact ⟨_, rfl, rfl⟩
      · rw [if_neg h2, if_pos ho]
        exact ⟨_, rfl, rfl⟩
  · rw [if_neg hb]
    simp only []
    rw [if_neg hjxl]
    rcases horder with ho | ho
    · rw [if_pos ho]
      exact ⟨_, rfl, rfl⟩
    · by_cases h2 : sizeAdd dec.box_count 1 = 2 ∧ dec.box_type ≠ boxTag "ftyp"
      · rw [if_pos h2]
        exact ⟨_, rfl, rfl⟩
      · rw [if_neg h2, if_pos ho]
        exact ⟨_, rfl, rfl⟩

/-- The header stage once the header of the next box has been parsed. -/
theorem boxHeaderStage_parsed (env : BoxEnv E) (dec : JxlDecoder E) (h : BoxHeader)
    (hcont : dec.have_container = true) (havail : dec.avail_in ≠ 0)
    (hnext : nextCodestreamStarts dec = some false)
    (hparse : ParseBoxHeader dec.inputBytes dec.avail_in 0 dec.file_pos dec.box_type 0 = some h)
    (hok : h.status = JXL_DEC_SUCCESS) :
    boxHeaderStage env dec =
      checkBoxOrder env { dec with box_type := h.type } (boxedCodestreamDone dec)
        h.box_size h.header_size := by
  unfold boxHeaderStage
  simp only [hcont, Bool.not_true, Bool.false_eq_true, if_false, if_neg havail, hnext, hparse]
  rw [if_neg (fun hh => hh hok)]

end BoxTheorems

section BoxTheorems
variable {E : Type}

/-- C18 fails in the code for an `ftyp` box after a finished boxed codestream.
A decoder subscribed to `JXL_DEC_BOX` is given the container `demoLateFtyp`:
signature box, `ftyp` box, `jxlc` box with a complete codestream, and a fourth
box with the header `ff 0a 00 00 'f' 't' 'y' 'p'`. Three calls of
`JxlDecoderProcessInput` return `JXL_DEC_BOX`; the fourth reaches the header
stage at that fourth box (stage `kHeader`, three boxes counted, the eight bytes
unread) and returns `JXL_DEC_SUCCESS`, not `JXL_DEC_ERROR`. With the size
field `00 00 00 08` instead the same call returns `JXL_DEC_ERROR`. -/
theorem boxHeaderStage_accepts_late_ftyp :
    (processInputCalls (HandleBoxes demoBoxEnv 10) 4 (demoStart 0x4000 demoLateFtyp)).map
        Prod.fst =
      some [JXL_DEC_BOX, JXL_DEC_BOX, JXL_DEC_BOX, JXL_DEC_SUCCESS] ∧
    (∃ d, (processInputCalls (HandleBoxes demoBoxEnv 10) 4
          (demoStart 0x4000 demoLateFtyp)).map Prod.snd = some d ∧
      d.box_stage = BoxStage.kHeader ∧ d.have_container = true ∧ d.box_count = 3 ∧
      d.inputBytes = [0xff, 0x0a, 0, 0] ++ boxTag "ftyp" ∧ d.avail_in = 8 ∧
      boxHeaderStage demoBoxEnv d = Ctl.ret JXL_DEC_SUCCESS d ∧
      HandleBoxes demoBoxEnv 10 d = some (JXL_DEC_SUCCESS, d)) ∧
    (processInputCalls (HandleBoxes demoBoxEnv 10) 4 (demoStart 0x4000 demoLateFtypSmall)).map
        Prod.fst =
      some [JXL_DEC_BOX, JXL_DEC_BOX, JXL_DEC_BOX, JXL_DEC_ERROR] :=
  ⟨rfl, ⟨_, rfl, rfl, rfl, rfl, rfl, rfl, rfl, rfl⟩, rfl⟩

/-- C18 (amended): in a container stream, let the header stage of `HandleBoxes`
have input, not detect the start of a next codestream (the bytes `ff 0a` after
a finished boxed codestream), and parse the header of the next box with
success, with the four bytes after the header available for a `brob` box, and
let that box not be a `JXL ` box after a finished boxed codestream. If the box
is the second one and not of type `ftyp`, or of type `ftyp` and not the second
one, the stage returns `JXL_DEC_ERROR` with the box counted, and so does
`HandleBoxes` when no JPEG reconstruction is at work. -/
theorem boxHeaderStage_box_order (env : BoxEnv E) (fuel : Nat) (dec : JxlDecoder E)
    (h : BoxHeader)
    (hstage : dec.box_stage = BoxStage.kHeader)
    (hcont : dec.have_container = true) (havail : dec.avail_in ≠ 0)
    (hnext : nextCodestreamStarts dec = some false)
    (hparse : ParseBoxHeader dec.inputBytes dec.avail_in 0 dec.file_pos dec.box_type 0 = some h)
    (hok : h.status = JXL_DEC_SUCCESS)
    (hbrob : h.type = boxTag "brob" →
      h.header_size + 4 ≤ dec.avail_in ∧ dec.avail_in ≤ dec.inputBytes.length)
    (hjxl : ¬ (boxedCodestreamDone dec = true ∧ h.type = boxTag "JXL "))
    (horder : (sizeAdd dec.box_count 1 = 2 ∧ h.type ≠ boxTag "ftyp") ∨
      (h.type = boxTag "ftyp" ∧ sizeAdd dec.box_count 1 ≠ 2)) :
    ∃ d, boxHeaderStage env dec = Ctl.ret JXL_DEC_ERROR d ∧
      d.box_count = sizeAdd dec.box_count 1 ∧
      (reconIdle dec → HandleBoxes env (fuel + 1) dec = some (JXL_DEC_ERROR, d)) := by
  have hsz := ParseBoxHeader_header_size _ _ _ _ _ h hparse
  have hadd : sizeAdd h.header_size 4 = h.header_size + 4 :=
    sizeAdd_of_lt (by rcases hsz with hs | hs <;> rw [hs] <;> norm_num [SIZE_MOD])
  obtain ⟨d, hd, hcount⟩ := checkBoxOrder_error env { dec with box_type := h.type }
    (boxedCodestreamDone dec) h.box_size h.header_size
    (fun hb => by
      obtain ⟨h1, h2⟩ := hbrob hb
      rw [hadd]
      exact ⟨h1, le_trans h1 h2⟩)
    hjxl horder
  have hret : boxHeaderStage env dec = Ctl.ret JXL_DEC_ERROR d := by
    rw [boxHeaderStage_parsed env dec h hcont havail hnext hparse hok, hd]
  refine ⟨d, hret, hcount, fun hidle => ?_⟩
  apply HandleBoxes_of_ret
  rw [boxIteration_header env _ dec hstage hidle, hret]

/-- C18 at the second box of the container `demoNoFtyp`, a `jxlc` box: the
header stage and `HandleBoxes` return `JXL_DEC_ERROR`; so does the first call
of `JxlDecoderProcessInput` on that container. -/
theorem boxHeaderStage_box_order_witness :
    (∃ d, boxHeaderStage demoBoxEnv demoAtSecondBox = Ctl.ret JXL_DEC_ERROR d ∧
      d.box_count = sizeAdd demoAtSecondBox.box_count 1 ∧
      (reconIdle demoAtSecondBox →
        HandleBoxes demoBoxEnv (9 + 1) demoAtSecondBox = some (JXL_DEC_ERROR, d))) ∧
    (processInputCalls (HandleBoxes demoBoxEnv 10) 1 (demoStart 0 demoNoFtyp)).map Prod.fst =
      some [JXL_DEC_ERROR] :=
  ⟨boxHeaderStage_box_order demoBoxEnv 9 demoAtSecondBox
      ⟨JXL_DEC_SUCCESS, boxTag "jxlc", 0x13, 8⟩ rfl rfl (by decide) rfl rfl rfl
      (fun hb => absurd hb (by decide)) (fun hh => absurd hh.2 (by decide))
      (Or.inl ⟨rfl, by decide⟩),
    rfl⟩

end BoxTheorems

section BoxTheorems
variable {E : Type}

theorem startStoring_box (dec : JxlDecoder E) :
    (startStoring dec).box_type = dec.box_type ∧
    (startStoring dec).last_codestream_seen = dec.last_codestream_seen ∧
    (startStoring dec).events_wanted = dec.events_wanted := by
  unfold startStoring
  simp only []
  split_ifs <;> exact ⟨rfl, rfl, rfl⟩

theorem startBoxDecoders_box (env : BoxEnv E) (dec : JxlDecoder E) :
    (startBoxDecoders env dec).box_type = dec.box_type ∧
    (startBoxDecoders env dec).last_codestream_seen = dec.last_codestream_seen ∧
    (startBoxDecoders env dec).events_wanted = dec.events_wanted := by
  unfold startBoxDecoders
  simp only []
  split_ifs <;> exact ⟨rfl, rfl, rfl⟩

/-- The state in which the box header stage chooses the next stage has the box
type, the flag `last_codestream_seen` and the events of the state given. -/
theorem enterBox_prepared (env : BoxEnv E) (dec : JxlDecoder E) (box_size header_size : Nat) :
    (startBoxDecoders env (startStoring (boxGeometry dec box_size header_size))).box_type =
      dec.box_type ∧
    (startBoxDecoders env
      (startStoring (boxGeometry dec box_size header_size))).last_codestream_seen =
      dec.last_codestream_seen ∧
    (startBoxDecoders env (startStoring (boxGeometry dec box_size header_size))).events_wanted =
      dec.events_wanted := by
  obtain ⟨a1, a2, a3⟩ := startBoxDecoders_box env
    (startStoring (boxGeometry dec box_size header_size))
  obtain ⟨b1, b2, b3⟩ := startStoring_box (boxGeometry dec box_size header_size)
  exact ⟨a1.trans b1, a2.trans b2, a3.trans b3⟩

theorem chooseBoxStage_jxlc_seen (p : JxlDecoder E) (htype : p.box_type = boxTag "jxlc")
    (hseen : p.last_codestream_seen = true) : chooseBoxStage p = none := by
  have hne : p.box_type ≠ boxTag "ftyp" := by rw [htype]; decide
  unfold chooseBoxStage
  rw [if_neg hne, if_pos htype, hseen]
  rfl

theorem chooseBoxStage_jxlc_first (p : JxlDecoder E) (htype : p.box_type = boxTag "jxlc")
    (hseen : p.last_codestream_seen = false) :
    chooseBoxStage p =
      some { p with last_codestream_seen := true, box_stage := BoxStage.kCodestream } := by
  have hne : p.box_type ≠ boxTag "ftyp" := by rw [htype]; decide
  unfold chooseBoxStage
  rw [if_neg hne, if_pos htype, hseen]
  rfl

theorem chooseBoxStage_jxlp (p : JxlDecoder E) (htype : p.box_type = boxTag "jxlp") :
    chooseBoxStage p = some { p with box_stage := BoxStage.kPartialCodestream } := by
  have hne : p.box_type ≠ boxTag "ftyp" := by rw [htype]; decide
  have hne2 : p.box_type ≠ boxTag "jxlc" := by rw [htype]; decide
  unfold chooseBoxStage
  rw [if_neg hne, if_neg hne2, if_pos htype]

/-- A `jxlc` box after the last codestream box: the header stage ends in an
error once the box order has been checked. -/
theorem enterBox_jxlc_seen (env : BoxEnv E) (dec : JxlDecoder E) (box_size header_size : Nat)
    (htype : dec.box_type = boxTag "jxlc") (hseen : dec.last_codestream_seen = true) :
    ∃ d, enterBox env dec box_size header_size = Ctl.ret JXL_DEC_ERROR d := by
  obtain ⟨h1, h2, -⟩ := enterBox_prepared env dec box_size header_size
  unfold enterBox
  simp only []
  rw [chooseBoxStage_jxlc_seen _ (h1.trans htype) (h2.trans hseen)]
  exact ⟨_, rfl⟩

/-- A `jxlc` box before the last codestream box is accepted: the flag
`last_codestream_seen` is set and the next stage is the codestream. -/
theorem enterBox_jxlc_first (env : BoxEnv E) (dec : JxlDecoder E) (box_size header_size : Nat)
    (htype : dec.box_type = boxTag "jxlc") (hseen : dec.last_codestream_seen = false) :
    ∃ d, d.last_codestream_seen = true ∧ d.box_stage = BoxStage.kCodestream ∧
      (enterBox env dec box_size header_size = Ctl.ret JXL_DEC_BOX d ∨
        enterBox env dec box_size header_size = Ctl.again d) := by
  obtain ⟨h1, h2, -⟩ := enterBox_prepared env dec box_size header_size
  unfold enterBox
  simp only []
  rw [chooseBoxStage_jxlc_first _ (h1.trans htype) (h2.trans hseen)]
  simp only []
  split_ifs
  · exact ⟨_, rfl, rfl, Or.inl rfl⟩
  · exact ⟨_, rfl, rfl, Or.inr rfl⟩

/-- A `jxlp` box is accepted by the header stage whatever came before: the
flag `last_codestream_seen` stays as it is and the next stage is the partial
codestream stage. -/
theorem enterBox_jxlp (env : BoxEnv E) (dec : JxlDecoder E) (box_size header_size : Nat)
    (htype : dec.box_type = boxTag "jxlp") :
    ∃ d, d.last_codestream_seen = dec.last_codestream_seen ∧
      d.box_stage = BoxStage.kPartialCodestream ∧
      (enterBox env dec box_size header_size = Ctl.ret JXL_DEC_BOX d ∨
        enterBox env dec box_size header_size = Ctl.again d) := by
  obtain ⟨h1, h2, -⟩ := enterBox_prepared env dec box_size header_size
  unfold enterBox
  simp only []
  rw [chooseBoxStage_jxlp _ (h1.trans htype)]
  simp only []
  generalize startBoxDecoders env (startStoring (boxGeometry dec box_size header_size)) = p
    at h2 ⊢
  split_ifs
  · refine ⟨_, ?_, ?_, Or.inl rfl⟩
    · exact h2
    · rfl
  · refine ⟨_, ?_, ?_, Or.inr rfl⟩
    · exact h2
    · rfl

/-- The checks of the box order let a `jxlc` box through to the choice of the
stage, or end in an error. -/
theorem checkBoxOrder_jxlc (env : BoxEnv E) (dec : JxlDecoder E) (done : Bool)
    (box_size header_size : Nat) (htype : dec.box_type = boxTag "jxlc") :
    (∃ d, checkBoxOrder env dec done box_size header_size = Ctl.ret JXL_DEC_ERROR d) ∨
    checkBoxOrder env dec done box_size header_size =
      enterBox env { dec with
        box_decoded_type := dec.box_type
        box_count := sizeAdd dec.box_count 1 } box_size header_size := by
  have hb : boxTag "jxlc" ≠ boxTag "brob" := by decide
  have hj : boxTag "jxlc" ≠ boxTag "JXL " := by decide
  have hf : boxTag "jxlc" ≠ boxTag "ftyp" := by decide
  unfold checkBoxOrder
  simp only [htype, if_neg hb, hj, hf, and_false, false_and, if_false]
  split_ifs
  · exact Or.inl ⟨_, rfl⟩
  · exact Or.inr rfl

theorem outputBoxContent_idle (env : BoxEnv E) (dec : JxlDecoder E)
    (h : ¬ (wants dec.events_wanted JXL_DEC_BOX = true ∧
      dec.box_out_buffer_set_current_box = true)) :
    outputBoxContent env dec = Ctl.next dec := by
  unfold outputBoxContent
  rw [if_neg h]

theorem reconSetMetadata_idle (env : BoxEnv E) (dec : JxlDecoder E)
    (h : dec.recon_output_jpeg ≠ JpegReconStage.kSettingMetadata) :
    reconSetMetadata env dec = Ctl.next dec := by
  unfold reconSetMetadata
  rw [if_neg (fun hh => h hh.1)]

theorem reconWriteOutput_idle (env : BoxEnv E) (dec : JxlDecoder E)
    (h : dec.recon_output_jpeg ≠ JpegReconStage.kOutputting) :
    reconWriteOutput env dec = Ctl.next dec := by
  unfold reconWriteOutput
  rw [if_neg (fun hh => h hh.1)]

/-- With the prelude idle, a pass through the box loop outside the header
stage is the stage block on the state with the header consumed. -/
theorem boxIteration_stage (env : BoxEnv E) (fuel : Nat) (dec : JxlDecoder E)
    (hstage : dec.box_stage ≠ BoxStage.kHeader) (hidle : reconIdle dec)
    (hout : boxOutputIdle dec) :
    boxIteration env fuel dec =
      boxStage env fuel { dec.AdvanceInput dec.header_size with header_size := 0 } := by
  have hd1 : outputBoxContent env { dec.AdvanceInput dec.header_size with header_size := 0 } =
      Ctl.next { dec.AdvanceInput dec.header_size with header_size := 0 } :=
    outputBoxContent_idle env _ hout.1
  have hd2 : reconSetMetadata env { dec.AdvanceInput dec.header_size with header_size := 0 } =
      Ctl.next { dec.AdvanceInput dec.header_size with header_size := 0 } :=
    reconSetMetadata_idle env _ hidle.1
  have hd3 : reconWriteOutput env { dec.AdvanceInput dec.header_size with header_size := 0 } =
      Ctl.next { dec.AdvanceInput dec.header_size with header_size := 0 } :=
    reconWriteOutput_idle env _ hidle.2
  have h0 : boxPrelude env fuel dec =
      Ctl.next { dec.AdvanceInput dec.header_size with header_size := 0 } := by
    unfold boxPrelude
    simp only []
    rw [hd1]
    simp only [Ctl.andThen]
    exact if_neg (fun hh => hh.elim hout.2.1 hout.2.2)
  unfold boxIteration
  rw [if_pos hstage, h0]
  simp only [Ctl.andThen]
  rw [hd2]
  simp only []
  rw [hd3]

end BoxTheorems

section BoxTheorems
variable {E : Type}

theorem boxStage_partial (env : BoxEnv E) (fuel : Nat) (d : JxlDecoder E)
    (h : d.box_stage = BoxStage.kPartialCodestream) :
    boxStage env fuel d = boxPartialCodestreamStage d := by
  unfold boxStage
  rw [h]

theorem boxStage_skip (env : BoxEnv E) (fuel : Nat) (d : JxlDecoder E)
    (h : d.box_stage = BoxStage.kSkip) :
    boxStage env fuel d = boxSkipStage d := by
  unfold boxStage
  rw [h]

/-- C19 fails in the code for a `jxlc` box after a `jxlp` box that is not the
last part. On the container `demoPartThenComplete` (signature box, `ftyp` box,
a `jxlp` box with index 0 and the first two bytes of the codestream, a `jxlc`
box with the rest) a decoder subscribed to `JXL_DEC_BASIC_INFO` returns
`JXL_DEC_BASIC_INFO` and then `JXL_DEC_SUCCESS`, with four boxes counted and
the codestream finished; a decoder subscribed to `JXL_DEC_BOX` returns
`JXL_DEC_BOX` for each of the four boxes and is then in the codestream stage
of the `jxlc` box. -/
theorem HandleBoxes_accepts_jxlc_after_jxlp :
    (processInputCalls (HandleBoxes demoBoxEnv 10) 2 (demoStart 0x40 demoPartThenComplete)).map
        Prod.fst = some [JXL_DEC_BASIC_INFO, JXL_DEC_SUCCESS] ∧
    (∃ d, (processInputCalls (HandleBoxes demoBoxEnv 10) 2
          (demoStart 0x40 demoPartThenComplete)).map Prod.snd = some d ∧
      d.box_count = 4 ∧ d.box_type = boxTag "jxlc" ∧
      d.stage = DecoderStage.kCodestreamFinished) ∧
    (processInputCalls (HandleBoxes demoBoxEnv 10) 4
        (demoStart 0x4000 demoPartThenComplete)).map Prod.fst =
      some [JXL_DEC_BOX, JXL_DEC_BOX, JXL_DEC_BOX, JXL_DEC_BOX] ∧
    (∃ d, (processInputCalls (HandleBoxes demoBoxEnv 10) 4
          (demoStart 0x4000 demoPartThenComplete)).map Prod.snd = some d ∧
      d.box_type = boxTag "jxlc" ∧ d.box_stage = BoxStage.kCodestream) :=
  ⟨rfl, ⟨_, rfl, rfl, rfl, rfl⟩, rfl, ⟨_, rfl, rfl, rfl⟩⟩

/-- C19 (amended): the decoder keeps one flag, `last_codestream_seen`. Once it
is set, the partial codestream stage returns `JXL_DEC_ERROR`, and so does the
header stage when it parses the header of a `jxlc` box (with input, in a
container, and without the start of a next codestream detected); `HandleBoxes`
returns that error when no JPEG reconstruction is at work and nothing is copied
out of the box. The flag is set by the header stage when it accepts a `jxlc`
box, and by the partial codestream stage exactly when the index of the `jxlp`
box has the bit `0x80000000`; the header stage accepts a `jxlp` box without
looking at the flag or changing it. So a `jxlc` box after `jxlp` boxes that are
not the last part is accepted. -/
theorem codestream_boxes_after_last (env : BoxEnv E) (fuel : Nat) (dec : JxlDecoder E)
    (hseen : dec.last_codestream_seen = true) :
    boxPartialCodestreamStage dec = Ctl.ret JXL_DEC_ERROR dec ∧
    (dec.box_stage = BoxStage.kPartialCodestream → reconIdle dec → boxOutputIdle dec →
      HandleBoxes env (fuel + 1) dec =
        some (JXL_DEC_ERROR, { dec.AdvanceInput dec.header_size with header_size := 0 })) ∧
    (∀ h : BoxHeader, dec.have_container = true → dec.avail_in ≠ 0 →
      nextCodestreamStarts dec = some false →
      ParseBoxHeader dec.inputBytes dec.avail_in 0 dec.file_pos dec.box_type 0 = some h →
      h.status = JXL_DEC_SUCCESS → h.type = boxTag "jxlc" →
      ∃ d, boxHeaderStage env dec = Ctl.ret JXL_DEC_ERROR d ∧
        (dec.box_stage = BoxStage.kHeader → reconIdle dec →
          HandleBoxes env (fuel + 1) dec = some (JXL_DEC_ERROR, d))) ∧
    (∀ (d0 : JxlDecoder E) (box_size header_size : Nat),
      d0.box_type = boxTag "jxlc" → d0.last_codestream_seen = false →
      ∃ d, d.last_codestream_seen = true ∧ d.box_stage = BoxStage.kCodestream ∧
        (enterBox env d0 box_size header_size = Ctl.ret JXL_DEC_BOX d ∨
          enterBox env d0 box_size header_size = Ctl.again d)) ∧
    (∀ (d0 : JxlDecoder E) (box_size header_size : Nat),
      d0.box_type = boxTag "jxlp" →
      ∃ d, d.last_codestream_seen = d0.last_codestream_seen ∧
        d.box_stage = BoxStage.kPartialCodestream ∧
        (enterBox env d0 box_size header_size = Ctl.ret JXL_DEC_BOX d ∨
          enterBox env d0 box_size header_size = Ctl.again d)) ∧
    (∀ (d0 : JxlDecoder E) (index : Nat),
      d0.last_codestream_seen = false → 4 ≤ d0.avail_in →
      (d0.box_contents_unbounded = true ∨ 4 ≤ d0.box_contents_size) →
      LoadBE32 d0.inputBytes = some index →
      ∃ d, boxPartialCodestreamStage d0 = Ctl.again d ∧
        d.box_stage = BoxStage.kCodestream ∧
        (d.last_codestream_seen = true ↔ index &&& 0x80000000 ≠ 0)) := by
  have hpart : ∀ d : JxlDecoder E, d.last_codestream_seen = true →
      boxPartialCodestreamStage d = Ctl.ret JXL_DEC_ERROR d := by
    intro d hd
    unfold boxPartialCodestreamStage
    rw [hd]
    rfl
  refine ⟨hpart dec hseen, ?_, ?_, ?_, ?_, ?_⟩
  · intro hstage hidle hout
    apply HandleBoxes_of_ret
    have hst : boxStage env (fuel + 1)
        { dec.AdvanceInput dec.header_size with header_size := 0 } =
        boxPartialCodestreamStage { dec.AdvanceInput dec.header_size with header_size := 0 } :=
      boxStage_partial env _ _ hstage
    rw [boxIteration_stage env _ dec (by rw [hstage]; decide) hidle hout, hst]
    exact hpart { dec.AdvanceInput dec.header_size with header_size := 0 } hseen
  · intro h hcont havail hnext hparse hok htype
    have hret : ∃ d, boxHeaderStage env dec = Ctl.ret JXL_DEC_ERROR d := by
      rw [boxHeaderStage_parsed env dec h hcont havail hnext hparse hok]
      rcases checkBoxOrder_jxlc env { dec with box_type := h.type } (boxedCodestreamDone dec)
        h.box_size h.header_size htype with hc | hc
      · exact hc
      · rw [hc]
        exact enterBox_jxlc_seen env _ _ _ htype hseen
    obtain ⟨d, hd⟩ := hret
    refine ⟨d, hd, fun hstage hidle => ?_⟩
    apply HandleBoxes_of_ret
    rw [boxIteration_header env _ dec hstage hidle, hd]
  · intro d0 box_size header_size htype hfirst
    exact enterBox_jxlc_first env d0 box_size header_size htype hfirst
  · intro d0 box_size header_size htype
    exact enterBox_jxlp env d0 box_size header_size htype
  · intro d0 index hfirst havail hsize hload
    have h4 : ¬ d0.avail_in < 4 := Nat.not_lt.mpr havail
    have hsmall : (!d0.box_contents_unbounded && decide (d0.box_contents_size < 4)) = false := by
      rcases hsize with hu | hs
      · rw [hu]; rfl
      · rw [Bool.and_eq_false_iff]
        right
        exact decide_eq_false (Nat.not_lt.mpr hs)
    unfold boxPartialCodestreamStage
    rw [hfirst, if_neg (by decide), if_neg h4, hsmall, if_neg (by decide), hload]
    simp only []
    by_cases hbit : index &&& 0x80000000 ≠ 0
    · rw [if_pos hbit]
      exact ⟨_, rfl, rfl, fun _ => hbit, fun _ => rfl⟩
    · rw [if_neg hbit]
      refine ⟨_, rfl, rfl, ?_, fun hh => absurd hh hbit⟩
      intro hh
      exact absurd (hh.symm.trans hfirst) (by decide)

/-- C19 on the decoder `demoAfterLast`, which has accepted a last `jxlp` box:
the partial codestream stage returns `JXL_DEC_ERROR`. On containers with a
`jxlc` or `jxlp` box after a last `jxlp` box, and with two `jxlc` boxes and
`JXL_DEC_BOX` subscribed, `JxlDecoderProcessInput` returns `JXL_DEC_ERROR` at
that box. -/
theorem codestream_boxes_after_last_witness :
    demoAfterLast.last_codestream_seen = true ∧
    boxPartialCodestreamStage demoAfterLast = Ctl.ret JXL_DEC_ERROR demoAfterLast ∧
    (processInputCalls (HandleBoxes demoBoxEnv 10) 1 (demoStart 0x40 demoLastThenComplete)).map
        Prod.fst = some [JXL_DEC_ERROR] ∧
    (processInputCalls (HandleBoxes demoBoxEnv 10) 1 (demoStart 0x40 demoLastThenPart)).map
        Prod.fst = some [JXL_DEC_ERROR] ∧
    (processInputCalls (HandleBoxes demoBoxEnv 10) 4 (demoStart 0x4000 demoTwoComplete)).map
        Prod.fst = some [JXL_DEC_BOX, JXL_DEC_BOX, JXL_DEC_BOX, JXL_DEC_ERROR] :=
  ⟨rfl, (codestream_boxes_after_last demoBoxEnv 9 demoAfterLast rfl).1, rfl, rfl, rfl⟩

end BoxTheorems

section BoxTheorems
variable {E : Type}

theorem skipView_ite (c : Prop) [Decidable c] (a b : JxlDecoder E) (v : SkipView)
    (ha : skipView a = v) (hb : skipView b = v) : skipView (if c then a else b) = v := by
  split <;> assumption

theorem Falls_ite (P : JxlDecoderStatus → Prop) (Q : JxlDecoder E → Prop) (c : Prop)
    [Decidable c] (x y : Ctl E) (hx : x.Falls P Q) (hy : y.Falls P Q) :
    (if c then x else y).Falls P Q := by
  split <;> assumption

theorem setReconMetadata_skipView (d : JxlDecoder E) (exif : Bool) (v : List Nat) :
    skipView (d.setReconMetadata exif v) = skipView d := by
  unfold JxlDecoder.setReconMetadata
  split <;> rfl

theorem metadataPass_skipView (env : BoxEnv E) (exif : Bool) (dec : JxlDecoder E) :
    skipView (metadataPass env exif dec).2 = skipView dec := by
  have hupd : ∀ (x : JxlDecoder E) (a : E) (b : Nat),
      skipView { x with ext := a, recon_out_buffer_pos := b } = skipView x := fun _ _ _ => rfl
  unfold metadataPass
  simp only []
  rw [hupd, setReconMetadata_skipView]
  exact skipView_ite _ _ _ _ (setReconMetadata_skipView _ _ _) rfl

theorem metadataDone_skipView (exif : Bool) (dec : JxlDecoder E) :
    skipView (metadataDone exif dec) = skipView dec := by
  have hupd : ∀ (x : JxlDecoder E) (a b : Nat),
      skipView { x with store_exif := a, store_xmp := b } = skipView x := fun _ _ _ => rfl
  unfold metadataDone
  exact skipView_ite _ _ _ _ rfl ((hupd _ _ _).trans (setReconMetadata_skipView _ _ _))

/-- The metadata loop returns neither `JXL_DEC_SUCCESS` nor
`JXL_DEC_NEED_MORE_INPUT`, and keeps what the skipping of a box goes by. -/
theorem storeMetadata_falls (env : BoxEnv E) (exif : Bool) (v : SkipView) :
    ∀ (fuel : Nat) (dec : JxlDecoder E), skipView dec = v →
      (storeMetadata env exif fuel dec).Falls
        (fun st => st ≠ JXL_DEC_SUCCESS ∧ st ≠ JXL_DEC_NEED_MORE_INPUT)
        (fun d => skipView d = v) := by
  intro fuel
  induction fuel with
  | zero =>
    intro dec _
    exact True.intro
  | succ n ih =>
    intro dec hv
    have hp : skipView (metadataPass env exif dec).2 = v :=
      (metadataPass_skipView env exif dec).trans hv
    rw [storeMetadata]
    split_ifs with h1 h2 h3
    · exact ih _ ((setReconMetadata_skipView _ _ _).trans hp)
    · exact hp
    · exact (metadataDone_skipView exif _).trans hp
    · exact ⟨h3, h2⟩

theorem outputBoxContent_falls (env : BoxEnv E) (dec : JxlDecoder E) :
    (outputBoxContent env dec).Falls
      (fun st => st ≠ JXL_DEC_SUCCESS ∧ st ≠ JXL_DEC_NEED_MORE_INPUT)
      (fun d => skipView d = skipView dec) := by
  unfold outputBoxContent
  apply Falls_ite
  · generalize env.boxContentProcess dec = r
    by_cases h : r.1 ≠ JXL_DEC_SUCCESS ∧ r.1 ≠ JXL_DEC_NEED_MORE_INPUT
    · simp only [if_pos h]
      exact h
    · simp only [if_neg h]
      exact rfl
  · exact rfl

/-- The block before the stage blocks returns neither `JXL_DEC_SUCCESS` nor
`JXL_DEC_NEED_MORE_INPUT`, and keeps what the skipping of a box goes by. -/
theorem boxPrelude_falls (env : BoxEnv E) (fuel : Nat) (dec : JxlDecoder E) :
    (boxPrelude env fuel dec).Falls
      (fun st => st ≠ JXL_DEC_SUCCESS ∧ st ≠ JXL_DEC_NEED_MORE_INPUT)
      (fun d => skipView d = skipView dec) := by
  have h1 := outputBoxContent_falls env
    { dec.AdvanceInput dec.header_size with header_size := 0 }
  unfold boxPrelude
  simp only []
  cases hc : outputBoxContent env { dec.AdvanceInput dec.header_size with header_size := 0 } with
  | ret st d =>
    rw [hc] at h1
    exact h1
  | next d =>
    rw [hc] at h1
    have hd : skipView d = skipView dec := h1
    simp only [Ctl.andThen]
    split_ifs
    · exact storeMetadata_falls env _ (skipView dec) fuel d hd
    · exact hd
  | again d => rw [hc] at h1; exact h1.elim
  | stop d => rw [hc] at h1; exact h1.elim
  | abort => exact True.intro

theorem reconSetMetadata_falls (env : BoxEnv E) (dec : JxlDecoder E) :
    (reconSetMetadata env dec).Falls (fun st => st ≠ JXL_DEC_SUCCESS) (sameSkip dec) := by
  unfold reconSetMetadata
  apply Falls_ite
  · generalize (if dec.recon_exif_size ≠ 0 then env.setExif dec.ext dec.exif_metadata
      else (JXL_DEC_SUCCESS, dec.ext)) = x
    by_cases hx : x.1 ≠ JXL_DEC_SUCCESS
    · simp only [if_pos hx]
      exact hx
    · simp only [if_neg hx]
      generalize (if dec.recon_xmp_size ≠ 0 then env.setXmp x.2 dec.xmp_metadata
        else (JXL_DEC_SUCCESS, x.2)) = y
      by_cases hy : y.1 ≠ JXL_DEC_SUCCESS
      · simp only [if_pos hy]
        exact hy
      · simp only [if_neg hy]
        exact ⟨rfl, rfl, rfl, rfl⟩
  · exact ⟨rfl, rfl, rfl, rfl⟩

theorem reconWriteOutput_falls (env : BoxEnv E) (dec : JxlDecoder E) :
    (reconWriteOutput env dec).Falls (fun st => st ≠ JXL_DEC_SUCCESS) (sameSkip dec) := by
  unfold reconWriteOutput
  apply Falls_ite
  · generalize env.writeOutput dec.ext = r
    by_cases hr : r.1 ≠ JXL_DEC_SUCCESS
    · simp only [if_pos hr]
      exact hr
    · simp only [if_neg hr]
      apply Falls_ite
      · exact fun h => by cases h
      · exact ⟨rfl, rfl, rfl, rfl⟩
  · exact ⟨rfl, rfl, rfl, rfl⟩

theorem sameSkip_of_skipView (dec d : JxlDecoder E) (h : skipView d = skipView dec) :
    sameSkip dec d :=
  ⟨congrArg SkipView.box_stage h, congrArg SkipView.box_contents_unbounded h,
    congrArg SkipView.input_closed h, congrArg SkipView.box_out_buffer_set h⟩

theorem sameSkip_trans (a b c : JxlDecoder E) (h1 : sameSkip a b) (h2 : sameSkip b c) :
    sameSkip a c :=
  ⟨h2.1.trans h1.1, h2.2.1.trans h1.2.1, h2.2.2.1.trans h1.2.2.1, h2.2.2.2.trans h1.2.2.2⟩

/-- A pass through the box loop in the skip stage: a failed assertion, a return
from one of the blocks before the stage (never `JXL_DEC_SUCCESS`, and never
`JXL_DEC_NEED_MORE_INPUT` when no JPEG reconstruction is at work), or the skip
stage on a state with the same flags. -/
theorem boxIteration_skip (env : BoxEnv E) (fuel : Nat) (dec : JxlDecoder E)
    (hstage : dec.box_stage = BoxStage.kSkip) :
    boxIteration env fuel dec = Ctl.abort ∨
    (∃ st d, boxIteration env fuel dec = Ctl.ret st d ∧ st ≠ JXL_DEC_SUCCESS ∧
      (reconIdle dec → st ≠ JXL_DEC_NEED_MORE_INPUT)) ∨
    (∃ d, sameSkip dec d ∧ boxIteration env fuel dec = boxSkipStage d) := by
  have hne : dec.box_stage ≠ BoxStage.kHeader := by rw [hstage]; decide
  have hp := boxPrelude_falls env fuel dec
  unfold boxIteration
  rw [if_pos hne]
  cases hc : boxPrelude env fuel dec with
  | ret st d =>
    rw [hc] at hp
    exact Or.inr (Or.inl ⟨st, d, rfl, hp.1, fun _ => hp.2⟩)
  | again d => rw [hc] at hp; exact hp.elim
  | stop d => rw [hc] at hp; exact hp.elim
  | abort => exact Or.inl rfl
  | next d1 =>
    rw [hc] at hp
    have hv : skipView d1 = skipView dec := hp
    have hs1 : sameSkip dec d1 := sameSkip_of_skipView dec d1 hv
    simp only [Ctl.andThen]
    by_cases hidle : reconIdle dec
    · have hr : d1.recon_output_jpeg = dec.recon_output_jpeg :=
        congrArg SkipView.recon_output_jpeg hv
      rw [reconSetMetadata_idle env d1 (by rw [hr]; exact hidle.1)]
      simp only []
      rw [reconWriteOutput_idle env d1 (by rw [hr]; exact hidle.2)]
      simp only []
      exact Or.inr (Or.inr ⟨d1, hs1, boxStage_skip env fuel d1 (hs1.1.trans hstage)⟩)
    · have h2 := reconSetMetadata_falls env d1
      cases hc2 : reconSetMetadata env d1 with
      | ret st d =>
        rw [hc2] at h2
        exact Or.inr (Or.inl ⟨st, d, rfl, h2, fun hh => absurd hh hidle⟩)
      | again d => rw [hc2] at h2; exact h2.elim
      | stop d => rw [hc2] at h2; exact h2.elim
      | abort => exact Or.inl rfl
      | next d2 =>
        rw [hc2] at h2
        have hs2 : sameSkip dec d2 := sameSkip_trans dec d1 d2 hs1 h2
        simp only []
        have h3 := reconWriteOutput_falls env d2
        cases hc3 : reconWriteOutput env d2 with
        | ret st d =>
          rw [hc3] at h3
          exact Or.inr (Or.inl ⟨st, d, rfl, h3, fun hh => absurd hh hidle⟩)
        | again d => rw [hc3] at h3; exact h3.elim
        | stop d => rw [hc3] at h3; exact h3.elim
        | abort => exact Or.inl rfl
        | next d3 =>
          rw [hc3] at h3
          have hs3 : sameSkip dec d3 := sameSkip_trans dec d2 d3 hs2 h3
          simp only []
          exact Or.inr (Or.inr ⟨d3, hs3, boxStage_skip env fuel d3 (hs3.1.trans hstage)⟩)

/-- The skip stage on an unbounded box. -/
theorem boxSkipStage_unbounded (d : JxlDecoder E) (hunb : d.box_contents_unbounded = true) :
    boxSkipStage d =
      if d.input_closed = true ∨ d.box_out_buffer_set = false then Ctl.ret JXL_DEC_SUCCESS d
      else Ctl.ret JXL_DEC_NEED_MORE_INPUT (d.AdvanceInput d.avail_in) := by
  unfold boxSkipStage
  rw [if_pos hunb]
  cases hc : d.input_closed <;> cases hs : d.box_out_buffer_set <;> rfl

end BoxTheorems

section BoxTheorems
variable {E : Type}

/-- C20 fails in the code when no box output buffer is set. A decoder
subscribed to `JXL_DEC_BOX` is given the container `demoUnboundedLast`, which
ends in an unbounded box, and `JxlDecoderCloseInput` is never called. Four
calls of `JxlDecoderProcessInput` return `JXL_DEC_BOX`; the decoder is then in
the skip stage of the unbounded box with its header of eight bytes and three
bytes of content as input, the input not closed and no box output buffer set,
and the fifth call, like `HandleBoxes` itself, returns `JXL_DEC_SUCCESS` with
the three bytes of content not consumed. -/
theorem HandleBoxes_skip_success_unclosed :
    (processInputCalls (HandleBoxes demoBoxEnv 10) 5 (demoStart 0x4000 demoUnboundedLast)).map
        Prod.fst =
      some [JXL_DEC_BOX, JXL_DEC_BOX, JXL_DEC_BOX, JXL_DEC_BOX, JXL_DEC_SUCCESS] ∧
    demoSkipping.box_stage = BoxStage.kSkip ∧
    demoSkipping.box_contents_unbounded = true ∧
    demoSkipping.input_closed = false ∧
    demoSkipping.box_out_buffer_set = false ∧
    demoSkipping.header_size = 8 ∧
    demoSkipping.avail_in = 8 + 3 ∧
    (∃ d, HandleBoxes demoBoxEnv 10 demoSkipping = some (JXL_DEC_SUCCESS, d) ∧
      d.avail_in = 3 ∧ d.input_closed = false) :=
  ⟨rfl, rfl, rfl, rfl, rfl, rfl, rfl, ⟨_, rfl, rfl, rfl⟩⟩

/-- C20 (amended): while an unbounded box is being skipped, `HandleBoxes`
returns `JXL_DEC_SUCCESS` only if the input has been closed or no box output
buffer is set, and in both of these cases the skip stage does return it. With
the input not closed and a box output buffer set, the skip stage consumes all
available bytes and returns `JXL_DEC_NEED_MORE_INPUT`; `HandleBoxes` returns
that when no JPEG reconstruction is at work and nothing is copied out of the
box, and whenever it returns `JXL_DEC_NEED_MORE_INPUT` with no JPEG
reconstruction at work, no input is left. -/
theorem HandleBoxes_skip_unbounded (env : BoxEnv E) (fuel : Nat) (dec : JxlDecoder E)
    (hstage : dec.box_stage = BoxStage.kSkip) (hunb : dec.box_contents_unbounded = true) :
    (∀ st d, HandleBoxes env fuel dec = some (st, d) →
      (st = JXL_DEC_SUCCESS → dec.input_closed = true ∨ dec.box_out_buffer_set = false) ∧
      (dec.input_closed = false → dec.box_out_buffer_set = true → reconIdle dec →
        st = JXL_DEC_NEED_MORE_INPUT → d.avail_in = 0)) ∧
    (dec.input_closed = true ∨ dec.box_out_buffer_set = false →
      boxSkipStage dec = Ctl.ret JXL_DEC_SUCCESS dec) ∧
    (dec.input_closed = false → dec.box_out_buffer_set = true →
      boxSkipStage dec = Ctl.ret JXL_DEC_NEED_MORE_INPUT (dec.AdvanceInput dec.avail_in) ∧
      (dec.AdvanceInput dec.avail_in).avail_in = 0 ∧
      (reconIdle dec → boxOutputIdle dec →
        ∃ d, HandleBoxes env (fuel + 1) dec = some (JXL_DEC_NEED_MORE_INPUT, d) ∧
          d.avail_in = 0)) := by
  have hzero : ∀ d : JxlDecoder E, (d.AdvanceInput d.avail_in).avail_in = 0 :=
    fun d => sizeSub_self d.avail_in
  refine ⟨?_, ?_, ?_⟩
  · intro st d hret
    cases fuel with
    | zero =>
      unfold HandleBoxes at hret
      rw [boxLoop] at hret
      cases hret
    | succ n =>
      unfold HandleBoxes at hret
      rw [boxLoop] at hret
      rcases boxIteration_skip env (n + 1) dec hstage with
        h | ⟨st1, d1, h, hne, hnmi⟩ | ⟨d3, hs, h⟩
      · rw [h] at hret
        cases hret
      · rw [h] at hret
        simp only [Option.some.injEq, Prod.mk.injEq] at hret
        obtain ⟨h1, -⟩ := hret
        subst h1
        exact ⟨fun hh => absurd hh hne, fun _ _ hidle hh => absurd hh (hnmi hidle)⟩
      · rw [h, boxSkipStage_unbounded d3 (hs.2.1.trans hunb), hs.2.2.1, hs.2.2.2] at hret
        by_cases hc : dec.input_closed = true ∨ dec.box_out_buffer_set = false
        · rw [if_pos hc] at hret
          simp only [Option.some.injEq, Prod.mk.injEq] at hret
          obtain ⟨h1, -⟩ := hret
          subst h1
          refine ⟨fun _ => hc, fun hcl hset _ _ => ?_⟩
          rcases hc with hc | hc
          · rw [hcl] at hc; cases hc
          · rw [hset] at hc; cases hc
        · rw [if_neg hc] at hret
          simp only [Option.some.injEq, Prod.mk.injEq] at hret
          obtain ⟨h1, h2⟩ := hret
          subst h1
          subst h2
          exact ⟨(fun hh => by cases hh), fun _ _ _ _ => hzero d3⟩
  · intro hc
    rw [boxSkipStage_unbounded dec hunb, if_pos hc]
  · intro hcl hset
    have hc : ¬ (dec.input_closed = true ∨ dec.box_out_buffer_set = false) := by
      rw [hcl, hset]
      decide
    refine ⟨by rw [boxSkipStage_unbounded dec hunb, if_neg hc], hzero dec, ?_⟩
    intro hidle hout
    refine ⟨_, ?_, hzero { dec.AdvanceInput dec.header_size with header_size := 0 }⟩
    apply HandleBoxes_of_ret
    have hst : boxStage env (fuel + 1)
        { dec.AdvanceInput dec.header_size with header_size := 0 } =
        boxSkipStage { dec.AdvanceInput dec.header_size with header_size := 0 } :=
      boxStage_skip env _ _ hstage
    rw [boxIteration_stage env _ dec (by rw [hstage]; decide) hidle hout, hst,
      boxSkipStage_unbounded { dec.AdvanceInput dec.header_size with header_size := 0 } hunb]
    exact if_neg hc

/-- C20 on the decoder `demoSkippingWithBuffer`, which skips an unbounded box
with a box output buffer set and the input not closed: the skip stage consumes
the three bytes and returns `JXL_DEC_NEED_MORE_INPUT`, and so does
`HandleBoxes`; once the input is closed `HandleBoxes` returns
`JXL_DEC_SUCCESS`. -/
theorem HandleBoxes_skip_unbounded_witness :
    demoSkippingWithBuffer.input_closed = false ∧
    demoSkippingWithBuffer.box_out_buffer_set = true ∧
    (boxSkipStage demoSkippingWithBuffer =
        Ctl.ret JXL_DEC_NEED_MORE_INPUT
          (demoSkippingWithBuffer.AdvanceInput demoSkippingWithBuffer.avail_in) ∧
      (demoSkippingWithBuffer.AdvanceInput demoSkippingWithBuffer.avail_in).avail_in = 0 ∧
      (reconIdle demoSkippingWithBuffer → boxOutputIdle demoSkippingWithBuffer →
        ∃ d, HandleBoxes demoBoxEnv (9 + 1) demoSkippingWithBuffer =
            some (JXL_DEC_NEED_MORE_INPUT, d) ∧ d.avail_in = 0)) ∧
    (∃ d, HandleBoxes demoBoxEnv 10 demoSkippingWithBuffer =
        some (JXL_DEC_NEED_MORE_INPUT, d) ∧ d.avail_in = 0 ∧ d.file_pos = 62) ∧
    (∃ d, HandleBoxes demoBoxEnv 10 demoSkippingOldBuffer =
        some (JXL_DEC_NEED_MORE_INPUT, d) ∧ d.avail_in = 0) ∧
    (∃ d, HandleBoxes demoBoxEnv 10 (JxlDecoderCloseInput demoSkippingWithBuffer) =
        some (JXL_DEC_SUCCESS, d)) :=
  ⟨rfl, rfl,
    (HandleBoxes_skip_unbounded demoBoxEnv 9 demoSkippingWithBuffer rfl rfl).2.2 rfl rfl,
    ⟨_, rfl, rfl, rfl⟩, ⟨_, rfl, rfl⟩, ⟨_, rfl⟩⟩

end BoxTheorems

/-! ## Sections, skipping, signature, zero bytes and gain maps -/

section SkipCurrentTheorems
variable {E : Type}

theorem AdvanceCodestream_frame (dec : JxlDecoder E) (n : Nat) :
    (dec.AdvanceCodestream n).frame_dec = dec.frame_dec ∧
    (dec.AdvanceCodestream n).frame_dec_in_progress = dec.frame_dec_in_progress ∧
    (dec.AdvanceCodestream n).frame_stage = dec.frame_stage ∧
    (dec.AdvanceCodestream n).is_last_of_still = dec.is_last_of_still ∧
    (dec.AdvanceCodestream n).remaining_frame_size = dec.remaining_frame_size := by
  have h := AdvanceCodestream_cursorOnly dec n
  exact ⟨(congrArg JxlDecoder.frame_dec h).trans rfl,
    (congrArg JxlDecoder.frame_dec_in_progress h).trans rfl,
    (congrArg JxlDecoder.frame_stage h).trans rfl,
    (congrArg JxlDecoder.is_last_of_still h).trans rfl,
    (congrArg JxlDecoder.remaining_frame_size h).trans rfl⟩

/-- The logical codestream position moves by `n` under `AdvanceCodestream(n)`,
also when `n` reaches beyond the bytes at hand (the surplus is remembered in
`codestream_pos`). -/
theorem AdvanceCodestream_logicalPos (dec : JxlDecoder E) (n : Nat) (hwf : CursorWF dec)
    (hz : dec.codestream_copy = [] → dec.codestream_pos = 0)
    (hn : dec.codestream_pos + n + dec.avail_in < SIZE_MOD) :
    (dec.AdvanceCodestream n).logicalPos = dec.logicalPos + n := by
  obtain ⟨hw, hnw, hd, hua, huc, hcp, hpl⟩ := hwf
  have hale := AvailableCodestream_le dec
  by_cases hc : dec.codestream_copy = []
  · have hu := hd hc
    have hp0 := hz hc
    by_cases hn1 : n ≤ dec.AvailableCodestream
    · have heq : dec.AdvanceCodestream n = dec.AdvanceInput n := by
        simp [JxlDecoder.AdvanceCodestream, hc, hn1]
      have ha : sizeAdd dec.file_pos n = dec.file_pos + n :=
        sizeAdd_of_lt (by simp only [SIZE_MOD] at *; omega)
      rw [heq]
      simp only [JxlDecoder.logicalPos, JxlDecoder.AdvanceInput, hc, List.length_nil, ha]
      omega
    · have heq : dec.AdvanceCodestream n =
          ({ dec with codestream_pos := sizeSub n dec.AvailableCodestream }).AdvanceInput
            dec.AvailableCodestream := by
        simp [JxlDecoder.AdvanceCodestream, hc, hn1]
      have ha : sizeAdd dec.file_pos dec.AvailableCodestream
          = dec.file_pos + dec.AvailableCodestream :=
        sizeAdd_of_lt (by simp only [SIZE_MOD] at *; omega)
      have hs : sizeSub n dec.AvailableCodestream = n - dec.AvailableCodestream :=
        sizeSub_of_le (by omega) (by simp only [SIZE_MOD] at *; omega)
      rw [heq]
      simp only [JxlDecoder.logicalPos, JxlDecoder.AdvanceInput, hc, List.length_nil, ha, hs]
      omega
  · have hne : dec.codestream_copy.isEmpty = false := by
      cases hcc : dec.codestream_copy with
      | nil => exact absurd hcc hc
      | cons a t => rfl
    have hp1 : sizeAdd dec.codestream_pos n = dec.codestream_pos + n :=
      sizeAdd_of_lt (by simp only [SIZE_MOD] at *; omega)
    have hp2 : sizeAdd (dec.codestream_pos + n) dec.codestream_unconsumed
        = dec.codestream_pos + n + dec.codestream_unconsumed :=
      sizeAdd_of_lt (by simp only [SIZE_MOD] at *; omega)
    have hp3 : sizeAdd dec.codestream_unconsumed (dec.codestream_pos + n)
        = dec.codestream_unconsumed + (dec.codestream_pos + n) :=
      sizeAdd_of_lt (by simp only [SIZE_MOD] at *; omega)
    by_cases hcond : dec.codestream_copy.length
        ≤ dec.codestream_pos + n + dec.codestream_unconsumed
    · have hs : sizeSub (dec.codestream_unconsumed + (dec.codestream_pos + n))
          dec.codestream_copy.length
          = dec.codestream_unconsumed + (dec.codestream_pos + n)
            - dec.codestream_copy.length :=
        sizeSub_of_le (by omega) (by simp only [SIZE_MOD] at *; omega)
      have ha : ∀ k, k ≤ dec.codestream_unconsumed →
          sizeAdd dec.file_pos k = dec.file_pos + k := fun k hk =>
        sizeAdd_of_lt (by simp only [SIZE_MOD] at *; omega)
      have hm := ha _ (Nat.min_le_left dec.codestream_unconsumed
        (dec.codestream_unconsumed + (dec.codestream_pos + n) - dec.codestream_copy.length))
      simp only [JxlDecoder.AdvanceCodestream, hne, Bool.false_eq_true, if_false, hp1, hp2, hp3,
        hcond, ge_iff_le, if_true, hs, JxlDecoder.logicalPos, JxlDecoder.AdvanceInput,
        List.length_nil, hm]
      omega
    · simp only [JxlDecoder.AdvanceCodestream, hne, Bool.false_eq_true, if_false, hp1, hp2,
        hcond, ge_iff_le, JxlDecoder.logicalPos]
      omega

/-- C22: `JxlDecoderSkipCurrentFrame` returns `JXL_DEC_ERROR` and leaves the
decoder as it is when there is no frame decoder or no frame decode is in
progress. Otherwise it returns `JXL_DEC_SUCCESS`: the state is the one that
`AdvanceCodestream(remaining_frame_size)` leaves, with the frame stage
`kHeader`, `frame_dec_in_progress` cleared and, for the last frame of a still,
`image_out_buffer_set` cleared; nothing else changes, the logical codestream
position of a well-formed cursor has moved by `remaining_frame_size`, and a
call repeated at once returns `JXL_DEC_ERROR`. -/
theorem JxlDecoderSkipCurrentFrame_spec (dec : JxlDecoder E) :
    ((dec.frame_dec = false ∨ dec.frame_dec_in_progress = false) →
      JxlDecoderSkipCurrentFrame dec = (JXL_DEC_ERROR, dec)) ∧
    ((dec.frame_dec = true ∧ dec.frame_dec_in_progress = true) →
      (JxlDecoderSkipCurrentFrame dec).1 = JXL_DEC_SUCCESS ∧
      (JxlDecoderSkipCurrentFrame dec).2 =
        { (dec.AdvanceCodestream dec.remaining_frame_size) with
          frame_stage := FrameStage.kHeader
          frame_dec_in_progress := false
          image_out_buffer_set :=
            if dec.is_last_of_still then false else dec.image_out_buffer_set } ∧
      ChangesOnlyCursor dec
        { (JxlDecoderSkipCurrentFrame dec).2 with
          frame_stage := dec.frame_stage
          frame_dec_in_progress := dec.frame_dec_in_progress
          image_out_buffer_set := dec.image_out_buffer_set } ∧
      (CursorWF dec → (dec.codestream_copy = [] → dec.codestream_pos = 0) →
        dec.codestream_pos + dec.remaining_frame_size + dec.avail_in < SIZE_MOD →
        (JxlDecoderSkipCurrentFrame dec).2.logicalPos
          = dec.logicalPos + dec.remaining_frame_size) ∧
      (JxlDecoderSkipCurrentFrame dec).2.frame_stage = FrameStage.kHeader ∧
      (JxlDecoderSkipCurrentFrame dec).2.frame_dec_in_progress = false ∧
      JxlDecoderSkipCurrentFrame (JxlDecoderSkipCurrentFrame dec).2 =
        (JXL_DEC_ERROR, (JxlDecoderSkipCurrentFrame dec).2)) := by
  have herr : ∀ d : JxlDecoder E, (d.frame_dec = false ∨ d.frame_dec_in_progress = false) →
      JxlDecoderSkipCurrentFrame d = (JXL_DEC_ERROR, d) := by
    intro d hd
    unfold JxlDecoderSkipCurrentFrame
    rcases hd with hd | hd <;> simp [hd]
  refine ⟨herr dec, ?_⟩
  rintro ⟨hf, hp⟩
  have hc := AdvanceCodestream_cursorOnly dec dec.remaining_frame_size
  have hc2 : ({ dec with frame_stage := FrameStage.kHeader }).AdvanceCodestream
      dec.remaining_frame_size =
      { (dec.AdvanceCodestream dec.remaining_frame_size) with
        frame_stage := FrameStage.kHeader } := by
    unfold JxlDecoder.AdvanceCodestream JxlDecoder.AvailableCodestream
    simp only []
    split_ifs <;> rfl
  have h0 : (JxlDecoderSkipCurrentFrame dec).2 =
      (let dec2 := { (({ dec with frame_stage := FrameStage.kHeader }).AdvanceCodestream
          dec.remaining_frame_size) with frame_dec_in_progress := false }
       if dec2.is_last_of_still then { dec2 with image_out_buffer_set := false } else dec2) := by
    unfold JxlDecoderSkipCurrentFrame
    rw [if_neg (by simp [hf, hp])]
  have hstate : (JxlDecoderSkipCurrentFrame dec).2 =
      { (dec.AdvanceCodestream dec.remaining_frame_size) with
        frame_stage := FrameStage.kHeader
        frame_dec_in_progress := false
        image_out_buffer_set :=
          if dec.is_last_of_still then false else dec.image_out_buffer_set } := by
    rw [h0, hc2]
    have hl : (dec.AdvanceCodestream dec.remaining_frame_size).is_last_of_still =
        dec.is_last_of_still := (congrArg JxlDecoder.is_last_of_still hc).trans rfl
    have hb : (dec.AdvanceCodestream dec.remaining_frame_size).image_out_buffer_set =
        dec.image_out_buffer_set := (congrArg JxlDecoder.image_out_buffer_set hc).trans rfl
    show (if (dec.AdvanceCodestream dec.remaining_frame_size).is_last_of_still = true then _
      else _) = _
    rw [← hb]
    cases hd : dec.is_last_of_still
    · rw [if_neg (by rw [hl, hd]; decide), if_neg (by decide)]
    · rw [if_pos (hl.trans hd), if_pos rfl]
  refine ⟨?_, hstate, ?_, ?_, ?_, ?_, ?_⟩
  · unfold JxlDecoderSkipCurrentFrame
    simp [hf, hp]
  · rw [hstate, hc]
    rfl
  · intro hwf hz hn
    rw [hstate]
    exact AdvanceCodestream_logicalPos dec dec.remaining_frame_size hwf hz hn
  · rw [hstate]
  · rw [hstate]
  · apply herr
    right
    rw [hstate]

end SkipCurrentTheorems

/-- The verdict of `JxlSignatureCheck` on a buffer that holds `len` bytes, as
one expression. -/
theorem JxlSignatureCheck_eq (buf : List Nat) (len : Nat) (hlen : len ≤ buf.length)
    (hl : len < SIZE_MOD) :
    JxlSignatureCheck buf len = some
      (if len = 0 then JXL_SIG_NOT_ENOUGH_BYTES
       else if buf[0]? = some 0xff then
         if len < 2 then JXL_SIG_NOT_ENOUGH_BYTES
         else if buf[1]? = some 0x0a then JXL_SIG_CODESTREAM else JXL_SIG_INVALID
       else if buf[0]? = some 0 then
         if len < 12 then JXL_SIG_NOT_ENOUGH_BYTES
         else if buf.take 12 = containerSignature then JXL_SIG_CONTAINER else JXL_SIG_INVALID
       else JXL_SIG_INVALID) := by
  have hs : sizeSub len 0 = len := sizeSub_of_le (Nat.zero_le _) hl
  unfold JxlSignatureCheck ReadSignature
  simp only [List.drop_zero, hs, ge_iff_le, Nat.le_zero_eq]
  by_cases h0 : len = 0
  · simp [h0]
  · simp only [h0, if_false]
    rcases buf with _ | ⟨b0, rest⟩
    · simp at hlen; omega
    · simp only [List.getElem?_cons_zero, Option.some.injEq]
      by_cases hb : b0 = 0xff
      · simp only [hb, if_true]
        by_cases h2 : len < 2
        · simp [h2]
        · simp only [h2, if_false]
          rcases rest with _ | ⟨b1, rest⟩
          · simp at hlen; omega
          · simp only [List.getElem?_cons_succ, List.getElem?_cons_zero, Option.some.injEq]
            by_cases hb1 : b1 = 0x0a <;> simp [hb1]
      · simp only [hb, if_false]
        by_cases hz : b0 = 0
        · simp only [hz, if_true]
          by_cases h12 : len < 12
          · simp [h12]
          · have : ¬ ((0 :: rest).take 12).length < 12 := by
              simp only [List.length_take, List.length_cons] at hlen ⊢
              omega
            simp only [h12, if_false, this]
            by_cases hc : (0 :: rest).take 12 = containerSignature
            · rw [if_pos hc, if_pos hc]; rfl
            · rw [if_neg hc, if_neg hc]; rfl
        · simp [hz]

theorem take_two_iff (buf : List Nat) (a b : Nat) :
    buf.take 2 = [a, b] ↔ buf[0]? = some a ∧ buf[1]? = some b := by
  rcases buf with _ | ⟨x, _ | ⟨y, r⟩⟩ <;> simp

theorem containerSignature_head (buf : List Nat) (h : buf.take 12 = containerSignature) :
    buf[0]? = some 0 := by
  rcases buf with _ | ⟨x, r⟩
  · simp [containerSignature] at h
  · simp only [containerSignature, List.take_succ_cons, List.cons.injEq] at h
    simp [h.1]

theorem take_append_of_le {α : Type} (buf more : List α) (k : Nat) (h : k ≤ buf.length) :
    (buf ++ more).take k = buf.take k := by
  rw [List.take_append_eq_append_take]
  simp [Nat.sub_eq_zero_of_le h]

/-- C23: on a buffer that holds `len` bytes, `JxlSignatureCheck(buf, len)`
returns `JXL_SIG_CODESTREAM` if and only if `len >= 2` and the buffer starts
with `FF 0A`, and `JXL_SIG_CONTAINER` if and only if `len >= 12` and the buffer
starts with the twelve bytes of the container signature; either verdict stays
when bytes are appended to the buffer and the length grows. -/
theorem JxlSignatureCheck_iff (buf : List Nat) (len : Nat) (hlen : len ≤ buf.length)
    (hl : len < SIZE_MOD) :
    (JxlSignatureCheck buf len = some JXL_SIG_CODESTREAM ↔
      2 ≤ len ∧ buf.take 2 = [0xff, 0x0a]) ∧
    (JxlSignatureCheck buf len = some JXL_SIG_CONTAINER ↔
      12 ≤ len ∧ buf.take 12 = containerSignature) ∧
    (∀ (more : List Nat) (len2 : Nat), len ≤ len2 → len2 ≤ (buf ++ more).length →
      len2 < SIZE_MOD →
      (JxlSignatureCheck buf len = some JXL_SIG_CODESTREAM →
        JxlSignatureCheck (buf ++ more) len2 = some JXL_SIG_CODESTREAM) ∧
      (JxlSignatureCheck buf len = some JXL_SIG_CONTAINER →
        JxlSignatureCheck (buf ++ more) len2 = some JXL_SIG_CONTAINER)) := by
  have key : ∀ (b : List Nat) (l : Nat), l ≤ b.length → l < SIZE_MOD →
      (JxlSignatureCheck b l = some JXL_SIG_CODESTREAM ↔
        2 ≤ l ∧ b.take 2 = [0xff, 0x0a]) ∧
      (JxlSignatureCheck b l = some JXL_SIG_CONTAINER ↔
        12 ≤ l ∧ b.take 12 = containerSignature) := by
    intro b l h1 h2
    rw [JxlSignatureCheck_eq b l h1 h2, take_two_iff]
    constructor
    · constructor
      · intro h
        simp only [Option.some.injEq] at h
        split_ifs at h with c1 c2 c3 c4 c5 c6 c7
        exact ⟨by omega, c2, c4⟩
      · rintro ⟨h3, h4, h5⟩
        have : l ≠ 0 := by omega
        have : ¬ l < 2 := by omega
        simp [*]
    · constructor
      · intro h
        simp only [Option.some.injEq] at h
        split_ifs at h with c1 c2 c3 c4 c5 c6 c7
        exact ⟨by omega, c7⟩
      · rintro ⟨h3, h4⟩
        have h5 := containerSignature_head b h4
        have : l ≠ 0 := by omega
        have : ¬ l < 12 := by omega
        simp [*]
  refine ⟨(key buf len hlen hl).1, (key buf len hlen hl).2, ?_⟩
  intro more len2 h1 h2 h3
  constructor
  · intro h
    obtain ⟨a, b⟩ := (key buf len hlen hl).1.mp h
    refine (key (buf ++ more) len2 h2 h3).1.mpr ⟨by omega, ?_⟩
    rw [take_append_of_le buf more 2 (by omega)]
    exact b
  · intro h
    obtain ⟨a, b⟩ := (key buf len hlen hl).2.mp h
    refine (key (buf ++ more) len2 h2 h3).2.mpr ⟨by omega, ?_⟩
    rw [take_append_of_le buf more 12 (by omega)]
    exact b

theorem JxlSignatureCheck_iff_witness :
    (JxlSignatureCheck [0xff, 0x0a, 7] 3 = some JXL_SIG_CODESTREAM ↔
      2 ≤ 3 ∧ [0xff, 0x0a, 7].take 2 = [0xff, 0x0a]) ∧
    JxlSignatureCheck [0xff, 0x0a, 7] 3 = some JXL_SIG_CODESTREAM :=
  ⟨(JxlSignatureCheck_iff [0xff, 0x0a, 7] 3 (by decide) (by decide)).1, rfl⟩

section SkipFramesTheorems
variable {E : Type}

/-- What `markRequired` leaves: the list keeps its length, and an entry is set
exactly if it was set before or is one of the dependencies. -/
theorem markRequired_spec (deps : List Nat) (required r : List Bool)
    (h : markRequired deps required = some r) :
    r.length = required.length ∧ (∀ d ∈ deps, d < required.length) ∧
    ∀ j, r[j]? = some true ↔ (required[j]? = some true ∨ j ∈ deps) := by
  induction deps generalizing required with
  | nil =>
    simp only [markRequired, Option.some.injEq] at h
    subst h
    simp
  | cons d deps ih =>
    simp only [markRequired] at h
    split at h
    · rename_i hd
      obtain ⟨h1, h2, h3⟩ := ih _ h
      rw [List.length_set] at h1 h2
      refine ⟨h1, ?_, ?_⟩
      · intro x hx
        rcases List.mem_cons.1 hx with hx | hx
        · rw [hx]; exact hd
        · exact h2 x hx
      · intro j
        rw [h3 j, List.getElem?_set]
        by_cases hj : d = j
        · subst hj
          simp [hd]
        · simp only [hj, if_false, List.mem_cons]
          constructor
          · rintro (h | h)
            · exact Or.inl h
            · exact Or.inr (Or.inr h)
          · rintro (h | h | h)
            · exact Or.inl h
            · exact absurd h.symm hj
            · exact Or.inr h
    · cases h

/-- C29: on a ledger whose two vectors have the same length,
`JxlDecoderSkipFrames(amount)` passes its assertions, adds `amount` to
`skip_frames` (modulo `2 ^ 64`) and recomputes `frame_required`, changing
nothing else. If the target external frame
`t = external_frames + skip_frames` was seen before and its internal index `i`
is in the ledger, `GetFrameDependencies(i, frame_saved_as, frame_references)`
returns a list `deps` of indices strictly below `i`, `frame_required` has
length `i + 1`, and `frame_required[j] = 1` exactly for the `j` in `deps`;
otherwise `frame_required` is empty. -/
theorem JxlDecoderSkipFrames_recomputes (dec : JxlDecoder E) (amount : Nat)
    (hlen : dec.frame_references.length = dec.frame_saved_as.length) :
    ∃ d, JxlDecoderSkipFrames dec amount = some d ∧
      d = { dec with skip_frames := sizeAdd dec.skip_frames amount
                     frame_required := d.frame_required } ∧
      (dec.skip_frames + amount < SIZE_MOD → d.skip_frames = dec.skip_frames + amount) ∧
      (∀ i, dec.frame_external_to_internal[sizeAdd dec.external_frames d.skip_frames]?
          = some i → i < dec.frame_saved_as.length →
        ∃ deps, GetFrameDependencies i dec.frame_saved_as dec.frame_references = some deps ∧
          (∀ j ∈ deps, j < i) ∧
          markRequired deps (List.replicate (i + 1) false) = some d.frame_required ∧
          d.frame_required.length = i + 1 ∧
          ∀ j, d.frame_required[j]? = some true ↔ j ∈ deps) ∧
      ((∀ i, dec.frame_external_to_internal[sizeAdd dec.external_frames d.skip_frames]?
          = some i → ¬ i < dec.frame_saved_as.length) → d.frame_required = []) := by
  unfold JxlDecoderSkipFrames recomputeFrameRequired
  simp only []
  cases hext : dec.frame_external_to_internal[sizeAdd dec.external_frames
      (sizeAdd dec.skip_frames amount)]? with
  | none =>
    refine ⟨_, rfl, rfl, fun h => sizeAdd_of_lt h, ?_, fun _ => rfl⟩
    intro i hi
    rw [hext] at hi
    cases hi
  | some internal_index =>
    simp only []
    by_cases hidx : internal_index < dec.frame_saved_as.length
    · obtain ⟨deps, hdeps, _, hmem⟩ := GetFrameDependencies_required dec.frame_saved_as
        dec.frame_references internal_index hlen (by omega)
      have hlt : ∀ j ∈ deps, j < internal_index := fun j hj => ((hmem j).1 hj).lt_index
      obtain ⟨r, hr, hrl⟩ := markRequired_some deps
        (List.replicate (internal_index + 1) false) (fun d hd => by
          have := hlt d hd
          simp; omega)
      obtain ⟨_, _, hr3⟩ := markRequired_spec _ _ _ hr
      refine ⟨{ dec with skip_frames := sizeAdd dec.skip_frames amount, frame_required := r },
        by simp [hidx, hdeps, hr], rfl, fun h => sizeAdd_of_lt h, ?_, ?_⟩
      · intro i hi _
        rw [hext] at hi
        cases hi
        refine ⟨deps, hdeps, hlt, hr, by simpa using hrl, ?_⟩
        intro j
        rw [hr3 j]
        simp only [List.getElem?_replicate]
        constructor
        · rintro (h | h)
          · split at h <;> simp at h
          · exact h
        · exact Or.inr
      · intro h
        exact absurd hidx (h _ hext)
    · refine ⟨{ dec with skip_frames := sizeAdd dec.skip_frames amount, frame_required := [] },
        by simp [hidx], rfl, fun h => sizeAdd_of_lt h, ?_, fun _ => rfl⟩
      intro i hi hlt
      rw [hext] at hi
      cases hi
      exact absurd hlt hidx

/-- C29 on a ledger of five frames of which one external frame has been seen
again after a rewind: skipping 2 frames targets the external frame 3, which is
the internal frame 4, whose dependencies are the frames 0 to 3. -/
theorem JxlDecoderSkipFrames_recomputes_witness :
    JxlDecoderSkipFrames demoLedger 2 =
      some { demoLedger with skip_frames := 2
                             frame_required := [true, true, true, true, false] } ∧
    GetFrameDependencies 4 demoLedger.frame_saved_as demoLedger.frame_references
      = some [2, 1, 3, 0] ∧
    ∃ d, JxlDecoderSkipFrames demoLedger 2 = some d ∧
      d = { demoLedger with skip_frames := sizeAdd demoLedger.skip_frames 2
                            frame_required := d.frame_required } :=
  ⟨rfl, rfl, (JxlDecoderSkipFrames_recomputes demoLedger 2 rfl).imp fun _ h => ⟨h.1, h.2.1⟩⟩

end SkipFramesTheorems

section BookLemmas
variable {E : Type}

theorem each_andThen {Q : JxlDecoder E → Prop} {c : Ctl E} {f : JxlDecoder E → Ctl E}
    (hc : Ctl.Each Q c) (hf : ∀ d, Q d → Ctl.Each Q (f d)) : Ctl.Each Q (c.andThen f) := by
  cases c with
  | ret st d => exact hc
  | next d => exact hf d hc
  | again d => exact hc
  | stop d => exact hc
  | abort => trivial

theorem each_mono {P Q : JxlDecoder E → Prop} {c : Ctl E} (hc : Ctl.Each P c)
    (h : ∀ d, P d → Q d) : Ctl.Each Q c := by
  cases c with
  | ret st d => exact h d hc
  | next d => exact h d hc
  | again d => exact h d hc
  | stop d => exact h d hc
  | abort => trivial

theorem sameBook_refl (dec : JxlDecoder E) : SameBook dec dec := ⟨rfl, rfl, rfl, rfl⟩

theorem sameBook_trans {a b c : JxlDecoder E} (h1 : SameBook a b) (h2 : SameBook b c) :
    SameBook a c :=
  ⟨h2.1.trans h1.1, h2.2.1.trans h1.2.1, h2.2.2.1.trans h1.2.2.1, h2.2.2.2.trans h1.2.2.2⟩

theorem sameBook_of_cursor {dec d : JxlDecoder E} (h : ChangesOnlyCursor dec d) :
    SameBook dec d :=
  ⟨(congrArg JxlDecoder.skip_frames h).trans rfl,
    (congrArg JxlDecoder.next_section h).trans rfl,
    (congrArg JxlDecoder.remaining_frame_size h).trans rfl,
    (congrArg JxlDecoder.section_processed h).trans rfl⟩

theorem flagsKept_refl (dec : JxlDecoder E) : FlagsKept dec dec := ⟨rfl, fun _ h => h⟩

theorem flagsKept_trans {a b c : JxlDecoder E} (h1 : FlagsKept a b) (h2 : FlagsKept b c) :
    FlagsKept a c :=
  ⟨h2.1.trans h1.1, fun j h => h2.2 j (h1.2 j h)⟩

theorem flagsKept_of_eq {dec d : JxlDecoder E} (h : d.section_processed = dec.section_processed) :
    FlagsKept dec d := by
  unfold FlagsKept
  rw [h]
  exact ⟨rfl, fun _ h => h⟩

theorem setUpRGB8_book (env : FrameEnv E) (dec : JxlDecoder E) :
    SameBook dec (setUpRGB8 env dec) := by
  unfold setUpRGB8
  split
  · exact ⟨rfl, rfl, rfl, rfl⟩
  · exact sameBook_refl dec

theorem setUpFloatCallback_book (env : FrameEnv E) (dec : JxlDecoder E) :
    SameBook dec (setUpFloatCallback env dec) := by
  unfold setUpFloatCallback
  split
  · exact ⟨rfl, rfl, rfl, rfl⟩
  · exact sameBook_refl dec

theorem prepareOutput_book (env : FrameEnv E) (dec : JxlDecoder E) :
    Ctl.Each (SameBook dec) (prepareOutput env dec) := by
  unfold prepareOutput
  split
  · exact sameBook_refl dec
  · split
    · exact sameBook_refl dec
    · exact sameBook_trans (setUpRGB8_book env dec) (setUpFloatCallback_book env _)

theorem afterSections_book (env : FrameEnv E) (n : Nat) (dec : JxlDecoder E) :
    Ctl.Each (SameBook dec) (afterSections env n dec) := by
  unfold afterSections
  simp only
  split
  · exact ⟨rfl, rfl, rfl, rfl⟩
  · split
    · exact ⟨rfl, rfl, rfl, rfl⟩
    · split
      · exact sameBook_of_cursor (RequestMoreInput_cursorOnly dec)
      · split
        · trivial
        · rename_i d1 hr
          have h1 : SameBook dec d1 := by
            split at hr
            · split at hr
              · simp only [Option.some.injEq] at hr
                rw [← hr]
                exact ⟨rfl, rfl, rfl, rfl⟩
              · cases hr
            · simp only [Option.some.injEq] at hr
              rw [← hr]
              exact sameBook_refl dec
          split
          · exact sameBook_trans h1 ⟨rfl, rfl, rfl, rfl⟩
          · exact sameBook_trans h1 ⟨rfl, rfl, rfl, rfl⟩

theorem writeFullImage_book (env : FrameEnv E) (dec : JxlDecoder E) :
    Ctl.Each (SameBook dec) (writeFullImage env dec) := by
  unfold writeFullImage
  simp only
  generalize (if (!env.hasRGBBuffer dec.ext) = true then env.convertImage dec
    else (true, dec.ext)) = c
  split
  · exact ⟨rfl, rfl, rfl, rfl⟩
  · split
    · trivial
    · exact ⟨rfl, rfl, rfl, rfl⟩
    · exact ⟨rfl, rfl, rfl, rfl⟩

theorem frameOutputStage_book (env : FrameEnv E) (dec : JxlDecoder E) :
    Ctl.Each (SameBook dec) (frameOutputStage env dec).2 := by
  unfold frameOutputStage
  split
  · simp only
    split
    · exact ⟨rfl, rfl, rfl, rfl⟩
    · exact ⟨rfl, rfl, rfl, rfl⟩
  · split
    · simp only
      split
      · exact ⟨rfl, rfl, rfl, rfl⟩
      · split
        · exact each_mono (writeFullImage_book env _) fun d hd =>
            sameBook_trans ⟨rfl, rfl, rfl, rfl⟩ hd
        · exact ⟨rfl, rfl, rfl, rfl⟩
    · exact sameBook_refl dec

theorem frameFinish_book (env : FrameEnv E) (flags : OutputFlags) (dec : JxlDecoder E) :
    Ctl.Each (SameBook dec) (frameFinish env flags dec) := by
  unfold frameFinish
  simp only
  split
  · exact ⟨rfl, rfl, rfl, rfl⟩
  · split
    · exact ⟨rfl, rfl, rfl, rfl⟩
    · split
      · exact ⟨rfl, rfl, rfl, rfl⟩
      · exact ⟨rfl, rfl, rfl, rfl⟩

theorem frameTocStage_skip (env : FrameEnv E) (dec : JxlDecoder E) :
    Ctl.Each (fun d => d.skip_frames = dec.skip_frames ∧
      d.remaining_frame_size = dec.remaining_frame_size) (frameTocStage env dec) := by
  unfold frameTocStage
  simp only
  generalize (if (!dec.preview_frame && wants dec.events_wanted JXL_DEC_FRAME_PROGRESSION) = true
      then env.setPauseAtProgressive (env.setupToc dec.ext dec.render_spotcolors dec.coalescing)
        dec.prog_detail
      else (JxlProgressiveDetail.kFrames,
        env.setupToc dec.ext dec.render_spotcolors dec.coalescing)) = pause
  split
  · exact ⟨rfl, rfl⟩
  · split
    · have h := sameBook_of_cursor (AdvanceCodestream_cursorOnly
        ({ dec with
            ext := pause.2
            frame_prog_detail := pause.1
            dc_frame_progression_done := false
            next_section := 0
            section_processed := List.replicate (env.toc pause.2).length false
            frame_stage := FrameStage.kHeader } : JxlDecoder E) dec.remaining_frame_size)
      exact ⟨h.1, h.2.2.1⟩
    · exact ⟨rfl, rfl⟩

end BookLemmas

section SectionLemmas
variable {E : Type}

theorem applySectionStatus_flags (toc : List (Nat × Nat)) (next : Nat)
    (statuses : List SectionStatus) (i : Nat) (p : SectionProgress)
    (r : Except SectionProgress SectionProgress)
    (h : applySectionStatus toc next statuses i p = some r) :
    (progressOf r).section_processed.length = p.section_processed.length ∧
    ∀ j : Nat, p.section_processed[j]? = some true →
      (progressOf r).section_processed[j]? = some true := by
  induction statuses generalizing i p with
  | nil =>
    simp only [applySectionStatus, Option.some.injEq] at h
    subst h
    exact ⟨rfl, fun _ h => h⟩
  | cons s rest ih =>
    cases s with
    | kDone =>
      simp only [applySectionStatus] at h
      split at h
      · cases h
      · rename_i p1 hp1
        have hsp : p1.section_processed = p.section_processed := by
          split at hp1
          · cases hq : toc[sizeAdd next i]? with
            | none => rw [hq] at hp1; cases hp1
            | some e =>
              rw [hq] at hp1
              simp only [Option.map_some', Option.some.injEq] at hp1
              rw [← hp1]
          · simp only [Option.some.injEq] at hp1
            rw [hp1]
        split at h
        · rename_i hlt
          obtain ⟨h1, h2⟩ := ih _ _ h
          simp only [List.length_set] at h1
          refine ⟨h1.trans (by rw [hsp]), ?_⟩
          intro j hj
          apply h2
          simp only [List.getElem?_set]
          split
          · rfl
          · rw [hsp]; exact hj
        · cases h
    | kSkipped =>
      simp only [applySectionStatus] at h
      exact ih (i + 1) { p with found_skipped_section := true } h
    | kOther =>
      simp only [applySectionStatus, Option.some.injEq] at h
      subst h
      exact ⟨rfl, fun _ h => h⟩

theorem tocBytes_cons (e : Nat × Nat) (toc : List (Nat × Nat)) :
    tocBytes (e :: toc) = e.2 + tocBytes toc := by
  simp [tocBytes]

theorem tocBytes_drop_le (toc : List (Nat × Nat)) (n : Nat) :
    tocBytes (toc.drop n) ≤ tocBytes toc := by
  induction toc generalizing n with
  | nil => simp [tocBytes]
  | cons e toc ih =>
    cases n with
    | zero => simp
    | succ n =>
      rw [List.drop_succ_cons, tocBytes_cons]
      have := ih n
      omega

theorem tocBytes_drop_succ_le (toc : List (Nat × Nat)) (n : Nat) :
    tocBytes (toc.drop (n + 1)) ≤ tocBytes (toc.drop n) := by
  have := tocBytes_drop_le (toc.drop n) 1
  rw [List.drop_drop] at this
  exact this

theorem drop_eq_cons_of_getElem? {α : Type} (l : List α) (n : Nat) (e : α)
    (h : l[n]? = some e) : l.drop n = e :: l.drop (n + 1) := by
  obtain ⟨hn, he⟩ := List.getElem?_eq_some.1 h
  rw [← he]
  exact List.drop_eq_getElem_cons hn

/-- What the last loop of `JxlDecoderProcessSections` counts: as long as no
skipped section was found, one entry of the table of contents for each status
`kDone` at the head of the list, by the position of the status. -/
theorem applySectionStatus_count (toc : List (Nat × Nat)) (next : Nat)
    (statuses : List SectionStatus) (i : Nat) (p q : SectionProgress)
    (hidx : next + i + statuses.length < SIZE_MOD)
    (hbytes : p.processed_bytes + tocBytes (toc.drop (next + i)) < SIZE_MOD)
    (hnum : p.num_done + statuses.length < SIZE_MOD)
    (h : applySectionStatus toc next statuses i p = some (Except.ok q)) :
    (p.found_skipped_section = true →
      q.num_done = p.num_done ∧ q.processed_bytes = p.processed_bytes) ∧
    (p.found_skipped_section = false →
      q.num_done = p.num_done + leadingDone statuses ∧
      q.processed_bytes =
        p.processed_bytes + tocBytes ((toc.drop (next + i)).take (leadingDone statuses))) ∧
    (∀ k : Nat, statuses[k]? = some SectionStatus.kDone →
      q.section_processed[next + i + k]? = some true) := by
  induction statuses generalizing i p with
  | nil =>
    simp only [applySectionStatus, Option.some.injEq, Except.ok.injEq] at h
    subst h
    refine ⟨fun _ => ⟨rfl, rfl⟩, fun _ => ⟨rfl, by simp [leadingDone, tocBytes]⟩, ?_⟩
    intro k hk
    simp at hk
  | cons s rest ih =>
    simp only [List.length_cons] at hidx hnum
    cases s with
    | kDone =>
      have hadd : sizeAdd next i = next + i := sizeAdd_of_lt (by omega)
      simp only [applySectionStatus, hadd] at h
      split at h
      · cases h
      · rename_i p1 hp1
        split at h
        swap
        · cases h
        rename_i hlt
        have hflags := applySectionStatus_flags _ _ _ _ _ _ h
        simp only [progressOf, List.length_set] at hflags
        have hzero : q.section_processed[next + i]? = some true := by
          apply hflags.2
          simp only [List.getElem?_set, if_true]
          simp [hlt]
        have hk : ∀ k : Nat, (SectionStatus.kDone :: rest)[k]? = some SectionStatus.kDone →
            (∀ k : Nat, rest[k]? = some SectionStatus.kDone →
              q.section_processed[next + (i + 1) + k]? = some true) →
            q.section_processed[next + i + k]? = some true := by
          intro k hk hrest
          cases k with
          | zero => exact hzero
          | succ k =>
            have := hrest k (by simpa using hk)
            rw [show next + i + (k + 1) = next + (i + 1) + k by omega]
            exact this
        cases hf : p.found_skipped_section with
        | true =>
          simp only [hf, Bool.not_true, Bool.false_eq_true, if_false, Option.some.injEq] at hp1
          subst hp1
          obtain ⟨h1, _, h3⟩ := ih (i + 1) _ (by omega)
            (by
              have := tocBytes_drop_succ_le toc (next + i)
              show p.processed_bytes + tocBytes (toc.drop (next + (i + 1))) < SIZE_MOD
              rw [show next + (i + 1) = next + i + 1 by omega]
              omega)
            (by show p.num_done + rest.length < SIZE_MOD; omega) h
          refine ⟨fun _ => h1 hf, fun hc => absurd hc (by simp), fun k hk1 => hk k hk1 h3⟩
        | false =>
          simp only [hf, Bool.not_false, if_true] at hp1
          cases hq : toc[next + i]? with
          | none => rw [hq] at hp1; cases hp1
          | some e =>
            rw [hq] at hp1
            simp only [Option.map_some', Option.some.injEq] at hp1
            subst hp1
            have hdrop := drop_eq_cons_of_getElem? toc (next + i) e hq
            rw [hdrop, tocBytes_cons] at hbytes
            have hb : sizeAdd p.processed_bytes e.2 = p.processed_bytes + e.2 :=
              sizeAdd_of_lt (by omega)
            have hn : sizeAdd p.num_done 1 = p.num_done + 1 := sizeAdd_of_lt (by omega)
            obtain ⟨_, h2, h3⟩ := ih (i + 1) _ (by omega)
              (by
                show sizeAdd p.processed_bytes e.2 + tocBytes (toc.drop (next + (i + 1)))
                  < SIZE_MOD
                rw [hb, show next + (i + 1) = next + i + 1 by omega]
                omega)
              (by show sizeAdd p.num_done 1 + rest.length < SIZE_MOD; rw [hn]; omega) h
            have h2 := h2 rfl
            simp only [hb, hn] at h2
            refine ⟨fun hc => absurd hc (by simp), fun _ => ⟨?_, ?_⟩, fun k hk1 => hk k hk1 h3⟩
            · rw [h2.1, leadingDone]; omega
            · rw [h2.2, leadingDone, hdrop, List.take_succ_cons, tocBytes_cons,
                show next + (i + 1) = next + i + 1 by omega]
              omega
    | kSkipped =>
      simp only [applySectionStatus] at h
      obtain ⟨h1, _, h3⟩ := ih (i + 1) { p with found_skipped_section := true } (by omega)
        (by
          have := tocBytes_drop_succ_le toc (next + i)
          show p.processed_bytes + tocBytes (toc.drop (next + (i + 1))) < SIZE_MOD
          rw [show next + (i + 1) = next + i + 1 by omega]
          omega)
        (by show p.num_done + rest.length < SIZE_MOD; omega) h
      have h1 := h1 rfl
      refine ⟨fun _ => h1, fun _ => ⟨?_, ?_⟩, ?_⟩
      · rw [h1.1]; simp [leadingDone]
      · rw [h1.2]; simp [leadingDone, tocBytes]
      · intro k hk
        cases k with
        | zero => simp at hk
        | succ k =>
          have := h3 k (by simpa using hk)
          rw [show next + i + (k + 1) = next + (i + 1) + k by omega]
          exact this
    | kOther =>
      simp only [applySectionStatus, Option.some.injEq] at h
      cases h

end SectionLemmas

section CollectLemmas
variable {E : Type}

/-- The bit readers of the first loop of `JxlDecoderProcessSections` are for
entries that are not yet processed, in the order of the table, from the first
such entry on. -/
theorem collectSections_ids (span : List Nat) (toc : List (Nat × Nat)) (flags : List Bool)
    (pos : Nat) (info : List (Nat × List Nat))
    (h : collectSections span toc flags pos = some info) :
    info.map Prod.fst <+: unprocessedIds toc flags := by
  induction toc generalizing flags pos info with
  | nil =>
    simp only [collectSections, Option.some.injEq] at h
    subst h
    simp
  | cons e toc ih =>
    obtain ⟨id, size⟩ := e
    cases flags with
    | nil => simp [collectSections] at h
    | cons processed flags =>
      simp only [collectSections] at h
      cases processed with
      | true =>
        simp only [if_true] at h
        simpa [unprocessedIds] using ih _ _ _ h
      | false =>
        simp only [Bool.false_eq_true, if_false] at h
        split at h
        · simp only [Option.some.injEq] at h
          subst h
          simp
        · cases hc : collectSections span toc flags (sizeAdd pos size) with
          | none => rw [hc] at h; cases h
          | some rest =>
            rw [hc] at h
            simp only [Option.map_some', Option.some.injEq] at h
            subst h
            have := ih _ _ _ hc
            simpa [unprocessedIds, List.prefix_cons_inj] using this

theorem collectSections_length (span : List Nat) (toc : List (Nat × Nat)) (flags : List Bool)
    (pos : Nat) (info : List (Nat × List Nat))
    (h : collectSections span toc flags pos = some info) : info.length ≤ toc.length := by
  induction toc generalizing flags pos info with
  | nil =>
    simp only [collectSections, Option.some.injEq] at h
    subst h
    simp
  | cons e toc ih =>
    obtain ⟨id, size⟩ := e
    cases flags with
    | nil => simp [collectSections] at h
    | cons processed flags =>
      simp only [collectSections] at h
      cases processed with
      | true =>
        simp only [if_true] at h
        have := ih _ _ _ h
        simp only [List.length_cons]
        omega
      | false =>
        simp only [Bool.false_eq_true, if_false] at h
        split at h
        · simp only [Option.some.injEq] at h
          subst h
          simp
        · cases hc : collectSections span toc flags (sizeAdd pos size) with
          | none => rw [hc] at h; cases h
          | some rest =>
            rw [hc] at h
            simp only [Option.map_some', Option.some.injEq] at h
            subst h
            have := ih _ _ _ hc
            simp only [List.length_cons]
            omega

/-- While no entry from `next_section` on is processed, the first loop of
`JxlDecoderProcessSections` creates the bit readers where the table of
contents places them. -/
theorem collectSections_fresh (span : List Nat) (toc : List (Nat × Nat)) (flags : List Bool)
    (pos : Nat) (hflags : ∀ f ∈ flags, f = false) (hlen : toc.length ≤ flags.length)
    (hspan : span.length < SIZE_MOD) (hbytes : pos + tocBytes toc < SIZE_MOD) :
    collectSections span toc flags pos = some (sectionReaders span toc flags pos) := by
  induction toc generalizing flags pos with
  | nil => simp [collectSections, sectionReaders]
  | cons e toc ih =>
    obtain ⟨id, size⟩ := e
    cases flags with
    | nil => simp at hlen
    | cons processed flags =>
      have hp : processed = false := hflags processed (by simp)
      subst hp
      rw [tocBytes_cons] at hbytes
      simp only at hbytes
      have hoob : OutOfBounds pos size span.length = decide (span.length < pos + size) :=
        OutOfBounds_eq (by omega) (by omega) hspan
      have hadd : sizeAdd pos size = pos + size := sizeAdd_of_lt (by omega)
      simp only [collectSections, sectionReaders, Bool.false_eq_true, if_false, hoob,
        decide_eq_true_eq, hadd]
      by_cases hfit : pos + size ≤ span.length
      · have hnot : ¬ span.length < pos + size := by omega
        rw [if_neg hnot, if_pos hfit, ih flags (pos + size)
          (fun f hf => hflags f (List.mem_cons_of_mem _ hf))
          (by simpa using hlen) (by omega)]
        rfl
      · have hlt : span.length < pos + size := by omega
        rw [if_pos hlt, if_neg hfit]

end CollectLemmas

section ProcessSectionsLemmas
variable {E : Type}

/-- The ways in which `JxlDecoderProcessSections` returns. -/
theorem JxlDecoderProcessSections_cases (env : FrameEnv E) (dec d : JxlDecoder E)
    (st : JxlDecoderStatus) (h : JxlDecoderProcessSections env dec = some (st, d)) :
    ∃ span dec1 st1, dec.GetCodestreamInput = some (st1, span, dec1) ∧
      ((st1 ≠ JXL_DEC_SUCCESS ∧ st = st1 ∧ d = dec1) ∨
       (st1 = JXL_DEC_SUCCESS ∧
        ∃ info, collectSections span ((env.toc dec1.ext).drop dec1.next_section)
            (dec1.section_processed.drop dec1.next_section) 0 = some info ∧
          ((st = JXL_DEC_ERROR ∧
              d = { dec1 with ext := (env.processSections dec1.ext info).2.2.2.2 }) ∨
           (st = JXL_DEC_ERROR ∧ ∃ p,
              applySectionStatus (env.toc dec1.ext) dec1.next_section
                (env.processSections dec1.ext info).2.1 0
                { found_skipped_section := false, num_done := 0, processed_bytes := 0,
                  section_processed := dec1.section_processed } = some (Except.error p) ∧
              d = { dec1 with ext := (env.processSections dec1.ext info).2.2.2.2
                              section_processed := p.section_processed }) ∨
           (st = JXL_DEC_SUCCESS ∧ ∃ p,
              applySectionStatus (env.toc dec1.ext) dec1.next_section
                (env.processSections dec1.ext info).2.1 0
                { found_skipped_section := false, num_done := 0, processed_bytes := 0,
                  section_processed := dec1.section_processed } = some (Except.ok p) ∧
              d = ({ dec1 with
                      ext := (env.processSections dec1.ext info).2.2.2.2
                      section_processed := p.section_processed
                      next_section := sizeAdd dec1.next_section p.num_done
                      remaining_frame_size :=
                        sizeSub dec1.remaining_frame_size p.processed_bytes }).AdvanceCodestream
                    p.processed_bytes)))) := by
  unfold JxlDecoderProcessSections at h
  split at h
  · cases h
  · rename_i st1 span dec1 hg
    refine ⟨span, dec1, st1, hg, ?_⟩
    split at h
    · rename_i hst
      simp only [Option.some.injEq, Prod.mk.injEq] at h
      exact Or.inl ⟨hst, h.1.symm, h.2.symm⟩
    · rename_i hst
      have hst1 : st1 = JXL_DEC_SUCCESS := by
        by_contra hne
        exact hst hne
      refine Or.inr ⟨hst1, ?_⟩
      simp only at h
      split at h
      · cases h
      · rename_i info hcol
        refine ⟨info, hcol, ?_⟩
        split at h
        · cases h
        · split at h
          · simp only [Option.some.injEq, Prod.mk.injEq] at h
            exact Or.inl ⟨h.1.symm, h.2.symm⟩
          · split at h
            · simp only [Option.some.injEq, Prod.mk.injEq] at h
              exact Or.inl ⟨h.1.symm, h.2.symm⟩
            · split at h
              · cases h
              · rename_i p hp
                simp only [Option.some.injEq, Prod.mk.injEq] at h
                exact Or.inr (Or.inl ⟨h.1.symm, p, hp, h.2.symm⟩)
              · rename_i p hp
                simp only [Option.some.injEq, Prod.mk.injEq] at h
                exact Or.inr (Or.inr ⟨h.1.symm, p, hp, h.2.symm⟩)

/-- `JxlDecoderProcessSections` clears no flag of `section_processed` and
leaves `skip_frames` as it is. -/
theorem JxlDecoderProcessSections_flags (env : FrameEnv E) (dec d : JxlDecoder E)
    (st : JxlDecoderStatus) (h : JxlDecoderProcessSections env dec = some (st, d)) :
    FlagsKept dec d ∧ d.skip_frames = dec.skip_frames := by
  obtain ⟨span, dec1, st1, hg, hcases⟩ := JxlDecoderProcessSections_cases env dec d st h
  have hb := sameBook_of_cursor (GetCodestreamInput_cursorOnly dec dec1 st1 span hg)
  rcases hcases with ⟨_, _, hd⟩ | ⟨_, info, _, hd | ⟨_, p, hp, hd⟩ | ⟨_, p, hp, hd⟩⟩
  · rw [hd]
    exact ⟨flagsKept_of_eq hb.2.2.2, hb.1⟩
  · rw [hd.2]
    exact ⟨flagsKept_of_eq hb.2.2.2, hb.1⟩
  · rw [hd]
    have hf := applySectionStatus_flags _ _ _ _ _ _ hp
    simp only [progressOf] at hf
    refine ⟨⟨hf.1.trans (by rw [hb.2.2.2]), fun j hj => hf.2 j ?_⟩, hb.1⟩
    rw [hb.2.2.2]; exact hj
  · have hf := applySectionStatus_flags _ _ _ _ _ _ hp
    simp only [progressOf] at hf
    have ha := sameBook_of_cursor (AdvanceCodestream_cursorOnly
      ({ dec1 with
          ext := (env.processSections dec1.ext info).2.2.2.2
          section_processed := p.section_processed
          next_section := sizeAdd dec1.next_section p.num_done
          remaining_frame_size :=
            sizeSub dec1.remaining_frame_size p.processed_bytes } : JxlDecoder E)
      p.processed_bytes)
    rw [← hd] at ha
    refine ⟨⟨?_, fun j hj => ?_⟩, ha.1.trans hb.1⟩
    · rw [ha.2.2.2]
      exact hf.1.trans (by rw [hb.2.2.2])
    · rw [ha.2.2.2]
      apply hf.2
      rw [hb.2.2.2]; exact hj

end ProcessSectionsLemmas

section ProcessSectionsBook
variable {E : Type}

theorem leadingDone_le (l : List SectionStatus) : leadingDone l ≤ l.length := by
  induction l with
  | nil => simp [leadingDone]
  | cons s l ih => cases s <;> simp [leadingDone, ih]

theorem leadingDone_getElem? (l : List SectionStatus) (k : Nat) (hk : k < leadingDone l) :
    l[k]? = some SectionStatus.kDone := by
  induction l generalizing k with
  | nil => simp [leadingDone] at hk
  | cons s l ih =>
    cases s with
    | kDone =>
      cases k with
      | zero => simp
      | succ k =>
        simp only [leadingDone, Nat.add_lt_add_iff_right] at hk
        simpa using ih k hk
    | kSkipped => simp [leadingDone] at hk
    | kOther => simp [leadingDone] at hk

/-- The bookkeeping of one call of `JxlDecoderProcessSections`, for a frame
decoder that reports one status for each bit reader: a call that does not
succeed leaves `next_section` and `remaining_frame_size` as they are; a call
that succeeds moves `next_section` over as many entries as there are statuses
`kDone` at the head of the reported list, takes the sizes of these entries from
`remaining_frame_size`, marks these entries as processed and advances the
codestream by these sizes; for each status `kDone` it sets the flag at
`next_section` plus the position of the status. -/
theorem JxlDecoderProcessSections_book (env : FrameEnv E) (dec d : JxlDecoder E)
    (st : JxlDecoderStatus)
    (hst : ∀ e info, (env.processSections e info).2.1.length = info.length)
    (hbytes : tocBytes (env.toc dec.ext) < SIZE_MOD)
    (hlen : (env.toc dec.ext).length < SIZE_MOD) (hnext : dec.next_section < SIZE_MOD)
    (h : JxlDecoderProcessSections env dec = some (st, d)) :
    (st ≠ JXL_DEC_SUCCESS →
      d.next_section = dec.next_section ∧
      d.remaining_frame_size = dec.remaining_frame_size) ∧
    (st = JXL_DEC_SUCCESS →
      ∃ span dec1 info, dec.GetCodestreamInput = some (JXL_DEC_SUCCESS, span, dec1) ∧
        collectSections span ((env.toc dec.ext).drop dec.next_section)
          (dec.section_processed.drop dec.next_section) 0 = some info ∧
        d.next_section =
          dec.next_section + leadingDone (env.processSections dec.ext info).2.1 ∧
        d.remaining_frame_size =
          sizeSub dec.remaining_frame_size
            (tocBytes (((env.toc dec.ext).drop dec.next_section).take
              (leadingDone (env.processSections dec.ext info).2.1))) ∧
        (∀ j : Nat, dec.next_section ≤ j →
          j < dec.next_section + leadingDone (env.processSections dec.ext info).2.1 →
          d.section_processed[j]? = some true) ∧
        (∀ k : Nat, (env.processSections dec.ext info).2.1[k]? = some SectionStatus.kDone →
          d.section_processed[dec.next_section + k]? = some true) ∧
        (CursorWF dec →
          dec1.codestream_pos + tocBytes (((env.toc dec.ext).drop dec.next_section).take
            (leadingDone (env.processSections dec.ext info).2.1)) + dec1.avail_in < SIZE_MOD →
          d.logicalPos = dec.logicalPos +
            tocBytes (((env.toc dec.ext).drop dec.next_section).take
              (leadingDone (env.processSections dec.ext info).2.1)))) := by
  obtain ⟨span, dec1, st1, hg, hcases⟩ := JxlDecoderProcessSections_cases env dec d st h
  have hc := GetCodestreamInput_cursorOnly dec dec1 st1 span hg
  have hb := sameBook_of_cursor hc
  have hext : dec1.ext = dec.ext := (congrArg JxlDecoder.ext hc).trans rfl
  rcases hcases with ⟨hne, hs, hd⟩ | ⟨hs1, info, hcol, hd | ⟨hs, p, hp, hd⟩ | ⟨hs, p, hp, hd⟩⟩
  · refine ⟨fun _ => by rw [hd]; exact ⟨hb.2.1, hb.2.2.1⟩, fun heq => ?_⟩
    rw [hs] at heq
    exact absurd heq hne
  · refine ⟨fun _ => by rw [hd.2]; exact ⟨hb.2.1, hb.2.2.1⟩, fun heq => ?_⟩
    rw [hd.1] at heq
    cases heq
  · refine ⟨fun _ => by rw [hd]; exact ⟨hb.2.1, hb.2.2.1⟩, fun heq => ?_⟩
    rw [hs] at heq
    cases heq
  · refine ⟨fun hne => absurd hs hne, fun _ => ?_⟩
    subst hs1
    rw [hext, hb.2.1, hb.2.2.2] at hcol
    rw [hext, hb.2.1] at hp
    have hil := collectSections_length _ _ _ _ _ hcol
    rw [List.length_drop] at hil
    have hsl := hst dec.ext info
    have hcount := applySectionStatus_count _ _ _ 0 _ p (by simp only [Nat.add_zero]; omega)
      (by
        have := tocBytes_drop_le (env.toc dec.ext) (dec.next_section + 0)
        show 0 + _ < SIZE_MOD
        omega)
      (by show 0 + _ < SIZE_MOD; omega) hp
    obtain ⟨_, hc2, hc3⟩ := hcount
    obtain ⟨hnum, hpb⟩ := hc2 rfl
    simp only [Nat.add_zero, Nat.zero_add] at hnum hpb hc3
    have hld : leadingDone (env.processSections dec.ext info).2.1 ≤ info.length := by
      rw [← hsl]
      exact leadingDone_le _
    have ha := sameBook_of_cursor (AdvanceCodestream_cursorOnly
      ({ dec1 with
          ext := (env.processSections dec1.ext info).2.2.2.2
          section_processed := p.section_processed
          next_section := sizeAdd dec1.next_section p.num_done
          remaining_frame_size :=
            sizeSub dec1.remaining_frame_size p.processed_bytes } : JxlDecoder E)
      p.processed_bytes)
    rw [← hd] at ha
    obtain ⟨_, ha2, ha3, ha4⟩ := ha
    simp only at ha2 ha3 ha4
    refine ⟨span, dec1, info, hg, hcol, ?_, ?_, ?_, ?_, ?_⟩
    · rw [ha2, hb.2.1, hnum]
      exact sizeAdd_of_lt (by omega)
    · rw [ha3, hb.2.2.1, hpb]
    · intro j hj1 hj2
      rw [ha4]
      have := hc3 (j - dec.next_section) (leadingDone_getElem? _ _ (by omega))
      rw [show dec.next_section + (j - dec.next_section) = j by omega] at this
      exact this
    · intro k hk
      rw [ha4]
      exact hc3 k hk
    · intro hwf hroom
      obtain ⟨hwf1, hlp, _, _, hspan⟩ := GetCodestreamInput_wf dec dec1 _ span hwf hg
      obtain ⟨_, _, hz⟩ := hspan rfl
      rw [hd, hpb, ← hlp]
      exact AdvanceCodestream_logicalPos _ _
        ⟨hwf1.window, hwf1.nowrap, hwf1.direct, hwf1.unc_avail, hwf1.unc_copy, hwf1.copy_pos,
          hwf1.pos_lt⟩ hz hroom

end ProcessSectionsBook

section IterationLemmas
variable {E : Type}

theorem each_bind {Q R : JxlDecoder E → Prop} {c : Ctl E} {f : JxlDecoder E → Ctl E}
    (hc : Ctl.Each (fun d => Q d ∧ R d) c) (hf : ∀ d, Q d → R d → Ctl.Each Q (f d)) :
    Ctl.Each Q (c.andThen f) := by
  cases c with
  | ret st d => exact hc.1
  | next d => exact hf d hc.1 hc.2
  | again d => exact hc.1
  | stop d => exact hc.1
  | abort => trivial

/-- A property of the state that every block of the body of the frame loop
keeps holds in whatever state one pass through the body ends. The header block
runs on the state at the start only, and the other blocks run on that state
too unless an earlier block has run. -/
theorem frameIteration_each (env : FrameEnv E) (dec : JxlDecoder E)
    (Q : JxlDecoder E → Prop) (hQ : Q dec)
    (hH : dec.frame_stage = FrameStage.kHeader → Ctl.Each Q (frameHeaderStage env dec))
    (hT : ∀ d, Q d → (dec.frame_stage ≠ FrameStage.kHeader → d = dec) →
      d.frame_stage = FrameStage.kTOC → Ctl.Each Q (frameTocStage env d))
    (hF : ∀ d, Q d →
      (dec.frame_stage ≠ FrameStage.kHeader → dec.frame_stage ≠ FrameStage.kTOC → d = dec) →
      d.frame_stage = FrameStage.kFull → Ctl.Each Q (frameFullStage env d))
    (hO : ∀ d, Q d → Ctl.Each Q (frameOutputStage env d).2)
    (hE : ∀ d flags, Q d → Ctl.Each Q (frameFinish env flags d)) :
    Ctl.Each Q (frameIteration env dec) := by
  unfold frameIteration
  simp only
  split
  · exact hQ
  · split
    · exact hQ
    · have h1 : Ctl.Each (fun d => Q d ∧ (dec.frame_stage ≠ FrameStage.kHeader → d = dec))
          (if dec.frame_stage = FrameStage.kHeader then frameHeaderStage env dec
            else Ctl.next dec) := by
        split
        · rename_i hs
          exact each_mono (hH hs) fun d hd => ⟨hd, fun hne => absurd hs hne⟩
        · exact ⟨hQ, fun _ => rfl⟩
      refine each_bind h1 ?_
      intro d1 hq1 he1
      have h2 : Ctl.Each (fun d => Q d ∧ (dec.frame_stage ≠ FrameStage.kHeader →
          dec.frame_stage ≠ FrameStage.kTOC → d = dec))
          (if d1.frame_stage = FrameStage.kTOC then frameTocStage env d1
            else Ctl.next d1) := by
        split
        · rename_i hs
          refine each_mono (hT d1 hq1 he1 hs) fun d hd => ⟨hd, fun hne hnt => ?_⟩
          rw [he1 hne] at hs
          exact absurd hs hnt
        · exact ⟨hq1, fun hne _ => he1 hne⟩
      refine each_bind h2 ?_
      intro d2 hq2 he2
      have h3 : Ctl.Each Q
          (if d2.frame_stage = FrameStage.kFull then frameFullStage env d2
            else Ctl.next d2) := by
        split
        · rename_i hs
          exact hF d2 hq2 he2 hs
        · exact hq2
      refine each_andThen h3 ?_
      intro d3 hq3
      split
      · exact each_andThen (hO d3 hq3) fun d4 hq4 => hE d4 _ hq4
      · exact hE d3 _ hq3

theorem frameFullStage_flags (env : FrameEnv E) (dec : JxlDecoder E) :
    Ctl.Each (fun d => FlagsKept dec d ∧ d.skip_frames = dec.skip_frames)
      (frameFullStage env dec) := by
  unfold frameFullStage
  have hp := prepareOutput_book env dec
  generalize prepareOutput env dec = c at hp
  cases c with
  | ret st d => exact ⟨flagsKept_of_eq hp.2.2.2, hp.1⟩
  | again d => exact ⟨flagsKept_of_eq hp.2.2.2, hp.1⟩
  | stop d => exact ⟨flagsKept_of_eq hp.2.2.2, hp.1⟩
  | abort => trivial
  | next d1 =>
    show Ctl.Each _ (match JxlDecoderProcessSections env d1 with
      | none => Ctl.abort
      | some (st, dec2) =>
        if st ≠ JXL_DEC_SUCCESS then Ctl.ret st dec2
        else afterSections env (env.nextNumPassesToPause d1.ext) dec2)
    have h1 : FlagsKept dec d1 ∧ d1.skip_frames = dec.skip_frames :=
      ⟨flagsKept_of_eq hp.2.2.2, hp.1⟩
    split
    · trivial
    · rename_i st d2 hps
      have h2 := JxlDecoderProcessSections_flags env d1 d2 st hps
      have h12 : FlagsKept dec d2 ∧ d2.skip_frames = dec.skip_frames :=
        ⟨flagsKept_trans h1.1 h2.1, h2.2.trans h1.2⟩
      split
      · exact h12
      · exact each_mono (afterSections_book env _ d2) fun d hd =>
          ⟨flagsKept_trans h12.1 (flagsKept_of_eq hd.2.2.2), hd.1.trans h12.2⟩

/-- One pass through the body of the frame loop that starts after the header
stage leaves `skip_frames` as it is. -/
theorem frameIteration_skip_frames (env : FrameEnv E) (dec : JxlDecoder E)
    (hs : dec.frame_stage ≠ FrameStage.kHeader) :
    Ctl.Each (fun d => d.skip_frames = dec.skip_frames) (frameIteration env dec) := by
  refine frameIteration_each env dec _ rfl (fun h => absurd h hs) ?_ ?_ ?_ ?_
  · intro d hd _ _
    exact each_mono (frameTocStage_skip env d) fun x hx => hx.1.trans hd
  · intro d hd _ _
    exact each_mono (frameFullStage_flags env d) fun x hx => hx.2.trans hd
  · intro d hd
    exact each_mono (frameOutputStage_book env d) fun x hx => hx.1.trans hd
  · intro d flags hd
    exact each_mono (frameFinish_book env flags d) fun x hx => hx.1.trans hd

/-- One pass through the body of the frame loop that starts in the Full stage
or in the output stage clears no flag of `section_processed`. -/
theorem frameIteration_flags (env : FrameEnv E) (dec : JxlDecoder E)
    (hs : dec.frame_stage = FrameStage.kFull ∨ dec.frame_stage = FrameStage.kFullOutput) :
    Ctl.Each (FlagsKept dec) (frameIteration env dec) := by
  have hne : dec.frame_stage ≠ FrameStage.kHeader := by
    rcases hs with h | h <;> rw [h] <;> decide
  have hnt : dec.frame_stage ≠ FrameStage.kTOC := by
    rcases hs with h | h <;> rw [h] <;> decide
  refine frameIteration_each env dec _ (flagsKept_refl dec) (fun h => absurd h hne) ?_ ?_ ?_ ?_
  · intro d _ he hst
    rw [he hne] at hst
    exact absurd hst hnt
  · intro d hd _ _
    exact each_mono (frameFullStage_flags env d) fun x hx => flagsKept_trans hd hx.1
  · intro d hd
    exact each_mono (frameOutputStage_book env d) fun x hx =>
      flagsKept_trans hd (flagsKept_of_eq hx.2.2.2)
  · intro d flags hd
    exact each_mono (frameFinish_book env flags d) fun x hx =>
      flagsKept_trans hd (flagsKept_of_eq hx.2.2.2)

end IterationLemmas

section SkipRule
variable {E : Type}

/-- What `registerFrame` leaves in the fields of the skip logic. -/
theorem registerFrame_skip (env : FrameEnv E) (dec d : JxlDecoder E) (i : Nat)
    (h : registerFrame env dec = some (i, d)) :
    d.is_last_of_still =
      ((env.is_last dec.ext || decide (env.duration dec.ext > 0)) ||
        (!dec.coalescing && env.isRegularFrame dec.ext)) ∧
    d.skipping_frame = decide (dec.skip_frames > 0) ∧
    d.skip_frames =
      (if dec.skip_frames > 0 ∧ d.is_last_of_still = true then sizeSub dec.skip_frames 1
       else dec.skip_frames) ∧
    d.remaining_frame_size = dec.remaining_frame_size ∧ d.frame_stage = dec.frame_stage ∧
    d.ext = dec.ext := by
  unfold registerFrame at h
  simp only at h
  split at h
  · cases h
  · rename_i d2 h2
    have hd2 : d2.is_last_of_still =
          ((env.is_last dec.ext || decide (env.duration dec.ext > 0)) ||
            (!dec.coalescing && env.isRegularFrame dec.ext)) ∧
        d2.skipping_frame = decide (dec.skip_frames > 0) ∧
        d2.skip_frames =
          (if dec.skip_frames > 0 ∧ d2.is_last_of_still = true then sizeSub dec.skip_frames 1
           else dec.skip_frames) ∧
        d2.remaining_frame_size = dec.remaining_frame_size ∧
        d2.frame_stage = dec.frame_stage ∧ d2.ext = dec.ext := by
      split at h2
      · split at h2
        · simp only [Option.some.injEq] at h2
          rw [← h2]
          exact ⟨rfl, rfl, rfl, rfl, rfl, rfl⟩
        · cases h2
      · simp only [Option.some.injEq] at h2
        rw [← h2]
        exact ⟨rfl, rfl, rfl, rfl, rfl, rfl⟩
    split at h
    · split at h
      · simp only [Option.some.injEq, Prod.mk.injEq] at h
        rw [← h.2]; exact hd2
      · cases h
    · simp only [Option.some.injEq, Prod.mk.injEq] at h
      rw [← h.2]; exact hd2

theorem stillsBefore_zero (log : List (Bool × Bool)) : stillsBefore log 0 = 0 := by
  simp [stillsBefore]

theorem stillsBefore_succ (e : Bool × Bool) (log : List (Bool × Bool)) (k : Nat) :
    stillsBefore (e :: log) (k + 1) = (if e.2 then 1 else 0) + stillsBefore log k := by
  simp only [stillsBefore, List.take_succ_cons, List.filter_cons]
  split
  · simp only [List.length_cons]; omega
  · omega

/-- A run of frame headers from a state with `skip_frames = n`: the frame at
position `k` is marked as skipping exactly if fewer than `n` externally visible
frames were completed before it, and at the end `skip_frames` is `n` less the
number of externally visible frames completed, or zero. -/
theorem HeaderRun_skipping (env : FrameEnv E) (dec dlast : JxlDecoder E)
    (log : List (Bool × Bool)) (hrun : HeaderRun env dec log dlast)
    (hn : dec.skip_frames < SIZE_MOD) :
    (∀ k : Nat, k < log.length →
      (log[k]?).map Prod.fst = some (decide (stillsBefore log k < dec.skip_frames))) ∧
    dlast.skip_frames = dec.skip_frames - stillsBefore log log.length := by
  induction hrun with
  | done dec dlast hlast =>
    refine ⟨fun k hk => by simp at hk, ?_⟩
    rw [hlast]
    simp [stillsBefore]
  | header dec d dnext dlast i rest hreg hbetween hrest ih =>
    obtain ⟨hl, hs, hk, _⟩ := registerFrame_skip env dec d i hreg
    have hnext : dnext.skip_frames =
        dec.skip_frames - (if d.is_last_of_still then 1 else 0) := by
      rw [hbetween, hk]
      by_cases hpos : dec.skip_frames > 0
      · cases hd : d.is_last_of_still
        · simp
        · simp only [hpos, true_and, if_true]
          exact sizeSub_of_le (by omega) hn
      · have hz : dec.skip_frames = 0 := by omega
        simp [hz]
    obtain ⟨ih1, ih2⟩ := ih (by rw [hnext]; omega)
    constructor
    · intro k hklt
      cases k with
      | zero =>
        simp only [List.getElem?_cons_zero, Option.map_some', stillsBefore_zero, hs]
      | succ k =>
        simp only [List.length_cons, Nat.add_lt_add_iff_right] at hklt
        have := ih1 k hklt
        simp only [List.getElem?_cons_succ, stillsBefore_succ]
        rw [this, hnext]
        congr 1
        rw [decide_eq_decide]
        cases d.is_last_of_still <;> (simp; try omega)
    · rw [ih2, hnext]
      simp only [List.length_cons, stillsBefore_succ]
      cases d.is_last_of_still <;> (simp; try omega)

theorem skipKept_refl (dec : JxlDecoder E) : SkipKept dec dec := ⟨rfl, rfl, rfl, rfl⟩

theorem skipKept_trans {a b c : JxlDecoder E} (h1 : SkipKept a b) (h2 : SkipKept b c) :
    SkipKept a c :=
  ⟨h2.1.trans h1.1, h2.2.1.trans h1.2.1, h2.2.2.1.trans h1.2.2.1,
    h2.2.2.2.trans h1.2.2.2⟩

theorem skipKept_of_cursor {dec d : JxlDecoder E} (h : ChangesOnlyCursor dec d) :
    SkipKept dec d :=
  ⟨(congrArg JxlDecoder.skip_frames h).trans rfl,
    (congrArg JxlDecoder.skipping_frame h).trans rfl,
    (congrArg JxlDecoder.coalescing h).trans rfl,
    (congrArg JxlDecoder.is_last_of_still h).trans rfl⟩

theorem chargeCpu_skip (env : FrameEnv E) (dec : JxlDecoder E) :
    SkipKept dec (chargeCpu env dec).2 ∧
    (chargeCpu env dec).2.preview_frame = dec.preview_frame := by
  unfold chargeCpu
  split
  · simp only
    split
    · exact ⟨skipKept_refl dec, rfl⟩
    · split <;> exact ⟨⟨rfl, rfl, rfl, rfl⟩, rfl⟩
  · exact ⟨skipKept_refl dec, rfl⟩

theorem announceFrame_skip (env : FrameEnv E) (i : Nat) (dec : JxlDecoder E) :
    Ctl.Each (SkipKept dec) (announceFrame env i dec) := by
  unfold announceFrame
  simp only
  split
  · have h := skipKept_of_cursor (AdvanceCodestream_cursorOnly
      ({ dec with frame_stage := FrameStage.kHeader } : JxlDecoder E) dec.remaining_frame_size)
    exact h
  · split
    · exact skipKept_refl dec
    · exact skipKept_refl dec

theorem acceptFrameHeader_skip (env : FrameEnv E) (dec : JxlDecoder E) (bits : Nat) :
    Ctl.Each (HeaderSkip env dec) (acceptFrameHeader env dec bits) := by
  have hc := AdvanceCodestream_cursorOnly dec (bits / 8)
  have h1 : SkipKept dec (dec.AdvanceCodestream (bits / 8)) := skipKept_of_cursor hc
  have hp1 : (dec.AdvanceCodestream (bits / 8)).preview_frame = dec.preview_frame :=
    (congrArg JxlDecoder.preview_frame hc).trans rfl
  unfold acceptFrameHeader
  simp only
  split
  · exact Or.inl h1
  · have hch := chargeCpu_skip env
        { (dec.AdvanceCodestream (bits / 8)) with
          ext := env.storeFrameHeader (dec.AdvanceCodestream (bits / 8)).ext }
    have h2 : SkipKept dec (chargeCpu env
        { (dec.AdvanceCodestream (bits / 8)) with
          ext := env.storeFrameHeader (dec.AdvanceCodestream (bits / 8)).ext }).2 :=
      skipKept_trans (b := { (dec.AdvanceCodestream (bits / 8)) with
          ext := env.storeFrameHeader (dec.AdvanceCodestream (bits / 8)).ext })
        h1 hch.1
    have hp2 := hch.2.trans hp1
    split
    · exact Or.inl h2
    · split
      · split
        · exact Or.inl ⟨(skipKept_of_cursor (AdvanceCodestream_cursorOnly _ _)).1.trans h2.1,
            (skipKept_of_cursor (AdvanceCodestream_cursorOnly _ _)).2.1.trans h2.2.1,
            (skipKept_of_cursor (AdvanceCodestream_cursorOnly _ _)).2.2.1.trans h2.2.2.1,
            (skipKept_of_cursor (AdvanceCodestream_cursorOnly _ _)).2.2.2.trans h2.2.2.2⟩
        · exact Or.inl h2
      · rename_i hprev
        split
        · trivial
        · rename_i i d4 hr
          have hk := announceFrame_skip env i d4
          refine each_mono hk fun d hd => Or.inr ⟨?_, _, i, d4, hr, h2.1, h2.2.2.1, hd.1, hd.2.1,
            hd.2.2.2⟩
          simp only [Bool.not_eq_true] at hprev
          rw [← hp2]
          exact hprev

theorem frameHeaderStage_skip (env : FrameEnv E) (dec : JxlDecoder E) :
    Ctl.Each (HeaderSkip env dec) (frameHeaderStage env dec) := by
  unfold frameHeaderStage
  split
  · exact Or.inl (skipKept_refl dec)
  · simp only
    split
    · exact Or.inl ⟨rfl, rfl, rfl, rfl⟩
    · split
      · trivial
      · rename_i st span d2 hg
        have hc := GetCodestreamInput_cursorOnly _ _ _ _ hg
        have h2 : SkipKept dec d2 :=
          skipKept_trans (b := { dec with
              ext := env.newFrameDecoder (env.setImageBundleJpegData dec.ext).2
              frame_dec := true
              frame_header := true })
            ⟨rfl, rfl, rfl, rfl⟩ (skipKept_of_cursor hc)
        have hp2 : d2.preview_frame = dec.preview_frame :=
          (congrArg JxlDecoder.preview_frame hc).trans rfl
        split
        · exact Or.inl h2
        · generalize env.initFrame d2.ext span d2.preview_frame (outputNeeded d2) = r
          split
          · exact Or.inl (skipKept_trans (b := { d2 with ext := r.2.2.2 }) h2
              (skipKept_of_cursor (RequestMoreInput_cursorOnly _)))
          · split
            · exact Or.inl h2
            · have hk := acceptFrameHeader_skip env { d2 with ext := r.2.2.2 } r.2.2.1
              refine each_mono hk fun d hd => ?_
              rcases hd with hd | ⟨hpv, dh, i, dr, hr, e1, e2, e3, e4, e5⟩
              · exact Or.inl (skipKept_trans (b := { d2 with ext := r.2.2.2 }) h2 hd)
              · exact Or.inr ⟨hpv.symm.trans hp2 |>.symm, dh, i, dr, hr, e1.trans h2.1,
                  e2.trans h2.2.2.1, e3, e4, e5⟩

end SkipRule

section SkipClaim
variable {E : Type}

theorem recomputeFrameRequired_skip (dec d : JxlDecoder E)
    (h : recomputeFrameRequired dec = some d) : d.skip_frames = dec.skip_frames := by
  unfold recomputeFrameRequired at h
  simp only at h
  split at h
  · simp only [Option.some.injEq] at h
    rw [← h]
  · split at h
    · cases hg : GetFrameDependencies _ dec.frame_saved_as dec.frame_references with
      | none => rw [hg] at h; cases h
      | some deps =>
        rw [hg] at h
        simp only [Option.some_bind] at h
        cases hm : markRequired deps (List.replicate (_ + 1) false) with
        | none => rw [hm] at h; cases h
        | some r =>
          rw [hm] at h
          simp only [Option.map_some', Option.some.injEq] at h
          rw [← h]
    · simp only [Option.some.injEq] at h
      rw [← h]

/-- C30: the skip logic at a frame header. `registerFrame`, which the header
stage runs for every frame header that is not the preview and for no other,
computes whether the frame is the last of its still (`is_last`, or a duration
above zero, or a regular frame with coalescing disabled); with
`skip_frames = k > 0` it marks the frame as skipping and leaves `k - 1` if the
frame is the last of its still and `k` otherwise; with `skip_frames = 0` it
marks the frame as not skipping. No other block of the frame loop writes
`skip_frames`, and `JxlDecoderSkipFrames(n)` on a decoder with nothing left to
skip sets it to `n`. Hence in a run of frame headers from `skip_frames = n` the
frames marked as skipping are exactly those before which fewer than `n`
externally visible frames were completed, that is the frames of the next `n`
externally visible frames. -/
theorem skip_frames_at_frame_headers (env : FrameEnv E) :
    (∀ (dec d : JxlDecoder E) (i : Nat), registerFrame env dec = some (i, d) →
      d.is_last_of_still =
        ((env.is_last dec.ext || decide (env.duration dec.ext > 0)) ||
          (!dec.coalescing && env.isRegularFrame dec.ext)) ∧
      (0 < dec.skip_frames → dec.skip_frames < SIZE_MOD →
        d.skipping_frame = true ∧
        d.skip_frames =
          if d.is_last_of_still then dec.skip_frames - 1 else dec.skip_frames) ∧
      (dec.skip_frames = 0 → d.skipping_frame = false ∧ d.skip_frames = 0)) ∧
    (∀ dec : JxlDecoder E, Ctl.Each (HeaderSkip env dec) (frameHeaderStage env dec)) ∧
    (∀ dec : JxlDecoder E, dec.frame_stage ≠ FrameStage.kHeader →
      Ctl.Each (fun d => d.skip_frames = dec.skip_frames) (frameIteration env dec)) ∧
    (∀ (dec d : JxlDecoder E) (n : Nat), JxlDecoderSkipFrames dec n = some d →
      dec.skip_frames = 0 → n < SIZE_MOD → d.skip_frames = n) ∧
    (∀ (dec dlast : JxlDecoder E) (log : List (Bool × Bool)),
      HeaderRun env dec log dlast → dec.skip_frames < SIZE_MOD →
      (∀ k : Nat, k < log.length →
        (log[k]?).map Prod.fst = some (decide (stillsBefore log k < dec.skip_frames))) ∧
      dlast.skip_frames = dec.skip_frames - stillsBefore log log.length) := by
  refine ⟨?_, frameHeaderStage_skip env, frameIteration_skip_frames env, ?_, ?_⟩
  · intro dec d i h
    obtain ⟨h1, h2, h3, _⟩ := registerFrame_skip env dec d i h
    refine ⟨h1, ?_, ?_⟩
    · intro hpos hn
      refine ⟨by rw [h2]; exact decide_eq_true hpos, ?_⟩
      rw [h3]
      cases d.is_last_of_still
      · simp
      · simp only [hpos, true_and, if_true]
        exact sizeSub_of_le (by omega) hn
    · intro hz
      refine ⟨by rw [h2, hz]; rfl, ?_⟩
      rw [h3, hz]
      simp
  · intro dec d n h hz hn
    unfold JxlDecoderSkipFrames at h
    rw [recomputeFrameRequired_skip _ _ h]
    show sizeAdd dec.skip_frames n = n
    rw [hz]
    exact (sizeAdd_of_lt (by omega)).trans (Nat.zero_add n)
  · intro dec dlast log hrun hn
    exact HeaderRun_skipping env dec dlast log hrun hn

/-- C30 on three frame headers with the durations 0, 1 and 1 after
`JxlDecoderSkipFrames(1)`: the first two frames, which make up the first
externally visible frame, are marked as skipping, the third is not. -/
theorem skip_frames_at_frame_headers_witness :
    HeaderRun demoDurationEnv (demoAtHeader 0 1 0)
      [(true, false), (true, true), (false, true)]
      (demoNextHeader (demoNextHeader (demoNextHeader (demoAtHeader 0 1 0) 1) 1) 0) ∧
    (demoNextHeader (demoNextHeader (demoNextHeader (demoAtHeader 0 1 0) 1) 1) 0).skip_frames
      = 0 ∧
    (∀ k : Nat, k < 3 →
      ([(true, false), (true, true), (false, true)][k]?).map Prod.fst =
        some (decide (stillsBefore [(true, false), (true, true), (false, true)] k < 1))) :=
  have hrun : HeaderRun demoDurationEnv (demoAtHeader 0 1 0)
      [(true, false), (true, true), (false, true)]
      (demoNextHeader (demoNextHeader (demoNextHeader (demoAtHeader 0 1 0) 1) 1) 0) :=
    HeaderRun.header (demoAtHeader 0 1 0) _ (demoNextHeader (demoAtHeader 0 1 0) 1) _ 0 _
      (rfl : registerFrame demoDurationEnv (demoAtHeader 0 1 0) = some (0, _)) rfl
      (HeaderRun.header _ _ (demoNextHeader (demoNextHeader (demoAtHeader 0 1 0) 1) 1) _ 1 _
        (rfl : registerFrame demoDurationEnv (demoNextHeader (demoAtHeader 0 1 0) 1)
          = some (1, _)) rfl
        (HeaderRun.header _ _
          (demoNextHeader (demoNextHeader (demoNextHeader (demoAtHeader 0 1 0) 1) 1) 0) _ 2 _
          (rfl : registerFrame demoDurationEnv
            (demoNextHeader (demoNextHeader (demoAtHeader 0 1 0) 1) 1) = some (2, _)) rfl
          (HeaderRun.done _ _ rfl)))
  ⟨hrun, rfl,
    ((skip_frames_at_frame_headers demoDurationEnv).2.2.2.2 _ _ _ hrun (by decide)).1⟩

end SkipClaim

section UnprocessedOnly
variable {E : Type}

/-- An id among `unprocessedIds` is the id of an entry whose flag is not
set. -/
theorem unprocessedIds_mem (toc : List (Nat × Nat)) (flags : List Bool) (id : Nat)
    (h : id ∈ unprocessedIds toc flags) :
    ∃ i : Nat, (toc[i]?).map Prod.fst = some id ∧ flags[i]? = some false := by
  induction toc generalizing flags with
  | nil => simp [unprocessedIds] at h
  | cons e toc ih =>
    obtain ⟨id0, size⟩ := e
    cases flags with
    | nil => simp [unprocessedIds] at h
    | cons processed flags =>
      cases processed with
      | true =>
        simp only [unprocessedIds, if_true] at h
        obtain ⟨i, h1, h2⟩ := ih flags h
        exact ⟨i + 1, by simpa using h1, by simpa using h2⟩
      | false =>
        simp only [unprocessedIds, Bool.false_eq_true, if_false, List.mem_cons] at h
        rcases h with h | h
        · exact ⟨0, by simp [h], by simp⟩
        · obtain ⟨i, h1, h2⟩ := ih flags h
          exact ⟨i + 1, by simpa using h1, by simpa using h2⟩

/-- C21: `JxlDecoderProcessSections` hands the frame decoder bit readers for
entries of the table of contents whose `section_processed` flag is not set
only: the list of ids handed over is an initial part of the ids of the
unprocessed entries from `next_section` on, so each id handed over is the id of
an entry `i >= next_section` with `section_processed[i] = 0`, and the result of
the call does not depend on what the frame decoder would do with any other
list. A flag that is set stays set: through every return of
`JxlDecoderProcessSections`, and through every pass of the frame loop that
starts in the Full stage or in the output stage of a frame. -/
theorem JxlDecoderProcessSections_unprocessed_only (env : FrameEnv E) (dec : JxlDecoder E) :
    (∀ f : E → List (Nat × List Nat) → Bool × List SectionStatus × Bool × Bool × E,
      (∀ info : List (Nat × List Nat),
        info.map Prod.fst <+: unprocessedIds ((env.toc dec.ext).drop dec.next_section)
          (dec.section_processed.drop dec.next_section) →
        f dec.ext info = env.processSections dec.ext info) →
      JxlDecoderProcessSections { env with processSections := f } dec =
        JxlDecoderProcessSections env dec) ∧
    (∀ id : Nat, id ∈ unprocessedIds ((env.toc dec.ext).drop dec.next_section)
        (dec.section_processed.drop dec.next_section) →
      ∃ i : Nat, dec.next_section ≤ i ∧ ((env.toc dec.ext)[i]?).map Prod.fst = some id ∧
        dec.section_processed[i]? = some false) ∧
    (∀ (st : JxlDecoderStatus) (d : JxlDecoder E),
      JxlDecoderProcessSections env dec = some (st, d) → FlagsKept dec d) ∧
    (dec.frame_stage = FrameStage.kFull ∨ dec.frame_stage = FrameStage.kFullOutput →
      Ctl.Each (FlagsKept dec) (frameIteration env dec)) := by
  refine ⟨?_, ?_, fun st d h => (JxlDecoderProcessSections_flags env dec d st h).1,
    frameIteration_flags env dec⟩
  · intro f hf
    unfold JxlDecoderProcessSections
    cases hg : dec.GetCodestreamInput with
    | none => rfl
    | some r =>
      obtain ⟨st1, span, dec1⟩ := r
      have hc := GetCodestreamInput_cursorOnly dec dec1 st1 span hg
      have hb := sameBook_of_cursor hc
      have hext : dec1.ext = dec.ext := (congrArg JxlDecoder.ext hc).trans rfl
      simp only
      split
      · rfl
      · cases hcol : collectSections span ((env.toc dec1.ext).drop dec1.next_section)
            (dec1.section_processed.drop dec1.next_section) 0 with
        | none => rfl
        | some info =>
          have hids := collectSections_ids _ _ _ _ _ hcol
          rw [hext, hb.2.1, hb.2.2.2] at hids
          have hfe := hf info hids
          rw [← hext] at hfe
          simp only [hfe]
  · intro id hid
    obtain ⟨i, h1, h2⟩ := unprocessedIds_mem _ _ _ hid
    refine ⟨dec.next_section + i, by omega, ?_, ?_⟩
    · rw [List.getElem?_drop] at h1
      exact h1
    · rw [List.getElem?_drop] at h2
      exact h2

end UnprocessedOnly

section ReaderPlacement
variable {E : Type}

theorem tocBytes_take_succ (toc : List (Nat × Nat)) (k : Nat) (e : Nat × Nat)
    (h : toc[k]? = some e) : tocBytes (toc.take (k + 1)) = tocBytes (toc.take k) + e.2 := by
  induction toc generalizing k with
  | nil => simp at h
  | cons x toc ih =>
    cases k with
    | zero =>
      simp only [List.getElem?_cons_zero, Option.some.injEq] at h
      subst h
      simp [tocBytes]
    | succ k =>
      simp only [List.getElem?_cons_succ] at h
      rw [List.take_succ_cons, tocBytes_cons, List.take_succ_cons, tocBytes_cons, ih k h]
      omega

/-- While no entry is processed, the reader at position `k` of
`sectionReaders` is the one of the entry at position `k` of the table: it has
that entry's id, starts at the sum of the sizes of the entries before it, has
that entry's size and lies inside the span. -/
theorem sectionReaders_fresh (span : List Nat) (toc : List (Nat × Nat)) (flags : List Bool)
    (off k : Nat) (r : Nat × List Nat) (hflags : ∀ f ∈ flags, f = false)
    (h : (sectionReaders span toc flags off)[k]? = some r) :
    ∃ size : Nat, toc[k]? = some (r.1, size) ∧
      r.2 = (span.drop (off + tocBytes (toc.take k))).take size ∧
      off + tocBytes (toc.take k) + size ≤ span.length ∧ r.2.length = size := by
  induction toc generalizing flags off k with
  | nil => simp [sectionReaders] at h
  | cons e toc ih =>
    obtain ⟨id, size⟩ := e
    cases flags with
    | nil => simp [sectionReaders] at h
    | cons processed flags =>
      have hp : processed = false := hflags processed (by simp)
      subst hp
      simp only [sectionReaders, Bool.false_eq_true, if_false] at h
      split at h
      · rename_i hfit
        cases k with
        | zero =>
          simp only [List.getElem?_cons_zero, Option.some.injEq] at h
          subst h
          refine ⟨size, by simp, by simp [tocBytes], by simpa [tocBytes] using hfit, ?_⟩
          simp only [List.length_take, List.length_drop]
          omega
        | succ k =>
          simp only [List.getElem?_cons_succ] at h
          obtain ⟨s, h1, h2, h3, h4⟩ := ih flags (off + size) k
            (fun f hf => hflags f (List.mem_cons_of_mem _ hf)) h
          refine ⟨s, by simpa using h1, ?_, ?_, h4⟩
          · rw [h2, List.take_succ_cons, tocBytes_cons]
            simp only [Nat.add_assoc]
          · rw [List.take_succ_cons, tocBytes_cons]
            simp only
            omega
      · simp at h

/-- While no entry is processed, the reader at position `k` of the first loop
of `JxlDecoderProcessSections` is the one of the entry at position `k` of the
table. -/
theorem collectSections_fresh_entry (span : List Nat) (toc : List (Nat × Nat))
    (flags : List Bool) (info : List (Nat × List Nat)) (hflags : ∀ f ∈ flags, f = false)
    (hlen : toc.length ≤ flags.length) (hspan : span.length < SIZE_MOD)
    (hbytes : tocBytes toc < SIZE_MOD)
    (hcol : collectSections span toc flags 0 = some info) (k : Nat) (r : Nat × List Nat)
    (hr : info[k]? = some r) :
    ∃ size : Nat, toc[k]? = some (r.1, size) ∧
      r.2 = (span.drop (tocBytes (toc.take k))).take size ∧
      tocBytes (toc.take k) + size ≤ span.length ∧ r.2.length = size := by
  have hc := collectSections_fresh span toc flags 0 hflags hlen hspan (by omega)
  rw [hcol, Option.some.injEq] at hc
  rw [hc] at hr
  have := sectionReaders_fresh span toc flags 0 k r hflags hr
  simpa using this

/-- C26: the placement of the bit readers in `JxlDecoderProcessSections`.
The claim fails in a state in which an entry after `next_section` is processed
and an earlier one is not, a state that the decoder reaches when the frame
decoder reports a section as skipped and a later one as done: for the table of
three sections of 4, 3 and 5 bytes the first pass through the Full stage on 7
bytes leaves the flags `0 1 0`, and on the span of all 12 bytes the next call
hands the frame decoder for the third entry the 5 bytes from offset 4 on, where
the table places the third section at offset 7. The loop does not add the size
of an entry that is already processed to the offset. While no entry from
`next_section` on is processed, every reader is where the claim says: it
starts at the sum of the sizes of the entries before it, has the size of its
entry and lies inside the span. -/
theorem JxlDecoderProcessSections_reader_misplaced :
    frameFullStage demoSectionEnv (demoSections [10, 11, 12, 13, 20, 21, 22]) =
      Ctl.ret JXL_DEC_NEED_MORE_INPUT demoSectionsStalled ∧
    demoSectionsGap.section_processed = [false, true, false] ∧
    demoSectionsGap.next_section = 0 ∧
    demoSectionsGap.GetCodestreamInput.map (fun r => (r.1, r.2.1)) =
      some (JXL_DEC_SUCCESS, [10, 11, 12, 13, 20, 21, 22, 30, 31, 32, 33, 34]) ∧
    (JxlDecoderProcessSections demoSectionEnv demoSectionsGap).map (fun r => r.2.ext) =
      some [[(0, [10, 11, 12, 13]), (1, [20, 21, 22])],
        [(0, [10, 11, 12, 13]), (2, [20, 21, 22, 30, 31])]] ∧
    sectionReaders [10, 11, 12, 13, 20, 21, 22, 30, 31, 32, 33, 34] demoToc
      [false, true, false] 0 = [(0, [10, 11, 12, 13]), (2, [30, 31, 32, 33, 34])] ∧
    (∀ (span : List Nat) (toc : List (Nat × Nat)) (flags : List Bool),
      (∀ f ∈ flags, f = false) → toc.length ≤ flags.length → span.length < SIZE_MOD →
      tocBytes toc < SIZE_MOD →
      collectSections span toc flags 0 = some (sectionReaders span toc flags 0) ∧
      ∀ (k : Nat) (r : Nat × List Nat), (sectionReaders span toc flags 0)[k]? = some r →
        ∃ size : Nat, toc[k]? = some (r.1, size) ∧
          r.2 = (span.drop (tocBytes (toc.take k))).take size ∧
          tocBytes (toc.take k) + size ≤ span.length ∧ r.2.length = size) := by
  refine ⟨rfl, rfl, rfl, rfl, rfl, rfl, ?_⟩
  intro span toc flags hflags hlen hspan hbytes
  refine ⟨collectSections_fresh span toc flags 0 hflags hlen hspan (by omega), ?_⟩
  intro k r hr
  have := sectionReaders_fresh span toc flags 0 k r hflags hr
  simpa using this

/-- C27: the bookkeeping of the sections reported as done in
`JxlDecoderProcessSections`. The claim fails in the state with the flags
`0 1 0` that the first pass through the Full stage leaves for the table of
three sections of 4, 3 and 5 bytes: the next call hands over the first and the
third entry, the frame decoder reports both as done, and the call sets the
flags of the first and the second entry and counts 4 + 3 bytes, so that the
flags are `1 1 0`, `next_section` is 2 and `remaining_frame_size` is 5; the
third entry, already reported as done, is handed over again by the call after
that. The last loop takes the entry of the status at position `k` to be the
entry `next_section + k`, which it is only while no entry from `next_section`
on is processed; in such a state the reader at position `k` is the one of the
entry `next_section + k`, whose flag is set when it is reported as done. -/
theorem JxlDecoderProcessSections_flag_misplaced :
    (JxlDecoderProcessSections demoSectionEnv demoSectionsGap).map
        (fun r => (r.1, r.2.section_processed, r.2.next_section, r.2.remaining_frame_size)) =
      some (JXL_DEC_SUCCESS, [true, true, false], 2, 5) ∧
    (demoSectionEnv.processSections demoSectionsGap.ext
        [(0, [10, 11, 12, 13]), (2, [20, 21, 22, 30, 31])]).2.1 =
      [SectionStatus.kDone, SectionStatus.kDone] ∧
    frameFullStage demoSectionEnv demoSectionsGap =
      Ctl.ret JXL_DEC_NEED_MORE_INPUT demoSectionsAgain ∧
    (JxlDecoderProcessSections demoSectionEnv demoSectionsAgain).map
        (fun r => (r.2.ext.drop 2, r.2.section_processed)) =
      some ([[(2, [30, 31, 32, 33, 34])]], [true, true, true]) ∧
    (∀ (env : FrameEnv E) (dec d : JxlDecoder E),
      (∀ e info, (env.processSections e info).2.1.length = info.length) →
      tocBytes (env.toc dec.ext) < SIZE_MOD → (env.toc dec.ext).length < SIZE_MOD →
      dec.next_section < SIZE_MOD →
      JxlDecoderProcessSections env dec = some (JXL_DEC_SUCCESS, d) →
      ∃ span dec1 info, dec.GetCodestreamInput = some (JXL_DEC_SUCCESS, span, dec1) ∧
        collectSections span ((env.toc dec.ext).drop dec.next_section)
          (dec.section_processed.drop dec.next_section) 0 = some info ∧
        (∀ k : Nat, (env.processSections dec.ext info).2.1[k]? = some SectionStatus.kDone →
          d.section_processed[dec.next_section + k]? = some true) ∧
        ((∀ f ∈ dec.section_processed.drop dec.next_section, f = false) →
          (env.toc dec.ext).length ≤ dec.section_processed.length →
          span.length < SIZE_MOD →
          ∀ (k : Nat) (r : Nat × List Nat), info[k]? = some r →
            ((env.toc dec.ext)[dec.next_section + k]?).map Prod.fst = some r.1)) := by
  refine ⟨rfl, rfl, rfl, rfl, ?_⟩
  intro env dec d hst hbytes hlen hnext h
  obtain ⟨_, h2⟩ := JxlDecoderProcessSections_book env dec d _ hst hbytes hlen hnext h
  obtain ⟨span, dec1, info, hg, hcol, _, _, _, hmark, _⟩ := h2 rfl
  refine ⟨span, dec1, info, hg, hcol, hmark, ?_⟩
  intro hfresh hl hspan k r hr
  have hdl := tocBytes_drop_le (env.toc dec.ext) dec.next_section
  obtain ⟨size, h1, _⟩ := collectSections_fresh_entry span _ _ info hfresh
    (by simp only [List.length_drop]; omega) hspan (by omega) hcol k r hr
  rw [List.getElem?_drop] at h1
  rw [h1]
  rfl

end ReaderPlacement

section RemainingClaim
variable {E : Type}

end RemainingClaim

theorem highBits_testBit (j : Nat) :
    (0x8080808080808080 : Nat).testBit j = (decide (j < 64) && decide (j % 8 = 7)) := by
  by_cases h : j < 64
  · interval_cases j <;> rfl
  · have h2 : (0x8080808080808080 : Nat) < 2 ^ j :=
      lt_of_lt_of_le (by norm_num) (Nat.pow_le_pow_right (by norm_num) (Nat.le_of_not_lt h))
    rw [Nat.testBit_lt_two_pow h2]
    simp [h]

theorem testBit_div_mod (a j : Nat) : a.testBit j = decide (a / 2 ^ j % 2 = 1) :=
  Nat.testBit_to_div_mod

/-- The result of `HasZeroByte` is not zero exactly if for one of the eight
bytes the top bit is set in `x - 0x0101010101010101` and clear in `x`. -/
theorem HasZeroByte_ne_zero (x : Nat) :
    HasZeroByte x ≠ 0 ↔ ∃ i : Nat, i < 8 ∧
      ((x + 2 ^ 64 - 0x0101010101010101) % 2 ^ 64) / 2 ^ (8 * i + 7) % 2 = 1 ∧
      (2 ^ 64 - 1 - x) / 2 ^ (8 * i + 7) % 2 = 1 := by
  unfold HasZeroByte
  constructor
  · intro h
    obtain ⟨j, hj⟩ := Nat.ne_zero_implies_bit_true h
    rw [Nat.testBit_and, Nat.testBit_and, highBits_testBit] at hj
    simp only [Bool.and_eq_true, decide_eq_true_eq, testBit_div_mod] at hj
    obtain ⟨⟨h1, h2⟩, h3, h4⟩ := hj
    refine ⟨j / 8, by omega, ?_, ?_⟩
    · rw [show 8 * (j / 8) + 7 = j by omega]; exact h1
    · rw [show 8 * (j / 8) + 7 = j by omega]; exact h2
  · rintro ⟨i, hi, h1, h2⟩ h0
    have : (((x + 2 ^ 64 - 0x0101010101010101) % 2 ^ 64) &&& (2 ^ 64 - 1 - x) &&&
        0x8080808080808080).testBit (8 * i + 7) = true := by
      rw [Nat.testBit_and, Nat.testBit_and, highBits_testBit]
      simp only [Bool.and_eq_true, decide_eq_true_eq, testBit_div_mod]
      exact ⟨⟨h1, h2⟩, by omega, by omega⟩
    rw [h0] at this
    simp at this

theorem zero_byte_bit_0 (x : Nat) (hx : x < 2 ^ 64) (hz : x / 1 % 256 = 0) :
    ((x + 2 ^ 64 - 0x0101010101010101) % 2 ^ 64) / 2 ^ (8 * 0 + 7) % 2 = 1 ∧
    (2 ^ 64 - 1 - x) / 2 ^ (8 * 0 + 7) % 2 = 1 := by
  norm_num at hx ⊢
  omega

theorem zero_byte_bit_1 (x : Nat) (hx : x < 2 ^ 64) (hz : x / 256 % 256 = 0) :
    ((x + 2 ^ 64 - 0x0101010101010101) % 2 ^ 64) / 2 ^ (8 * 1 + 7) % 2 = 1 ∧
    (2 ^ 64 - 1 - x) / 2 ^ (8 * 1 + 7) % 2 = 1 := by
  norm_num at hx ⊢
  omega

theorem zero_byte_bit_2 (x : Nat) (hx : x < 2 ^ 64) (hz : x / 65536 % 256 = 0) :
    ((x + 2 ^ 64 - 0x0101010101010101) % 2 ^ 64) / 2 ^ (8 * 2 + 7) % 2 = 1 ∧
    (2 ^ 64 - 1 - x) / 2 ^ (8 * 2 + 7) % 2 = 1 := by
  norm_num at hx ⊢
  omega

theorem zero_byte_bit_3 (x : Nat) (hx : x < 2 ^ 64) (hz : x / 16777216 % 256 = 0) :
    ((x + 2 ^ 64 - 0x0101010101010101) % 2 ^ 64) / 2 ^ (8 * 3 + 7) % 2 = 1 ∧
    (2 ^ 64 - 1 - x) / 2 ^ (8 * 3 + 7) % 2 = 1 := by
  norm_num at hx ⊢
  omega

theorem zero_byte_bit_4 (x : Nat) (hx : x < 2 ^ 64) (hz : x / 4294967296 % 256 = 0) :
    ((x + 2 ^ 64 - 0x0101010101010101) % 2 ^ 64) / 2 ^ (8 * 4 + 7) % 2 = 1 ∧
    (2 ^ 64 - 1 - x) / 2 ^ (8 * 4 + 7) % 2 = 1 := by
  norm_num at hx ⊢
  omega

theorem zero_byte_bit_5 (x : Nat) (hx : x < 2 ^ 64) (hz : x / 1099511627776 % 256 = 0) :
    ((x + 2 ^ 64 - 0x0101010101010101) % 2 ^ 64) / 2 ^ (8 * 5 + 7) % 2 = 1 ∧
    (2 ^ 64 - 1 - x) / 2 ^ (8 * 5 + 7) % 2 = 1 := by
  norm_num at hx ⊢
  omega

theorem zero_byte_bit_6 (x : Nat) (hx : x < 2 ^ 64) (hz : x / 281474976710656 % 256 = 0) :
    ((x + 2 ^ 64 - 0x0101010101010101) % 2 ^ 64) / 2 ^ (8 * 6 + 7) % 2 = 1 ∧
    (2 ^ 64 - 1 - x) / 2 ^ (8 * 6 + 7) % 2 = 1 := by
  norm_num at hx ⊢
  omega

theorem zero_byte_bit_7 (x : Nat) (hx : x < 2 ^ 64) (hz : x / 72057594037927936 % 256 = 0) :
    ((x + 2 ^ 64 - 0x0101010101010101) % 2 ^ 64) / 2 ^ (8 * 7 + 7) % 2 = 1 ∧
    (2 ^ 64 - 1 - x) / 2 ^ (8 * 7 + 7) % 2 = 1 := by
  norm_num at hx ⊢
  omega

theorem no_zero_byte_bit_0 (x : Nat) (hx : x < 2 ^ 64) (h0 : x / 1 % 256 ≥ 1)
    (hy : ((x + 2 ^ 64 - 0x0101010101010101) % 2 ^ 64) / 2 ^ (8 * 0 + 7) % 2 = 1)
    (hn : (2 ^ 64 - 1 - x) / 2 ^ (8 * 0 + 7) % 2 = 1) : False := by
  norm_num at hx hy hn
  omega

theorem no_zero_byte_bit_1 (x : Nat) (hx : x < 2 ^ 64) (h0 : x / 1 % 256 ≥ 1) (h1 : x / 256 % 256 ≥ 1)
    (hy : ((x + 2 ^ 64 - 0x0101010101010101) % 2 ^ 64) / 2 ^ (8 * 1 + 7) % 2 = 1)
    (hn : (2 ^ 64 - 1 - x) / 2 ^ (8 * 1 + 7) % 2 = 1) : False := by
  norm_num at hx hy hn
  omega

theorem no_zero_byte_bit_2 (x : Nat) (hx : x < 2 ^ 64) (h0 : x / 1 % 256 ≥ 1) (h1 : x / 256 % 256 ≥ 1) (h2 : x / 65536 % 256 ≥ 1)
    (hy : ((x + 2 ^ 64 - 0x0101010101010101) % 2 ^ 64) / 2 ^ (8 * 2 + 7) % 2 = 1)
    (hn : (2 ^ 64 - 1 - x) / 2 ^ (8 * 2 + 7) % 2 = 1) : False := by
  norm_num at hx hy hn
  omega

theorem no_zero_byte_bit_3 (x : Nat) (hx : x < 2 ^ 64) (h0 : x / 1 % 256 ≥ 1) (h1 : x / 256 % 256 ≥ 1) (h2 : x / 65536 % 256 ≥ 1) (h3 : x / 16777216 % 256 ≥ 1)
    (hy : ((x + 2 ^ 64 - 0x0101010101010101) % 2 ^ 64) / 2 ^ (8 * 3 + 7) % 2 = 1)
    (hn : (2 ^ 64 - 1 - x) / 2 ^ (8 * 3 + 7) % 2 = 1) : False := by
  norm_num at hx hy hn
  omega

theorem no_zero_byte_bit_4 (x : Nat) (hx : x < 2 ^ 64) (h0 : x / 1 % 256 ≥ 1) (h1 : x / 256 % 256 ≥ 1) (h2 : x / 65536 % 256 ≥ 1) (h3 : x / 16777216 % 256 ≥ 1) (h4 : x / 4294967296 % 256 ≥ 1)
    (hy : ((x + 2 ^ 64 - 0x0101010101010101) % 2 ^ 64) / 2 ^ (8 * 4 + 7) % 2 = 1)
    (hn : (2 ^ 64 - 1 - x) / 2 ^ (8 * 4 + 7) % 2 = 1) : False := by
  norm_num at hx hy hn
  omega

theorem no_zero_byte_bit_5 (x : Nat) (hx : x < 2 ^ 64) (h0 : x / 1 % 256 ≥ 1) (h1 : x / 256 % 256 ≥ 1) (h2 : x / 65536 % 256 ≥ 1) (h3 : x / 16777216 % 256 ≥ 1) (h4 : x / 4294967296 % 256 ≥ 1) (h5 : x / 1099511627776 % 256 ≥ 1)
    (hy : ((x + 2 ^ 64 - 0x0101010101010101) % 2 ^ 64) / 2 ^ (8 * 5 + 7) % 2 = 1)
    (hn : (2 ^ 64 - 1 - x) / 2 ^ (8 * 5 + 7) % 2 = 1) : False := by
  norm_num at hx hy hn
  omega

theorem no_zero_byte_bit_6 (x : Nat) (hx : x < 2 ^ 64) (h0 : x / 1 % 256 ≥ 1) (h1 : x / 256 % 256 ≥ 1) (h2 : x / 65536 % 256 ≥ 1) (h3 : x / 16777216 % 256 ≥ 1) (h4 : x / 4294967296 % 256 ≥ 1) (h5 : x / 1099511627776 % 256 ≥ 1) (h6 : x / 281474976710656 % 256 ≥ 1)
    (hy : ((x + 2 ^ 64 - 0x0101010101010101) % 2 ^ 64) / 2 ^ (8 * 6 + 7) % 2 = 1)
    (hn : (2 ^ 64 - 1 - x) / 2 ^ (8 * 6 + 7) % 2 = 1) : False := by
  norm_num at hx hy hn
  omega

theorem no_zero_byte_bit_7 (x : Nat) (hx : x < 2 ^ 64) (h0 : x / 1 % 256 ≥ 1) (h1 : x / 256 % 256 ≥ 1) (h2 : x / 65536 % 256 ≥ 1) (h3 : x / 16777216 % 256 ≥ 1) (h4 : x / 4294967296 % 256 ≥ 1) (h5 : x / 1099511627776 % 256 ≥ 1) (h6 : x / 281474976710656 % 256 ≥ 1) (h7 : x / 72057594037927936 % 256 ≥ 1)
    (hy : ((x + 2 ^ 64 - 0x0101010101010101) % 2 ^ 64) / 2 ^ (8 * 7 + 7) % 2 = 1)
    (hn : (2 ^ 64 - 1 - x) / 2 ^ (8 * 7 + 7) % 2 = 1) : False := by
  norm_num at hx hy hn
  omega

/-- C25: for every 64-bit value `x`, `HasZeroByte(x)` is not zero if and only
if one of the eight bytes of `x` is zero. -/
theorem HasZeroByte_iff (x : Nat) (hx : x < 2 ^ 64) :
    HasZeroByte x ≠ 0 ↔ ∃ k : Nat, k < 8 ∧ byteOf x k = 0 := by
  rw [HasZeroByte_ne_zero]
  constructor
  · rintro ⟨i, hi, hy, hn⟩
    by_contra hne
    push_neg at hne
    have h0 : x / 1 % 256 ≥ 1 := by
      have := hne 0 (by norm_num)
      simp only [byteOf] at this
      norm_num at this
      omega
    have h1 : x / 256 % 256 ≥ 1 := by
      have := hne 1 (by norm_num)
      simp only [byteOf] at this
      norm_num at this
      omega
    have h2 : x / 65536 % 256 ≥ 1 := by
      have := hne 2 (by norm_num)
      simp only [byteOf] at this
      norm_num at this
      omega
    have h3 : x / 16777216 % 256 ≥ 1 := by
      have := hne 3 (by norm_num)
      simp only [byteOf] at this
      norm_num at this
      omega
    have h4 : x / 4294967296 % 256 ≥ 1 := by
      have := hne 4 (by norm_num)
      simp only [byteOf] at this
      norm_num at this
      omega
    have h5 : x / 1099511627776 % 256 ≥ 1 := by
      have := hne 5 (by norm_num)
      simp only [byteOf] at this
      norm_num at this
      omega
    have h6 : x / 281474976710656 % 256 ≥ 1 := by
      have := hne 6 (by norm_num)
      simp only [byteOf] at this
      norm_num at this
      omega
    have h7 : x / 72057594037927936 % 256 ≥ 1 := by
      have := hne 7 (by norm_num)
      simp only [byteOf] at this
      norm_num at this
      omega
    interval_cases i
    · exact no_zero_byte_bit_0 x hx h0 hy hn
    · exact no_zero_byte_bit_1 x hx h0 h1 hy hn
    · exact no_zero_byte_bit_2 x hx h0 h1 h2 hy hn
    · exact no_zero_byte_bit_3 x hx h0 h1 h2 h3 hy hn
    · exact no_zero_byte_bit_4 x hx h0 h1 h2 h3 h4 hy hn
    · exact no_zero_byte_bit_5 x hx h0 h1 h2 h3 h4 h5 hy hn
    · exact no_zero_byte_bit_6 x hx h0 h1 h2 h3 h4 h5 h6 hy hn
    · exact no_zero_byte_bit_7 x hx h0 h1 h2 h3 h4 h5 h6 h7 hy hn
  · rintro ⟨k, hk, hz⟩
    simp only [byteOf] at hz
    interval_cases k
    · exact ⟨0, by norm_num, zero_byte_bit_0 x hx (by norm_num at hz ⊢; exact hz)⟩
    · exact ⟨1, by norm_num, zero_byte_bit_1 x hx (by norm_num at hz ⊢; exact hz)⟩
    · exact ⟨2, by norm_num, zero_byte_bit_2 x hx (by norm_num at hz ⊢; exact hz)⟩
    · exact ⟨3, by norm_num, zero_byte_bit_3 x hx (by norm_num at hz ⊢; exact hz)⟩
    · exact ⟨4, by norm_num, zero_byte_bit_4 x hx (by norm_num at hz ⊢; exact hz)⟩
    · exact ⟨5, by norm_num, zero_byte_bit_5 x hx (by norm_num at hz ⊢; exact hz)⟩
    · exact ⟨6, by norm_num, zero_byte_bit_6 x hx (by norm_num at hz ⊢; exact hz)⟩
    · exact ⟨7, by norm_num, zero_byte_bit_7 x hx (by norm_num at hz ⊢; exact hz)⟩

/-- C25 on two values: `0x1122334455007788` has a zero byte, and
`0x1122334455667788` has none. -/
theorem HasZeroByte_iff_witness :
    (HasZeroByte 0x1122334455007788 ≠ 0 ↔ ∃ k : Nat, k < 8 ∧ byteOf 0x1122334455007788 k = 0) ∧
    HasZeroByte 0x1122334455007788 = 0x800000 ∧ byteOf 0x1122334455007788 2 = 0 ∧
    HasZeroByte 0x1122334455667788 = 0 :=
  ⟨HasZeroByte_iff 0x1122334455007788 (by norm_num), by decide, by decide, by decide⟩

section GainMapLemmas
variable {X C : Type}

theorem SwapByteOrder32_testBit (v j : Nat) (hj : j < 32) :
    (SwapByteOrder32 v).testBit j = v.testBit (24 - 8 * (j / 8) + j % 8) := by
  have m0 : (0x000000FF : Nat) = 2 ^ 8 - 1 := by norm_num
  have m1 : (0x0000FF00 : Nat) = (2 ^ 8 - 1) <<< 8 := by decide
  have m2 : (0x00FF0000 : Nat) = (2 ^ 8 - 1) <<< 16 := by decide
  have m3 : (0xFF000000 : Nat) = (2 ^ 8 - 1) <<< 24 := by decide
  unfold SwapByteOrder32
  rw [m0, m1, m2, m3]
  simp only [Nat.testBit_mod_two_pow, Nat.testBit_or, Nat.testBit_and, Nat.testBit_shiftLeft,
    Nat.testBit_shiftRight, Nat.testBit_two_pow_sub_one]
  interval_cases j <;> simp

theorem SwapByteOrder32_lt (v : Nat) : SwapByteOrder32 v < 2 ^ 32 :=
  Nat.mod_lt _ (by norm_num)

theorem testBit_of_lt_of_le {v n j : Nat} (hv : v < 2 ^ n) (hj : n ≤ j) :
    v.testBit j = false :=
  Nat.testBit_lt_two_pow (lt_of_lt_of_le hv (Nat.pow_le_pow_right (by norm_num) hj))

theorem SwapByteOrder32_twice (v : Nat) (hv : v < 2 ^ 32) :
    SwapByteOrder32 (SwapByteOrder32 v) = v := by
  apply Nat.eq_of_testBit_eq
  intro j
  by_cases hj : j < 32
  · rw [SwapByteOrder32_testBit _ j hj, SwapByteOrder32_testBit _ _ (by omega)]
    congr 1
    omega
  · rw [testBit_of_lt_of_le (SwapByteOrder32_lt _) (by omega),
      testBit_of_lt_of_le hv (by omega)]

theorem SwapByteOrder16_testBit (v j : Nat) (hj : j < 16) :
    (SwapByteOrder16 v).testBit j = v.testBit (8 - 8 * (j / 8) + j % 8) := by
  have m0 : (0x00FF : Nat) = 2 ^ 8 - 1 := by norm_num
  have m1 : (0xFF00 : Nat) = (2 ^ 8 - 1) <<< 8 := by decide
  unfold SwapByteOrder16
  rw [m0, m1]
  simp only [Nat.testBit_mod_two_pow, Nat.testBit_or, Nat.testBit_and, Nat.testBit_shiftLeft,
    Nat.testBit_shiftRight, Nat.testBit_two_pow_sub_one]
  interval_cases j <;> simp

theorem SwapByteOrder16_lt (v : Nat) : SwapByteOrder16 v < 2 ^ 16 :=
  Nat.mod_lt _ (by norm_num)

theorem SwapByteOrder16_twice (v : Nat) (hv : v < 2 ^ 16) :
    SwapByteOrder16 (SwapByteOrder16 v) = v := by
  apply Nat.eq_of_testBit_eq
  intro j
  by_cases hj : j < 16
  · rw [SwapByteOrder16_testBit _ j hj, SwapByteOrder16_testBit _ _ (by omega)]
    congr 1
    omega
  · rw [testBit_of_lt_of_le (SwapByteOrder16_lt _) (by omega),
      testBit_of_lt_of_le hv (by omega)]

theorem toBits_length (n v : Nat) : (toBits n v).length = n := by
  induction n generalizing v with
  | zero => rfl
  | succ n ih => simp [toBits, ih]

theorem ofBits_toBits (n v : Nat) : ofBits (toBits n v) = v % 2 ^ n := by
  induction n generalizing v with
  | zero => simp [toBits, ofBits, Nat.mod_one]
  | succ n ih =>
    simp only [toBits, ofBits, ih]
    have h2 : v % 2 ^ (n + 1) = v % 2 + 2 * (v / 2 % 2 ^ n) := by
      rw [pow_succ, Nat.mul_comm, Nat.mod_mul]
    rw [h2]
    rcases Nat.mod_two_eq_zero_or_one v with h | h <;> simp [h]

theorem toBits_ofBits (l : List Bool) (n : Nat) (h : l.length ≤ n) :
    toBits n (ofBits l) = l ++ List.replicate (n - l.length) false := by
  induction l generalizing n with
  | nil =>
    simp only [ofBits, List.length_nil, Nat.sub_zero, List.nil_append]
    clear h
    induction n with
    | zero => rfl
    | succ n ih => simp [toBits, List.replicate_succ, ih]
  | cons b l ih =>
    cases n with
    | zero => simp at h
    | succ n =>
      simp only [List.length_cons, Nat.add_le_add_iff_right] at h
      simp only [toBits, ofBits, List.length_cons, Nat.add_sub_add_right, List.cons_append]
      have h1 : ((if b = true then 1 else 0) + 2 * ofBits l) / 2 = ofBits l := by
        cases b <;> first | (simp; omega) | simp
      have h2 : decide (((if b = true then 1 else 0) + 2 * ofBits l) % 2 = 1) = b := by
        cases b <;> simp
      rw [h1, h2, ih n h]

/-- The reading visitor finds the value that the writing visitor has put. -/
theorem readVisitor_bits (env : GainMapEnv X C) (n x v : Nat) (rest : List Bool)
    (hv : v < 2 ^ n) :
    (readVisitor env).bits n x (toBits n v ++ rest) = some (v, rest) := by
  simp only [readVisitor, List.length_append, toBits_length, Nat.le_add_right, if_true]
  rw [List.take_left' (toBits_length n v), List.drop_left' (toBits_length n v), ofBits_toBits,
    Nat.mod_eq_of_lt hv]

theorem writeVisitor_bits (env : GainMapEnv X C) (n v : Nat) (s : List Bool)
    (hv : v < 2 ^ n) : (writeVisitor env).bits n v s = some (v, s ++ toBits n v) := by
  simp [writeVisitor, hv]

theorem visitBytes_write (env : GainMapEnv X C) (l : List Nat) (s : List Bool)
    (hl : ∀ b ∈ l, b < 256) :
    visitBytes (writeVisitor env) l s = some (l, s ++ l.flatMap (toBits 8)) := by
  induction l generalizing s with
  | nil => simp [visitBytes]
  | cons b l ih =>
    have hb : b < 2 ^ 8 := hl b (by simp)
    simp only [visitBytes, writeVisitor_bits env 8 b s hb,
      ih (s ++ toBits 8 b) (fun x hx => hl x (List.mem_cons_of_mem _ hx)),
      List.flatMap_cons, List.append_assoc]
    rw [Nat.mod_eq_of_lt (hl b (by simp))]

theorem visitBytes_read (env : GainMapEnv X C) (l0 l : List Nat) (rest : List Bool)
    (hlen : l0.length = l.length) (hl : ∀ b ∈ l, b < 256) :
    visitBytes (readVisitor env) l0 (l.flatMap (toBits 8) ++ rest) = some (l, rest) := by
  induction l generalizing l0 with
  | nil =>
    have : l0 = [] := List.length_eq_zero.1 hlen
    subst this
    simp [visitBytes]
  | cons b l ih =>
    cases l0 with
    | nil => simp at hlen
    | cons b0 l0 =>
      have hb : b < 2 ^ 8 := hl b (by simp)
      simp only [List.length_cons, Nat.add_right_cancel_iff] at hlen
      simp only [visitBytes, List.flatMap_cons, List.append_assoc,
        readVisitor_bits env 8 b0 b _ hb,
        ih l0 hlen (fun x hx => hl x (List.mem_cons_of_mem _ hx))]
      rw [Nat.mod_eq_of_lt (hl b (by simp))]

theorem resizeBytes_self (l : List Nat) : resizeBytes l l.length = l := by
  simp [resizeBytes]

theorem resizeBytes_nil_length (n : Nat) : (resizeBytes [] n).length = n := by
  simp [resizeBytes]

/-- The bytes of a padded bit writer hold the bits written, followed by
padding bits. -/
theorem unpackBits_packBits (l : List Bool) :
    ∃ pad : List Bool, unpackBits (packBits l) = l ++ pad := by
  generalize h : l.length = n
  induction n using Nat.strong_induction_on generalizing l with
  | _ n ih =>
    match l, h with
    | b0 :: b1 :: b2 :: b3 :: b4 :: b5 :: b6 :: b7 :: rest, h =>
      obtain ⟨pad, hpad⟩ := ih rest.length (by rw [← h]; simp only [List.length_cons]; omega) rest rfl
      refine ⟨pad, ?_⟩
      simp only [packBits, unpackBits, List.flatMap_cons]
      simp only [unpackBits] at hpad
      rw [hpad, toBits_ofBits _ 8 (by simp)]
      simp
    | [], _ => exact ⟨[], by simp [packBits, unpackBits]⟩
    | [b0], _ => exact ⟨_, by
        simp only [packBits, unpackBits, List.flatMap_cons, List.flatMap_nil, List.append_nil]
        rw [toBits_ofBits _ 8 (by simp)]⟩
    | [b0, b1], _ => exact ⟨_, by
        simp only [packBits, unpackBits, List.flatMap_cons, List.flatMap_nil, List.append_nil]
        rw [toBits_ofBits _ 8 (by simp)]⟩
    | [b0, b1, b2], _ => exact ⟨_, by
        simp only [packBits, unpackBits, List.flatMap_cons, List.flatMap_nil, List.append_nil]
        rw [toBits_ofBits _ 8 (by simp)]⟩
    | [b0, b1, b2, b3], _ => exact ⟨_, by
        simp only [packBits, unpackBits, List.flatMap_cons, List.flatMap_nil, List.append_nil]
        rw [toBits_ofBits _ 8 (by simp)]⟩
    | [b0, b1, b2, b3, b4], _ => exact ⟨_, by
        simp only [packBits, unpackBits, List.flatMap_cons, List.flatMap_nil, List.append_nil]
        rw [toBits_ofBits _ 8 (by simp)]⟩
    | [b0, b1, b2, b3, b4, b5], _ => exact ⟨_, by
        simp only [packBits, unpackBits, List.flatMap_cons, List.flatMap_nil, List.append_nil]
        rw [toBits_ofBits _ 8 (by simp)]⟩
    | [b0, b1, b2, b3, b4, b5, b6], _ => exact ⟨_, by
        simp only [packBits, unpackBits, List.flatMap_cons, List.flatMap_nil, List.append_nil]
        rw [toBits_ofBits _ 8 (by simp)]⟩

end GainMapLemmas

section GainMapRoundtrip
variable {X C : Type}

/-- What the writing visit of a bundle whose fields fit their types emits. -/
theorem VisitFields_write (env : GainMapEnv X C) (b : JxlGainMapBundleInternal C)
    (cbits : List Bool) (hver : b.jhgm_version < 256)
    (hmeta : b.gain_map_metadata.length < 2 ^ 16)
    (hmetab : ∀ x ∈ b.gain_map_metadata, x < 256)
    (hces : b.color_encoding_size < 2 ^ 32)
    (hcolor : if 0 < b.color_encoding_size then env.writeColor b.color_encoding = some cbits
      else cbits = [])
    (hicc : b.compressed_icc.length < 2 ^ 32) (hiccb : ∀ x ∈ b.compressed_icc, x < 256)
    (hgm : b.gain_map.length < 2 ^ 32) (hgmb : ∀ x ∈ b.gain_map, x < 256) :
    VisitFields (writeVisitor env) b [] = some (b, bundleBits b cbits []) := by
  have h16 := SwapByteOrder16_lt b.gain_map_metadata.length
  have hnested : (if (writeVisitor env).conditional (decide (0 < b.color_encoding_size)) = true
      then (writeVisitor env).visitNested b.color_encoding
        ([] ++ toBits 8 b.jhgm_version ++ toBits 16 (SwapByteOrder16 b.gain_map_metadata.length)
          ++ b.gain_map_metadata.flatMap (toBits 8) ++ toBits 32 b.color_encoding_size)
      else some (b.color_encoding,
        [] ++ toBits 8 b.jhgm_version ++ toBits 16 (SwapByteOrder16 b.gain_map_metadata.length)
          ++ b.gain_map_metadata.flatMap (toBits 8) ++ toBits 32 b.color_encoding_size)) =
      some (b.color_encoding,
        [] ++ toBits 8 b.jhgm_version ++ toBits 16 (SwapByteOrder16 b.gain_map_metadata.length)
          ++ b.gain_map_metadata.flatMap (toBits 8) ++ toBits 32 b.color_encoding_size
          ++ cbits) := by
    by_cases hc : 0 < b.color_encoding_size
    · rw [if_pos hc] at hcolor
      simp [writeVisitor, hc, hcolor]
    · rw [if_neg hc] at hcolor
      simp [writeVisitor, hc, hcolor]
  unfold VisitFields
  rw [writeVisitor_bits env 8 _ _ (by norm_num; exact hver)]
  simp only [Nat.mod_eq_of_lt hmeta, Nat.mod_eq_of_lt hver]
  rw [writeVisitor_bits env 16 _ _ h16]
  simp only [Nat.mod_eq_of_lt h16, SwapByteOrder16_twice _ hmeta, resizeBytes_self]
  rw [visitBytes_write env _ _ hmetab]
  simp only
  rw [writeVisitor_bits env 32 _ _ hces]
  simp only
  rw [hnested]
  simp only [Nat.mod_eq_of_lt hicc, Nat.mod_eq_of_lt hgm]
  rw [writeVisitor_bits env 32 _ _ (SwapByteOrder32_lt _)]
  simp only [SwapByteOrder32_twice _ hicc, resizeBytes_self]
  rw [visitBytes_write env _ _ hiccb]
  simp only
  rw [writeVisitor_bits env 32 _ _ (SwapByteOrder32_lt _)]
  simp only [SwapByteOrder32_twice _ hgm, resizeBytes_self]
  rw [visitBytes_write env _ _ hgmb]
  simp [bundleBits]

/-- What the reading visit finds in the bits of a bundle whose fields fit
their types. -/
theorem VisitFields_read (env : GainMapEnv X C) (b : JxlGainMapBundleInternal C)
    (cbits rest : List Bool) (c1 : C) (hver : b.jhgm_version < 256)
    (hmeta : b.gain_map_metadata.length < 2 ^ 16)
    (hmetab : ∀ x ∈ b.gain_map_metadata, x < 256)
    (hces : b.color_encoding_size < 2 ^ 32)
    (hcolor : if 0 < b.color_encoding_size then
        ∀ tail, env.readColor (cbits ++ tail) = some (c1, tail)
      else cbits = [] ∧ c1 = env.defaultColor)
    (hicc : b.compressed_icc.length < 2 ^ 32) (hiccb : ∀ x ∈ b.compressed_icc, x < 256)
    (hgm : b.gain_map.length < 2 ^ 32) (hgmb : ∀ x ∈ b.gain_map, x < 256) :
    VisitFields (readVisitor env) (emptyInternal env) (bundleBits b cbits rest) =
      some ({ b with color_encoding := c1 }, rest) := by
  have h16 := SwapByteOrder16_lt b.gain_map_metadata.length
  have hnested : ∀ tail, (if (readVisitor env).conditional
        (decide (0 < b.color_encoding_size)) = true
      then (readVisitor env).visitNested (emptyInternal env).color_encoding (cbits ++ tail)
      else some ((emptyInternal env).color_encoding, cbits ++ tail)) =
      some (c1, tail) := by
    intro tail
    by_cases hc : 0 < b.color_encoding_size
    · rw [if_pos hc] at hcolor
      simp [readVisitor, hc, hcolor tail]
    · rw [if_neg hc] at hcolor
      simp [readVisitor, hc, hcolor.1, hcolor.2, emptyInternal]
  have e1 : (emptyInternal env).gain_map_metadata = [] := rfl
  have e2 : (emptyInternal env).compressed_icc = [] := rfl
  have e3 : (emptyInternal env).gain_map = [] := rfl
  unfold VisitFields bundleBits
  rw [e1, e2, e3, readVisitor_bits env 8 _ _ _ (by norm_num; exact hver)]
  simp only [Nat.mod_eq_of_lt hver]
  rw [readVisitor_bits env 16 _ _ _ h16]
  simp only [Nat.mod_eq_of_lt h16, SwapByteOrder16_twice _ hmeta]
  rw [visitBytes_read env _ _ _ (resizeBytes_nil_length _) hmetab]
  simp only
  rw [readVisitor_bits env 32 _ _ _ hces]
  simp only
  rw [hnested]
  simp only
  rw [readVisitor_bits env 32 _ _ _ (SwapByteOrder32_lt _)]
  simp only [SwapByteOrder32_twice _ hicc]
  rw [visitBytes_read env _ _ _ (resizeBytes_nil_length _) hiccb]
  simp only
  rw [readVisitor_bits env 32 _ _ _ (SwapByteOrder32_lt _)]
  simp only [SwapByteOrder32_twice _ hgm]
  rw [visitBytes_read env _ _ _ (resizeBytes_nil_length _) hgmb]

theorem bundleBits_append (b : JxlGainMapBundleInternal C) (cbits rest : List Bool) :
    bundleBits b cbits [] ++ rest = bundleBits b cbits rest := by
  simp [bundleBits]

/-- C24, amended: gain-map bundles with a colour encoding round-trip. For a
bundle whose fields fit their types (an 8-bit version, metadata of fewer than
`2 ^ 16` bytes, 32-bit sizes), whose `color_encoding_size` is not zero, whose
colour encoding `FromExternal` accepts and the colour encoding codec writes
and reads back, and whose ICC profile is there and is compressed and
decompressed back by the ICC codec, `JxlGainMapWriteBundle` succeeds,
`JxlGainMapGetBufferSizes` on the bytes written succeeds and reports the sizes
of the metadata, of the ICC profile and of the gain map, and
`JxlGainMapReadBundle` into buffers of these sizes succeeds and gives back the
version, the metadata, the ICC profile and the gain map of the bundle, and as
colour encoding the external form (`ToExternal`) of the internal colour
encoding that `FromExternal` made of the bundle's. -/
theorem JxlGainMapBundle_roundtrip (env : GainMapEnv X C) (b : JxlGainMapBundle X) (c : C)
    (cbits : List Bool) (icc cicc : List Nat) (hver : b.jhgm_version < 256)
    (hmeta : b.gain_map_metadata.length < 2 ^ 16)
    (hmetab : ∀ x ∈ b.gain_map_metadata, x < 256)
    (hpos : 0 < b.color_encoding_size) (hces : b.color_encoding_size < 2 ^ 32)
    (hfrom : env.fromExternal b.color_encoding = some c)
    (hwc : env.writeColor c = some cbits)
    (hrc : ∀ tail, env.readColor (cbits ++ tail) = some (c, tail))
    (halt : b.alt_icc = some icc) (hwi : env.writeICC icc = some cicc)
    (hri : env.readICC cicc = some icc)
    (hicc : cicc.length < 2 ^ 32) (hiccb : ∀ x ∈ cicc, x < 256)
    (hgm : b.gain_map.length < 2 ^ 32) (hgmb : ∀ x ∈ b.gain_map, x < 256) :
    ∃ bytes sizes, JxlGainMapWriteBundle env b = some bytes ∧
      JxlGainMapGetBufferSizes env bytes = some sizes ∧
      sizes.gain_map_metadata_size = b.gain_map_metadata.length ∧
      sizes.alt_icc_size = icc.length ∧ sizes.gain_map_size = b.gain_map.length ∧
      ∀ metadata alt_icc gain_map : List Nat,
        metadata.length = sizes.gain_map_metadata_size →
        alt_icc.length = sizes.alt_icc_size → gain_map.length = sizes.gain_map_size →
        JxlGainMapReadBundle env metadata alt_icc gain_map bytes =
          some { jhgm_version := b.jhgm_version
                 color_encoding_size := b.color_encoding_size
                 color_encoding := env.toExternal c
                 gain_map_metadata := b.gain_map_metadata
                 alt_icc := icc
                 gain_map := b.gain_map } := by
  have hint : toInternal env b = some
      { jhgm_version := b.jhgm_version
        color_encoding_size := b.color_encoding_size
        color_encoding := c
        gain_map_metadata := b.gain_map_metadata
        compressed_icc := cicc
        gain_map := b.gain_map } := by
    simp [toInternal, hfrom, halt, hwi]
  have hw := VisitFields_write env
      { jhgm_version := b.jhgm_version
        color_encoding_size := b.color_encoding_size
        color_encoding := c
        gain_map_metadata := b.gain_map_metadata
        compressed_icc := cicc
        gain_map := b.gain_map } cbits hver hmeta hmetab hces
      (by simp only [hpos, if_true]; exact hwc) hicc hiccb hgm hgmb
  obtain ⟨pad, hpad⟩ := unpackBits_packBits (bundleBits
      ({ jhgm_version := b.jhgm_version
         color_encoding_size := b.color_encoding_size
         color_encoding := c
         gain_map_metadata := b.gain_map_metadata
         compressed_icc := cicc
         gain_map := b.gain_map } : JxlGainMapBundleInternal C) cbits [])
  rw [bundleBits_append] at hpad
  have hr := VisitFields_read env
      { jhgm_version := b.jhgm_version
        color_encoding_size := b.color_encoding_size
        color_encoding := c
        gain_map_metadata := b.gain_map_metadata
        compressed_icc := cicc
        gain_map := b.gain_map } cbits pad c hver hmeta hmetab hces
      (by simp only [hpos, if_true]; exact hrc) hicc hiccb hgm hgmb
  have hwrite : JxlGainMapWriteBundle env b = some (packBits (bundleBits
      ({ jhgm_version := b.jhgm_version
         color_encoding_size := b.color_encoding_size
         color_encoding := c
         gain_map_metadata := b.gain_map_metadata
         compressed_icc := cicc
         gain_map := b.gain_map } : JxlGainMapBundleInternal C) cbits [])) := by
    simp only [JxlGainMapWriteBundle, hint, hw]
  refine ⟨_, { alt_icc_size := icc.length
               gain_map_metadata_size := b.gain_map_metadata.length
               color_encoding_size := b.color_encoding_size
               gain_map_size := b.gain_map.length }, hwrite, ?_, rfl, rfl, rfl, ?_⟩
  · simp only [JxlGainMapGetBufferSizes, hpad, hr, hri]
  · intro metadata alt_icc gain_map h1 h2 h3
    simp only at h1 h2 h3
    simp only [JxlGainMapReadBundle, hpad, hr, hri, h1, h2, h3, if_true]

theorem demoGainMapEnv_readColor (c : Nat) (hc : c < 8) (tail : List Bool) :
    demoGainMapEnv.readColor (toBits 3 c ++ tail) = some (c, tail) := by
  simp only [demoGainMapEnv, List.length_append, toBits_length, Nat.le_add_right, if_true]
  rw [List.take_left' (toBits_length 3 c), List.drop_left' (toBits_length 3 c), ofBits_toBits,
    Nat.mod_eq_of_lt (by norm_num; exact hc)]

set_option maxRecDepth 8192

/-- C24 on a bundle with the colour encoding 5, `color_encoding_size = 1`, an
ICC profile of two bytes, three bytes of metadata and a gain map of two bytes:
24 bytes are written, and reading them gives the bundle back. -/
theorem JxlGainMapBundle_roundtrip_witness :
    JxlGainMapWriteBundle demoGainMapEnv (demoGainMapBundle 1 5) =
      some [0, 0, 3, 1, 2, 3, 1, 0, 0, 0, 5, 0, 0, 24, 16, 56, 72, 0, 0, 0, 16, 32, 40, 0] ∧
    JxlGainMapReadBundle demoGainMapEnv [0, 0, 0] [0, 0] [0, 0]
        [0, 0, 3, 1, 2, 3, 1, 0, 0, 0, 5, 0, 0, 24, 16, 56, 72, 0, 0, 0, 16, 32, 40, 0] =
      some { jhgm_version := 0, color_encoding_size := 1, color_encoding := 5
             gain_map_metadata := [1, 2, 3], alt_icc := [7, 9], gain_map := [4, 5] } ∧
    ∃ bytes sizes, JxlGainMapWriteBundle demoGainMapEnv (demoGainMapBundle 1 5) = some bytes ∧
      JxlGainMapGetBufferSizes demoGainMapEnv bytes = some sizes ∧
      sizes.gain_map_metadata_size = 3 ∧ sizes.alt_icc_size = 2 ∧ sizes.gain_map_size = 2 ∧
      ∀ metadata alt_icc gain_map : List Nat,
        metadata.length = sizes.gain_map_metadata_size →
        alt_icc.length = sizes.alt_icc_size → gain_map.length = sizes.gain_map_size →
        JxlGainMapReadBundle demoGainMapEnv metadata alt_icc gain_map bytes =
          some { jhgm_version := 0, color_encoding_size := 1, color_encoding := 5
                 gain_map_metadata := [1, 2, 3], alt_icc := [7, 9], gain_map := [4, 5] } :=
  ⟨rfl, rfl,
    JxlGainMapBundle_roundtrip demoGainMapEnv (demoGainMapBundle 1 5) 5 (toBits 3 5) [7, 9]
      [2, 7, 9] (by decide) (by decide) (by decide) (by decide) (by decide) rfl rfl
      (demoGainMapEnv_readColor 5 (by decide)) rfl rfl rfl (by decide) (by decide) (by decide)
      (by decide)⟩

/-- C24 fails for a bundle with `color_encoding_size = 0`: the colour
encoding is not written, so the bundles with the colour encodings 5 and 3 give
the same bytes, and reading them gives the default colour encoding. The bytes
written do not depend on the colour encoding of any such bundle. -/
theorem JxlGainMapWriteBundle_drops_color_encoding :
    JxlGainMapWriteBundle demoGainMapEnv (demoGainMapBundle 0 5) =
      some [0, 0, 3, 1, 2, 3, 0, 0, 0, 0, 0, 0, 0, 3, 2, 7, 9, 0, 0, 0, 2, 4, 5] ∧
    JxlGainMapWriteBundle demoGainMapEnv (demoGainMapBundle 0 3) =
      some [0, 0, 3, 1, 2, 3, 0, 0, 0, 0, 0, 0, 0, 3, 2, 7, 9, 0, 0, 0, 2, 4, 5] ∧
    (JxlGainMapGetBufferSizes demoGainMapEnv
        [0, 0, 3, 1, 2, 3, 0, 0, 0, 0, 0, 0, 0, 3, 2, 7, 9, 0, 0, 0, 2, 4, 5]).map
        (fun s => (s.gain_map_metadata_size, s.alt_icc_size, s.gain_map_size)) =
      some (3, 2, 2) ∧
    JxlGainMapReadBundle demoGainMapEnv [0, 0, 0] [0, 0] [0, 0]
        [0, 0, 3, 1, 2, 3, 0, 0, 0, 0, 0, 0, 0, 3, 2, 7, 9, 0, 0, 0, 2, 4, 5] =
      some { jhgm_version := 0, color_encoding_size := 0, color_encoding := 0
             gain_map_metadata := [1, 2, 3], alt_icc := [7, 9], gain_map := [4, 5] } ∧
    (demoGainMapBundle 0 5).color_encoding = 5 ∧
    ∀ (env : GainMapEnv Nat Nat) (b : JxlGainMapBundleInternal Nat) (c : Nat),
      b.color_encoding_size = 0 → b.jhgm_version < 256 →
      b.gain_map_metadata.length < 2 ^ 16 → (∀ x ∈ b.gain_map_metadata, x < 256) →
      b.compressed_icc.length < 2 ^ 32 → (∀ x ∈ b.compressed_icc, x < 256) →
      b.gain_map.length < 2 ^ 32 → (∀ x ∈ b.gain_map, x < 256) →
      (VisitFields (writeVisitor env) { b with color_encoding := c } []).map Prod.snd =
        (VisitFields (writeVisitor env) b []).map Prod.snd := by
  refine ⟨rfl, rfl, rfl, rfl, rfl, ?_⟩
  intro env b c h0 hver hmeta hmetab hicc hiccb hgm hgmb
  rw [VisitFields_write env b [] hver hmeta hmetab (by rw [h0]; norm_num)
      (by simp [h0]) hicc hiccb hgm hgmb,
    VisitFields_write env { b with color_encoding := c } [] hver hmeta hmetab
      (by show b.color_encoding_size < 2 ^ 32; rw [h0]; norm_num)
      (by simp [h0]) hicc hiccb hgm hgmb]
  rfl

end GainMapRoundtrip

/-! ## Size limit, stride, ledger, closed input, skipped frames, output sinks and the bit writer -/

theorem sizeMul_div_detects {X y : Nat} (hX : 0 < X) :
    sizeMul X y / X = y ↔ X * y < SIZE_MOD := by
  unfold sizeMul
  constructor
  · intro h
    by_contra hge
    have hge : SIZE_MOD ≤ X * y := Nat.le_of_not_lt hge
    have hlt : X * y % SIZE_MOD < X * y := by
      have hs : 0 < SIZE_MOD := by unfold SIZE_MOD; norm_num
      have h1 : X * y % SIZE_MOD < SIZE_MOD := Nat.mod_lt _ hs
      omega
    have h2 : X * y % SIZE_MOD / X < y := by
      rw [Nat.div_lt_iff_lt_mul hX, Nat.mul_comm y X]
      exact hlt
    omega
  · intro h
    rw [Nat.mod_eq_of_lt h]
    exact Nat.mul_div_cancel_left y hX

/-- C35: for `xsize ≤ 2^64 - 32` (and a limit that is a `size_t`),
`CheckSizeLimit` accepts exactly when the limit is 0, or a dimension is 0, or
both dimensions lie below the limit and the pixel count with rows padded to a
multiple of 32, `32 * ceil(xsize / 32) * ysize` as a natural number (no
overflow), is at most the limit. -/
theorem CheckSizeLimit_iff (L xsize ysize : Nat) (hL : L < 2 ^ 64)
    (hx : xsize ≤ 2 ^ 64 - 32) :
    CheckSizeLimit L xsize ysize = true ↔
      (L = 0 ∨ xsize = 0 ∨ ysize = 0 ∨
        (xsize < L ∧ ysize < L ∧ 32 * ((xsize + 31) / 32) * ysize ≤ L)) := by
  unfold CheckSizeLimit
  by_cases h0 : L = 0
  · simp [h0]
  by_cases hx0 : xsize = 0
  · simp [hx0]
  by_cases hy0 : ysize = 0
  · simp [hy0]
  simp only [h0, if_false, hx0, hy0, or_self, false_or]
  by_cases hge : xsize ≥ L ∨ ysize ≥ L
  · simp only [hge, if_true]
    constructor
    · intro h; cases h
    · rintro ⟨h1, h2, _⟩; omega
  · simp only [hge, if_false, DivCeil_32 hx]
    have hpos : 0 < (xsize + 31) / 32 * 32 := by omega
    have hX : 32 * ((xsize + 31) / 32) = (xsize + 31) / 32 * 32 := Nat.mul_comm _ _
    rw [hX]
    generalize (xsize + 31) / 32 * 32 = X at hpos
    have hd := sizeMul_div_detects (y := ysize) hpos
    by_cases hov : sizeMul X ysize / X = ysize
    · have hlt := hd.mp hov
      have he : sizeMul X ysize = X * ysize := by
        unfold sizeMul; exact Nat.mod_eq_of_lt hlt
      have hov1 : ¬ sizeMul X ysize / X ≠ ysize := fun h => h hov
      rw [if_neg hov1, he]
      by_cases hle : X * ysize > L
      · simp only [hle, if_true]
        constructor
        · intro h; cases h
        · rintro ⟨_, _, h3⟩; omega
      · simp only [hle, if_false, true_iff]
        exact ⟨by omega, by omega, by omega⟩
    · have hov1 : sizeMul X ysize / X ≠ ysize := hov
      rw [if_pos hov1]
      constructor
      · intro h; cases h
      · rintro ⟨_, _, h3⟩
        have : ¬ X * ysize < SIZE_MOD := fun h => hov (hd.mpr h)
        unfold SIZE_MOD at this
        omega

theorem CheckSizeLimit_iff_witness :
    CheckSizeLimit 100 33 1 = true ↔
      ((100 : Nat) = 0 ∨ (33 : Nat) = 0 ∨ (1 : Nat) = 0 ∨
        ((33 : Nat) < 100 ∧ (1 : Nat) < 100 ∧ 32 * ((33 + 31) / 32) * 1 ≤ 100)) :=
  CheckSizeLimit_iff 100 33 1 (by norm_num) (by norm_num)

section OutputStrideTheorems
variable {E : Type}

theorem PrepareSizeCheck_accepts {dec : JxlDecoder E} {format : JxlPixelFormat}
    (hp : (PrepareSizeCheck dec format).1 = JXL_DEC_SUCCESS) :
    PrepareSizeCheck dec format = (JXL_DEC_SUCCESS, BitsPerChannel format.data_type) ∧
      format.num_channels ≤ 4 ∧
      (BitsPerChannel format.data_type = 8 ∨ BitsPerChannel format.data_type = 16 ∨
        BitsPerChannel format.data_type = 32) := by
  unfold PrepareSizeCheck at hp ⊢
  by_cases h1 : (!dec.got_basic_info) = true
  · rw [if_pos h1] at hp; cases hp
  rw [if_neg h1] at hp ⊢
  by_cases h2 : (!dec.coalescing &&
      (!dec.frame_header || decide (dec.frame_stage = FrameStage.kHeader))) = true
  · rw [if_pos h2] at hp; cases hp
  rw [if_neg h2] at hp ⊢
  by_cases h3 : format.num_channels > 4
  · rw [if_pos h3] at hp; cases hp
  rw [if_neg h3] at hp ⊢
  by_cases h4 : BitsPerChannel format.data_type = 0
  · rw [if_pos h4] at hp; cases hp
  rw [if_neg h4]
  refine ⟨rfl, by omega, ?_⟩
  cases hd : format.data_type <;> simp [hd, BitsPerChannel] at h4 ⊢

theorem row_size_eq_stride (x nc bits : Nat)
    (hb : bits = 8 ∨ bits = 16 ∨ bits = 32) (hov : x * nc * bits + 7 < 2 ^ 64) :
    DivCeil (sizeMul (sizeMul x nc) bits) 8 = sizeMul x (sizeMul bits nc / 8) := by
  have hp : x * nc < 2 ^ 64 := by
    rcases hb with h | h | h <;> subst h <;> omega
  have hbn : bits * nc = nc * bits := Nat.mul_comm _ _
  have hnc : nc * bits ≤ x * nc * bits + nc * bits := Nat.le_add_left _ _
  simp only [DivCeil, sizeMul, sizeAdd, sizeSub, SIZE_MOD]
  rw [Nat.mod_eq_of_lt hp]
  rcases hb with h | h | h <;> subst h
  · have e : x * (8 * nc % 2 ^ 64 / 8) = x * nc := by
      by_cases hx : x = 0
      · simp [hx]
      · have : nc * 8 ≤ x * nc * 8 := by
          have : nc ≤ x * nc := Nat.le_mul_of_pos_left nc (Nat.pos_of_ne_zero hx)
          omega
        have h8 : 8 * nc % 2 ^ 64 / 8 = nc := by omega
        rw [h8]
    rw [e]
    generalize x * nc = p at *
    omega
  · have e : x * (16 * nc % 2 ^ 64 / 8) = 2 * (x * nc) := by
      by_cases hx : x = 0
      · simp [hx]
      · have : nc * 16 ≤ x * nc * 16 := by
          have : nc ≤ x * nc := Nat.le_mul_of_pos_left nc (Nat.pos_of_ne_zero hx)
          omega
        have h8 : 16 * nc % 2 ^ 64 / 8 = 2 * nc := by omega
        rw [h8]; ring
    rw [e]
    generalize x * nc = p at *
    omega
  · have e : x * (32 * nc % 2 ^ 64 / 8) = 4 * (x * nc) := by
      by_cases hx : x = 0
      · simp [hx]
      · have : nc * 32 ≤ x * nc * 32 := by
          have : nc ≤ x * nc := Nat.le_mul_of_pos_left nc (Nat.pos_of_ne_zero hx)
          omega
        have h8 : 32 * nc % 2 ^ 64 / 8 = 4 * nc := by omega
        rw [h8]; ring
    rw [e]
    generalize x * nc = p at *
    omega

/-- C36: for a pixel format accepted by `PrepareSizeCheck` and when the number
of bits of a row does not overflow 64 bits, `JxlDecoderImageOutBufferSize`
either refuses grayscale output for a colour image or returns
`GetStride(dec, format) * ysize`, with and without alignment. -/
theorem JxlDecoderImageOutBufferSize_eq_stride (env : DimEnv E) (dec : JxlDecoder E)
    (format : JxlPixelFormat)
    (hp : (PrepareSizeCheck dec format).1 = JXL_DEC_SUCCESS)
    (hov : (GetCurrentDimensions env dec true).1 * format.num_channels *
      BitsPerChannel format.data_type + 7 < 2 ^ 64) :
    (JxlDecoderImageOutBufferSize env dec format = (JXL_DEC_ERROR, 0) ∧
        format.num_channels < 3 ∧ env.isGray dec.ext = false) ∨
      JxlDecoderImageOutBufferSize env dec format =
        (JXL_DEC_SUCCESS,
          sizeMul (GetStride env dec format) (GetCurrentDimensions env dec true).2) := by
  obtain ⟨hpe, _, hb⟩ := PrepareSizeCheck_accepts hp
  have hrow := row_size_eq_stride _ _ _ hb hov
  unfold JxlDecoderImageOutBufferSize GetStride
  simp only [hpe, ne_eq, not_true_eq_false, if_false]
  by_cases hg : format.num_channels < 3 ∧ env.isGray dec.ext = false
  · left
    rw [if_pos hg]
    exact ⟨rfl, hg⟩
  · right
    rw [if_neg hg, hrow]

theorem JxlDecoderImageOutBufferSize_eq_stride_witness :
    (JxlDecoderImageOutBufferSize demoDimEnv demoWantsImage demoRGB8Aligned =
          (JXL_DEC_ERROR, 0) ∧
        demoRGB8Aligned.num_channels < 3 ∧ demoDimEnv.isGray demoWantsImage.ext = false) ∨
      JxlDecoderImageOutBufferSize demoDimEnv demoWantsImage demoRGB8Aligned =
        (JXL_DEC_SUCCESS,
          sizeMul (GetStride demoDimEnv demoWantsImage demoRGB8Aligned)
            (GetCurrentDimensions demoDimEnv demoWantsImage true).2) :=
  JxlDecoderImageOutBufferSize_eq_stride demoDimEnv demoWantsImage demoRGB8Aligned
    (by rfl) (by decide)

end OutputStrideTheorems

section AdvanceAdditive
variable {E : Type}

theorem sizeSub_sizeSub (x a b : Nat) : sizeSub (sizeSub x a) b = sizeSub x (a + b) := by
  simp only [sizeSub, SIZE_MOD]
  omega

theorem sizeAdd_sizeAdd (x a b : Nat) : sizeAdd (sizeAdd x a) b = sizeAdd x (a + b) := by
  simp only [sizeAdd, SIZE_MOD]
  omega

theorem AdvanceInput_AdvanceInput (dec : JxlDecoder E) (a b : Nat) :
    (dec.AdvanceInput a).AdvanceInput b = dec.AdvanceInput (a + b) := by
  have h1 : Option.map (List.drop b) (Option.map (List.drop a) dec.next_in)
      = Option.map (List.drop (a + b)) dec.next_in := by
    cases dec.next_in with
    | none => rfl
    | some l => simp [List.drop_drop, Nat.add_comm]
  simp only [JxlDecoder.AdvanceInput, h1, sizeSub_sizeSub, sizeAdd_sizeAdd]

theorem AdvanceInput_pos (dec : JxlDecoder E) (k p : Nat) :
    ({ dec.AdvanceInput k with codestream_pos := p } : JxlDecoder E)
      = ({ dec with codestream_pos := p } : JxlDecoder E).AdvanceInput k := rfl

theorem AdvanceCodestream_direct (dec : JxlDecoder E) (n : Nat)
    (hc : dec.codestream_copy = []) :
    dec.AdvanceCodestream n =
      if n ≤ dec.AvailableCodestream then dec.AdvanceInput n
      else ({ dec with codestream_pos := sizeSub n dec.AvailableCodestream } :
        JxlDecoder E).AdvanceInput dec.AvailableCodestream := by
  simp [JxlDecoder.AdvanceCodestream, hc]

/-- C33: from a cursor with an empty copy buffer (with or without a pending
skip), `AdvanceCodestream(a)` followed by `AdvanceCodestream(b)` leaves the
same state as one `AdvanceCodestream(a + b)` when `a` does not exceed the
codestream bytes at hand or `b` is 0, also when `a + b` exceeds them. -/
theorem AdvanceCodestream_additive (dec : JxlDecoder E) (a b : Nat)
    (hc : dec.codestream_copy = [])
    (hav : dec.avail_in < SIZE_MOD) (hab : a + b < SIZE_MOD)
    (ha : a ≤ dec.AvailableCodestream ∨ b = 0) :
    (dec.AdvanceCodestream a).AdvanceCodestream b = dec.AdvanceCodestream (a + b) := by
  have hale := AvailableCodestream_le dec
  by_cases h1 : a ≤ dec.AvailableCodestream
  · have e1 : dec.AdvanceCodestream a = dec.AdvanceInput a := by
      rw [AdvanceCodestream_direct dec a hc, if_pos h1]
    have hc1 : (dec.AdvanceInput a).codestream_copy = [] := hc
    have hav1 := AvailableCodestream_AdvanceInput dec a h1 hav
    rw [e1, AdvanceCodestream_direct _ b hc1, AdvanceCodestream_direct dec (a + b) hc, hav1]
    by_cases h2 : b ≤ dec.AvailableCodestream - a
    · rw [if_pos h2, if_pos (by omega), AdvanceInput_AdvanceInput]
    · rw [if_neg h2, if_neg (by omega)]
      have e2 : sizeSub b (dec.AvailableCodestream - a)
          = sizeSub (a + b) dec.AvailableCodestream := by
        simp only [sizeSub, SIZE_MOD] at *
        omega
      rw [e2, ← AdvanceInput_pos, AdvanceInput_AdvanceInput, AdvanceInput_pos]
      have e3 : a + (dec.AvailableCodestream - a) = dec.AvailableCodestream := by omega
      rw [e3]
  · have hb : b = 0 := by
      rcases ha with h | h
      · exact absurd h h1
      · exact h
    subst hb
    rw [Nat.add_zero, AdvanceCodestream_direct dec a hc, if_neg h1]
    have hc1 : (({ dec with codestream_pos := sizeSub a dec.AvailableCodestream } :
        JxlDecoder E).AdvanceInput dec.AvailableCodestream).codestream_copy = [] := hc
    rw [AdvanceCodestream_direct _ 0 hc1, if_pos (Nat.zero_le _), AdvanceInput_AdvanceInput,
      Nat.add_zero]

theorem AdvanceCodestream_additive_witness :
    (demoTwoBytes.AdvanceCodestream 1).AdvanceCodestream 3 = demoTwoBytes.AdvanceCodestream (1 + 3) :=
  AdvanceCodestream_additive demoTwoBytes 1 3 rfl (by decide) (by decide)
    (Or.inl (by decide))

/-- C33, counterexample: with two codestream bytes at hand,
`AdvanceCodestream(3)` followed by `AdvanceCodestream(1)` leaves a pending skip
of 1 byte, one `AdvanceCodestream(4)` a pending skip of 2 bytes. -/
theorem AdvanceCodestream_not_additive :
    ((demoTwoBytes.AdvanceCodestream 3).AdvanceCodestream 1).codestream_pos = 1 ∧
    (demoTwoBytes.AdvanceCodestream (3 + 1)).codestream_pos = 2 ∧
    demoTwoBytes.codestream_copy = [] ∧ demoTwoBytes.codestream_pos = 0 ∧
    demoTwoBytes.AvailableCodestream = 2 := by
  refine ⟨?_, ?_, rfl, rfl, ?_⟩ <;> decide

end AdvanceAdditive

section SteadyLemmas
variable {E : Type}

theorem steady_refl (dec : JxlDecoder E) : Steady dec dec := ⟨rfl, fun h => h⟩

theorem steady_trans {a b c : JxlDecoder E} (h1 : Steady a b) (h2 : Steady b c) :
    Steady a c :=
  ⟨h2.1.trans h1.1, fun h => h2.2 (h1.2 h)⟩

theorem steady_of_cursor {dec d : JxlDecoder E} (h : ChangesOnlyCursor dec d) :
    Steady dec d := by
  have e1 : d.input_closed = dec.input_closed := (congrArg JxlDecoder.input_closed h).trans rfl
  have e2 : d.frame_saved_as = dec.frame_saved_as :=
    (congrArg JxlDecoder.frame_saved_as h).trans rfl
  have e3 : d.frame_references = dec.frame_references :=
    (congrArg JxlDecoder.frame_references h).trans rfl
  have e4 : d.frame_external_to_internal = dec.frame_external_to_internal :=
    (congrArg JxlDecoder.frame_external_to_internal h).trans rfl
  have e5 : d.internal_frames = dec.internal_frames :=
    (congrArg JxlDecoder.internal_frames h).trans rfl
  have e6 : d.external_frames = dec.external_frames :=
    (congrArg JxlDecoder.external_frames h).trans rfl
  refine ⟨e1, fun hl => ?_⟩
  unfold LedgerOk at hl ⊢
  rw [e2, e3, e4, e5, e6]
  exact hl

theorem AdvanceCodestream_steady (dec : JxlDecoder E) (n : Nat) :
    Steady dec (dec.AdvanceCodestream n) :=
  steady_of_cursor (AdvanceCodestream_cursorOnly dec n)

theorem RequestMoreInput_steady (dec : JxlDecoder E) : Steady dec dec.RequestMoreInput.2 :=
  steady_of_cursor (RequestMoreInput_cursorOnly dec)

theorem GetCodestreamInput_steady {dec dec1 : JxlDecoder E} {st : JxlDecoderStatus}
    {span : List Nat} (h : dec.GetCodestreamInput = some (st, span, dec1)) :
    Steady dec dec1 :=
  steady_of_cursor (GetCodestreamInput_cursorOnly dec dec1 st span h)

theorem ReadBundle_steady (canRead : E → List Nat → Nat → Option (Bool × E))
    (read : E → List Nat → Nat → Bool × Nat × E) (dec dec1 : JxlDecoder E)
    (data : List Nat) (bits bits1 : Nat) (st : JxlDecoderStatus)
    (h : ReadBundle canRead read dec data bits = some (st, bits1, dec1)) :
    Steady dec dec1 := by
  unfold ReadBundle at h
  split at h
  · cases h
  · simp only [Option.some.injEq, Prod.mk.injEq] at h
    obtain ⟨-, -, h3⟩ := h
    subst h3
    exact steady_trans ⟨rfl, fun h => h⟩ (RequestMoreInput_steady _)
  · simp only at h
    split at h
    · simp only [Option.some.injEq, Prod.mk.injEq] at h
      obtain ⟨-, -, h3⟩ := h
      subst h3
      exact ⟨rfl, fun h => h⟩
    · simp only [Option.some.injEq, Prod.mk.injEq] at h
      obtain ⟨-, -, h3⟩ := h
      subst h3
      exact ⟨rfl, fun h => h⟩

theorem readCodestreamSignature_steady (dec dec1 : JxlDecoder E) (st : JxlDecoderStatus)
    (h : readCodestreamSignature dec = some (st, dec1)) : Steady dec dec1 := by
  unfold readCodestreamSignature at h
  split at h
  · split at h
    · cases h
    · rename_i st0 span d0 hg
      have hg2 := GetCodestreamInput_steady hg
      split at h
      · simp only [Option.some.injEq, Prod.mk.injEq] at h
        rw [← h.2]; exact hg2
      · split at h
        · simp only [Option.some.injEq] at h
          have h2 : dec1 = d0.RequestMoreInput.2 := (congrArg Prod.snd h).symm
          rw [h2]
          exact steady_trans hg2 (RequestMoreInput_steady _)
        · split at h
          · simp only [Option.some.injEq, Prod.mk.injEq] at h
            rw [← h.2]; exact hg2
          · simp only [Option.some.injEq, Prod.mk.injEq] at h
            rw [← h.2]
            exact steady_trans hg2 (steady_trans ⟨rfl, fun h => h⟩ (AdvanceCodestream_steady _ _))
  · simp only [Option.some.injEq, Prod.mk.injEq] at h
    rw [← h.2]; exact steady_refl dec

theorem commitBasicInfo_steady (env : HeaderEnv E) (dec : JxlDecoder E) (bits : Nat) :
    Steady dec (commitBasicInfo env dec bits).2 := by
  unfold commitBasicInfo
  simp only
  split
  · exact steady_trans (AdvanceCodestream_steady dec (bits / 8)) ⟨rfl, fun h => h⟩
  · exact steady_trans (AdvanceCodestream_steady dec (bits / 8)) ⟨rfl, fun h => h⟩

theorem readBasicInfoBundles_steady (env : HeaderEnv E) (dec dec1 : JxlDecoder E)
    (st : JxlDecoderStatus) (h : readBasicInfoBundles env dec = some (st, dec1)) :
    Steady dec dec1 := by
  unfold readBasicInfoBundles at h
  split at h
  · cases h
  · rename_i st0 span d0 hg
    have hg2 := GetCodestreamInput_steady hg
    split at h
    · simp only [Option.some.injEq, Prod.mk.injEq] at h
      rw [← h.2]; exact hg2
    · split at h
      · cases h
      · rename_i st1 bits1 d1 hb1
        have hb1e := ReadBundle_steady _ _ _ _ _ _ _ _ hb1
        split at h
        · simp only [Option.some.injEq, Prod.mk.injEq] at h
          rw [← h.2]
          exact steady_trans hg2 hb1e
        · split at h
          · cases h
          · rename_i st2 bits2 d2 hb2
            have hb2e := ReadBundle_steady _ _ _ _ _ _ _ _ hb2
            split at h
            · simp only [Option.some.injEq, Prod.mk.injEq] at h
              rw [← h.2]
              exact steady_trans hg2 (steady_trans hb1e hb2e)
            · simp only [Option.some.injEq] at h
              have hc := commitBasicInfo_steady env d2 bits2
              rw [h] at hc
              exact steady_trans hg2 (steady_trans hb1e (steady_trans hb2e hc))

theorem JxlDecoderReadBasicInfo_steady (env : HeaderEnv E) (dec dec1 : JxlDecoder E)
    (st : JxlDecoderStatus) (h : JxlDecoderReadBasicInfo env dec = some (st, dec1)) :
    Steady dec dec1 := by
  unfold JxlDecoderReadBasicInfo at h
  split at h
  · cases h
  · rename_i st0 d0 hs
    have hs2 := readCodestreamSignature_steady _ _ _ hs
    split at h
    · simp only [Option.some.injEq, Prod.mk.injEq] at h
      rw [← h.2]; exact hs2
    · exact steady_trans hs2 (readBasicInfoBundles_steady env _ _ _ h)

theorem readTransformData_steady (env : FrameEnv E) (dec dec1 : JxlDecoder E)
    (st : JxlDecoderStatus) (h : readTransformData env dec = some (st, dec1)) :
    Steady dec dec1 := by
  unfold readTransformData at h
  split at h
  · split at h
    · cases h
    · rename_i st0 span d0 hg
      have hg2 := GetCodestreamInput_steady hg
      split at h
      · simp only [Option.some.injEq, Prod.mk.injEq] at h
        rw [← h.2]; exact hg2
      · simp only at h
        split at h
        · cases h
        · rename_i st1 bits1 d1 hb1
          have hb1e := ReadBundle_steady _ _ _ _ _ _ _ _ hb1
          have h0 : Steady dec d1 := steady_trans hg2 (steady_trans ⟨rfl, fun h => h⟩ hb1e)
          split at h
          · simp only [Option.some.injEq, Prod.mk.injEq] at h
            rw [← h.2]
            exact h0
          · simp only [Option.some.injEq, Prod.mk.injEq] at h
            rw [← h.2]
            exact steady_trans h0
              (steady_trans (AdvanceCodestream_steady _ _) ⟨rfl, fun h => h⟩)
  · simp only [Option.some.injEq, Prod.mk.injEq] at h
    rw [← h.2]; exact steady_refl dec

theorem readICC_steady (env : FrameEnv E) (dec : JxlDecoder E) (span : List Nat) (bits : Nat) :
    Steady dec (readICC env dec span bits).2.2 := by
  unfold readICC
  simp only
  split
  · split
    · exact steady_trans ⟨rfl, fun h => h⟩ (RequestMoreInput_steady _)
    · split
      · exact ⟨rfl, fun h => h⟩
      · split
        · exact steady_trans ⟨rfl, fun h => h⟩ (RequestMoreInput_steady _)
        · split
          · exact ⟨rfl, fun h => h⟩
          · split
            · exact ⟨rfl, fun h => h⟩
            · exact ⟨rfl, fun h => h⟩
  · exact steady_refl dec

theorem JxlDecoderReadAllHeaders_steady (env : FrameEnv E) (dec dec1 : JxlDecoder E)
    (st : JxlDecoderStatus) (h : JxlDecoderReadAllHeaders env dec = some (st, dec1)) :
    Steady dec dec1 := by
  unfold JxlDecoderReadAllHeaders at h
  split at h
  · cases h
  · rename_i st0 d0 ht
    have ht2 := readTransformData_steady env _ _ _ ht
    split at h
    · simp only [Option.some.injEq, Prod.mk.injEq] at h
      rw [← h.2]; exact ht2
    · split at h
      · cases h
      · rename_i st1 span d1 hg
        have hg2 := GetCodestreamInput_steady hg
        split at h
        · simp only [Option.some.injEq, Prod.mk.injEq] at h
          rw [← h.2]
          exact steady_trans ht2 hg2
        · have hi := readICC_steady env d1 span d1.codestream_bits_ahead
          have h0 : Steady dec (readICC env d1 span d1.codestream_bits_ahead).2.2 :=
            steady_trans ht2 (steady_trans hg2 hi)
          simp only at h
          split at h
          · simp only [Option.some.injEq, Prod.mk.injEq] at h
            rw [← h.2]
            exact h0
          · split at h
            · simp only [Option.some.injEq, Prod.mk.injEq] at h
              rw [← h.2]
              exact steady_trans h0 ⟨rfl, fun h => h⟩
            · have hadv := AdvanceCodestream_steady
                ({ (readICC env d1 span d1.codestream_bits_ahead).2.2 with
                    got_all_headers := true })
                ((env.jumpToByteBoundary span
                  (readICC env d1 span d1.codestream_bits_ahead).2.1).2 / 8)
              have h1 := steady_trans h0 (steady_trans ⟨rfl, fun h => h⟩ hadv)
              split at h
              · simp only [Option.some.injEq, Prod.mk.injEq] at h
                rw [← h.2]
                exact steady_trans h1 ⟨rfl, fun h => h⟩
              · simp only [Option.some.injEq, Prod.mk.injEq] at h
                rw [← h.2]
                exact steady_trans h1 ⟨rfl, fun h => h⟩

theorem JxlDecoderProcessSections_steady (env : FrameEnv E) (dec dec1 : JxlDecoder E)
    (st : JxlDecoderStatus) (h : JxlDecoderProcessSections env dec = some (st, dec1)) :
    Steady dec dec1 := by
  unfold JxlDecoderProcessSections at h
  split at h
  · cases h
  · rename_i st0 span d0 hg
    have hg2 := GetCodestreamInput_steady hg
    split at h
    · simp only [Option.some.injEq, Prod.mk.injEq] at h
      rw [← h.2]; exact hg2
    · simp only at h
      split at h
      · cases h
      · split at h
        · cases h
        · split at h
          · simp only [Option.some.injEq, Prod.mk.injEq] at h
            rw [← h.2]; exact steady_trans hg2 ⟨rfl, fun h => h⟩
          · split at h
            · simp only [Option.some.injEq, Prod.mk.injEq] at h
              rw [← h.2]; exact steady_trans hg2 ⟨rfl, fun h => h⟩
            · split at h
              · cases h
              · simp only [Option.some.injEq, Prod.mk.injEq] at h
                rw [← h.2]; exact steady_trans hg2 ⟨rfl, fun h => h⟩
              · simp only [Option.some.injEq, Prod.mk.injEq] at h
                rw [← h.2]
                exact steady_trans hg2
                  (steady_trans ⟨rfl, fun h => h⟩ (AdvanceCodestream_steady _ _))

end SteadyLemmas

section SteadyFrames
variable {E : Type}

theorem sizeAdd_one_le (a : Nat) : sizeAdd a 1 ≤ a + 1 := by
  unfold sizeAdd
  exact Nat.mod_le _ _

/-- The registration of a frame keeps `input_closed` and preserves the size
invariant of the ledger. -/
theorem registerFrame_steady (env : FrameEnv E) (dec d : JxlDecoder E) (i : Nat)
    (h : registerFrame env dec = some (i, d)) : Steady dec d := by
  unfold registerFrame at h
  simp only at h
  split at h
  · cases h
  · rename_i d2 h2
    have hd2 : d2.input_closed = dec.input_closed ∧
        d2.frame_saved_as = dec.frame_saved_as ∧
        d2.frame_references = dec.frame_references ∧
        d2.internal_frames = sizeAdd dec.internal_frames 1 ∧
        (LedgerOk dec → d2.external_frames ≤ d2.frame_external_to_internal.length) := by
      split at h2
      · split at h2
        · rename_i hge heq
          simp only [Option.some.injEq] at h2
          rw [← h2]
          refine ⟨rfl, rfl, rfl, rfl, fun hl => ?_⟩
          simp only [List.length_append, List.length_singleton]
          have h1 := sizeAdd_one_le dec.external_frames
          have h3 := hl.2.2
          split <;> omega
        · cases h2
      · rename_i hlt
        simp only [Option.some.injEq] at h2
        rw [← h2]
        refine ⟨rfl, rfl, rfl, rfl, fun hl => ?_⟩
        have h1 := sizeAdd_one_le dec.external_frames
        simp only
        split <;> omega
    obtain ⟨e1, e2, e3, e4, e5⟩ := hd2
    split at h
    · split at h
      · rename_i hge heq
        simp only [Option.some.injEq, Prod.mk.injEq] at h
        rw [← h.2]
        refine ⟨e1, fun hl => ?_⟩
        refine ⟨?_, ?_, e5 hl⟩
        · simp only [List.length_append, List.length_singleton]
          omega
        · show d2.internal_frames ≤ (d2.frame_saved_as ++ [env.savedAs dec.ext]).length
          simp only [List.length_append, List.length_singleton]
          omega
      · cases h
    · rename_i hlt
      simp only [Option.some.injEq, Prod.mk.injEq] at h
      rw [← h.2]
      refine ⟨e1, fun hl => ⟨?_, ?_, e5 hl⟩⟩
      · rw [e2, e3]; exact hl.1
      · have h1 := sizeAdd_one_le dec.internal_frames
        omega

/-- With the size invariant of the ledger (and frame counters that do not
wrap around), none of the three `JXL_ASSERT`s of the registration fails. -/
theorem registerFrame_asserts (env : FrameEnv E) (dec : JxlDecoder E) (hl : LedgerOk dec)
    (hi : dec.internal_frames + 1 < SIZE_MOD) (he : dec.external_frames + 1 < SIZE_MOD) :
    ∃ d, registerFrame env dec = some (dec.internal_frames, d) := by
  obtain ⟨h1, h2, h3⟩ := hl
  have si : sizeAdd dec.internal_frames 1 = dec.internal_frames + 1 := sizeAdd_of_lt hi
  have se : sizeAdd dec.external_frames 1 = dec.external_frames + 1 := sizeAdd_of_lt he
  unfold registerFrame
  simp only
  by_cases hxe : dec.external_frames ≥ dec.frame_external_to_internal.length
  · have hxe1 : dec.frame_external_to_internal.length + 1 = sizeAdd dec.external_frames 1 := by
      omega
    rw [if_pos hxe, if_pos hxe1]
    simp only
    by_cases hxi : dec.internal_frames ≥ dec.frame_saved_as.length
    · rw [if_pos hxi, if_pos (by omega)]
      exact ⟨_, rfl⟩
    · rw [if_neg hxi]
      exact ⟨_, rfl⟩
  · rw [if_neg hxe]
    simp only
    by_cases hxi : dec.internal_frames ≥ dec.frame_saved_as.length
    · rw [if_pos hxi, if_pos (by omega)]
      exact ⟨_, rfl⟩
    · rw [if_neg hxi]
      exact ⟨_, rfl⟩

theorem chargeCpu_steady (env : FrameEnv E) (dec : JxlDecoder E) :
    Steady dec (chargeCpu env dec).2 := by
  unfold chargeCpu
  split
  · simp only
    split
    · exact steady_refl dec
    · split
      · exact ⟨rfl, fun h => h⟩
      · exact ⟨rfl, fun h => h⟩
  · exact steady_refl dec

theorem announceFrame_steady (env : FrameEnv E) (i : Nat) (dec : JxlDecoder E) :
    Ctl.Each (Steady dec) (announceFrame env i dec) := by
  unfold announceFrame
  simp only
  split
  · have h := AdvanceCodestream_steady
      ({ dec with frame_stage := FrameStage.kHeader } : JxlDecoder E) dec.remaining_frame_size
    exact steady_trans ⟨rfl, fun h => h⟩ h
  · split
    · exact steady_refl dec
    · exact steady_refl dec

theorem acceptFrameHeader_steady (env : FrameEnv E) (dec : JxlDecoder E) (bits : Nat) :
    Ctl.Each (Steady dec) (acceptFrameHeader env dec bits) := by
  unfold acceptFrameHeader
  simp only
  have h2 : Steady dec ({ dec.AdvanceCodestream (bits / 8) with
      ext := env.storeFrameHeader (dec.AdvanceCodestream (bits / 8)).ext } : JxlDecoder E) :=
    steady_trans (AdvanceCodestream_steady dec (bits / 8)) ⟨rfl, fun h => h⟩
  generalize ({ dec.AdvanceCodestream (bits / 8) with
      ext := env.storeFrameHeader (dec.AdvanceCodestream (bits / 8)).ext } : JxlDecoder E)
    = dec2 at h2
  split
  · exact h2
  · have hc := steady_trans h2 (chargeCpu_steady env dec2)
    generalize chargeCpu env dec2 = c at hc
    split
    · exact hc
    · split
      · split
        · have h := AdvanceCodestream_steady
            ({ c.2 with
                remaining_frame_size := env.sumSectionSizes c.2.ext
                frame_stage := FrameStage.kHeader } : JxlDecoder E)
            (env.sumSectionSizes c.2.ext)
          exact steady_trans hc (steady_trans ⟨rfl, fun h => h⟩
            (steady_trans h ⟨rfl, fun h => h⟩))
        · exact steady_trans hc ⟨rfl, fun h => h⟩
      · split
        · trivial
        · rename_i i d4 hr
          have h4 := registerFrame_steady env _ _ _ hr
          have h5 : Steady dec d4 := steady_trans hc (steady_trans ⟨rfl, fun h => h⟩ h4)
          exact each_mono (announceFrame_steady env i d4) fun d hd => steady_trans h5 hd

theorem frameHeaderStage_steady (env : FrameEnv E) (dec : JxlDecoder E) :
    Ctl.Each (Steady dec) (frameHeaderStage env dec) := by
  unfold frameHeaderStage
  split
  · exact steady_refl dec
  · simp only
    split
    · exact ⟨rfl, fun h => h⟩
    · split
      · trivial
      · rename_i st span d2 hg
        have hg1 := GetCodestreamInput_steady hg
        have hg2 : Steady dec d2 := steady_trans ⟨rfl, fun h => h⟩ hg1
        split
        · exact hg2
        · generalize env.initFrame d2.ext span d2.preview_frame (outputNeeded d2) = r
          split
          · exact steady_trans hg2 (steady_trans ⟨rfl, fun h => h⟩ (RequestMoreInput_steady _))
          · split
            · exact steady_trans hg2 ⟨rfl, fun h => h⟩
            · have hk := acceptFrameHeader_steady env { d2 with ext := r.2.2.2 } r.2.2.1
              exact each_mono hk fun d hd =>
                steady_trans hg2 (steady_trans ⟨rfl, fun h => h⟩ hd)

theorem frameTocStage_steady (env : FrameEnv E) (dec : JxlDecoder E) :
    Ctl.Each (Steady dec) (frameTocStage env dec) := by
  unfold frameTocStage
  simp only
  generalize (if (!dec.preview_frame && wants dec.events_wanted JXL_DEC_FRAME_PROGRESSION) = true
      then env.setPauseAtProgressive (env.setupToc dec.ext dec.render_spotcolors dec.coalescing)
        dec.prog_detail
      else (JxlProgressiveDetail.kFrames,
        env.setupToc dec.ext dec.render_spotcolors dec.coalescing)) = pause
  split
  · exact ⟨rfl, fun h => h⟩
  · split
    · have h := AdvanceCodestream_steady
        ({ dec with
            ext := pause.2
            frame_prog_detail := pause.1
            dc_frame_progression_done := false
            next_section := 0
            section_processed := List.replicate (env.toc pause.2).length false
            frame_stage := FrameStage.kHeader } : JxlDecoder E) dec.remaining_frame_size
      exact steady_trans ⟨rfl, fun h => h⟩ h
    · exact ⟨rfl, fun h => h⟩

theorem setUpRGB8_steady (env : FrameEnv E) (dec : JxlDecoder E) :
    Steady dec (setUpRGB8 env dec) := by
  unfold setUpRGB8
  split
  · exact ⟨rfl, fun h => h⟩
  · exact steady_refl dec

theorem setUpFloatCallback_steady (env : FrameEnv E) (dec : JxlDecoder E) :
    Steady dec (setUpFloatCallback env dec) := by
  unfold setUpFloatCallback
  split
  · exact ⟨rfl, fun h => h⟩
  · exact steady_refl dec

theorem prepareOutput_steady (env : FrameEnv E) (dec : JxlDecoder E) :
    Ctl.Each (Steady dec) (prepareOutput env dec) := by
  unfold prepareOutput
  split
  · exact steady_refl dec
  · split
    · exact steady_refl dec
    · exact steady_trans (setUpRGB8_steady env dec) (setUpFloatCallback_steady env _)

theorem afterSections_steady (env : FrameEnv E) (n : Nat) (dec : JxlDecoder E) :
    Ctl.Each (Steady dec) (afterSections env n dec) := by
  unfold afterSections
  simp only
  split
  · exact ⟨rfl, fun h => h⟩
  · split
    · exact ⟨rfl, fun h => h⟩
    · split
      · exact RequestMoreInput_steady dec
      · split
        · trivial
        · rename_i d1 hr
          have h1 : Steady dec d1 := by
            split at hr
            · split at hr
              · simp only [Option.some.injEq] at hr
                rw [← hr]
                refine ⟨rfl, fun hl => ?_⟩
                unfold LedgerOk at hl ⊢
                simp only [List.length_set]
                exact hl
              · cases hr
            · simp only [Option.some.injEq] at hr
              rw [← hr]
              exact steady_refl dec
          split
          · exact steady_trans h1 ⟨rfl, fun h => h⟩
          · exact steady_trans h1 ⟨rfl, fun h => h⟩

theorem frameFullStage_steady (env : FrameEnv E) (dec : JxlDecoder E) :
    Ctl.Each (Steady dec) (frameFullStage env dec) := by
  unfold frameFullStage
  refine each_andThen (prepareOutput_steady env dec) ?_
  intro d hd
  simp only
  split
  · trivial
  · rename_i st d2 hp
    have hp2 := steady_trans hd (JxlDecoderProcessSections_steady env _ _ _ hp)
    split
    · exact hp2
    · exact each_mono (afterSections_steady env _ d2) fun d3 h3 => steady_trans hp2 h3

theorem writeFullImage_steady (env : FrameEnv E) (dec : JxlDecoder E) :
    Ctl.Each (Steady dec) (writeFullImage env dec) := by
  unfold writeFullImage
  simp only
  generalize (if (!env.hasRGBBuffer dec.ext) = true then env.convertImage dec
    else (true, dec.ext)) = c
  split
  · exact ⟨rfl, fun h => h⟩
  · split
    · trivial
    · exact ⟨rfl, fun h => h⟩
    · exact ⟨rfl, fun h => h⟩

theorem frameOutputStage_steady (env : FrameEnv E) (dec : JxlDecoder E) :
    Ctl.Each (Steady dec) (frameOutputStage env dec).2 := by
  unfold frameOutputStage
  split
  · simp only
    split
    · exact ⟨rfl, fun h => h⟩
    · exact ⟨rfl, fun h => h⟩
  · split
    · simp only
      split
      · exact ⟨rfl, fun h => h⟩
      · split
        · exact each_mono (writeFullImage_steady env _) fun d hd =>
            steady_trans ⟨rfl, fun h => h⟩ hd
        · exact ⟨rfl, fun h => h⟩
    · exact steady_refl dec

theorem frameFinish_steady (env : FrameEnv E) (flags : OutputFlags) (dec : JxlDecoder E) :
    Ctl.Each (Steady dec) (frameFinish env flags dec) := by
  unfold frameFinish
  simp only
  split
  · exact ⟨rfl, fun h => h⟩
  · split
    · exact ⟨rfl, fun h => h⟩
    · split
      · exact ⟨rfl, fun h => h⟩
      · exact ⟨rfl, fun h => h⟩

theorem frameIteration_steady (env : FrameEnv E) (dec : JxlDecoder E) :
    Ctl.Each (Steady dec) (frameIteration env dec) :=
  frameIteration_each env dec (Steady dec) (steady_refl dec)
    (fun _ => frameHeaderStage_steady env dec)
    (fun d hd _ _ => each_mono (frameTocStage_steady env d) fun _ h => steady_trans hd h)
    (fun d hd _ _ => each_mono (frameFullStage_steady env d) fun _ h => steady_trans hd h)
    (fun d hd => each_mono (frameOutputStage_steady env d) fun _ h => steady_trans hd h)
    (fun d flags hd => each_mono (frameFinish_steady env flags d) fun _ h => steady_trans hd h)

theorem frameLoop_steady (env : FrameEnv E) (fuel : Nat) (dec d : JxlDecoder E)
    (st : JxlDecoderStatus) (h : frameLoop env fuel dec = some (st, d)) : Steady dec d := by
  induction fuel generalizing dec with
  | zero => cases h
  | succ n ih =>
    unfold frameLoop at h
    have hk := frameIteration_steady env dec
    split at h
    · rename_i st1 d1 hi
      rw [hi] at hk
      simp only [Option.some.injEq, Prod.mk.injEq] at h
      rw [← h.2]; exact hk
    · rename_i d1 hi
      rw [hi] at hk
      exact steady_trans hk (ih d1 h)
    · rename_i d1 hi
      rw [hi] at hk
      exact steady_trans hk (ih d1 h)
    · rename_i d1 hi
      rw [hi] at hk
      simp only [Option.some.injEq, Prod.mk.injEq] at h
      rw [← h.2]
      exact steady_trans hk ⟨rfl, fun h => h⟩
    · cases h

theorem processAfterBasicInfo_steady (env : FrameEnv E) (fuel : Nat) (dec d : JxlDecoder E)
    (st : JxlDecoderStatus) (h : processAfterBasicInfo env fuel dec = some (st, d)) :
    Steady dec d := by
  unfold processAfterBasicInfo at h
  simp only at h
  split at h
  · cases h
  · rename_i st1 d1 hh
    have h1 : Steady dec d1 := by
      split at hh
      · exact JxlDecoderReadAllHeaders_steady env _ _ _ hh
      · simp only [Option.some.injEq, Prod.mk.injEq] at hh
        rw [← hh.2]
        exact steady_refl dec
    split at h
    · simp only [Option.some.injEq, Prod.mk.injEq] at h
      rw [← h.2]; exact h1
    · split at h
      · simp only [Option.some.injEq, Prod.mk.injEq] at h
        rw [← h.2]; exact steady_trans h1 ⟨rfl, fun h => h⟩
      · split at h
        · simp only [Option.some.injEq, Prod.mk.injEq] at h
          rw [← h.2]; exact steady_trans h1 ⟨rfl, fun h => h⟩
        · have hf := frameLoop_steady env fuel _ d st h
          exact steady_trans h1 (steady_trans ⟨rfl, fun h => h⟩ hf)

/-- `JxlDecoderProcessCodestream` keeps `input_closed` and preserves the size
invariant of the ledger. -/
theorem JxlDecoderProcessCodestream_steady (env : FrameEnv E) (fuel : Nat)
    (dec d : JxlDecoder E) (st : JxlDecoderStatus)
    (h : JxlDecoderProcessCodestream env fuel dec = some (st, d)) : Steady dec d := by
  unfold JxlDecoderProcessCodestream at h
  simp only at h
  split at h
  · cases h
  · rename_i st1 d1 hh
    have h1 : Steady dec d1 := by
      split at hh
      · have hb := JxlDecoderReadBasicInfo_steady _ _ _ _ hh
        exact steady_trans ⟨rfl, fun h => h⟩ hb
      · simp only [Option.some.injEq, Prod.mk.injEq] at hh
        rw [← hh.2]
        exact ⟨rfl, fun h => h⟩
    split at h
    · simp only [Option.some.injEq, Prod.mk.injEq] at h
      rw [← h.2]; exact h1
    · split at h
      · simp only [Option.some.injEq, Prod.mk.injEq] at h
        rw [← h.2]; exact steady_trans h1 ⟨rfl, fun h => h⟩
      · split at h
        · simp only [Option.some.injEq, Prod.mk.injEq] at h
          rw [← h.2]; exact steady_trans h1 ⟨rfl, fun h => h⟩
        · exact steady_trans h1 (processAfterBasicInfo_steady env fuel _ d st h)

end SteadyFrames

section SteadyBoxes
variable {E : Type}

theorem AdvanceInput_steady (dec : JxlDecoder E) (k : Nat) : Steady dec (dec.AdvanceInput k) :=
  ⟨rfl, fun h => h⟩

theorem outputBoxContent_steady (env : BoxEnv E) (dec : JxlDecoder E) :
    Ctl.Each (Steady dec) (outputBoxContent env dec) := by
  unfold outputBoxContent
  split
  · simp only
    split
    · exact ⟨rfl, fun h => h⟩
    · exact ⟨rfl, fun h => h⟩
  · exact steady_refl dec

theorem setReconMetadata_steady (dec : JxlDecoder E) (exif : Bool) (v : List Nat) :
    Steady dec (dec.setReconMetadata exif v) := by
  unfold JxlDecoder.setReconMetadata
  split
  · exact ⟨rfl, fun h => h⟩
  · exact ⟨rfl, fun h => h⟩

theorem metadataPass_steady (env : BoxEnv E) (exif : Bool) (dec : JxlDecoder E) :
    Steady dec (metadataPass env exif dec).2 := by
  unfold metadataPass
  simp only
  have h1 : Steady dec (if (dec.reconMetadata exif).isEmpty = true then
      dec.setReconMetadata exif (resizeBytes (dec.reconMetadata exif) 64) else dec) := by
    split
    · exact setReconMetadata_steady _ _ _
    · exact steady_refl dec
  generalize (if (dec.reconMetadata exif).isEmpty = true then
      dec.setReconMetadata exif (resizeBytes (dec.reconMetadata exif) 64) else dec) = dec1 at h1
  exact steady_trans h1 (steady_trans (setReconMetadata_steady _ _ _) ⟨rfl, fun h => h⟩)

theorem metadataDone_steady (exif : Bool) (dec : JxlDecoder E) :
    Steady dec (metadataDone exif dec) := by
  unfold metadataDone
  simp only
  generalize (if dec.store_exif = 1 then dec.recon_exif_size else dec.recon_xmp_size) = needed
  by_cases h : dec.box_contents_unbounded = true ∧ dec.recon_out_buffer_pos < needed
  · rw [if_pos h]
    exact steady_refl dec
  · rw [if_neg h]
    exact steady_trans (setReconMetadata_steady _ _ _) ⟨rfl, fun h => h⟩

theorem storeMetadata_steady (env : BoxEnv E) (exif : Bool) (fuel : Nat) (dec : JxlDecoder E) :
    Ctl.Each (Steady dec) (storeMetadata env exif fuel dec) := by
  induction fuel generalizing dec with
  | zero => trivial
  | succ n ih =>
    unfold storeMetadata
    simp only
    have hp := metadataPass_steady env exif dec
    split
    · exact each_mono (ih _) fun d hd =>
        steady_trans hp (steady_trans (setReconMetadata_steady _ _ _) hd)
    · split
      · exact hp
      · split
        · exact steady_trans hp (metadataDone_steady _ _)
        · exact hp

theorem boxPrelude_steady (env : BoxEnv E) (fuel : Nat) (dec : JxlDecoder E) :
    Ctl.Each (Steady dec) (boxPrelude env fuel dec) := by
  unfold boxPrelude
  simp only
  have h0 : Steady dec ({ dec.AdvanceInput dec.header_size with header_size := 0 } :
      JxlDecoder E) := ⟨rfl, fun h => h⟩
  refine each_andThen (each_mono (outputBoxContent_steady env _) fun d hd =>
    steady_trans h0 hd) ?_
  intro d hd
  split
  · exact each_mono (storeMetadata_steady env _ fuel d) fun d1 h1 => steady_trans hd h1
  · exact hd

theorem reconSetMetadata_steady (env : BoxEnv E) (dec : JxlDecoder E) :
    Ctl.Each (Steady dec) (reconSetMetadata env dec) := by
  unfold reconSetMetadata
  by_cases h : dec.recon_output_jpeg = JpegReconStage.kSettingMetadata ∧
      dec.JbrdNeedMoreBoxes = false
  · rw [if_pos h]
    simp only
    generalize (if dec.recon_exif_size ≠ 0 then env.setExif dec.ext dec.exif_metadata
      else (JXL_DEC_SUCCESS, dec.ext)) = x
    by_cases hx : x.1 ≠ JXL_DEC_SUCCESS
    · rw [if_pos hx]
      exact ⟨rfl, fun h => h⟩
    · rw [if_neg hx]
      generalize (if dec.recon_xmp_size ≠ 0 then env.setXmp x.2 dec.xmp_metadata
        else (JXL_DEC_SUCCESS, x.2)) = y
      by_cases hy : y.1 ≠ JXL_DEC_SUCCESS
      · rw [if_pos hy]
        exact ⟨rfl, fun h => h⟩
      · rw [if_neg hy]
        exact ⟨rfl, fun h => h⟩
  · rw [if_neg h]
    exact steady_refl dec

theorem reconWriteOutput_steady (env : BoxEnv E) (dec : JxlDecoder E) :
    Ctl.Each (Steady dec) (reconWriteOutput env dec) := by
  unfold reconWriteOutput
  split
  · simp only
    split
    · exact ⟨rfl, fun h => h⟩
    · split
      · exact ⟨rfl, fun h => h⟩
      · exact ⟨rfl, fun h => h⟩
  · exact steady_refl dec

theorem boxHeaderNoInput_steady (dec : JxlDecoder E) :
    Ctl.Each (Steady dec) (boxHeaderNoInput dec) := by
  unfold boxHeaderNoInput
  split
  · exact steady_refl dec
  · split
    · exact steady_refl dec
    · split
      · exact steady_refl dec
      · split
        · exact steady_refl dec
        · exact steady_refl dec

theorem startStoring_steady (dec : JxlDecoder E) : Steady dec (startStoring dec) := by
  unfold startStoring
  split
  · simp only
    have h1 : Steady dec (if dec.store_exif = 0 ∧ dec.box_decoded_type = boxTag "Exif" then
        ({ dec with store_exif := 1, recon_out_buffer_pos := 0 } : JxlDecoder E) else dec) := by
      split
      · exact ⟨rfl, fun h => h⟩
      · exact steady_refl dec
    generalize (if dec.store_exif = 0 ∧ dec.box_decoded_type = boxTag "Exif" then
        ({ dec with store_exif := 1, recon_out_buffer_pos := 0 } : JxlDecoder E) else dec)
      = dec1 at h1
    split
    · exact steady_trans h1 ⟨rfl, fun h => h⟩
    · exact h1
  · exact steady_refl dec

theorem startBoxDecoders_steady (env : BoxEnv E) (dec : JxlDecoder E) :
    Steady dec (startBoxDecoders env dec) := by
  unfold startBoxDecoders
  simp only
  have h1 : Steady dec (if wants dec.events_wanted JXL_DEC_BOX = true then
      ({ dec with
        ext := env.boxStart dec.ext (dec.decompress_boxes && decide (dec.box_type = boxTag "brob"))
          dec.box_contents_unbounded dec.box_contents_size } : JxlDecoder E) else dec) := by
    split
    · exact ⟨rfl, fun h => h⟩
    · exact steady_refl dec
  generalize (if wants dec.events_wanted JXL_DEC_BOX = true then
      ({ dec with
        ext := env.boxStart dec.ext (dec.decompress_boxes && decide (dec.box_type = boxTag "brob"))
          dec.box_contents_unbounded dec.box_contents_size } : JxlDecoder E) else dec)
    = dec1 at h1
  split
  · exact steady_trans h1 ⟨rfl, fun h => h⟩
  · exact h1

theorem chooseBoxStage_steady (dec d : JxlDecoder E) (h : chooseBoxStage dec = some d) :
    Steady dec d := by
  unfold chooseBoxStage at h
  split at h
  · simp only [Option.some.injEq] at h; rw [← h]; exact ⟨rfl, fun h => h⟩
  · split at h
    · split at h
      · cases h
      · simp only [Option.some.injEq] at h; rw [← h]; exact ⟨rfl, fun h => h⟩
    · split at h
      · simp only [Option.some.injEq] at h; rw [← h]; exact ⟨rfl, fun h => h⟩
      · split at h
        · split at h
          · cases h
          · simp only [Option.some.injEq] at h; rw [← h]; exact ⟨rfl, fun h => h⟩
        · simp only [Option.some.injEq] at h; rw [← h]; exact ⟨rfl, fun h => h⟩

theorem enterBox_steady (env : BoxEnv E) (dec : JxlDecoder E) (box_size header_size : Nat) :
    Ctl.Each (Steady dec) (enterBox env dec box_size header_size) := by
  unfold enterBox
  simp only
  have h1 : Steady dec (startBoxDecoders env (startStoring (boxGeometry dec box_size header_size))) :=
    steady_trans (⟨rfl, fun h => h⟩ : Steady dec (boxGeometry dec box_size header_size))
      (steady_trans (startStoring_steady _) (startBoxDecoders_steady env _))
  generalize startBoxDecoders env (startStoring (boxGeometry dec box_size header_size)) = dec1
    at h1
  split
  · exact h1
  · rename_i d2 hc
    have h2 := steady_trans h1 (chooseBoxStage_steady _ _ hc)
    split
    · exact steady_trans h2 ⟨rfl, fun h => h⟩
    · exact h2

theorem checkBoxOrder_steady (env : BoxEnv E) (dec : JxlDecoder E) (done : Bool)
    (box_size header_size : Nat) :
    Ctl.Each (Steady dec) (checkBoxOrder env dec done box_size header_size) := by
  unfold checkBoxOrder
  simp only
  split
  · trivial
  · exact steady_refl dec
  · rename_i t ht
    split
    · exact ⟨rfl, fun h => h⟩
    · split
      · exact ⟨rfl, fun h => h⟩
      · split
        · exact ⟨rfl, fun h => h⟩
        · exact each_mono (enterBox_steady env _ box_size header_size) fun d hd =>
            steady_trans ⟨rfl, fun h => h⟩ hd

theorem boxHeaderStage_steady (env : BoxEnv E) (dec : JxlDecoder E) :
    Ctl.Each (Steady dec) (boxHeaderStage env dec) := by
  unfold boxHeaderStage
  split
  · split
    · exact steady_refl dec
    · exact ⟨rfl, fun h => h⟩
  · split
    · exact boxHeaderNoInput_steady dec
    · split
      · trivial
      · exact steady_refl dec
      · split
        · trivial
        · rename_i h hp
          simp only
          split
          · split
            · exact ⟨rfl, fun h => h⟩
            · exact ⟨rfl, fun h => h⟩
          · exact each_mono (checkBoxOrder_steady env _ _ _ _) fun d hd =>
              steady_trans ⟨rfl, fun h => h⟩ hd

theorem boxFtypStage_steady (dec : JxlDecoder E) :
    Ctl.Each (Steady dec) (boxFtypStage dec) := by
  unfold boxFtypStage
  split
  · exact steady_refl dec
  · split
    · exact steady_refl dec
    · split
      · trivial
      · split
        · exact steady_refl dec
        · exact ⟨rfl, fun h => h⟩

theorem boxPartialCodestreamStage_steady (dec : JxlDecoder E) :
    Ctl.Each (Steady dec) (boxPartialCodestreamStage dec) := by
  unfold boxPartialCodestreamStage
  split
  · exact steady_refl dec
  · split
    · exact steady_refl dec
    · split
      · exact steady_refl dec
      · split
        · trivial
        · rename_i idx hl
          simp only
          split
          · exact ⟨rfl, fun h => h⟩
          · exact ⟨rfl, fun h => h⟩

theorem boxCodestreamStage_steady (env : BoxEnv E) (fuel : Nat) (dec : JxlDecoder E) :
    Ctl.Each (Steady dec) (boxCodestreamStage env fuel dec) := by
  unfold boxCodestreamStage
  split
  · trivial
  · rename_i status d hp
    have h1 := JxlDecoderProcessCodestream_steady _ _ _ _ _ hp
    split
    · exact h1
    · split
      · exact steady_trans h1 ⟨rfl, fun h => h⟩
      · split
        · split
          · exact steady_trans h1 ⟨rfl, fun h => h⟩
          · split
            · exact h1
            · split
              · exact steady_trans h1 ⟨rfl, fun h => h⟩
              · exact h1
        · exact h1

theorem reconSizes_steady (env : BoxEnv E) (dec : JxlDecoder E) :
    Steady dec (reconSizes env dec).2 := by
  unfold reconSizes
  simp only
  have h1 : Steady dec (if env.numExifMarkers dec.ext ≠ 0 then
      if env.numExifMarkers dec.ext > 1 then (false, dec)
      else ((env.exifBoxContentSize dec.ext dec.recon_exif_size).1,
        ({ dec with recon_exif_size := (env.exifBoxContentSize dec.ext dec.recon_exif_size).2 } :
          JxlDecoder E))
      else (true, dec)).2 := by
    split
    · split
      · exact steady_refl dec
      · exact ⟨rfl, fun h => h⟩
    · exact steady_refl dec
  generalize (if env.numExifMarkers dec.ext ≠ 0 then
      if env.numExifMarkers dec.ext > 1 then (false, dec)
      else ((env.exifBoxContentSize dec.ext dec.recon_exif_size).1,
        ({ dec with recon_exif_size := (env.exifBoxContentSize dec.ext dec.recon_exif_size).2 } :
          JxlDecoder E))
      else (true, dec)) = w at h1
  split
  · exact h1
  · split
    · split
      · exact h1
      · exact steady_trans h1 ⟨rfl, fun h => h⟩
    · exact h1

theorem boxJpegReconStage_steady (env : BoxEnv E) (dec : JxlDecoder E) :
    Ctl.Each (Steady dec) (boxJpegReconStage env dec) := by
  unfold boxJpegReconStage
  simp only
  have h1 : Steady dec (if (!env.jpegIsParsingBox dec.ext) = true then
      ({ dec with
        ext := env.jpegStartBox dec.ext dec.box_contents_unbounded dec.box_contents_size } :
        JxlDecoder E) else dec) := by
    split
    · exact ⟨rfl, fun h => h⟩
    · exact steady_refl dec
  generalize (if (!env.jpegIsParsingBox dec.ext) = true then
      ({ dec with
        ext := env.jpegStartBox dec.ext dec.box_contents_unbounded dec.box_contents_size } :
        JxlDecoder E) else dec) = dec1 at h1
  have h2 : Steady dec (({ dec1 with ext := (env.jpegProcess dec1).2.2 } : JxlDecoder E).AdvanceInput
      (env.jpegProcess dec1).2.1) := steady_trans h1 ⟨rfl, fun h => h⟩
  generalize (({ dec1 with ext := (env.jpegProcess dec1).2.2 } : JxlDecoder E).AdvanceInput
      (env.jpegProcess dec1).2.1) = dec2 at h2
  split
  · have h3 := steady_trans h2 (reconSizes_steady env dec2)
    split
    · exact h3
    · split
      · exact steady_trans h3 ⟨rfl, fun h => h⟩
      · exact steady_trans h3 ⟨rfl, fun h => h⟩
  · exact h2

theorem boxSkipStage_steady (dec : JxlDecoder E) :
    Ctl.Each (Steady dec) (boxSkipStage dec) := by
  unfold boxSkipStage
  split
  · split
    · exact steady_refl dec
    · split
      · exact steady_refl dec
      · exact ⟨rfl, fun h => h⟩
  · simp only
    split
    · exact ⟨rfl, fun h => h⟩
    · exact ⟨rfl, fun h => h⟩

theorem boxStage_steady (env : BoxEnv E) (fuel : Nat) (dec : JxlDecoder E) :
    Ctl.Each (Steady dec) (boxStage env fuel dec) := by
  unfold boxStage
  split
  · exact boxHeaderStage_steady env dec
  · exact boxFtypStage_steady dec
  · exact boxPartialCodestreamStage_steady dec
  · exact boxCodestreamStage_steady env fuel dec
  · exact boxJpegReconStage_steady env dec
  · exact boxSkipStage_steady dec

theorem boxIteration_steady (env : BoxEnv E) (fuel : Nat) (dec : JxlDecoder E) :
    Ctl.Each (Steady dec) (boxIteration env fuel dec) := by
  unfold boxIteration
  have h1 : Ctl.Each (Steady dec)
      (if dec.box_stage ≠ BoxStage.kHeader then boxPrelude env fuel dec else Ctl.next dec) := by
    split
    · exact boxPrelude_steady env fuel dec
    · exact steady_refl dec
  refine each_andThen h1 ?_
  intro d1 hd1
  refine each_andThen (each_mono (reconSetMetadata_steady env d1) fun _ h =>
    steady_trans hd1 h) ?_
  intro d2 hd2
  refine each_andThen (each_mono (reconWriteOutput_steady env d2) fun _ h =>
    steady_trans hd2 h) ?_
  intro d3 hd3
  exact each_mono (boxStage_steady env fuel d3) fun _ h => steady_trans hd3 h

theorem boxLoop_steady (env : BoxEnv E) (fuel passes : Nat) (dec d : JxlDecoder E)
    (st : JxlDecoderStatus) (h : boxLoop env fuel passes dec = some (st, d)) :
    Steady dec d := by
  induction passes generalizing dec with
  | zero => cases h
  | succ n ih =>
    unfold boxLoop at h
    have hk := boxIteration_steady env fuel dec
    split at h
    · rename_i st1 d1 hi
      rw [hi] at hk
      simp only [Option.some.injEq, Prod.mk.injEq] at h
      rw [← h.2]; exact hk
    · rename_i d1 hi
      rw [hi] at hk
      exact steady_trans hk (ih d1 h)
    · rename_i d1 hi
      rw [hi] at hk
      exact steady_trans hk (ih d1 h)
    · rename_i d1 hi
      rw [hi] at hk
      simp only [Option.some.injEq, Prod.mk.injEq] at h
      rw [← h.2]
      exact hk
    · cases h

/-- `HandleBoxes` keeps `input_closed` and preserves the size invariant of
the ledger. -/
theorem HandleBoxes_steady (env : BoxEnv E) (fuel : Nat) (dec d : JxlDecoder E)
    (st : JxlDecoderStatus) (h : HandleBoxes env fuel dec = some (st, d)) : Steady dec d :=
  boxLoop_steady env fuel fuel dec d st h

theorem checkSignature_steady (dec d : JxlDecoder E) (st : JxlDecoderStatus)
    (h : checkSignature dec = some (st, d)) : Steady dec d := by
  unfold checkSignature at h
  split at h
  · split at h
    · cases h
    · simp only [Option.some.injEq, Prod.mk.injEq] at h
      rw [← h.2]; exact steady_refl dec
    · split at h
      · simp only [Option.some.injEq, Prod.mk.injEq] at h
        rw [← h.2]; exact steady_refl dec
      · simp only [Option.some.injEq, Prod.mk.injEq] at h
        rw [← h.2]; exact steady_refl dec
    · simp only [Option.some.injEq, Prod.mk.injEq] at h
      rw [← h.2]; exact ⟨rfl, fun h => h⟩
    · simp only [Option.some.injEq, Prod.mk.injEq] at h
      rw [← h.2]; exact ⟨rfl, fun h => h⟩
  · simp only [Option.some.injEq, Prod.mk.injEq] at h
    rw [← h.2]; exact steady_refl dec

/-- `JxlDecoderProcessInput` keeps `input_closed` and preserves the size
invariant of the ledger. -/
theorem JxlDecoderProcessInput_steady (env : BoxEnv E) (fuel : Nat) (dec d : JxlDecoder E)
    (st : JxlDecoderStatus)
    (h : JxlDecoderProcessInput (HandleBoxes env fuel) dec = some (st, d)) : Steady dec d := by
  unfold JxlDecoderProcessInput at h
  simp only at h
  have h0 : Steady dec (if dec.stage = DecoderStage.kInited then
      ({ dec with stage := DecoderStage.kStarted } : JxlDecoder E) else dec) := by
    split
    · exact ⟨rfl, fun h => h⟩
    · exact steady_refl dec
  generalize (if dec.stage = DecoderStage.kInited then
      ({ dec with stage := DecoderStage.kStarted } : JxlDecoder E) else dec) = dec1 at h h0
  split at h
  · simp only [Option.some.injEq, Prod.mk.injEq] at h
    rw [← h.2]; exact h0
  · split at h
    · cases h
    · rename_i st2 dec2 hs
      have h2 := steady_trans h0 (checkSignature_steady _ _ _ hs)
      split at h
      · simp only [Option.some.injEq, Prod.mk.injEq] at h
        rw [← h.2]; exact h2
      · split at h
        · cases h
        · rename_i status dec3 hb
          have h3 := steady_trans h2 (HandleBoxes_steady env fuel _ _ _ hb)
          split at h
          · simp only [Option.some.injEq, Prod.mk.injEq] at h
            rw [← h.2]; exact h3
          · split at h
            · simp only [Option.some.injEq, Prod.mk.injEq] at h
              rw [← h.2]; exact h3
            · split at h
              · simp only [Option.some.injEq, Prod.mk.injEq] at h
                rw [← h.2]; exact h3
              · simp only [Option.some.injEq, Prod.mk.injEq] at h
                rw [← h.2]; exact h3

end SteadyBoxes

section ClosedInputTheorems
variable {E : Type}

/-- In a state with `input_closed` set (as `JxlDecoderCloseInput` leaves it),
`JxlDecoderProcessInput` never returns `JXL_DEC_NEED_MORE_INPUT` and
leaves `input_closed` set; an incomplete signature and a `HandleBoxes` that
asks for more input both end in `JXL_DEC_ERROR`; and `JxlDecoderSetInput`
returns `JXL_DEC_ERROR` and leaves the state as it is. -/
theorem JxlDecoderProcessInput_input_closed (env : BoxEnv E) (fuel : Nat) (dec : JxlDecoder E)
    (hc : dec.input_closed = true) :
    (JxlDecoderCloseInput dec).input_closed = true ∧
    (∀ st d, JxlDecoderProcessInput (HandleBoxes env fuel) dec = some (st, d) →
      st ≠ JXL_DEC_NEED_MORE_INPUT ∧ d.input_closed = true) ∧
    (dec.got_signature = false →
      JxlSignatureCheck dec.inputBytes dec.avail_in = some JXL_SIG_NOT_ENOUGH_BYTES →
      ∃ d, JxlDecoderProcessInput (HandleBoxes env fuel) dec = some (JXL_DEC_ERROR, d)) ∧
    (∀ dec2 d,
      checkSignature (if dec.stage = DecoderStage.kInited then
        ({ dec with stage := DecoderStage.kStarted } : JxlDecoder E) else dec)
        = some (JXL_DEC_SUCCESS, dec2) →
      HandleBoxes env fuel dec2 = some (JXL_DEC_NEED_MORE_INPUT, d) →
      ∃ d1, JxlDecoderProcessInput (HandleBoxes env fuel) dec = some (JXL_DEC_ERROR, d1)) ∧
    (∀ data size, JxlDecoderSetInput dec data size = (JXL_DEC_ERROR, dec)) := by
  refine ⟨rfl, ?_, ?_, ?_, ?_⟩
  · intro st d h
    have hs := JxlDecoderProcessInput_steady env fuel dec d st h
    refine ⟨?_, hs.1.trans hc⟩
    intro hst
    subst hst
    unfold JxlDecoderProcessInput at h
    simp only at h
    have h0 : (if dec.stage = DecoderStage.kInited then
        ({ dec with stage := DecoderStage.kStarted } : JxlDecoder E) else dec).input_closed
        = true := by
      split
      · exact hc
      · exact hc
    generalize (if dec.stage = DecoderStage.kInited then
        ({ dec with stage := DecoderStage.kStarted } : JxlDecoder E) else dec) = dec1 at h h0
    split at h
    · cases h
    · split at h
      · cases h
      · rename_i st2 dec2 hsig
        split at h
        · simp only [Option.some.injEq, Prod.mk.injEq] at h
          have h1 : st2 = JXL_DEC_NEED_MORE_INPUT := h.1
          subst h1
          unfold checkSignature at hsig
          split at hsig
          · split at hsig <;> cases hsig
          · cases hsig
        · split at h
          · cases h
          · rename_i status dec3 hb
            split at h
            · cases h
            · rename_i hn
              split at h
              · cases h
              · split at h
                · cases h
                · simp only [Option.some.injEq, Prod.mk.injEq] at h
                  apply hn
                  refine ⟨h.1, ?_⟩
                  rw [h.2]
                  exact hs.1.trans hc
  · intro hg hsig
    unfold JxlDecoderProcessInput
    simp only
    by_cases hst : dec.stage = DecoderStage.kInited
    · rw [if_pos hst]
      have hsig1 : checkSignature ({ dec with stage := DecoderStage.kStarted } : JxlDecoder E)
          = some (JXL_DEC_ERROR, { dec with stage := DecoderStage.kStarted }) := by
        unfold checkSignature
        have hg1 : (!({ dec with stage := DecoderStage.kStarted } : JxlDecoder E).got_signature)
            = true := by
          show (!dec.got_signature) = true
          rw [hg]; rfl
        rw [if_pos hg1]
        have hsig2 : JxlSignatureCheck
            ({ dec with stage := DecoderStage.kStarted } : JxlDecoder E).inputBytes
            ({ dec with stage := DecoderStage.kStarted } : JxlDecoder E).avail_in
            = some JXL_SIG_NOT_ENOUGH_BYTES := hsig
        rw [hsig2]
        simp only
        rw [if_pos hc]
      rw [hsig1]
      exact ⟨_, rfl⟩
    · rw [if_neg hst]
      by_cases he : dec.stage = DecoderStage.kError
      · rw [if_pos he]
        exact ⟨_, rfl⟩
      · rw [if_neg he]
        have hsig1 : checkSignature dec = some (JXL_DEC_ERROR, dec) := by
          unfold checkSignature
          have hg1 : (!dec.got_signature) = true := by rw [hg]; rfl
          rw [if_pos hg1, hsig]
          simp only
          rw [if_pos hc]
        rw [hsig1]
        exact ⟨_, rfl⟩
  · intro dec2 d hsig hb
    have hd : d.input_closed = true := by
      have h1 := checkSignature_steady _ _ _ hsig
      have h2 := HandleBoxes_steady env fuel _ _ _ hb
      have h0 : (if dec.stage = DecoderStage.kInited then
          ({ dec with stage := DecoderStage.kStarted } : JxlDecoder E) else dec).input_closed
          = true := by
        split
        · exact hc
        · exact hc
      exact h2.1.trans (h1.1.trans h0)
    unfold JxlDecoderProcessInput
    simp only
    generalize (if dec.stage = DecoderStage.kInited then
        ({ dec with stage := DecoderStage.kStarted } : JxlDecoder E) else dec) = dec1 at hsig
    by_cases he : dec1.stage = DecoderStage.kError
    · rw [if_pos he]
      exact ⟨_, rfl⟩
    · rw [if_neg he, hsig]
      simp only
      rw [if_neg (fun h => h rfl), hb]
      simp only
      rw [if_pos ⟨trivial, hd⟩]
      exact ⟨_, rfl⟩
  · intro data size
    unfold JxlDecoderSetInput
    by_cases hn : dec.next_in.isSome = true
    · rw [if_pos hn]
    · rw [if_neg hn, if_pos hc]

end ClosedInputTheorems

section LedgerTheorems
variable {E : Type}

theorem ledgerOk_of_reach (env : BoxEnv E) (rewindExt : E → E) (dec : JxlDecoder E)
    (h : LedgerReach env rewindExt dec) : LedgerOk dec := by
  induction h with
  | create ext => exact ⟨rfl, Nat.le_refl _, Nat.le_refl _⟩
  | register _ hr ih => exact (registerFrame_steady _ _ _ _ hr).2 ih
  | process _ hp ih => exact (JxlDecoderProcessInput_steady env _ _ _ _ hp).2 ih
  | rewind _ ih => exact ⟨ih.1, Nat.zero_le _, Nat.zero_le _⟩
  | reset _ ih => exact ⟨rfl, Nat.le_refl _, Nat.le_refl _⟩
  | skip _ hs ih =>
    rename_i dec0 d amount _
    obtain ⟨required, hr⟩ := JxlDecoderSkipFrames_shape dec0 amount ih.1.symm
    rw [hr] at hs
    simp only [Option.some.injEq] at hs
    rw [← hs]
    exact ih
  | other _ h1 h2 h3 h4 h5 ih =>
    unfold LedgerOk at ih ⊢
    rw [h1, h2, h3, h4, h5]
    exact ih

/-- C34: in every state reached through frame header registration,
`JxlDecoderRewind` and `JxlDecoderReset` (and the calls that do not write the
ledger sizes), `frame_saved_as` and `frame_references` have the same size, at
least `internal_frames`, and `frame_external_to_internal` has at least
`external_frames` entries; so, when the frame counters do not wrap around, the
three size assertions of the registration hold, and `JxlDecoderSkipFrames`
passes its assertions, among them the precondition of
`GetFrameDependencies`. -/
theorem ledger_sizes_invariant (env : BoxEnv E) (rewindExt : E → E) (dec : JxlDecoder E)
    (h : LedgerReach env rewindExt dec) :
    (dec.frame_saved_as.length = dec.frame_references.length ∧
      dec.internal_frames ≤ dec.frame_saved_as.length ∧
      dec.external_frames ≤ dec.frame_external_to_internal.length) ∧
    (dec.internal_frames + 1 < SIZE_MOD → dec.external_frames + 1 < SIZE_MOD →
      ∃ d, registerFrame env.toFrameEnv dec = some (dec.internal_frames, d)) ∧
    (∀ amount, ∃ d, JxlDecoderSkipFrames dec amount = some d) ∧
    (∀ index, index < dec.frame_saved_as.length →
      ∃ deps, GetFrameDependencies index dec.frame_saved_as dec.frame_references
        = some deps) := by
  have hl := ledgerOk_of_reach env rewindExt dec h
  refine ⟨hl, fun hi he => registerFrame_asserts env.toFrameEnv dec hl hi he, ?_, ?_⟩
  · intro amount
    obtain ⟨required, hr⟩ := JxlDecoderSkipFrames_shape dec amount hl.1.symm
    exact ⟨_, hr⟩
  · intro index hidx
    obtain ⟨deps, hd, _⟩ := GetFrameDependencies_required dec.frame_saved_as
      dec.frame_references index hl.1.symm (by rw [← hl.1]; exact hidx)
    exact ⟨deps, hd⟩

theorem ledger_sizes_invariant_witness :
    LedgerReach demoBoxEnv id demoRegisteredOnce ∧
    demoRegisteredOnce.internal_frames = 1 ∧
    (demoRegisteredOnce.frame_saved_as.length = demoRegisteredOnce.frame_references.length ∧
      demoRegisteredOnce.internal_frames ≤ demoRegisteredOnce.frame_saved_as.length ∧
      demoRegisteredOnce.external_frames
        ≤ demoRegisteredOnce.frame_external_to_internal.length) :=
  ⟨LedgerReach.register (LedgerReach.create ()) rfl, rfl,
    (ledger_sizes_invariant demoBoxEnv id demoRegisteredOnce
      (LedgerReach.register (LedgerReach.create ()) rfl)).1⟩

end LedgerTheorems

section SkipDecisionTheorems
variable {E : Type}

theorem unreferenced_iff (env : FrameEnv E) (i : Nat) (dec : JxlDecoder E) :
    ((env.canBeReferenced dec.ext || env.isDCFrame dec.ext) &&
      !(decide (i < dec.frame_required.length) && !(dec.frame_required.getD i false))) = false
      ↔ Unreferenced env i dec := by
  unfold Unreferenced
  rw [List.getD_eq_getElem?_getD]
  by_cases hi : i < dec.frame_required.length
  · have hsome : dec.frame_required[i]? = some (dec.frame_required[i]) :=
      List.getElem?_eq_getElem hi
    rw [hsome]
    cases env.canBeReferenced dec.ext <;> cases env.isDCFrame dec.ext <;>
      cases dec.frame_required[i] <;> simp [hi]
  · have hnone : dec.frame_required[i]? = none := by
      rw [List.getElem?_eq_none_iff]; omega
    rw [hnone]
    cases env.canBeReferenced dec.ext <;> cases env.isDCFrame dec.ext <;> simp [hi]

/-- C32: when `JXL_DEC_FULL_IMAGE` is wanted, a (non-preview) frame that is
being skipped is passed over without decoding by the frame header stage (the
cursor advanced by `remaining_frame_size`, which is the sum of its section
sizes, and the frame stage back to Header) if and only if it cannot be
referenced or `frame_required` has a zero entry for its internal index;
otherwise the header stage falls through, the TOC stage enters the Full stage
and the Full stage goes on to the section processing without asking for an
output buffer. -/
theorem skipped_frame_passed_over (env : FrameEnv E) (i : Nat) (dec : JxlDecoder E)
    (hs : dec.skipping_frame = true) (hp : dec.preview_frame = false)
    (hw : wants dec.events_wanted JXL_DEC_FULL_IMAGE = true) :
    (announceFrame env i dec =
        Ctl.again (({ dec with frame_stage := FrameStage.kHeader } : JxlDecoder E).AdvanceCodestream
          dec.remaining_frame_size) ↔ Unreferenced env i dec) ∧
    (¬ Unreferenced env i dec →
      announceFrame env i dec = Ctl.next dec ∧
      ∃ d, frameTocStage env dec = Ctl.next d ∧ d.frame_stage = FrameStage.kFull ∧
        d.frame_dec_in_progress = true ∧ d.skipping_frame = true ∧
        d.remaining_frame_size = dec.remaining_frame_size ∧
        prepareOutput env d = Ctl.next (setUpFloatCallback env (setUpRGB8 env d))) := by
  have hu := unreferenced_iff env i dec
  have hnext : ¬ Unreferenced env i dec → announceFrame env i dec = Ctl.next dec := by
    intro hn
    have hr : ¬ ((env.canBeReferenced dec.ext || env.isDCFrame dec.ext) &&
        !(decide (i < dec.frame_required.length) && !(dec.frame_required.getD i false)))
        = false := fun h => hn (hu.mp h)
    unfold announceFrame
    simp only
    rw [if_neg (fun h => hr h.2), if_neg (fun h => by rw [hs] at h; exact absurd h.2.2 (by simp))]
  refine ⟨⟨fun h => ?_, fun h => ?_⟩, fun hn => ⟨hnext hn, ?_⟩⟩
  · by_contra hn
    rw [hnext hn] at h
    cases h
  · unfold announceFrame
    simp only
    rw [if_pos ⟨hs, hu.mpr h⟩]
  · unfold frameTocStage
    simp only
    generalize (if (!dec.preview_frame && wants dec.events_wanted JXL_DEC_FRAME_PROGRESSION)
        = true
      then env.setPauseAtProgressive (env.setupToc dec.ext dec.render_spotcolors dec.coalescing)
        dec.prog_detail
      else (JxlProgressiveDetail.kFrames,
        env.setupToc dec.ext dec.render_spotcolors dec.coalescing)) = pause
    rw [if_pos (by rw [hw]; simp)]
    refine ⟨_, rfl, rfl, rfl, hs, rfl, ?_⟩
    unfold prepareOutput
    rw [if_neg (fun h => by
      have h1 : dec.preview_frame = true := h.1
      rw [hp] at h1; cases h1)]
    rw [if_neg (fun h => by
      have h1 : dec.skipping_frame = false := h.2.2.2.2.2
      rw [hs] at h1; cases h1)]

theorem skipped_frame_passed_over_witness :
    (announceFrame demoReferenceEnv 0 (demoSkipRegistered 0x1400) =
        Ctl.again (({ demoSkipRegistered 0x1400 with frame_stage := FrameStage.kHeader } :
          JxlDecoder (List (List (Nat × List Nat)))).AdvanceCodestream
          (demoSkipRegistered 0x1400).remaining_frame_size) ↔
      Unreferenced demoReferenceEnv 0 (demoSkipRegistered 0x1400)) ∧
    ¬ Unreferenced demoReferenceEnv 0 (demoSkipRegistered 0x1400) :=
  ⟨(skipped_frame_passed_over demoReferenceEnv 0 (demoSkipRegistered 0x1400) rfl rfl rfl).1,
    fun h => by
      rcases h with h | h
      · exact absurd h.1 (by decide)
      · exact absurd h.1 (by decide)⟩

/-- C32, counterexample: with only `JXL_DEC_FRAME` wanted, a skipped frame that
can be referenced and lies beyond the end of `frame_required` is passed over
without decoding: one pass through the body of the frame loop hands no section
to the frame decoder, leaves the frame stage at Header and moves the cursor
past the 2 bytes of the frame header and the 12 bytes of the sections (4 of
them at hand, 8 as a pending skip). -/
theorem referenced_frame_passed_over :
    (demoSkipFirst 0x400 [1, 2, 10, 11, 12, 13]).skip_frames = 1 ∧
    (demoSkipFirst 0x400 [1, 2, 10, 11, 12, 13]).frame_required = [] ∧
    demoReferenceEnv.canBeReferenced [] = true ∧
    ∃ d, frameIteration demoReferenceEnv (demoSkipFirst 0x400 [1, 2, 10, 11, 12, 13])
        = Ctl.again d ∧
      d.skipping_frame = true ∧ d.frame_stage = FrameStage.kHeader ∧ d.ext = [] ∧
      d.avail_in = 0 ∧ d.file_pos = 6 ∧ d.codestream_pos = 8 :=
  ⟨rfl, rfl, rfl, _, rfl, rfl, rfl, rfl, rfl, rfl, rfl⟩

end SkipDecisionTheorems

section SkippedFrameTheorems

/-- C31 fails in the code: the two returns of `JXL_DEC_FRAME_PROGRESSION` of
the Full stage do not test `skipping_frame`, unlike the returns of
`JXL_DEC_FRAME`, `JXL_DEC_NEED_IMAGE_OUT_BUFFER` and `JXL_DEC_FULL_IMAGE`.
After `JxlDecoderSkipFrames(dec, 1)` with `JXL_DEC_FULL_IMAGE` and
`JXL_DEC_FRAME_PROGRESSION` wanted, on a first frame that can be referenced and
of which the header and the first section are at hand, the frame is being
skipped (`skipping_frame` is set, `skip_frames` is back to 0), it is decoded
because a later frame may refer to it, and `JxlDecoderProcessCodestream`
returns `JXL_DEC_FRAME_PROGRESSION` for it once the frame decoder has the DC. -/
theorem skipped_frame_progression_surfaced :
    (demoSkipFirst 0x9000 [1, 2, 10, 11, 12, 13]).skip_frames = 1 ∧
    wants 0x9000 JXL_DEC_FULL_IMAGE = true ∧ wants 0x9000 JXL_DEC_FRAME_PROGRESSION = true ∧
    ∃ d, JxlDecoderProcessCodestream demoReferenceEnv 5
        (demoSkipFirst 0x9000 [1, 2, 10, 11, 12, 13]) = some (JXL_DEC_FRAME_PROGRESSION, d) ∧
      d.skipping_frame = true ∧ d.skip_frames = 0 ∧ d.internal_frames = 1 ∧
      d.ext = [[(0, [10, 11, 12, 13])]] :=
  ⟨rfl, rfl, rfl, _, rfl, rfl, rfl, rfl, rfl⟩

end SkippedFrameTheorems

section OutputSinkTheorems

/-- C37 fails in the code: the two setters test the other sink only while
`image_out_buffer_set` is set, and the end of a frame's output clears that flag
but neither `image_out_buffer` nor the callbacks. After a first frame taken
through a callback, `JxlDecoderSetImageOutBuffer` for the second frame succeeds
and leaves `image_out_buffer_set` with both the flat buffer and the run
callback non-null, and the second frame is output in that state. -/
theorem image_out_sinks_both_set :
    demoAfterCallbackFrame = some demoSecondFrame ∧
    demoSecondFrame.image_out_buffer_set = false ∧
    demoSecondFrame.image_out_run_callback = 72 ∧
    JxlDecoderSetImageOutBuffer demoDimEnv demoSecondFrame demoRGB8 500 150
      = (JXL_DEC_SUCCESS, demoBothSinks) ∧
    demoBothSinks.image_out_buffer_set = true ∧ demoBothSinks.image_out_buffer = 500 ∧
    demoBothSinks.image_out_run_callback = 72 ∧
    (JxlDecoderProcessCodestream demoAnimationEnv 5 demoBothSinks).map Prod.fst
      = some JXL_DEC_FULL_IMAGE :=
  ⟨rfl, rfl, rfl, rfl, rfl, rfl, rfl, rfl⟩

end OutputSinkTheorems

section BitLists

theorem msb_foldl (l : List Bool) (a : Nat) :
    l.foldl (fun acc bit => 2 * acc + (if bit then 1 else 0)) a
      = a * 2 ^ l.length + l.foldl (fun acc bit => 2 * acc + (if bit then 1 else 0)) 0 := by
  induction l generalizing a with
  | nil => simp
  | cons b t ih =>
    simp only [List.foldl_cons, List.length_cons]
    rw [ih (2 * a + if b = true then 1 else 0), ih (2 * 0 + if b = true then 1 else 0)]
    ring

theorem msbValue_nil : msbValue [] = 0 := rfl

theorem msbValue_cons (b : Bool) (t : List Bool) :
    msbValue (b :: t) = (if b then 1 else 0) * 2 ^ t.length + msbValue t := by
  unfold msbValue
  simp only [List.foldl_cons]
  rw [msb_foldl]
  simp

theorem msbValue_append (l1 l2 : List Bool) :
    msbValue (l1 ++ l2) = msbValue l1 * 2 ^ l2.length + msbValue l2 := by
  induction l1 with
  | nil => simp [msbValue_nil]
  | cons b t ih =>
    rw [List.cons_append, msbValue_cons, msbValue_cons, ih, List.length_append]
    ring

theorem msbValue_lt (l : List Bool) : msbValue l < 2 ^ l.length := by
  induction l with
  | nil => simp [msbValue_nil]
  | cons b t ih =>
    rw [msbValue_cons, List.length_cons, pow_succ]
    cases b <;> simp <;> omega

theorem msbBits_length (n b : Nat) : (msbBits n b).length = n := by
  induction n with
  | zero => rfl
  | succ k ih => simp [msbBits, ih]

theorem msbValue_msbBits (n b : Nat) : msbValue (msbBits n b) = b % 2 ^ n := by
  induction n with
  | zero => simp [msbBits, msbValue_nil, Nat.mod_one]
  | succ k ih =>
    rw [msbBits, msbValue_cons, ih, msbBits_length, Nat.mod_pow_succ, testBit_div_mod]
    by_cases h : b / 2 ^ k % 2 = 1
    · simp [h]; ring
    · have h0 : b / 2 ^ k % 2 = 0 := by omega
      simp [h0]

theorem msbBits_ones (k n : Nat) (h : k ≤ n) : msbBits k (2 ^ n - 1) = List.replicate k true := by
  induction k with
  | zero => rfl
  | succ j ih =>
    rw [msbBits, ih (by omega), Nat.testBit_two_pow_sub_one, List.replicate_succ]
    simp
    omega

theorem stuffBytes_append (a b : List Nat) :
    stuffBytes (a ++ b) = stuffBytes a ++ stuffBytes b := by
  induction a with
  | nil => rfl
  | cons x t ih =>
    simp only [List.cons_append, stuffBytes]
    split <;> simp [ih]

theorem msbBytes_chunk (l : List Bool) (h : 8 ≤ l.length) :
    msbBytes l = msbValue (l.take 8) :: msbBytes (l.drop 8) := by
  match l, h with
  | b0 :: b1 :: b2 :: b3 :: b4 :: b5 :: b6 :: b7 :: rest, _ => rfl
  | [], h => simp at h
  | [_], h => simp at h
  | [_, _], h => simp at h
  | [_, _, _], h => simp at h
  | [_, _, _, _], h => simp at h
  | [_, _, _, _, _], h => simp at h
  | [_, _, _, _, _, _], h => simp at h
  | [_, _, _, _, _, _, _], h => simp at h

theorem msbBytes_short (l : List Bool) (h : l.length < 8) : msbBytes l = [] := by
  match l, h with
  | b0 :: b1 :: b2 :: b3 :: b4 :: b5 :: b6 :: b7 :: rest, h => simp at h; omega
  | [], _ => rfl
  | [_], _ => rfl
  | [_, _], _ => rfl
  | [_, _, _], _ => rfl
  | [_, _, _, _], _ => rfl
  | [_, _, _, _, _], _ => rfl
  | [_, _, _, _, _, _], _ => rfl
  | [_, _, _, _, _, _, _], _ => rfl

theorem msbBytes_append (k : Nat) (a b : List Bool) (h : a.length = 8 * k) :
    msbBytes (a ++ b) = msbBytes a ++ msbBytes b := by
  induction k generalizing a with
  | zero =>
    have : a = [] := List.length_eq_zero.mp (by omega)
    subst this
    rw [msbBytes_short [] (by simp)]
    rfl
  | succ j ih =>
    have h1 : 8 ≤ a.length := by omega
    rw [msbBytes_chunk (a ++ b) (by rw [List.length_append]; omega), msbBytes_chunk a h1]
    rw [List.take_append_of_le_length h1, List.drop_append_of_le_length h1]
    rw [ih (a.drop 8) (by rw [List.length_drop]; omega)]
    rfl

theorem beBytes_congr (m v w : Nat) (h : v % 2 ^ (8 * m) = w % 2 ^ (8 * m)) :
    beBytes m v = beBytes m w := by
  induction m with
  | zero => rfl
  | succ j ih =>
    have hp : (2 : Nat) ^ (8 * (j + 1)) = 2 ^ (8 * j) * 256 := by
      rw [show 8 * (j + 1) = 8 * j + 8 by ring, pow_add]
      norm_num
    rw [hp] at h
    have hd : v / 2 ^ (8 * j) % 256 = w / 2 ^ (8 * j) % 256 := by
      rw [← Nat.mod_mul_right_div_self, ← Nat.mod_mul_right_div_self, h]
    have hm : v % 2 ^ (8 * j) = w % 2 ^ (8 * j) := by
      have h1 := congrArg (fun x => x % 2 ^ (8 * j)) h
      simp only [Nat.mod_mul_right_mod] at h1
      exact h1
    simp only [beBytes]
    rw [hd, ih hm]

theorem beBytes_mod (m v : Nat) : beBytes m (v % 2 ^ (8 * m)) = beBytes m v :=
  beBytes_congr m _ _ (Nat.mod_mod _ _)

theorem msbBytes_eq_beBytes (m : Nat) (l : List Bool) (h : l.length = 8 * m) :
    msbBytes l = beBytes m (msbValue l) := by
  induction m generalizing l with
  | zero =>
    have : l = [] := List.length_eq_zero.mp (by omega)
    subst this
    rfl
  | succ j ih =>
    have h1 : 8 ≤ l.length := by omega
    have hd : (l.drop 8).length = 8 * j := by rw [List.length_drop]; omega
    have ht : (l.take 8).length = 8 := by rw [List.length_take]; omega
    have hv : msbValue l = msbValue (l.take 8) * 2 ^ (8 * j) + msbValue (l.drop 8) := by
      have := msbValue_append (l.take 8) (l.drop 8)
      rw [List.take_append_drop, hd] at this
      exact this
    have hlt := msbValue_lt (l.drop 8)
    rw [hd] at hlt
    have hlt8 := msbValue_lt (l.take 8)
    rw [ht] at hlt8
    have hpos : 0 < 2 ^ (8 * j) := Nat.pow_pos (by norm_num)
    rw [msbBytes_chunk l h1, ih _ hd]
    simp only [beBytes]
    congr 1
    · rw [hv, Nat.add_comm, Nat.add_mul_div_right _ _ hpos, Nat.div_eq_of_lt hlt, Nat.zero_add,
        Nat.mod_eq_of_lt (by norm_num at hlt8 ⊢; exact hlt8)]
    · apply beBytes_congr
      rw [hv, Nat.add_comm, Nat.add_mul_mod_self_right]

end BitLists

section WriterLemmas

theorem shl64_or (pb n b u : Nat) (hn : u + n ≤ 64) (hb : b < 2 ^ n) :
    (shl64 pb n ||| b) % 2 ^ (u + n) = pb % 2 ^ u * 2 ^ n + b ∧ shl64 pb n ||| b < 2 ^ 64 := by
  have h64 : (2 : Nat) ^ 64 = 2 ^ (64 - n) * 2 ^ n := by
    rw [← pow_add]; congr 1; omega
  have hq : shl64 pb n = 2 ^ n * (pb % 2 ^ (64 - n)) := by
    unfold shl64
    rw [Nat.shiftLeft_eq, h64, Nat.mul_mod_mul_right, Nat.mul_comm]
  have hor : shl64 pb n ||| b = 2 ^ n * (pb % 2 ^ (64 - n)) + b := by
    rw [hq, ← Nat.mul_add_lt_is_or hb]
  have hpos : 0 < 2 ^ n := Nat.pow_pos (by norm_num)
  have hqlt : pb % 2 ^ (64 - n) < 2 ^ (64 - n) := Nat.mod_lt _ (Nat.pow_pos (by norm_num))
  constructor
  · rw [hor, pow_add, Nat.mul_comm (2 ^ u) (2 ^ n), Nat.mod_mul, Nat.mul_add_mod,
      Nat.mod_eq_of_lt hb, Nat.mul_add_div hpos, Nat.div_eq_of_lt hb, Nat.add_zero,
      Nat.mod_mod_of_dvd _ (Nat.pow_dvd_pow 2 (by omega))]
    ring
  · rw [hor, h64]
    calc 2 ^ n * (pb % 2 ^ (64 - n)) + b
        < 2 ^ n * (pb % 2 ^ (64 - n)) + 2 ^ n := by omega
      _ = (pb % 2 ^ (64 - n) + 1) * 2 ^ n := by ring
      _ ≤ 2 ^ (64 - n) * 2 ^ n := Nat.mul_le_mul_right _ hqlt

theorem mask_byte (x : Nat) : x &&& 0xFF = x % 256 := Nat.and_pow_two_sub_one_eq_mod x 8

theorem EmitByte_eq (bw : JpegBitWriter) (c : Nat) (hc : c < 256) :
    EmitByte bw c = { bw with data := bw.data ++ stuffBytes [c] } := by
  unfold EmitByte
  simp only [Nat.mod_eq_of_lt hc, stuffBytes]
  split <;> simp

theorem stuffBytes_cons (x : Nat) (rest : List Nat) :
    stuffBytes (x :: rest) = stuffBytes [x] ++ stuffBytes rest := by
  simp only [stuffBytes]
  split <;> simp

theorem stuffBytes_length_le (l : List Nat) : (stuffBytes l).length ≤ 2 * l.length := by
  induction l with
  | nil => simp [stuffBytes]
  | cons x t ih =>
    simp only [stuffBytes]
    split <;> simp <;> omega

theorem stuffBytes_of_ne (l : List Nat) (h : ∀ x ∈ l, x ≠ 0xFF) : stuffBytes l = l := by
  induction l with
  | nil => rfl
  | cons x t ih =>
    simp only [stuffBytes]
    rw [if_neg (h x (List.mem_cons_self _ _)), ih (fun y hy => h y (List.mem_cons_of_mem _ hy))]

theorem beBytes_length (m v : Nat) : (beBytes m v).length = m := by
  induction m with
  | zero => rfl
  | succ j ih => simp [beBytes, ih]

theorem Reserve_spec (bw : JpegBitWriter) (n : Nat) (hn : n ≤ kJpegBitWriterChunkSize) :
    (Reserve bw n).emitted = bw.emitted ∧ (Reserve bw n).put_buffer = bw.put_buffer ∧
    (Reserve bw n).free_bits = bw.free_bits ∧ (Reserve bw n).healthy = bw.healthy ∧
    (Reserve bw n).data.length + n ≤ kJpegBitWriterChunkSize := by
  unfold Reserve
  split
  · refine ⟨?_, rfl, rfl, rfl, ?_⟩
    · simp [EmptyBitWriterBuffer, JpegBitWriter.emitted]
    · simpa [EmptyBitWriterBuffer] using hn
  · exact ⟨rfl, rfl, rfl, rfl, by omega⟩

/-- A zero byte makes the result of `HasZeroByte` nonzero. -/
theorem HasZeroByte_of_zero_byte (x : Nat) (hx : x < 2 ^ 64) (k : Nat) (hk : k < 8)
    (hz : x / 256 ^ k % 256 = 0) : HasZeroByte x ≠ 0 := by
  rw [HasZeroByte_ne_zero]
  interval_cases k
  · exact ⟨0, by norm_num, zero_byte_bit_0 x hx (by norm_num at hz ⊢; exact hz)⟩
  · exact ⟨1, by norm_num, zero_byte_bit_1 x hx (by norm_num at hz ⊢; exact hz)⟩
  · exact ⟨2, by norm_num, zero_byte_bit_2 x hx (by norm_num at hz ⊢; exact hz)⟩
  · exact ⟨3, by norm_num, zero_byte_bit_3 x hx (by norm_num at hz ⊢; exact hz)⟩
  · exact ⟨4, by norm_num, zero_byte_bit_4 x hx (by norm_num at hz ⊢; exact hz)⟩
  · exact ⟨5, by norm_num, zero_byte_bit_5 x hx (by norm_num at hz ⊢; exact hz)⟩
  · exact ⟨6, by norm_num, zero_byte_bit_6 x hx (by norm_num at hz ⊢; exact hz)⟩
  · exact ⟨7, by norm_num, zero_byte_bit_7 x hx (by norm_num at hz ⊢; exact hz)⟩

/-- Without a zero byte in the complement, no byte of the value is `0xFF`. -/
theorem no_ff_byte (pb : Nat) (hpb : pb < 2 ^ 64) (h : HasZeroByte (2 ^ 64 - 1 - pb) = 0) :
    ∀ x ∈ beBytes 8 pb, x ≠ 0xFF := by
  have hx : 2 ^ 64 - 1 - pb < 2 ^ 64 := by omega
  have key : ∀ k, k < 8 → pb / 256 ^ k % 256 ≠ 255 := by
    intro k hk hff
    apply HasZeroByte_of_zero_byte _ hx k hk _ h
    interval_cases k <;> norm_num at hff hpb ⊢ <;> omega
  intro x hxm
  simp only [beBytes, List.mem_cons, List.mem_nil_iff, or_false] at hxm
  have k0 := key 0 (by norm_num)
  have k1 := key 1 (by norm_num)
  have k2 := key 2 (by norm_num)
  have k3 := key 3 (by norm_num)
  have k4 := key 4 (by norm_num)
  have k5 := key 5 (by norm_num)
  have k6 := key 6 (by norm_num)
  have k7 := key 7 (by norm_num)
  norm_num at hxm k0 k1 k2 k3 k4 k5 k6 k7
  rcases hxm with h | h | h | h | h | h | h | h <;> subst h <;> assumption

theorem byte_lt (x : Nat) : x % 256 < 256 := Nat.mod_lt _ (by norm_num)

/-- Both branches of `DischargeBitBuffer` emit the eight bytes of
`put_buffer`, most significant first, with byte stuffing. -/
theorem DischargeBitBuffer_spec (bw : JpegBitWriter) (hpb : bw.put_buffer < 2 ^ 64) :
    (DischargeBitBuffer bw).emitted = bw.emitted ++ stuffBytes (beBytes 8 bw.put_buffer) ∧
    (DischargeBitBuffer bw).put_buffer = bw.put_buffer ∧
    (DischargeBitBuffer bw).free_bits = bw.free_bits ∧
    (DischargeBitBuffer bw).healthy = bw.healthy ∧
    (DischargeBitBuffer bw).data.length ≤ kJpegBitWriterChunkSize := by
  obtain ⟨r1, r2, r3, r4, r5⟩ := Reserve_spec bw 16 (by decide)
  have hlen := stuffBytes_length_le (beBytes 8 bw.put_buffer)
  rw [beBytes_length] at hlen
  have hbytes : beBytes 8 bw.put_buffer =
      [bw.put_buffer / 2 ^ 56 % 256, bw.put_buffer / 2 ^ 48 % 256,
       bw.put_buffer / 2 ^ 40 % 256, bw.put_buffer / 2 ^ 32 % 256,
       bw.put_buffer / 2 ^ 24 % 256, bw.put_buffer / 2 ^ 16 % 256,
       bw.put_buffer / 2 ^ 8 % 256, bw.put_buffer / 2 ^ 0 % 256] := rfl
  unfold DischargeBitBuffer
  simp only [mask_byte, Nat.shiftRight_eq_div_pow, r2]
  split
  · simp only [EmitByte_eq _ _ (byte_lt _)]
    refine ⟨?_, r2, r3, r4, ?_⟩
    · simp only [JpegBitWriter.emitted, List.append_assoc] at r1 ⊢
      rw [hbytes]
      rw [stuffBytes_cons _ (_ :: _), stuffBytes_cons _ (_ :: _), stuffBytes_cons _ (_ :: _),
        stuffBytes_cons _ (_ :: _), stuffBytes_cons _ (_ :: _), stuffBytes_cons _ (_ :: _),
        stuffBytes_cons _ (_ :: _)]
      simp only [← List.append_assoc]
      simp only [List.append_assoc] at r1 ⊢
      rw [← List.append_assoc, r1]
      simp only [List.append_assoc]
    · have e : (Reserve bw 16).data ++ stuffBytes [bw.put_buffer / 2 ^ 56 % 256] ++
          stuffBytes [bw.put_buffer / 2 ^ 48 % 256] ++
          stuffBytes [bw.put_buffer / 2 ^ 40 % 256] ++
          stuffBytes [bw.put_buffer / 2 ^ 32 % 256] ++
          stuffBytes [bw.put_buffer / 2 ^ 24 % 256] ++
          stuffBytes [bw.put_buffer / 2 ^ 16 % 256] ++
          stuffBytes [bw.put_buffer / 2 ^ 8 % 256] ++
          stuffBytes [bw.put_buffer / 2 ^ 0 % 256]
          = (Reserve bw 16).data ++ stuffBytes (beBytes 8 bw.put_buffer) := by
        rw [hbytes]
        rw [stuffBytes_cons _ (_ :: _), stuffBytes_cons _ (_ :: _), stuffBytes_cons _ (_ :: _),
          stuffBytes_cons _ (_ :: _), stuffBytes_cons _ (_ :: _), stuffBytes_cons _ (_ :: _),
          stuffBytes_cons _ (_ :: _)]
        simp only [List.append_assoc]
      show (_ : List Nat).length ≤ _
      rw [e, List.length_append]
      omega
  · rename_i hz
    have hz0 : HasZeroByte (2 ^ 64 - 1 - bw.put_buffer) = 0 := not_not.mp hz
    have hs := stuffBytes_of_ne _ (no_ff_byte bw.put_buffer hpb hz0)
    refine ⟨?_, rfl, r3, r4, ?_⟩
    · simp only [JpegBitWriter.emitted] at r1 ⊢
      rw [hs, hbytes, ← List.append_assoc, r1]
    · show ((Reserve bw 16).data ++ _).length ≤ _
      simp only [List.length_append, List.length_cons, List.length_nil]
      omega

end WriterLemmas

section WriterInvariant

theorem WriterInv_init : WriterInv JpegBitWriterInit [] :=
  { lo := by decide
    hi := by decide
    pb := by decide
    room := by decide
    healthy := rfl
    split := ⟨0, [], [], rfl, rfl, rfl, rfl, rfl⟩ }

theorem WriteBits_unfold (bw : JpegBitWriter) (n b : Nat) (h1 : 1 ≤ n) :
    WriteBits bw n b =
    let bw1 : JpegBitWriter := { bw with free_bits := bw.free_bits - (n : Int) }
    let bw2 :=
      if bw1.free_bits < (0 : Int) then
        let pb := shl64 bw1.put_buffer (bw1.free_bits + (n : Int)).toNat
        let pb1 := pb ||| (b >>> (-bw1.free_bits).toNat)
        let d := DischargeBitBuffer { bw1 with put_buffer := pb1 }
        { d with free_bits := d.free_bits + 64, put_buffer := n }
      else bw1
    { bw2 with put_buffer := shl64 bw2.put_buffer n ||| b } := by
  unfold WriteBits
  rw [if_neg (by omega)]

theorem WriteBits_fit (bw : JpegBitWriter) (n b : Nat) (h1 : 1 ≤ n)
    (hfit : ¬ bw.free_bits - (n : Int) < 0) :
    (WriteBits bw n b).free_bits = bw.free_bits - (n : Int) ∧
    (WriteBits bw n b).put_buffer = shl64 bw.put_buffer n ||| b ∧
    (WriteBits bw n b).emitted = bw.emitted ∧
    (WriteBits bw n b).data = bw.data ∧
    (WriteBits bw n b).healthy = bw.healthy := by
  rw [WriteBits_unfold bw n b h1]
  simp only
  rw [if_neg hfit]
  exact ⟨rfl, rfl, rfl, rfl, rfl⟩

theorem spill_body (disch : JpegBitWriter → JpegBitWriter) (bw X : JpegBitWriter) (n b fn : Nat)
    (hfn : bw.free_bits = (fn : Int)) (hov : bw.free_bits - (n : Int) < 0)
    (hX : X = { bw with free_bits := bw.free_bits - (n : Int),
                        put_buffer := shl64 bw.put_buffer fn ||| b / 2 ^ (n - fn) }) :
    (let bw1 : JpegBitWriter := { bw with free_bits := bw.free_bits - (n : Int) }
    let bw2 :=
      if bw1.free_bits < (0 : Int) then
        let pb := shl64 bw1.put_buffer (bw1.free_bits + (n : Int)).toNat
        let pb1 := pb ||| (b >>> (-bw1.free_bits).toNat)
        let d := disch { bw1 with put_buffer := pb1 }
        { d with free_bits := d.free_bits + 64, put_buffer := n }
      else bw1
    ({ bw2 with put_buffer := shl64 bw2.put_buffer n ||| b } : JpegBitWriter)) =
    JpegBitWriter.mk (disch X).flushed (disch X).data (shl64 n n ||| b)
      ((disch X).free_bits + 64) (disch X).healthy := by
  have e1 : (bw.free_bits - (n : Int) + (n : Int)).toNat = fn := by omega
  have e2 : (-(bw.free_bits - (n : Int))).toNat = n - fn := by omega
  subst hX
  simp only
  rw [if_pos hov, e1, e2, Nat.shiftRight_eq_div_pow]

theorem WriteBits_spill_eq (bw : JpegBitWriter) (n b fn : Nat) (h1 : 1 ≤ n)
    (hfn : bw.free_bits = (fn : Int)) (hov : bw.free_bits - (n : Int) < 0) :
    ∃ d, d = DischargeBitBuffer
        ({ bw with free_bits := bw.free_bits - (n : Int),
                   put_buffer := shl64 bw.put_buffer fn ||| b / 2 ^ (n - fn) } : JpegBitWriter) ∧
    WriteBits bw n b = JpegBitWriter.mk d.flushed d.data (shl64 n n ||| b) (d.free_bits + 64)
      d.healthy :=
  ⟨_, rfl, (WriteBits_unfold bw n b h1).trans
    (spill_body DischargeBitBuffer bw _ n b fn hfn hov rfl)⟩

theorem WriteBits_spill (bw : JpegBitWriter) (n b fn : Nat) (h1 : 1 ≤ n)
    (hfn : bw.free_bits = (fn : Int)) (hov : bw.free_bits - (n : Int) < 0) :
    ∃ d, d = DischargeBitBuffer
        ({ bw with free_bits := bw.free_bits - (n : Int),
                   put_buffer := shl64 bw.put_buffer fn ||| b / 2 ^ (n - fn) } : JpegBitWriter) ∧
    (WriteBits bw n b).free_bits = d.free_bits + 64 ∧
    (WriteBits bw n b).put_buffer = shl64 n n ||| b ∧
    (WriteBits bw n b).emitted = d.emitted ∧
    (WriteBits bw n b).data = d.data ∧
    (WriteBits bw n b).healthy = d.healthy := by
  obtain ⟨d, hd, he⟩ := WriteBits_spill_eq bw n b fn h1 hfn hov
  refine ⟨d, hd, ?_⟩
  rw [he]
  exact ⟨rfl, rfl, rfl, rfl, rfl⟩

theorem WriteBits_inv (bw : JpegBitWriter) (bits : List Bool) (n b : Nat)
    (h : WriterInv bw bits) (h1 : 1 ≤ n) (h32 : n ≤ 32) (hb : b < 2 ^ n) :
    WriterInv (WriteBits bw n b) (bits ++ msbBits n b) := by
  obtain ⟨lo, hi, hpb, room, healthy, k, E, P, hbits, hE, hP, hval, hem⟩ := h
  obtain ⟨fn, hfn⟩ := Int.eq_ofNat_of_zero_le lo
  have hu : P.length + fn = 64 := by omega
  have hVlen := msbBits_length n b
  have hVval : msbValue (msbBits n b) = b := by
    rw [msbValue_msbBits, Nat.mod_eq_of_lt hb]
  by_cases hov : bw.free_bits - (n : Int) < 0
  · obtain ⟨d, hd, w1, w2, w3, w4, w5⟩ := WriteBits_spill bw n b fn h1 hfn hov
    have hnf : fn < n := by omega
    have hpow : (2 : Nat) ^ n = 2 ^ (n - fn) * 2 ^ fn := by
      rw [← pow_add]; congr 1; omega
    have hq : b / 2 ^ (n - fn) < 2 ^ fn := by
      rw [Nat.div_lt_iff_lt_mul (Nat.pow_pos (by norm_num)), Nat.mul_comm, ← hpow]
      exact hb
    obtain ⟨s1, s2⟩ := shl64_or bw.put_buffer fn (b / 2 ^ (n - fn)) P.length (by omega) hq
    rw [hu, Nat.mod_eq_of_lt s2, hval] at s1
    -- the bits of the new value that go into the word at hand, and the others
    have hV12 : msbBits n b = (msbBits n b).take fn ++ (msbBits n b).drop fn :=
      (List.take_append_drop _ _).symm
    have hl1 : ((msbBits n b).take fn).length = fn := by
      rw [List.length_take, hVlen]; omega
    have hl2 : ((msbBits n b).drop fn).length = n - fn := by
      rw [List.length_drop, hVlen]
    have hsum : b = msbValue ((msbBits n b).take fn) * 2 ^ (n - fn)
        + msbValue ((msbBits n b).drop fn) := by
      have := msbValue_append ((msbBits n b).take fn) ((msbBits n b).drop fn)
      rw [← hV12, hVval, hl2] at this
      exact this
    have hlt2 := msbValue_lt ((msbBits n b).drop fn)
    rw [hl2] at hlt2
    have hpos : 0 < 2 ^ (n - fn) := Nat.pow_pos (by norm_num)
    have hv1 : msbValue ((msbBits n b).take fn) = b / 2 ^ (n - fn) := by
      conv_rhs => rw [hsum]
      rw [Nat.add_comm, Nat.add_mul_div_right _ _ hpos, Nat.div_eq_of_lt hlt2, Nat.zero_add]
    have hv2 : msbValue ((msbBits n b).drop fn) = b % 2 ^ (n - fn) := by
      conv_rhs => rw [hsum]
      rw [Nat.add_comm, Nat.add_mul_mod_self_right, Nat.mod_eq_of_lt hlt2]
    have hword : shl64 bw.put_buffer fn ||| b / 2 ^ (n - fn)
        = msbValue (P ++ (msbBits n b).take fn) := by
      rw [msbValue_append, hl1, hv1, s1]
    have hwlen : (P ++ (msbBits n b).take fn).length = 8 * 8 := by
      rw [List.length_append, hl1]; omega
    obtain ⟨d1, d2, d3, d4, d5⟩ := DischargeBitBuffer_spec
      ({ bw with free_bits := bw.free_bits - (n : Int),
                 put_buffer := shl64 bw.put_buffer fn ||| b / 2 ^ (n - fn) } : JpegBitWriter) s2
    rw [← hd] at d1 d2 d3 d4 d5
    have d3a : d.free_bits = bw.free_bits - (n : Int) := d3
    have d1a : d.emitted = bw.emitted
        ++ stuffBytes (beBytes 8 (shl64 bw.put_buffer fn ||| b / 2 ^ (n - fn))) := d1
    have d4a : d.healthy = bw.healthy := d4
    obtain ⟨t1, t2⟩ := shl64_or n n b 0 (by omega) hb
    refine
      { lo := ?_, hi := ?_, pb := ?_, room := ?_, healthy := ?_, split := ?_ }
    · rw [w1, d3a]
      omega
    · rw [w1, d3a]
      omega
    · rw [w2]; exact t2
    · rw [w4]; exact d5
    · rw [w5, d4a]; exact healthy
    · refine ⟨k + 8, E ++ (P ++ (msbBits n b).take fn), (msbBits n b).drop fn, ?_, ?_, ?_, ?_, ?_⟩
      · rw [hbits]
        conv_lhs => rw [hV12]
        simp only [List.append_assoc]
      · rw [List.length_append, hE, hwlen]; ring
      · rw [hl2, w1, d3a]
        omega
      · rw [hl2, hv2, w2]
        have : (shl64 n n ||| b) % 2 ^ n = b := by
          have := t1
          simp only [Nat.zero_add, pow_zero, Nat.mod_one, Nat.zero_mul] at this
          exact this
        rw [← Nat.mod_mod_of_dvd (shl64 n n ||| b) (Nat.pow_dvd_pow 2 (Nat.sub_le n fn)), this]
      · rw [w3, d1a, hem, hword, ← msbBytes_eq_beBytes 8 _ hwlen, ← stuffBytes_append,
          ← msbBytes_append k E _ hE]
  · obtain ⟨w1, w2, w3, w4, w5⟩ := WriteBits_fit bw n b h1 hov
    have hnf : n ≤ fn := by omega
    obtain ⟨s1, s2⟩ := shl64_or bw.put_buffer n b P.length (by omega) hb
    refine { lo := ?_, hi := ?_, pb := ?_, room := ?_, healthy := ?_, split := ?_ }
    · rw [w1]; omega
    · rw [w1]; omega
    · rw [w2]; exact s2
    · rw [w4]; exact room
    · rw [w5]; exact healthy
    · refine ⟨k, E, P ++ msbBits n b, ?_, hE, ?_, ?_, ?_⟩
      · rw [hbits, List.append_assoc]
      · rw [List.length_append, hVlen, w1]
        push_cast
        omega
      · rw [List.length_append, hVlen, msbValue_append, hVlen, hVval, ← hval, w2]
        exact s1
      · rw [w3]; exact hem

theorem writeAll_inv (ws : List (Nat × Nat)) (bw : JpegBitWriter) (bits : List Bool)
    (h : WriterInv bw bits) (hw : ∀ w ∈ ws, 1 ≤ w.1 ∧ w.1 ≤ 32 ∧ w.2 < 2 ^ w.1) :
    WriterInv (writeAll ws bw) (bits ++ writtenBits ws) := by
  induction ws generalizing bw bits with
  | nil => simpa [writeAll, writtenBits] using h
  | cons w t ih =>
    have hw1 := hw w (List.mem_cons_self _ _)
    have hstep := WriteBits_inv bw bits w.1 w.2 h hw1.1 hw1.2.1 hw1.2.2
    have := ih (WriteBits bw w.1 w.2) (bits ++ msbBits w.1 w.2) hstep
      (fun x hx => hw x (List.mem_cons_of_mem _ hx))
    simpa [writeAll, writtenBits, List.append_assoc] using this

theorem flushBytes_spec (m : Nat) : ∀ (bw : JpegBitWriter) (v fuel : Nat),
    bw.free_bits = 64 - 8 * (m : Int) → m ≤ 8 → v < 2 ^ (8 * m) →
    bw.put_buffer = v * 2 ^ (64 - 8 * m) → m ≤ fuel →
    (flushBytes fuel bw).emitted = bw.emitted ++ stuffBytes (beBytes m v) ∧
    (flushBytes fuel bw).data.length ≤ bw.data.length + 2 * m ∧
    (flushBytes fuel bw).healthy = bw.healthy := by
  induction m with
  | zero =>
    intro bw v fuel hf _ _ _ _
    have hb : flushBytes fuel bw = bw := by
      cases fuel with
      | zero => rfl
      | succ j =>
        unfold flushBytes
        rw [if_neg (by omega)]
    rw [hb]
    simp [beBytes, stuffBytes]
  | succ j ih =>
    intro bw v fuel hf hm hv hpb hfuel
    obtain ⟨fuel1, rfl⟩ : ∃ f1, fuel = f1 + 1 := ⟨fuel - 1, by omega⟩
    unfold flushBytes
    rw [if_pos (by omega)]
    simp only [mask_byte, Nat.shiftRight_eq_div_pow, EmitByte_eq _ _ (byte_lt _)]
    have h56 : (2 : Nat) ^ 56 = 2 ^ (8 * j) * 2 ^ (64 - 8 * (j + 1)) := by
      rw [← pow_add]; congr 1; omega
    have hpos : 0 < 2 ^ (64 - 8 * (j + 1)) := Nat.pow_pos (by norm_num)
    have htop : bw.put_buffer / 2 ^ 56 = v / 2 ^ (8 * j) := by
      rw [hpb, h56, Nat.mul_div_mul_right _ _ hpos]
    have h64 : (2 : Nat) ^ 64 = 2 ^ (8 * j) * 2 ^ (64 - 8 * j) := by
      rw [← pow_add]; congr 1; omega
    have hnext : shl64 bw.put_buffer 8 = v % 2 ^ (8 * j) * 2 ^ (64 - 8 * j) := by
      unfold shl64
      rw [Nat.shiftLeft_eq, hpb, Nat.mul_assoc, ← pow_add,
        show 64 - 8 * (j + 1) + 8 = 64 - 8 * j by omega, h64, Nat.mul_mod_mul_right]
    have hih := ih
      ({ bw with data := bw.data ++ stuffBytes [bw.put_buffer / 2 ^ 56 % 256],
                 put_buffer := shl64 bw.put_buffer 8,
                 free_bits := bw.free_bits + 8 } : JpegBitWriter)
      (v % 2 ^ (8 * j)) fuel1
      (by show bw.free_bits + 8 = 64 - 8 * (j : Int); omega) (by omega)
      (Nat.mod_lt _ (Nat.pow_pos (by norm_num))) hnext (by omega)
    obtain ⟨i1, i2, i3⟩ := hih
    refine ⟨?_, ?_, i3⟩
    · rw [i1, beBytes_mod]
      simp only [JpegBitWriter.emitted, beBytes]
      rw [stuffBytes_cons _ (beBytes j v), htop]
      simp only [List.append_assoc]
    · have hl := stuffBytes_length_le [bw.put_buffer / 2 ^ 56 % 256]
      simp only [List.length_append, List.length_cons, List.length_nil] at i2 hl ⊢
      omega

theorem pad_count (len k f : Nat) (hf : f ≤ 64) (h : len = 8 * k + (64 - f)) :
    (8 - len % 8) % 8 = f % 8 := by
  omega

/-- `JumpToByteBoundary` on a writer that has written `bits`. -/
theorem JumpToByteBoundary_spec (bw : JpegBitWriter) (bits : List Bool)
    (h : WriterInv bw bits) :
    (JumpToByteBoundary bw).emitted = stuffBytes (msbBytes (bits ++ padBits bits.length)) ∧
    (JumpToByteBoundary bw).put_buffer = 0 ∧ (JumpToByteBoundary bw).free_bits = 64 ∧
    (JumpToByteBoundary bw).healthy = true ∧
    (JumpToByteBoundary bw).data.length ≤ kJpegBitWriterChunkSize := by
  have h0 := h
  obtain ⟨lo, hi, hpb, room, healthy, k, E, P, hbits, hE, hP, hval, hem⟩ := h
  obtain ⟨fn, hfn⟩ := Int.eq_ofNat_of_zero_le lo
  have hlen : bits.length = 8 * k + (64 - fn) := by
    rw [hbits, List.length_append, hE]; omega
  have hn : (bw.free_bits % 2 ^ 32).toNat &&& 7 = fn % 8 := by
    have e : bw.free_bits % 2 ^ 32 = bw.free_bits := Int.emod_eq_of_lt lo (by omega)
    rw [e, hfn, Int.toNat_natCast]
    exact Nat.and_pow_two_sub_one_eq_mod _ 3
  have hpad : padBits bits.length = List.replicate (fn % 8) true := by
    unfold padBits
    rw [pad_count bits.length k fn (by omega) hlen]
  -- the state after the padding
  have h1 : ∃ bw1, (if (bw.free_bits % 2 ^ 32).toNat &&& 7 > 0 then
        WriteBits bw ((bw.free_bits % 2 ^ 32).toNat &&& 7)
          ((1 <<< ((bw.free_bits % 2 ^ 32).toNat &&& 7)) - 1) else bw) = bw1 ∧
      WriterInv bw1 (bits ++ padBits bits.length) := by
    refine ⟨_, rfl, ?_⟩
    rw [hn, hpad]
    by_cases hz : fn % 8 > 0
    · rw [if_pos hz, Nat.shiftLeft_eq, Nat.one_mul, ← msbBits_ones (fn % 8) (fn % 8) (le_refl _)]
      exact WriteBits_inv bw bits _ _ h0 hz (by omega)
        (Nat.sub_lt (Nat.pow_pos (by norm_num)) (by norm_num))
    · rw [if_neg hz]
      have : fn % 8 = 0 := by omega
      rw [this]
      simpa using h0
  obtain ⟨bw1, hbw1, hinv1⟩ := h1
  unfold JumpToByteBoundary
  simp only
  rw [hbw1]
  obtain ⟨lo1, hi1, hpb1, room1, healthy1, k1, E1, P1, hbits1, hE1, hP1, hval1, hem1⟩ := hinv1
  obtain ⟨f1, hf1⟩ := Int.eq_ofNat_of_zero_le lo1
  obtain ⟨r1, r2, r3, r4, r5⟩ := Reserve_spec bw1 16 (by decide)
  -- the number of pending bits is a multiple of 8
  have hlen1 : (bits ++ padBits bits.length).length = 8 * k1 + (64 - f1) := by
    rw [hbits1, List.length_append, hE1]; omega
  have hm : ∃ m, P1.length = 8 * m ∧ m ≤ 8 ∧ f1 = 64 - 8 * m := by
    rw [List.length_append, hpad, List.length_replicate, hlen] at hlen1
    exact ⟨P1.length / 8, by omega, by omega, by omega⟩
  obtain ⟨m, hPm, hm8, hfm⟩ := hm
  have h64 : (2 : Nat) ^ 64 = 2 ^ (8 * m) * 2 ^ (64 - 8 * m) := by
    rw [← pow_add]; congr 1; omega
  have hshift : shl64 (Reserve bw1 16).put_buffer (Reserve bw1 16).free_bits.toNat
      = msbValue P1 * 2 ^ (64 - 8 * m) := by
    rw [r2, r3, hf1, Int.toNat_natCast, hfm]
    unfold shl64
    rw [Nat.shiftLeft_eq, h64, Nat.mul_mod_mul_right, ← hPm, hval1]
  have hfuel : ((64 - (Reserve bw1 16).free_bits) / 8).toNat = m := by
    rw [r3]; omega
  have hv := msbValue_lt P1
  rw [hPm] at hv
  obtain ⟨g1, g2, g3⟩ := flushBytes_spec m
    ({ Reserve bw1 16 with
        put_buffer := shl64 (Reserve bw1 16).put_buffer (Reserve bw1 16).free_bits.toNat } :
      JpegBitWriter)
    (msbValue P1) m (by show (Reserve bw1 16).free_bits = _; rw [r3]; omega) hm8 hv hshift
    (le_refl _)
  rw [hfuel]
  refine ⟨?_, trivial, trivial, ?_, ?_⟩
  · show (flushBytes m _).emitted = _
    rw [g1]
    show (Reserve bw1 16).emitted ++ _ = _
    rw [r1, hem1, ← msbBytes_eq_beBytes m P1 hPm, ← stuffBytes_append,
      ← msbBytes_append k1 E1 P1 hE1, ← hbits1]
  · show (flushBytes m _).healthy = true
    rw [g3]
    show (Reserve bw1 16).healthy = true
    rw [r4]; exact healthy1
  · show (flushBytes m _).data.length ≤ _
    have : (Reserve bw1 16).data.length + 2 * m ≤ kJpegBitWriterChunkSize := by omega
    exact le_trans g2 this

end WriterInvariant

/-- C40: starting from an initialised `JpegBitWriter`, after the calls
`WriteBits(n_i, b_i)` of `ws` with `1 ≤ n_i ≤ 32` and `b_i < 2 ^ n_i`, followed
by `JumpToByteBoundary`, the bytes emitted (flushed or still in the buffer) are
the bytes of the concatenation, most significant bit first, of the `n_i`-bit
values, padded with 1 bits to the next byte boundary, with a `0x00` after every
`0xFF`; `DischargeBitBuffer` emits the eight bytes of `put_buffer`, most
significant first and stuffed, whichever of its two branches runs; after every
prefix of the calls `0 ≤ free_bits ≤ 64`; at the end `put_buffer = 0` and
`free_bits = 64`, and the writer is healthy. -/
theorem JpegBitWriter_output (ws : List (Nat × Nat))
    (h : ∀ w ∈ ws, 1 ≤ w.1 ∧ w.1 ≤ 32 ∧ w.2 < 2 ^ w.1) :
    (JumpToByteBoundary (writeAll ws JpegBitWriterInit)).emitted
        = stuffBytes (msbBytes (writtenBits ws ++ padBits (writtenBits ws).length)) ∧
    (∀ bw : JpegBitWriter, bw.put_buffer < 2 ^ 64 →
      (DischargeBitBuffer bw).emitted = bw.emitted ++ stuffBytes (beBytes 8 bw.put_buffer)) ∧
    (∀ k, 0 ≤ (writeAll (ws.take k) JpegBitWriterInit).free_bits ∧
      (writeAll (ws.take k) JpegBitWriterInit).free_bits ≤ 64) ∧
    (JumpToByteBoundary (writeAll ws JpegBitWriterInit)).put_buffer = 0 ∧
    (JumpToByteBoundary (writeAll ws JpegBitWriterInit)).free_bits = 64 ∧
    (JumpToByteBoundary (writeAll ws JpegBitWriterInit)).healthy = true := by
  have hinv := writeAll_inv ws JpegBitWriterInit [] WriterInv_init h
  rw [List.nil_append] at hinv
  obtain ⟨j1, j2, j3, j4, _⟩ := JumpToByteBoundary_spec _ _ hinv
  refine ⟨j1, fun bw hpb => (DischargeBitBuffer_spec bw hpb).1, fun k => ?_, j2, j3, j4⟩
  have hk := writeAll_inv (ws.take k) JpegBitWriterInit [] WriterInv_init
    (fun w hw => h w (List.mem_of_mem_take hw))
  exact ⟨hk.lo, hk.hi⟩

/-- The writes of `demoWrites`: 67 bits, padded with five 1 bits; each of the
eight `0xFF` bytes is followed by a `0x00`. -/
theorem JpegBitWriter_output_witness :
    (∀ w ∈ demoWrites, 1 ≤ w.1 ∧ w.1 ≤ 32 ∧ w.2 < 2 ^ w.1) ∧
    (JumpToByteBoundary (writeAll demoWrites JpegBitWriterInit)).emitted
      = [0xBF, 0xFF, 0, 0xFF, 0, 0xFF, 0, 0xFF, 0, 0xFF, 0, 0xFF, 0, 0xFF, 0, 0xFF, 0] :=
  ⟨by decide, (JpegBitWriter_output demoWrites (by decide)).1.trans (by decide)⟩

/-! ## The stage after a call, oversized images and the closed input -/

section StartedLemmas
variable {E : Type}

theorem started_refl (dec : JxlDecoder E) : StaysStarted dec dec := ⟨fun h => h⟩

theorem started_trans {a b c : JxlDecoder E} (h1 : StaysStarted a b) (h2 : StaysStarted b c) :
    StaysStarted a c :=
  ⟨fun h => h2.stays (h1.stays h)⟩

theorem started_after {a b c : JxlDecoder E} (h2 : StaysStarted b c) (h1 : b.stage = a.stage) :
    StaysStarted a c :=
  ⟨fun h => h2.stays (by rw [h1]; exact h)⟩

theorem started_of_cursor {dec d : JxlDecoder E} (h : ChangesOnlyCursor dec d) :
    StaysStarted dec d := by
  have e1 : d.stage = dec.stage := (congrArg JxlDecoder.stage h).trans rfl
  refine ⟨fun hs => ?_⟩
  rw [e1]
  exact hs

theorem AdvanceCodestream_stays (dec : JxlDecoder E) (n : Nat) :
    StaysStarted dec (dec.AdvanceCodestream n) :=
  started_of_cursor (AdvanceCodestream_cursorOnly dec n)

theorem RequestMoreInput_stays (dec : JxlDecoder E) : StaysStarted dec dec.RequestMoreInput.2 :=
  started_of_cursor (RequestMoreInput_cursorOnly dec)

theorem GetCodestreamInput_stays {dec dec1 : JxlDecoder E} {st : JxlDecoderStatus}
    {span : List Nat} (h : dec.GetCodestreamInput = some (st, span, dec1)) :
    StaysStarted dec dec1 :=
  started_of_cursor (GetCodestreamInput_cursorOnly dec dec1 st span h)

theorem ReadBundle_stays (canRead : E → List Nat → Nat → Option (Bool × E))
    (read : E → List Nat → Nat → Bool × Nat × E) (dec dec1 : JxlDecoder E)
    (data : List Nat) (bits bits1 : Nat) (st : JxlDecoderStatus)
    (h : ReadBundle canRead read dec data bits = some (st, bits1, dec1)) :
    StaysStarted dec dec1 := by
  unfold ReadBundle at h
  split at h
  · cases h
  · simp only [Option.some.injEq, Prod.mk.injEq] at h
    obtain ⟨-, -, h3⟩ := h
    subst h3
    exact started_after (RequestMoreInput_stays _) rfl
  · simp only at h
    split at h
    · simp only [Option.some.injEq, Prod.mk.injEq] at h
      obtain ⟨-, -, h3⟩ := h
      subst h3
      exact ⟨fun h => h⟩
    · simp only [Option.some.injEq, Prod.mk.injEq] at h
      obtain ⟨-, -, h3⟩ := h
      subst h3
      exact ⟨fun h => h⟩

theorem readCodestreamSignature_stays (dec dec1 : JxlDecoder E) (st : JxlDecoderStatus)
    (h : readCodestreamSignature dec = some (st, dec1)) : StaysStarted dec dec1 := by
  unfold readCodestreamSignature at h
  split at h
  · split at h
    · cases h
    · rename_i st0 span d0 hg
      have hg2 := GetCodestreamInput_stays hg
      split at h
      · simp only [Option.some.injEq, Prod.mk.injEq] at h
        rw [← h.2]; exact hg2
      · split at h
        · simp only [Option.some.injEq] at h
          have h2 : dec1 = d0.RequestMoreInput.2 := (congrArg Prod.snd h).symm
          rw [h2]
          exact started_trans hg2 (RequestMoreInput_stays _)
        · split at h
          · simp only [Option.some.injEq, Prod.mk.injEq] at h
            rw [← h.2]; exact hg2
          · simp only [Option.some.injEq, Prod.mk.injEq] at h
            rw [← h.2]
            exact started_trans hg2 (started_after (AdvanceCodestream_stays _ _) rfl)
  · simp only [Option.some.injEq, Prod.mk.injEq] at h
    rw [← h.2]; exact started_refl dec

theorem commitBasicInfo_stays (env : HeaderEnv E) (dec : JxlDecoder E) (bits : Nat) :
    StaysStarted dec (commitBasicInfo env dec bits).2 := by
  unfold commitBasicInfo
  simp only
  split
  · exact started_trans (AdvanceCodestream_stays dec (bits / 8)) ⟨fun h => h⟩
  · exact started_trans (AdvanceCodestream_stays dec (bits / 8)) ⟨fun h => h⟩

theorem readBasicInfoBundles_stays (env : HeaderEnv E) (dec dec1 : JxlDecoder E)
    (st : JxlDecoderStatus) (h : readBasicInfoBundles env dec = some (st, dec1)) :
    StaysStarted dec dec1 := by
  unfold readBasicInfoBundles at h
  split at h
  · cases h
  · rename_i st0 span d0 hg
    have hg2 := GetCodestreamInput_stays hg
    split at h
    · simp only [Option.some.injEq, Prod.mk.injEq] at h
      rw [← h.2]; exact hg2
    · split at h
      · cases h
      · rename_i st1 bits1 d1 hb1
        have hb1e := ReadBundle_stays _ _ _ _ _ _ _ _ hb1
        split at h
        · simp only [Option.some.injEq, Prod.mk.injEq] at h
          rw [← h.2]
          exact started_trans hg2 hb1e
        · split at h
          · cases h
          · rename_i st2 bits2 d2 hb2
            have hb2e := ReadBundle_stays _ _ _ _ _ _ _ _ hb2
            split at h
            · simp only [Option.some.injEq, Prod.mk.injEq] at h
              rw [← h.2]
              exact started_trans hg2 (started_trans hb1e hb2e)
            · simp only [Option.some.injEq] at h
              have hc := commitBasicInfo_stays env d2 bits2
              rw [h] at hc
              exact started_trans hg2 (started_trans hb1e (started_trans hb2e hc))

theorem JxlDecoderReadBasicInfo_stays (env : HeaderEnv E) (dec dec1 : JxlDecoder E)
    (st : JxlDecoderStatus) (h : JxlDecoderReadBasicInfo env dec = some (st, dec1)) :
    StaysStarted dec dec1 := by
  unfold JxlDecoderReadBasicInfo at h
  split at h
  · cases h
  · rename_i st0 d0 hs
    have hs2 := readCodestreamSignature_stays _ _ _ hs
    split at h
    · simp only [Option.some.injEq, Prod.mk.injEq] at h
      rw [← h.2]; exact hs2
    · exact started_trans hs2 (readBasicInfoBundles_stays env _ _ _ h)

theorem readTransformData_stays (env : FrameEnv E) (dec dec1 : JxlDecoder E)
    (st : JxlDecoderStatus) (h : readTransformData env dec = some (st, dec1)) :
    StaysStarted dec dec1 := by
  unfold readTransformData at h
  split at h
  · split at h
    · cases h
    · rename_i st0 span d0 hg
      have hg2 := GetCodestreamInput_stays hg
      split at h
      · simp only [Option.some.injEq, Prod.mk.injEq] at h
        rw [← h.2]; exact hg2
      · simp only at h
        split at h
        · cases h
        · rename_i st1 bits1 d1 hb1
          have hb1e := ReadBundle_stays _ _ _ _ _ _ _ _ hb1
          have h0 : StaysStarted dec d1 := started_trans hg2 (started_after hb1e rfl)
          split at h
          · simp only [Option.some.injEq, Prod.mk.injEq] at h
            rw [← h.2]
            exact h0
          · simp only [Option.some.injEq, Prod.mk.injEq] at h
            rw [← h.2]
            exact started_trans h0
              (started_trans (AdvanceCodestream_stays _ _) ⟨fun h => h⟩)
  · simp only [Option.some.injEq, Prod.mk.injEq] at h
    rw [← h.2]; exact started_refl dec

theorem readICC_stays (env : FrameEnv E) (dec : JxlDecoder E) (span : List Nat) (bits : Nat) :
    StaysStarted dec (readICC env dec span bits).2.2 := by
  unfold readICC
  simp only
  split
  · split
    · exact started_after (RequestMoreInput_stays _) rfl
    · split
      · exact ⟨fun h => h⟩
      · split
        · exact started_after (RequestMoreInput_stays _) rfl
        · split
          · exact ⟨fun h => h⟩
          · split
            · exact ⟨fun h => h⟩
            · exact ⟨fun h => h⟩
  · exact started_refl dec

theorem JxlDecoderReadAllHeaders_stays (env : FrameEnv E) (dec dec1 : JxlDecoder E)
    (st : JxlDecoderStatus) (h : JxlDecoderReadAllHeaders env dec = some (st, dec1)) :
    StaysStarted dec dec1 := by
  unfold JxlDecoderReadAllHeaders at h
  split at h
  · cases h
  · rename_i st0 d0 ht
    have ht2 := readTransformData_stays env _ _ _ ht
    split at h
    · simp only [Option.some.injEq, Prod.mk.injEq] at h
      rw [← h.2]; exact ht2
    · split at h
      · cases h
      · rename_i st1 span d1 hg
        have hg2 := GetCodestreamInput_stays hg
        split at h
        · simp only [Option.some.injEq, Prod.mk.injEq] at h
          rw [← h.2]
          exact started_trans ht2 hg2
        · have hi := readICC_stays env d1 span d1.codestream_bits_ahead
          have h0 : StaysStarted dec (readICC env d1 span d1.codestream_bits_ahead).2.2 :=
            started_trans ht2 (started_trans hg2 hi)
          simp only at h
          split at h
          · simp only [Option.some.injEq, Prod.mk.injEq] at h
            rw [← h.2]
            exact h0
          · split at h
            · simp only [Option.some.injEq, Prod.mk.injEq] at h
              rw [← h.2]
              exact started_trans h0 ⟨fun h => h⟩
            · have hadv := AdvanceCodestream_stays
                ({ (readICC env d1 span d1.codestream_bits_ahead).2.2 with
                    got_all_headers := true })
                ((env.jumpToByteBoundary span
                  (readICC env d1 span d1.codestream_bits_ahead).2.1).2 / 8)
              have h1 := started_trans h0 (started_after hadv rfl)
              split at h
              · simp only [Option.some.injEq, Prod.mk.injEq] at h
                rw [← h.2]
                exact started_trans h1 ⟨fun h => h⟩
              · simp only [Option.some.injEq, Prod.mk.injEq] at h
                rw [← h.2]
                exact started_trans h1 ⟨fun h => h⟩

theorem JxlDecoderProcessSections_stays (env : FrameEnv E) (dec dec1 : JxlDecoder E)
    (st : JxlDecoderStatus) (h : JxlDecoderProcessSections env dec = some (st, dec1)) :
    StaysStarted dec dec1 := by
  unfold JxlDecoderProcessSections at h
  split at h
  · cases h
  · rename_i st0 span d0 hg
    have hg2 := GetCodestreamInput_stays hg
    split at h
    · simp only [Option.some.injEq, Prod.mk.injEq] at h
      rw [← h.2]; exact hg2
    · simp only at h
      split at h
      · cases h
      · split at h
        · cases h
        · split at h
          · simp only [Option.some.injEq, Prod.mk.injEq] at h
            rw [← h.2]; exact started_trans hg2 ⟨fun h => h⟩
          · split at h
            · simp only [Option.some.injEq, Prod.mk.injEq] at h
              rw [← h.2]; exact started_trans hg2 ⟨fun h => h⟩
            · split at h
              · cases h
              · simp only [Option.some.injEq, Prod.mk.injEq] at h
                rw [← h.2]; exact started_trans hg2 ⟨fun h => h⟩
              · simp only [Option.some.injEq, Prod.mk.injEq] at h
                rw [← h.2]
                exact started_trans hg2
                  (started_after (AdvanceCodestream_stays _ _) rfl)

end StartedLemmas

section StartedFrames
variable {E : Type}

theorem registerFrame_stays (env : FrameEnv E) (dec d : JxlDecoder E) (i : Nat)
    (h : registerFrame env dec = some (i, d)) : StaysStarted dec d := by
  unfold registerFrame at h
  simp only at h
  split at h
  · cases h
  · rename_i d2 h2
    have hd2 : d2.stage = dec.stage := by
      split at h2
      · split at h2
        · simp only [Option.some.injEq] at h2
          rw [← h2]
        · cases h2
      · simp only [Option.some.injEq] at h2
        rw [← h2]
    split at h
    · split at h
      · simp only [Option.some.injEq, Prod.mk.injEq] at h
        rw [← h.2]
        refine ⟨fun hs => ?_⟩
        show d2.stage ≠ DecoderStage.kInited
        rw [hd2]; exact hs
      · cases h
    · simp only [Option.some.injEq, Prod.mk.injEq] at h
      rw [← h.2]
      refine ⟨fun hs => ?_⟩
      rw [hd2]; exact hs

theorem chargeCpu_stays (env : FrameEnv E) (dec : JxlDecoder E) :
    StaysStarted dec (chargeCpu env dec).2 := by
  unfold chargeCpu
  split
  · simp only
    split
    · exact started_refl dec
    · split
      · exact ⟨fun h => h⟩
      · exact ⟨fun h => h⟩
  · exact started_refl dec

theorem announceFrame_stays (env : FrameEnv E) (i : Nat) (dec : JxlDecoder E) :
    Ctl.Each (StaysStarted dec) (announceFrame env i dec) := by
  unfold announceFrame
  simp only
  split
  · have h := AdvanceCodestream_stays
      ({ dec with frame_stage := FrameStage.kHeader } : JxlDecoder E) dec.remaining_frame_size
    exact started_after h rfl
  · split
    · exact started_refl dec
    · exact started_refl dec

theorem acceptFrameHeader_stays (env : FrameEnv E) (dec : JxlDecoder E) (bits : Nat) :
    Ctl.Each (StaysStarted dec) (acceptFrameHeader env dec bits) := by
  unfold acceptFrameHeader
  simp only
  have h2 : StaysStarted dec ({ dec.AdvanceCodestream (bits / 8) with
      ext := env.storeFrameHeader (dec.AdvanceCodestream (bits / 8)).ext } : JxlDecoder E) :=
    started_trans (AdvanceCodestream_stays dec (bits / 8)) ⟨fun h => h⟩
  generalize ({ dec.AdvanceCodestream (bits / 8) with
      ext := env.storeFrameHeader (dec.AdvanceCodestream (bits / 8)).ext } : JxlDecoder E)
    = dec2 at h2
  split
  · exact h2
  · have hc := started_trans h2 (chargeCpu_stays env dec2)
    generalize chargeCpu env dec2 = c at hc
    split
    · exact hc
    · split
      · split
        · have h := AdvanceCodestream_stays
            ({ c.2 with
                remaining_frame_size := env.sumSectionSizes c.2.ext
                frame_stage := FrameStage.kHeader } : JxlDecoder E)
            (env.sumSectionSizes c.2.ext)
          exact started_trans hc (started_after
            (started_trans h ⟨fun h => h⟩) rfl)
        · exact started_trans hc ⟨fun h => h⟩
      · split
        · trivial
        · rename_i i d4 hr
          have h4 := registerFrame_stays env _ _ _ hr
          have h5 : StaysStarted dec d4 := started_trans hc (started_after h4 rfl)
          exact each_mono (announceFrame_stays env i d4) fun d hd => started_trans h5 hd

theorem frameHeaderStage_stays (env : FrameEnv E) (dec : JxlDecoder E) :
    Ctl.Each (StaysStarted dec) (frameHeaderStage env dec) := by
  unfold frameHeaderStage
  split
  · exact started_refl dec
  · simp only
    split
    · exact ⟨fun h => h⟩
    · split
      · trivial
      · rename_i st span d2 hg
        have hg1 := GetCodestreamInput_stays hg
        have hg2 : StaysStarted dec d2 := started_after hg1 rfl
        split
        · exact hg2
        · generalize env.initFrame d2.ext span d2.preview_frame (outputNeeded d2) = r
          split
          · exact started_trans hg2 (started_after (RequestMoreInput_stays _) rfl)
          · split
            · exact started_trans hg2 ⟨fun h => h⟩
            · have hk := acceptFrameHeader_stays env { d2 with ext := r.2.2.2 } r.2.2.1
              exact each_mono hk fun d hd =>
                started_trans hg2 (started_after hd rfl)

theorem frameTocStage_stays (env : FrameEnv E) (dec : JxlDecoder E) :
    Ctl.Each (StaysStarted dec) (frameTocStage env dec) := by
  unfold frameTocStage
  simp only
  generalize (if (!dec.preview_frame && wants dec.events_wanted JXL_DEC_FRAME_PROGRESSION) = true
      then env.setPauseAtProgressive (env.setupToc dec.ext dec.render_spotcolors dec.coalescing)
        dec.prog_detail
      else (JxlProgressiveDetail.kFrames,
        env.setupToc dec.ext dec.render_spotcolors dec.coalescing)) = pause
  split
  · exact ⟨fun h => h⟩
  · split
    · have h := AdvanceCodestream_stays
        ({ dec with
            ext := pause.2
            frame_prog_detail := pause.1
            dc_frame_progression_done := false
            next_section := 0
            section_processed := List.replicate (env.toc pause.2).length false
            frame_stage := FrameStage.kHeader } : JxlDecoder E) dec.remaining_frame_size
      exact started_after h rfl
    · exact ⟨fun h => h⟩

theorem setUpRGB8_stays (env : FrameEnv E) (dec : JxlDecoder E) :
    StaysStarted dec (setUpRGB8 env dec) := by
  unfold setUpRGB8
  split
  · exact ⟨fun h => h⟩
  · exact started_refl dec

theorem setUpFloatCallback_stays (env : FrameEnv E) (dec : JxlDecoder E) :
    StaysStarted dec (setUpFloatCallback env dec) := by
  unfold setUpFloatCallback
  split
  · exact ⟨fun h => h⟩
  · exact started_refl dec

theorem prepareOutput_stays (env : FrameEnv E) (dec : JxlDecoder E) :
    Ctl.Each (StaysStarted dec) (prepareOutput env dec) := by
  unfold prepareOutput
  split
  · exact started_refl dec
  · split
    · exact started_refl dec
    · exact started_trans (setUpRGB8_stays env dec) (setUpFloatCallback_stays env _)

theorem afterSections_stays (env : FrameEnv E) (n : Nat) (dec : JxlDecoder E) :
    Ctl.Each (StaysStarted dec) (afterSections env n dec) := by
  unfold afterSections
  simp only
  split
  · exact ⟨fun h => h⟩
  · split
    · exact ⟨fun h => h⟩
    · split
      · exact RequestMoreInput_stays dec
      · split
        · trivial
        · rename_i d1 hr
          have h1 : StaysStarted dec d1 := by
            split at hr
            · split at hr
              · simp only [Option.some.injEq] at hr
                rw [← hr]
                exact ⟨fun h => h⟩
              · cases hr
            · simp only [Option.some.injEq] at hr
              rw [← hr]
              exact started_refl dec
          split
          · exact started_trans h1 ⟨fun h => h⟩
          · exact started_trans h1 ⟨fun h => h⟩

theorem frameFullStage_stays (env : FrameEnv E) (dec : JxlDecoder E) :
    Ctl.Each (StaysStarted dec) (frameFullStage env dec) := by
  unfold frameFullStage
  refine each_andThen (prepareOutput_stays env dec) ?_
  intro d hd
  simp only
  split
  · trivial
  · rename_i st d2 hp
    have hp2 := started_trans hd (JxlDecoderProcessSections_stays env _ _ _ hp)
    split
    · exact hp2
    · exact each_mono (afterSections_stays env _ d2) fun d3 h3 => started_trans hp2 h3

theorem writeFullImage_stays (env : FrameEnv E) (dec : JxlDecoder E) :
    Ctl.Each (StaysStarted dec) (writeFullImage env dec) := by
  unfold writeFullImage
  simp only
  generalize (if (!env.hasRGBBuffer dec.ext) = true then env.convertImage dec
    else (true, dec.ext)) = c
  split
  · exact ⟨fun h => h⟩
  · split
    · trivial
    · exact ⟨fun h => h⟩
    · exact ⟨fun h => h⟩

theorem frameOutputStage_stays (env : FrameEnv E) (dec : JxlDecoder E) :
    Ctl.Each (StaysStarted dec) (frameOutputStage env dec).2 := by
  unfold frameOutputStage
  split
  · simp only
    split
    · exact ⟨fun h => h⟩
    · exact ⟨fun h => h⟩
  · split
    · simp only
      split
      · exact ⟨fun h => h⟩
      · split
        · exact each_mono (writeFullImage_stays env _) fun d hd =>
            started_after hd rfl
        · exact ⟨fun h => h⟩
    · exact started_refl dec

theorem frameFinish_stays (env : FrameEnv E) (flags : OutputFlags) (dec : JxlDecoder E) :
    Ctl.Each (StaysStarted dec) (frameFinish env flags dec) := by
  unfold frameFinish
  simp only
  split
  · exact ⟨fun h => h⟩
  · split
    · exact ⟨fun h => h⟩
    · split
      · exact ⟨fun h => h⟩
      · exact ⟨fun h => h⟩

theorem frameIteration_stays (env : FrameEnv E) (dec : JxlDecoder E) :
    Ctl.Each (StaysStarted dec) (frameIteration env dec) :=
  frameIteration_each env dec (StaysStarted dec) (started_refl dec)
    (fun _ => frameHeaderStage_stays env dec)
    (fun d hd _ _ => each_mono (frameTocStage_stays env d) fun _ h => started_trans hd h)
    (fun d hd _ _ => each_mono (frameFullStage_stays env d) fun _ h => started_trans hd h)
    (fun d hd => each_mono (frameOutputStage_stays env d) fun _ h => started_trans hd h)
    (fun d flags hd => each_mono (frameFinish_stays env flags d) fun _ h => started_trans hd h)

theorem frameLoop_stays (env : FrameEnv E) (fuel : Nat) (dec d : JxlDecoder E)
    (st : JxlDecoderStatus) (h : frameLoop env fuel dec = some (st, d)) : StaysStarted dec d := by
  induction fuel generalizing dec with
  | zero => cases h
  | succ n ih =>
    unfold frameLoop at h
    have hk := frameIteration_stays env dec
    split at h
    · rename_i st1 d1 hi
      rw [hi] at hk
      simp only [Option.some.injEq, Prod.mk.injEq] at h
      rw [← h.2]; exact hk
    · rename_i d1 hi
      rw [hi] at hk
      exact started_trans hk (ih d1 h)
    · rename_i d1 hi
      rw [hi] at hk
      exact started_trans hk (ih d1 h)
    · rename_i d1 hi
      rw [hi] at hk
      simp only [Option.some.injEq, Prod.mk.injEq] at h
      rw [← h.2]
      exact started_trans hk ⟨fun _ => by simp⟩
    · cases h

theorem processAfterBasicInfo_stays (env : FrameEnv E) (fuel : Nat) (dec d : JxlDecoder E)
    (st : JxlDecoderStatus) (h : processAfterBasicInfo env fuel dec = some (st, d)) :
    StaysStarted dec d := by
  unfold processAfterBasicInfo at h
  simp only at h
  split at h
  · cases h
  · rename_i st1 d1 hh
    have h1 : StaysStarted dec d1 := by
      split at hh
      · exact JxlDecoderReadAllHeaders_stays env _ _ _ hh
      · simp only [Option.some.injEq, Prod.mk.injEq] at hh
        rw [← hh.2]
        exact started_refl dec
    split at h
    · simp only [Option.some.injEq, Prod.mk.injEq] at h
      rw [← h.2]; exact h1
    · split at h
      · simp only [Option.some.injEq, Prod.mk.injEq] at h
        rw [← h.2]; exact started_trans h1 ⟨fun h => h⟩
      · split at h
        · simp only [Option.some.injEq, Prod.mk.injEq] at h
          rw [← h.2]; exact started_trans h1 ⟨fun _ => by simp⟩
        · have hf := frameLoop_stays env fuel _ d st h
          exact started_trans h1 (started_after hf rfl)

/-- `JxlDecoderProcessCodestream` does not take the stage back to `kInited`. -/
theorem JxlDecoderProcessCodestream_stays (env : FrameEnv E) (fuel : Nat)
    (dec d : JxlDecoder E) (st : JxlDecoderStatus)
    (h : JxlDecoderProcessCodestream env fuel dec = some (st, d)) : StaysStarted dec d := by
  unfold JxlDecoderProcessCodestream at h
  simp only at h
  split at h
  · cases h
  · rename_i st1 d1 hh
    have h1 : StaysStarted dec d1 := by
      split at hh
      · have hb := JxlDecoderReadBasicInfo_stays _ _ _ _ hh
        exact started_after hb rfl
      · simp only [Option.some.injEq, Prod.mk.injEq] at hh
        rw [← hh.2]
        exact ⟨fun h => h⟩
    split at h
    · simp only [Option.some.injEq, Prod.mk.injEq] at h
      rw [← h.2]; exact h1
    · split at h
      · simp only [Option.some.injEq, Prod.mk.injEq] at h
        rw [← h.2]; exact started_trans h1 ⟨fun h => h⟩
      · split at h
        · simp only [Option.some.injEq, Prod.mk.injEq] at h
          rw [← h.2]; exact started_trans h1 ⟨fun _ => by simp⟩
        · exact started_trans h1 (processAfterBasicInfo_stays env fuel _ d st h)

end StartedFrames

section StartedBoxes
variable {E : Type}

theorem AdvanceInput_stays (dec : JxlDecoder E) (k : Nat) : StaysStarted dec (dec.AdvanceInput k) :=
  ⟨fun h => h⟩

theorem outputBoxContent_stays (env : BoxEnv E) (dec : JxlDecoder E) :
    Ctl.Each (StaysStarted dec) (outputBoxContent env dec) := by
  unfold outputBoxContent
  split
  · simp only
    split
    · exact ⟨fun h => h⟩
    · exact ⟨fun h => h⟩
  · exact started_refl dec

theorem setReconMetadata_stays (dec : JxlDecoder E) (exif : Bool) (v : List Nat) :
    StaysStarted dec (dec.setReconMetadata exif v) := by
  unfold JxlDecoder.setReconMetadata
  split
  · exact ⟨fun h => h⟩
  · exact ⟨fun h => h⟩

theorem metadataPass_stays (env : BoxEnv E) (exif : Bool) (dec : JxlDecoder E) :
    StaysStarted dec (metadataPass env exif dec).2 := by
  unfold metadataPass
  simp only
  have h1 : StaysStarted dec (if (dec.reconMetadata exif).isEmpty = true then
      dec.setReconMetadata exif (resizeBytes (dec.reconMetadata exif) 64) else dec) := by
    split
    · exact setReconMetadata_stays _ _ _
    · exact started_refl dec
  generalize (if (dec.reconMetadata exif).isEmpty = true then
      dec.setReconMetadata exif (resizeBytes (dec.reconMetadata exif) 64) else dec) = dec1 at h1
  exact started_trans h1 (started_trans (setReconMetadata_stays _ _ _) ⟨fun h => h⟩)

theorem metadataDone_stays (exif : Bool) (dec : JxlDecoder E) :
    StaysStarted dec (metadataDone exif dec) := by
  unfold metadataDone
  simp only
  generalize (if dec.store_exif = 1 then dec.recon_exif_size else dec.recon_xmp_size) = needed
  by_cases h : dec.box_contents_unbounded = true ∧ dec.recon_out_buffer_pos < needed
  · rw [if_pos h]
    exact started_refl dec
  · rw [if_neg h]
    exact started_trans (setReconMetadata_stays _ _ _) ⟨fun h => h⟩

theorem storeMetadata_stays (env : BoxEnv E) (exif : Bool) (fuel : Nat) (dec : JxlDecoder E) :
    Ctl.Each (StaysStarted dec) (storeMetadata env exif fuel dec) := by
  induction fuel generalizing dec with
  | zero => trivial
  | succ n ih =>
    unfold storeMetadata
    simp only
    have hp := metadataPass_stays env exif dec
    split
    · exact each_mono (ih _) fun d hd =>
        started_trans hp (started_trans (setReconMetadata_stays _ _ _) hd)
    · split
      · exact hp
      · split
        · exact started_trans hp (metadataDone_stays _ _)
        · exact hp

theorem boxPrelude_stays (env : BoxEnv E) (fuel : Nat) (dec : JxlDecoder E) :
    Ctl.Each (StaysStarted dec) (boxPrelude env fuel dec) := by
  unfold boxPrelude
  simp only
  have h0 : StaysStarted dec ({ dec.AdvanceInput dec.header_size with header_size := 0 } :
      JxlDecoder E) := ⟨fun h => h⟩
  refine each_andThen (each_mono (outputBoxContent_stays env _) fun d hd =>
    started_trans h0 hd) ?_
  intro d hd
  split
  · exact each_mono (storeMetadata_stays env _ fuel d) fun d1 h1 => started_trans hd h1
  · exact hd

theorem reconSetMetadata_stays (env : BoxEnv E) (dec : JxlDecoder E) :
    Ctl.Each (StaysStarted dec) (reconSetMetadata env dec) := by
  unfold reconSetMetadata
  by_cases h : dec.recon_output_jpeg = JpegReconStage.kSettingMetadata ∧
      dec.JbrdNeedMoreBoxes = false
  · rw [if_pos h]
    simp only
    generalize (if dec.recon_exif_size ≠ 0 then env.setExif dec.ext dec.exif_metadata
      else (JXL_DEC_SUCCESS, dec.ext)) = x
    by_cases hx : x.1 ≠ JXL_DEC_SUCCESS
    · rw [if_pos hx]
      exact ⟨fun h => h⟩
    · rw [if_neg hx]
      generalize (if dec.recon_xmp_size ≠ 0 then env.setXmp x.2 dec.xmp_metadata
        else (JXL_DEC_SUCCESS, x.2)) = y
      by_cases hy : y.1 ≠ JXL_DEC_SUCCESS
      · rw [if_pos hy]
        exact ⟨fun h => h⟩
      · rw [if_neg hy]
        exact ⟨fun h => h⟩
  · rw [if_neg h]
    exact started_refl dec

theorem reconWriteOutput_stays (env : BoxEnv E) (dec : JxlDecoder E) :
    Ctl.Each (StaysStarted dec) (reconWriteOutput env dec) := by
  unfold reconWriteOutput
  split
  · simp only
    split
    · exact ⟨fun h => h⟩
    · split
      · exact ⟨fun h => h⟩
      · exact ⟨fun h => h⟩
  · exact started_refl dec

theorem boxHeaderNoInput_stays (dec : JxlDecoder E) :
    Ctl.Each (StaysStarted dec) (boxHeaderNoInput dec) := by
  unfold boxHeaderNoInput
  split
  · exact started_refl dec
  · split
    · exact started_refl dec
    · split
      · exact started_refl dec
      · split
        · exact started_refl dec
        · exact started_refl dec

theorem startStoring_stays (dec : JxlDecoder E) : StaysStarted dec (startStoring dec) := by
  unfold startStoring
  split
  · simp only
    have h1 : StaysStarted dec (if dec.store_exif = 0 ∧ dec.box_decoded_type = boxTag "Exif" then
        ({ dec with store_exif := 1, recon_out_buffer_pos := 0 } : JxlDecoder E) else dec) := by
      split
      · exact ⟨fun h => h⟩
      · exact started_refl dec
    generalize (if dec.store_exif = 0 ∧ dec.box_decoded_type = boxTag "Exif" then
        ({ dec with store_exif := 1, recon_out_buffer_pos := 0 } : JxlDecoder E) else dec)
      = dec1 at h1
    split
    · exact started_trans h1 ⟨fun h => h⟩
    · exact h1
  · exact started_refl dec

theorem startBoxDecoders_stays (env : BoxEnv E) (dec : JxlDecoder E) :
    StaysStarted dec (startBoxDecoders env dec) := by
  unfold startBoxDecoders
  simp only
  have h1 : StaysStarted dec (if wants dec.events_wanted JXL_DEC_BOX = true then
      ({ dec with
        ext := env.boxStart dec.ext (dec.decompress_boxes && decide (dec.box_type = boxTag "brob"))
          dec.box_contents_unbounded dec.box_contents_size } : JxlDecoder E) else dec) := by
    split
    · exact ⟨fun h => h⟩
    · exact started_refl dec
  generalize (if wants dec.events_wanted JXL_DEC_BOX = true then
      ({ dec with
        ext := env.boxStart dec.ext (dec.decompress_boxes && decide (dec.box_type = boxTag "brob"))
          dec.box_contents_unbounded dec.box_contents_size } : JxlDecoder E) else dec)
    = dec1 at h1
  split
  · exact started_trans h1 ⟨fun h => h⟩
  · exact h1

theorem chooseBoxStage_stays (dec d : JxlDecoder E) (h : chooseBoxStage dec = some d) :
    StaysStarted dec d := by
  unfold chooseBoxStage at h
  split at h
  · simp only [Option.some.injEq] at h; rw [← h]; exact ⟨fun h => h⟩
  · split at h
    · split at h
      · cases h
      · simp only [Option.some.injEq] at h; rw [← h]; exact ⟨fun h => h⟩
    · split at h
      · simp only [Option.some.injEq] at h; rw [← h]; exact ⟨fun h => h⟩
      · split at h
        · split at h
          · cases h
          · simp only [Option.some.injEq] at h; rw [← h]; exact ⟨fun h => h⟩
        · simp only [Option.some.injEq] at h; rw [← h]; exact ⟨fun h => h⟩

theorem enterBox_stays (env : BoxEnv E) (dec : JxlDecoder E) (box_size header_size : Nat) :
    Ctl.Each (StaysStarted dec) (enterBox env dec box_size header_size) := by
  unfold enterBox
  simp only
  have h1 : StaysStarted dec (startBoxDecoders env (startStoring (boxGeometry dec box_size header_size))) :=
    started_trans (⟨fun h => h⟩ : StaysStarted dec (boxGeometry dec box_size header_size))
      (started_trans (startStoring_stays _) (startBoxDecoders_stays env _))
  generalize startBoxDecoders env (startStoring (boxGeometry dec box_size header_size)) = dec1
    at h1
  split
  · exact h1
  · rename_i d2 hc
    have h2 := started_trans h1 (chooseBoxStage_stays _ _ hc)
    split
    · exact started_trans h2 ⟨fun h => h⟩
    · exact h2

theorem checkBoxOrder_stays (env : BoxEnv E) (dec : JxlDecoder E) (done : Bool)
    (box_size header_size : Nat) :
    Ctl.Each (StaysStarted dec) (checkBoxOrder env dec done box_size header_size) := by
  unfold checkBoxOrder
  simp only
  split
  · trivial
  · exact started_refl dec
  · rename_i t ht
    split
    · exact ⟨fun h => h⟩
    · split
      · exact ⟨fun h => h⟩
      · split
        · exact ⟨fun h => h⟩
        · exact each_mono (enterBox_stays env _ box_size header_size) fun d hd =>
            started_after hd rfl

theorem boxHeaderStage_stays (env : BoxEnv E) (dec : JxlDecoder E) :
    Ctl.Each (StaysStarted dec) (boxHeaderStage env dec) := by
  unfold boxHeaderStage
  split
  · split
    · exact started_refl dec
    · exact ⟨fun h => h⟩
  · split
    · exact boxHeaderNoInput_stays dec
    · split
      · trivial
      · exact started_refl dec
      · split
        · trivial
        · rename_i h hp
          simp only
          split
          · split
            · exact ⟨fun h => h⟩
            · exact ⟨fun h => h⟩
          · exact each_mono (checkBoxOrder_stays env _ _ _ _) fun d hd =>
              started_after hd rfl

theorem boxFtypStage_stays (dec : JxlDecoder E) :
    Ctl.Each (StaysStarted dec) (boxFtypStage dec) := by
  unfold boxFtypStage
  split
  · exact started_refl dec
  · split
    · exact started_refl dec
    · split
      · trivial
      · split
        · exact started_refl dec
        · exact ⟨fun h => h⟩

theorem boxPartialCodestreamStage_stays (dec : JxlDecoder E) :
    Ctl.Each (StaysStarted dec) (boxPartialCodestreamStage dec) := by
  unfold boxPartialCodestreamStage
  split
  · exact started_refl dec
  · split
    · exact started_refl dec
    · split
      · exact started_refl dec
      · split
        · trivial
        · rename_i idx hl
          simp only
          split
          · exact ⟨fun h => h⟩
          · exact ⟨fun h => h⟩

theorem boxCodestreamStage_stays (env : BoxEnv E) (fuel : Nat) (dec : JxlDecoder E) :
    Ctl.Each (StaysStarted dec) (boxCodestreamStage env fuel dec) := by
  unfold boxCodestreamStage
  split
  · trivial
  · rename_i status d hp
    have h1 := JxlDecoderProcessCodestream_stays _ _ _ _ _ hp
    split
    · exact h1
    · split
      · exact started_trans h1 ⟨fun h => h⟩
      · split
        · split
          · exact started_trans h1 ⟨fun h => h⟩
          · split
            · exact h1
            · split
              · exact started_trans h1 ⟨fun h => h⟩
              · exact h1
        · exact h1

theorem reconSizes_stays (env : BoxEnv E) (dec : JxlDecoder E) :
    StaysStarted dec (reconSizes env dec).2 := by
  unfold reconSizes
  simp only
  have h1 : StaysStarted dec (if env.numExifMarkers dec.ext ≠ 0 then
      if env.numExifMarkers dec.ext > 1 then (false, dec)
      else ((env.exifBoxContentSize dec.ext dec.recon_exif_size).1,
        ({ dec with recon_exif_size := (env.exifBoxContentSize dec.ext dec.recon_exif_size).2 } :
          JxlDecoder E))
      else (true, dec)).2 := by
    split
    · split
      · exact started_refl dec
      · exact ⟨fun h => h⟩
    · exact started_refl dec
  generalize (if env.numExifMarkers dec.ext ≠ 0 then
      if env.numExifMarkers dec.ext > 1 then (false, dec)
      else ((env.exifBoxContentSize dec.ext dec.recon_exif_size).1,
        ({ dec with recon_exif_size := (env.exifBoxContentSize dec.ext dec.recon_exif_size).2 } :
          JxlDecoder E))
      else (true, dec)) = w at h1
  split
  · exact h1
  · split
    · split
      · exact h1
      · exact started_trans h1 ⟨fun h => h⟩
    · exact h1

theorem boxJpegReconStage_stays (env : BoxEnv E) (dec : JxlDecoder E) :
    Ctl.Each (StaysStarted dec) (boxJpegReconStage env dec) := by
  unfold boxJpegReconStage
  simp only
  have h1 : StaysStarted dec (if (!env.jpegIsParsingBox dec.ext) = true then
      ({ dec with
        ext := env.jpegStartBox dec.ext dec.box_contents_unbounded dec.box_contents_size } :
        JxlDecoder E) else dec) := by
    split
    · exact ⟨fun h => h⟩
    · exact started_refl dec
  generalize (if (!env.jpegIsParsingBox dec.ext) = true then
      ({ dec with
        ext := env.jpegStartBox dec.ext dec.box_contents_unbounded dec.box_contents_size } :
        JxlDecoder E) else dec) = dec1 at h1
  have h2 : StaysStarted dec (({ dec1 with ext := (env.jpegProcess dec1).2.2 } : JxlDecoder E).AdvanceInput
      (env.jpegProcess dec1).2.1) := started_trans h1 ⟨fun h => h⟩
  generalize (({ dec1 with ext := (env.jpegProcess dec1).2.2 } : JxlDecoder E).AdvanceInput
      (env.jpegProcess dec1).2.1) = dec2 at h2
  split
  · have h3 := started_trans h2 (reconSizes_stays env dec2)
    split
    · exact h3
    · split
      · exact started_trans h3 ⟨fun h => h⟩
      · exact started_trans h3 ⟨fun h => h⟩
  · exact h2

theorem boxSkipStage_stays (dec : JxlDecoder E) :
    Ctl.Each (StaysStarted dec) (boxSkipStage dec) := by
  unfold boxSkipStage
  split
  · split
    · exact started_refl dec
    · split
      · exact started_refl dec
      · exact ⟨fun h => h⟩
  · simp only
    split
    · exact ⟨fun h => h⟩
    · exact ⟨fun h => h⟩

theorem boxStage_stays (env : BoxEnv E) (fuel : Nat) (dec : JxlDecoder E) :
    Ctl.Each (StaysStarted dec) (boxStage env fuel dec) := by
  unfold boxStage
  split
  · exact boxHeaderStage_stays env dec
  · exact boxFtypStage_stays dec
  · exact boxPartialCodestreamStage_stays dec
  · exact boxCodestreamStage_stays env fuel dec
  · exact boxJpegReconStage_stays env dec
  · exact boxSkipStage_stays dec

theorem boxIteration_stays (env : BoxEnv E) (fuel : Nat) (dec : JxlDecoder E) :
    Ctl.Each (StaysStarted dec) (boxIteration env fuel dec) := by
  unfold boxIteration
  have h1 : Ctl.Each (StaysStarted dec)
      (if dec.box_stage ≠ BoxStage.kHeader then boxPrelude env fuel dec else Ctl.next dec) := by
    split
    · exact boxPrelude_stays env fuel dec
    · exact started_refl dec
  refine each_andThen h1 ?_
  intro d1 hd1
  refine each_andThen (each_mono (reconSetMetadata_stays env d1) fun _ h =>
    started_trans hd1 h) ?_
  intro d2 hd2
  refine each_andThen (each_mono (reconWriteOutput_stays env d2) fun _ h =>
    started_trans hd2 h) ?_
  intro d3 hd3
  exact each_mono (boxStage_stays env fuel d3) fun _ h => started_trans hd3 h

theorem boxLoop_stays (env : BoxEnv E) (fuel passes : Nat) (dec d : JxlDecoder E)
    (st : JxlDecoderStatus) (h : boxLoop env fuel passes dec = some (st, d)) :
    StaysStarted dec d := by
  induction passes generalizing dec with
  | zero => cases h
  | succ n ih =>
    unfold boxLoop at h
    have hk := boxIteration_stays env fuel dec
    split at h
    · rename_i st1 d1 hi
      rw [hi] at hk
      simp only [Option.some.injEq, Prod.mk.injEq] at h
      rw [← h.2]; exact hk
    · rename_i d1 hi
      rw [hi] at hk
      exact started_trans hk (ih d1 h)
    · rename_i d1 hi
      rw [hi] at hk
      exact started_trans hk (ih d1 h)
    · rename_i d1 hi
      rw [hi] at hk
      simp only [Option.some.injEq, Prod.mk.injEq] at h
      rw [← h.2]
      exact hk
    · cases h

/-- `HandleBoxes` does not take the stage back to `kInited`. -/
theorem HandleBoxes_stays (env : BoxEnv E) (fuel : Nat) (dec d : JxlDecoder E)
    (st : JxlDecoderStatus) (h : HandleBoxes env fuel dec = some (st, d)) : StaysStarted dec d :=
  boxLoop_stays env fuel fuel dec d st h

end StartedBoxes

section SubscribeTheorems
variable {E : Type}

/-- C9: `JxlDecoderSubscribeEvents(e)` returns `JXL_DEC_SUCCESS` if and only
if the stage is `kInited` and `e & 63 == 0`; on success `events_wanted` and
`orig_events_wanted` are both `e` and nothing else changes, on failure the
status is `JXL_DEC_ERROR` and the decoder is unchanged. The stage is `kInited`
after creation, reset and rewind, and it is not after a call of
`JxlDecoderProcessInput` that returns, whatever the call did, so that
subscribing then fails. -/
theorem JxlDecoderSubscribeEvents_iff (env : BoxEnv E) (dec : JxlDecoder E) (e : Nat) :
    ((JxlDecoderSubscribeEvents dec e).1 = JXL_DEC_SUCCESS ↔
      dec.stage = DecoderStage.kInited ∧ e &&& 63 = 0) ∧
    ((JxlDecoderSubscribeEvents dec e).1 = JXL_DEC_SUCCESS →
      (JxlDecoderSubscribeEvents dec e).2 =
        { dec with events_wanted := e, orig_events_wanted := e }) ∧
    ((JxlDecoderSubscribeEvents dec e).1 ≠ JXL_DEC_SUCCESS →
      (JxlDecoderSubscribeEvents dec e).1 = JXL_DEC_ERROR ∧
      (JxlDecoderSubscribeEvents dec e).2 = dec) ∧
    (∀ (rewindExt : E → E) (ext : E),
      (JxlDecoderCreate rewindExt ext).stage = DecoderStage.kInited ∧
      (JxlDecoderReset rewindExt dec).stage = DecoderStage.kInited ∧
      (JxlDecoderRewind rewindExt dec).stage = DecoderStage.kInited) ∧
    (∀ (fuel : Nat) (st : JxlDecoderStatus) (d : JxlDecoder E),
      JxlDecoderProcessInput (HandleBoxes env fuel) dec = some (st, d) →
      d.stage ≠ DecoderStage.kInited ∧
      (JxlDecoderSubscribeEvents d e).1 = JXL_DEC_ERROR) := by
  have key : ∀ dec0 : JxlDecoder E,
      ((JxlDecoderSubscribeEvents dec0 e).1 = JXL_DEC_SUCCESS ↔
        dec0.stage = DecoderStage.kInited ∧ e &&& 63 = 0) ∧
      ((JxlDecoderSubscribeEvents dec0 e).1 = JXL_DEC_SUCCESS →
        (JxlDecoderSubscribeEvents dec0 e).2 =
          { dec0 with events_wanted := e, orig_events_wanted := e }) ∧
      ((JxlDecoderSubscribeEvents dec0 e).1 ≠ JXL_DEC_SUCCESS →
        (JxlDecoderSubscribeEvents dec0 e).1 = JXL_DEC_ERROR ∧
        (JxlDecoderSubscribeEvents dec0 e).2 = dec0) := by
    intro dec0
    unfold JxlDecoderSubscribeEvents
    by_cases hs : dec0.stage = DecoderStage.kInited
    · by_cases he : e &&& 63 = 0
      · simp [hs, he]
      · simp [hs, he]
    · simp [hs]
  refine ⟨(key dec).1, (key dec).2.1, (key dec).2.2, fun r ext => ⟨rfl, rfl, rfl⟩, ?_⟩
  intro fuel st d h
  have hd := JxlDecoderProcessInput_started (HandleBoxes env fuel) dec d st h
    (fun x s y hx => (HandleBoxes_stays env fuel x y s hx).stays)
  refine ⟨hd, ((key d).2.2 fun hs => hd (((key d).1.mp hs).1)).1⟩

end SubscribeTheorems

/-- C9 on a new decoder: subscribing to `JXL_DEC_BASIC_INFO | JXL_DEC_FRAME`
succeeds, and subscribing to the non-event bit 1 does not; after a call of
`JxlDecoderProcessInput` that went through the boxes and the codestream
headers and returned `JXL_DEC_BASIC_INFO`, subscribing fails. -/
theorem JxlDecoderSubscribeEvents_iff_witness :
    (JxlDecoderSubscribeEvents (JxlDecoderCreate id ()) 0x440).1 = JXL_DEC_SUCCESS ∧
    (JxlDecoderSubscribeEvents (JxlDecoderCreate id ()) 0x440).2.events_wanted = 0x440 ∧
    (JxlDecoderSubscribeEvents (JxlDecoderCreate id ()) 0x41).1 = JXL_DEC_ERROR ∧
    JxlDecoderProcessInput (HandleBoxes demoBoxEnv 10)
        (demoStart 0x40 [0xff, 0x0a, 1, 2, 3, 4, 5, 6, 7, 8, 9])
      = some (JXL_DEC_BASIC_INFO, demoAfterFirstCall) ∧
    (JxlDecoderSubscribeEvents demoAfterFirstCall 0x440).1 = JXL_DEC_ERROR :=
  ⟨((JxlDecoderSubscribeEvents_iff demoBoxEnv (JxlDecoderCreate id ()) 0x440).1).2
      ⟨rfl, by decide⟩,
   by rw [(JxlDecoderSubscribeEvents_iff demoBoxEnv (JxlDecoderCreate id ()) 0x440).2.1
      (((JxlDecoderSubscribeEvents_iff demoBoxEnv (JxlDecoderCreate id ()) 0x440).1).2
        ⟨rfl, by decide⟩)],
   ((JxlDecoderSubscribeEvents_iff demoBoxEnv (JxlDecoderCreate id ()) 0x41).2.2.1
      (by decide)).1,
   rfl,
   ((JxlDecoderSubscribeEvents_iff demoBoxEnv
      (demoStart 0x40 [0xff, 0x0a, 1, 2, 3, 4, 5, 6, 7, 8, 9]) 0x440).2.2.2.2 10
      JXL_DEC_BASIC_INFO demoAfterFirstCall rfl).2⟩

section OversizedTheorems
variable {E : Type}

/-- `JxlDecoderReadBasicInfo` on a stream that can be read: when the signature
block succeeds, codestream bytes are at hand and both bundles are read from
them, the function gets to its commit step. -/
theorem JxlDecoderReadBasicInfo_reads (env : HeaderEnv E) (dec d0 d1 : JxlDecoder E)
    (span : List Nat) (bits : Nat) (ext1 : E)
    (hsig : readCodestreamSignature dec = some (JXL_DEC_SUCCESS, d0))
    (hget : d0.GetCodestreamInput = some (JXL_DEC_SUCCESS, span, d1))
    (hread : BothBundlesRead env d1.ext span bits ext1) :
    JxlDecoderReadBasicInfo env dec
      = some (commitBasicInfo env ({ d1 with ext := ext1 } : JxlDecoder E) bits) := by
  obtain ⟨e1, bits1, e2, e3, h1, h2, h3, h4⟩ := hread
  have hb1 : ReadBundle env.canReadSize env.readSize d1 span 0
      = some (JXL_DEC_SUCCESS, bits1, ({ d1 with ext := e2 } : JxlDecoder E)) := by
    simp [ReadBundle, h1, h2]
  have hb2 : ReadBundle env.canReadMeta env.readMeta ({ d1 with ext := e2 } : JxlDecoder E)
      span bits1 = some (JXL_DEC_SUCCESS, bits, ({ d1 with ext := ext1 } : JxlDecoder E)) := by
    simp [ReadBundle, h3, h4]
  simp [JxlDecoderReadBasicInfo, hsig, readBasicInfoBundles, hget, hb1, hb2]

/-- The state and the status of the commit step of `JxlDecoderReadBasicInfo`
when `CheckSizeLimit` rejects the dimensions read: `JXL_DEC_ERROR`, with
`got_basic_info` set. -/
theorem commitBasicInfo_rejected (env : HeaderEnv E) (d : JxlDecoder E) (bits : Nat)
    (hcheck : CheckSizeLimit d.memory_limit_base (env.xsize d.ext) (env.ysize d.ext) = false) :
    (commitBasicInfo env d bits).1 = JXL_DEC_ERROR ∧
    (commitBasicInfo env d bits).2.got_basic_info = true ∧
    (commitBasicInfo env d bits).2.ext = d.ext := by
  have hext : (d.AdvanceCodestream (bits / 8)).ext = d.ext :=
    (congrArg JxlDecoder.ext (AdvanceCodestream_cursorOnly d (bits / 8))).trans rfl
  obtain ⟨_, k2, k3⟩ := commitBasicInfo_spec env d bits
  refine ⟨?_, ?_, ?_⟩
  · rw [k3, hext]; exact hcheck
  · rw [k2]
  · rw [k2]; exact hext

/-- The status of a `JxlDecoderReadBasicInfo` that sets `got_basic_info`: it
is `JXL_DEC_ERROR` exactly when `CheckSizeLimit` rejects the dimensions read,
with the memory limit the decoder had before the call. -/
theorem JxlDecoderReadBasicInfo_status (env : HeaderEnv E) (dec dec1 : JxlDecoder E)
    (st : JxlDecoderStatus) (h : JxlDecoderReadBasicInfo env dec = some (st, dec1))
    (hg0 : dec.got_basic_info = false) (hg1 : dec1.got_basic_info = true) :
    (st = JXL_DEC_ERROR ↔
      CheckSizeLimit dec.memory_limit_base (env.xsize dec1.ext) (env.ysize dec1.ext)
        = false) := by
  obtain ⟨d, bits, hp, hcommit⟩ := JxlDecoderReadBasicInfo_commit env dec dec1 st h
    (by rw [hg0, hg1]; simp)
  obtain ⟨_, k2, k3⟩ := commitBasicInfo_spec env d bits
  have e1 : (commitBasicInfo env d bits).1 = st := by rw [← hcommit]
  have e2 : (commitBasicInfo env d bits).2 = dec1 := by rw [← hcommit]
  have hext : dec1.ext = (d.AdvanceCodestream (bits / 8)).ext := by
    rw [← e2, k2]
  rw [← e1, k3, ← hext, hp.memory_limit_base]

/-- `JxlDecoderReadBasicInfo` on a stream that can be read and whose
dimensions `CheckSizeLimit` rejects: the call returns `JXL_DEC_ERROR`, with
`got_basic_info` set and the metadata read. -/
theorem JxlDecoderReadBasicInfo_rejects (env : HeaderEnv E) (dec d0 d1 : JxlDecoder E)
    (span : List Nat) (bits : Nat) (ext1 : E) (hg0 : dec.got_basic_info = false)
    (hsig : readCodestreamSignature dec = some (JXL_DEC_SUCCESS, d0))
    (hget : d0.GetCodestreamInput = some (JXL_DEC_SUCCESS, span, d1))
    (hread : BothBundlesRead env d1.ext span bits ext1)
    (hcheck : CheckSizeLimit dec.memory_limit_base (env.xsize ext1) (env.ysize ext1) = false) :
    ∃ d, JxlDecoderReadBasicInfo env dec = some (JXL_DEC_ERROR, d) ∧
      d.got_basic_info = true ∧ d.ext = ext1 := by
  have hf := JxlDecoderReadBasicInfo_reads env dec d0 d1 span bits ext1 hsig hget hread
  obtain ⟨_, k2, _⟩ := commitBasicInfo_spec env ({ d1 with ext := ext1 } : JxlDecoder E) bits
  have hadv : (({ d1 with ext := ext1 } : JxlDecoder E).AdvanceCodestream (bits / 8)).ext
      = ext1 :=
    (congrArg JxlDecoder.ext
      (AdvanceCodestream_cursorOnly ({ d1 with ext := ext1 } : JxlDecoder E) (bits / 8))).trans rfl
  generalize commitBasicInfo env ({ d1 with ext := ext1 } : JxlDecoder E) bits = r at hf k2
  obtain ⟨st, dec1⟩ := r
  have k2a : dec1 = _ := k2
  have hg1 : dec1.got_basic_info = true := by rw [k2a]
  have hext : dec1.ext = ext1 := by rw [k2a]; exact hadv
  have hst := (JxlDecoderReadBasicInfo_status env dec dec1 st hf hg0 hg1).2
    (by rw [hext]; exact hcheck)
  exact ⟨dec1, by rw [hf, hst], hg1, hext⟩

/-- C7: with a nonzero `memory_limit_base` `L`, `CheckSizeLimit` returns false
for all `xsize ≤ 2^64 - 32` and `ysize` whose pixel count `xsize * ysize`
exceeds `L`. So `JxlDecoderReadBasicInfo` returns `JXL_DEC_ERROR` for a stream
declaring such dimensions: when the basic info has not been read yet, the
signature block succeeds, codestream bytes are at hand and both bundles are
read from them, giving these dimensions, the call returns `JXL_DEC_ERROR`; and
every call that sets `got_basic_info` on such dimensions returns
`JXL_DEC_ERROR`. -/
theorem CheckSizeLimit_oversized :
    (∀ L xsize ysize : Nat, L ≠ 0 → xsize ≤ 2 ^ 64 - 32 → L < xsize * ysize →
      CheckSizeLimit L xsize ysize = false) ∧
    (∀ (E1 : Type) (env : HeaderEnv E1) (dec d0 d1 : JxlDecoder E1) (span : List Nat)
        (bits : Nat) (ext1 : E1),
      dec.got_basic_info = false →
      readCodestreamSignature dec = some (JXL_DEC_SUCCESS, d0) →
      d0.GetCodestreamInput = some (JXL_DEC_SUCCESS, span, d1) →
      BothBundlesRead env d1.ext span bits ext1 →
      dec.memory_limit_base ≠ 0 → env.xsize ext1 ≤ 2 ^ 64 - 32 →
      dec.memory_limit_base < env.xsize ext1 * env.ysize ext1 →
      ∃ d, JxlDecoderReadBasicInfo env dec = some (JXL_DEC_ERROR, d)) ∧
    (∀ (E1 : Type) (env : HeaderEnv E1) (dec dec1 : JxlDecoder E1) (st : JxlDecoderStatus),
      JxlDecoderReadBasicInfo env dec = some (st, dec1) →
      dec.got_basic_info = false → dec1.got_basic_info = true →
      dec.memory_limit_base ≠ 0 → env.xsize dec1.ext ≤ 2 ^ 64 - 32 →
      dec.memory_limit_base < env.xsize dec1.ext * env.ysize dec1.ext →
      st = JXL_DEC_ERROR) := by
  refine ⟨fun L xsize ysize hL hx hpix => CheckSizeLimit_rejects hL hx hpix, ?_, ?_⟩
  · intro E1 env dec d0 d1 span bits ext1 hg0 hsig hget hread hL hx hpix
    obtain ⟨d, hd, _⟩ := JxlDecoderReadBasicInfo_rejects env dec d0 d1 span bits ext1 hg0 hsig
      hget hread (CheckSizeLimit_rejects hL hx hpix)
    exact ⟨d, hd⟩
  · intro E1 env dec dec1 st h hg0 hg1 hL hx hpix
    exact (JxlDecoderReadBasicInfo_status env dec dec1 st h hg0 hg1).2
      (CheckSizeLimit_rejects hL hx hpix)

/-- C38, amended: when `JxlDecoderReadBasicInfo` reads the basic info of a
stream and `CheckSizeLimit` rejects the dimensions, it returns `JXL_DEC_ERROR`
with `got_basic_info` already set. `JxlDecoderGetBasicInfo` then returns
`JXL_DEC_SUCCESS`, the buffer-size queries do not return
`JXL_DEC_NEED_MORE_INPUT`, and a later `JxlDecoderProcessCodestream` does not
call `JxlDecoderReadBasicInfo` again: it goes on as for an accepted stream. -/
theorem JxlDecoderReadBasicInfo_size_error (env : FrameEnv E) (dec d0 d1 : JxlDecoder E)
    (span : List Nat) (bits : Nat) (ext1 : E) (hg0 : dec.got_basic_info = false)
    (hsig : readCodestreamSignature dec = some (JXL_DEC_SUCCESS, d0))
    (hget : d0.GetCodestreamInput = some (JXL_DEC_SUCCESS, span, d1))
    (hread : BothBundlesRead env.toHeaderEnv d1.ext span bits ext1)
    (hcheck : CheckSizeLimit dec.memory_limit_base (env.xsize ext1) (env.ysize ext1) = false) :
    ∃ d, JxlDecoderReadBasicInfo env.toHeaderEnv dec = some (JXL_DEC_ERROR, d) ∧
      d.got_basic_info = true ∧
      JxlDecoderGetBasicInfo d = JXL_DEC_SUCCESS ∧
      (∀ format, (PrepareSizeCheck d format).1 ≠ JXL_DEC_NEED_MORE_INPUT) ∧
      (∀ (denv : DimEnv E) format,
        (JxlDecoderImageOutBufferSize denv d format).1 ≠ JXL_DEC_NEED_MORE_INPUT) ∧
      (∀ fuel, JxlDecoderProcessCodestream env fuel d =
        if wants d.events_wanted JXL_DEC_BASIC_INFO then
          some (JXL_DEC_BASIC_INFO,
            { d with
              ext := env.ensureThreadPool d.ext
              events_wanted := clearEvent d.events_wanted JXL_DEC_BASIC_INFO })
        else if d.events_wanted = 0 then
          some (JXL_DEC_SUCCESS,
            { d with
              ext := env.ensureThreadPool d.ext
              stage := DecoderStage.kCodestreamFinished })
        else processAfterBasicInfo env fuel { d with ext := env.ensureThreadPool d.ext }) := by
  obtain ⟨d, hd, hg, _⟩ := JxlDecoderReadBasicInfo_rejects env.toHeaderEnv dec d0 d1 span bits
    ext1 hg0 hsig hget hread hcheck
  have hp : ∀ format, (PrepareSizeCheck d format).1 ≠ JXL_DEC_NEED_MORE_INPUT := by
    intro format
    unfold PrepareSizeCheck
    rw [hg]
    simp only [Bool.not_true, Bool.false_eq_true, if_false]
    split
    · simp
    · split
      · simp
      · split
        · simp
        · simp
  refine ⟨d, hd, hg, ?_, hp, ?_, ?_⟩
  · unfold JxlDecoderGetBasicInfo
    rw [hg]
    rfl
  · intro denv format
    unfold JxlDecoderImageOutBufferSize
    simp only
    split
    · exact hp format
    · split
      · simp
      · simp
  · intro fuel
    unfold JxlDecoderProcessCodestream
    simp only [hg, Bool.not_true, Bool.false_eq_true, if_false, ne_eq, not_true_eq_false]

end OversizedTheorems

/-- C7 with limit 1000 and a bare codestream that declares 100 by 100 pixels:
the size check fails and `JxlDecoderReadBasicInfo` returns `JXL_DEC_ERROR`. -/
theorem CheckSizeLimit_oversized_witness :
    CheckSizeLimit 1000 100 100 = false ∧
    ∃ d, JxlDecoderReadBasicInfo (demoHeaderEnv 100 100)
      { demoBare [0xff, 0x0a, 1, 2, 3] with memory_limit_base := 1000 }
        = some (JXL_DEC_ERROR, d) :=
  ⟨CheckSizeLimit_oversized.1 1000 100 100 (by decide) (by decide) (by decide),
    CheckSizeLimit_oversized.2.1 Unit (demoHeaderEnv 100 100)
      { demoBare [0xff, 0x0a, 1, 2, 3] with memory_limit_base := 1000 } _ _ _ _ () rfl rfl rfl
      ⟨_, _, _, _, rfl, rfl, rfl, rfl⟩ (by decide) (by decide) (by decide)⟩

/-- C38 fails as stated: in the fuzzing build (memory limit `53 << 16`) on an
image of 4000 by 4000 pixels, which `CheckSizeLimit` rejects, the first
`JxlDecoderProcessInput` returns `JXL_DEC_ERROR` and leaves `got_basic_info`
set, so that `JxlDecoderGetBasicInfo` returns `JXL_DEC_SUCCESS`; the second
call does not run the size check and returns `JXL_DEC_BASIC_INFO`, the third
goes on to the first frame. -/
theorem got_basic_info_set_on_size_error :
    demoLimited.memory_limit_base = 53 <<< 16 ∧
    CheckSizeLimit demoLimited.memory_limit_base 4000 4000 = false ∧
    JxlDecoderProcessInput (HandleBoxes demoLimitEnv 10) demoLimited
      = some (JXL_DEC_ERROR, demoAfterSizeError) ∧
    demoAfterSizeError.got_basic_info = true ∧
    JxlDecoderGetBasicInfo demoAfterSizeError = JXL_DEC_SUCCESS ∧
    JxlDecoderProcessInput (HandleBoxes demoLimitEnv 10) demoAfterSizeError
      = some (JXL_DEC_BASIC_INFO, demoAfterSizeErrorAgain) ∧
    (JxlDecoderProcessInput (HandleBoxes demoLimitEnv 10) demoAfterSizeErrorAgain).map Prod.fst
      = some JXL_DEC_NEED_IMAGE_OUT_BUFFER :=
  ⟨rfl, rfl, rfl, rfl, rfl, rfl, rfl⟩

/-- C38 amended, on the decoder of the fuzzing build at the start of a bare
codestream that declares 4000 by 4000 pixels. -/
theorem JxlDecoderReadBasicInfo_size_error_witness :
    demoLimitedBare.got_basic_info = false ∧
    CheckSizeLimit demoLimitedBare.memory_limit_base 4000 4000 = false ∧
    ∃ d, JxlDecoderReadBasicInfo demoLimitEnv.toHeaderEnv demoLimitedBare
        = some (JXL_DEC_ERROR, d) ∧
      d.got_basic_info = true ∧ JxlDecoderGetBasicInfo d = JXL_DEC_SUCCESS :=
  ⟨rfl, rfl,
    (JxlDecoderReadBasicInfo_size_error demoLimitEnv.toFrameEnv demoLimitedBare _ _ _ _ () rfl
      rfl rfl ⟨_, _, _, _, rfl, rfl, rfl, rfl⟩ rfl).imp
      fun _ h => ⟨h.1, h.2.1, h.2.2.1⟩⟩

section ClosedSinceTheorems
variable {E : Type}

theorem JxlDecoderSetInput_input_closed (dec : JxlDecoder E) (data : Option (List Nat))
    (size : Nat) : (JxlDecoderSetInput dec data size).2.input_closed = dec.input_closed := by
  unfold JxlDecoderSetInput
  by_cases h1 : dec.next_in.isSome = true
  · rw [if_pos h1]
  · rw [if_neg h1]
    by_cases h2 : dec.input_closed = true
    · rw [if_pos h2]
    · rw [if_neg h2]

/-- `input_closed` is set in every state after a `JxlDecoderCloseInput` and
before the next rewind or reset. -/
theorem input_closed_of_closedSince (env : BoxEnv E) (dec : JxlDecoder E)
    (h : ClosedSince env dec) : dec.input_closed = true := by
  induction h with
  | close dec => rfl
  | process _ hp ih => exact ((JxlDecoderProcessInput_steady env _ _ _ _ hp).1).trans ih
  | setInput data size _ ih => exact (JxlDecoderSetInput_input_closed _ data size).trans ih
  | releaseInput _ ih => exact ih
  | other _ he ih => exact he.trans ih

/-- C39, amended: after `JxlDecoderCloseInput` and until the next
`JxlDecoderRewind` or `JxlDecoderReset`, `input_closed` is set,
`JxlDecoderProcessInput` never returns `JXL_DEC_NEED_MORE_INPUT` and leaves
`input_closed` set; an incomplete signature and a `HandleBoxes` that asks for
more input both end in `JXL_DEC_ERROR`; and `JxlDecoderSetInput` returns
`JXL_DEC_ERROR` and leaves the state as it is. -/
theorem JxlDecoderProcessInput_closed (env : BoxEnv E) (dec : JxlDecoder E)
    (h : ClosedSince env dec) :
    dec.input_closed = true ∧
    (∀ fuel st d, JxlDecoderProcessInput (HandleBoxes env fuel) dec = some (st, d) →
      st ≠ JXL_DEC_NEED_MORE_INPUT ∧ d.input_closed = true) ∧
    (∀ fuel, dec.got_signature = false →
      JxlSignatureCheck dec.inputBytes dec.avail_in = some JXL_SIG_NOT_ENOUGH_BYTES →
      ∃ d, JxlDecoderProcessInput (HandleBoxes env fuel) dec = some (JXL_DEC_ERROR, d)) ∧
    (∀ fuel dec2 d,
      checkSignature (if dec.stage = DecoderStage.kInited then
        ({ dec with stage := DecoderStage.kStarted } : JxlDecoder E) else dec)
        = some (JXL_DEC_SUCCESS, dec2) →
      HandleBoxes env fuel dec2 = some (JXL_DEC_NEED_MORE_INPUT, d) →
      ∃ d1, JxlDecoderProcessInput (HandleBoxes env fuel) dec = some (JXL_DEC_ERROR, d1)) ∧
    (∀ data size, JxlDecoderSetInput dec data size = (JXL_DEC_ERROR, dec)) := by
  have hc := input_closed_of_closedSince env dec h
  exact ⟨hc,
    fun fuel => (JxlDecoderProcessInput_input_closed env fuel dec hc).2.1,
    fun fuel => (JxlDecoderProcessInput_input_closed env fuel dec hc).2.2.1,
    fun fuel => (JxlDecoderProcessInput_input_closed env fuel dec hc).2.2.2.1,
    (JxlDecoderProcessInput_input_closed env 0 dec hc).2.2.2.2⟩

end ClosedSinceTheorems

/-- C39 amended, on a new decoder with one byte of input, closed, and on that
decoder after a `JxlDecoderReleaseInput`. -/
theorem JxlDecoderProcessInput_closed_witness :
    ClosedSince demoBoxEnv demoClosedShort ∧
    demoClosedShort.input_closed = true ∧
    (∃ d, JxlDecoderProcessInput (HandleBoxes demoBoxEnv 10) demoClosedShort
      = some (JXL_DEC_ERROR, d)) ∧
    JxlDecoderSetInput (JxlDecoderReleaseInput demoClosedShort).2 (some [0x0a]) 1
      = (JXL_DEC_ERROR, (JxlDecoderReleaseInput demoClosedShort).2) :=
  ⟨ClosedSince.close _,
    (JxlDecoderProcessInput_closed demoBoxEnv demoClosedShort (ClosedSince.close _)).1,
    (JxlDecoderProcessInput_closed demoBoxEnv demoClosedShort
      (ClosedSince.close _)).2.2.1 10 rfl rfl,
    (JxlDecoderProcessInput_closed demoBoxEnv (JxlDecoderReleaseInput demoClosedShort).2
      (ClosedSince.releaseInput (ClosedSince.close _))).2.2.2.2 _ _⟩

/-- C39 fails as stated: `JxlDecoderRewind` after `JxlDecoderCloseInput` clears
`input_closed`; `JxlDecoderSetInput` then succeeds, and
`JxlDecoderProcessInput` on the single byte `ff` returns
`JXL_DEC_NEED_MORE_INPUT`. -/
theorem JxlDecoderCloseInput_undone_by_rewind :
    demoClosedShort = JxlDecoderCloseInput (demoStart 0x40 [0xff]) ∧
    (JxlDecoderRewind id demoClosedShort).input_closed = false ∧
    JxlDecoderSetInput (JxlDecoderRewind id demoClosedShort) (some [0xff]) 1
      = (JXL_DEC_SUCCESS, demoReopened) ∧
    (JxlDecoderProcessInput (HandleBoxes demoBoxEnv 10) demoReopened).map Prod.fst
      = some JXL_DEC_NEED_MORE_INPUT :=
  ⟨rfl, rfl, rfl, rfl⟩

end Jxl
